import Mathlib

/-! NimBLE host: ATT client entry cache, ATT client transactions, GATT server
registry.

A shallow embedding of `net/nimble/host/src/ble_att_clt.c` and
`net/nimble/host/src/ble_gatts.c`.  C integers are `Nat` / `Int`; pointers that
may be `NULL` are `Option`; global state and out-parameters are passed and
returned explicitly.
-/

/-! ## Error codes -/

/-- Modelled from the spec: OutOfMemory, the `ENOMEM` of `<errno.h>` (a system
header, not part of the sources). -/
def ENOMEM : Int := 12

/-- Modelled from the spec: AlreadyExists, the `EEXIST` of `<errno.h>` (a system
header, not part of the sources). -/
def EEXIST : Int := 17

/-- Modelled from the spec: InvalidArgument, the `EINVAL` of `<errno.h>` (a
system header, not part of the sources). -/
def EINVAL : Int := 22

/-! ## UUIDs and the resource pool -/

/-- A 128-bit UUID, the contents of a `uint8_t[16]`; `memcpy` and `memcmp` over
its sixteen bytes are assignment and equality of values of this type. -/
structure Uuid128 where
  bytes : List Nat
  size : bytes.length = 16
  deriving DecidableEq

/-- Modelled from the spec: the Resource Pool, "external fixed-capacity slab
allocator" (`struct os_mempool` of `os/os_mempool.h`, not part of the sources);
only the number of free blocks is kept. -/
structure os_mempool where
  mp_num_free : Nat
  deriving DecidableEq, Repr

/-- Modelled from the spec: `os_memblock_get`, which hands out one block of the
bounded pool, or `NULL` (`none`) when the pool is exhausted. -/
def os_memblock_get (mp : os_mempool) : Option os_mempool :=
  if mp.mp_num_free = 0 then none else some { mp_num_free := mp.mp_num_free - 1 }

/-- Modelled from the spec: `os_memblock_put`, which returns one block to the
pool. -/
def os_memblock_put (mp : os_mempool) : os_mempool :=
  { mp_num_free := mp.mp_num_free + 1 }

/-! ## ATT client entry cache (`ble_att_clt.c`) -/

/-- The `struct ble_att_clt_entry`: a handle and a 128-bit UUID (the list link
`bhac_next` is the position in the list). -/
structure ble_att_clt_entry where
  bhac_handle_id : Nat
  bhac_uuid : Uuid128
  deriving DecidableEq

/-- `ble_att_clt_entry_alloc`: a block of `ble_att_clt_entry_pool`, or `NULL`.
The result is the pool after the allocation. -/
def ble_att_clt_entry_alloc (pool : os_mempool) : Option os_mempool :=
  os_memblock_get pool

/-- `ble_att_clt_entry_free`: gives the block back to the pool. -/
def ble_att_clt_entry_free (pool : os_mempool) : os_mempool :=
  os_memblock_put pool

/-- `ble_att_clt_entry_list_free`: removes the head of the list and frees it
until the list is empty. -/
def ble_att_clt_entry_list_free :
    os_mempool → List ble_att_clt_entry → os_mempool × List ble_att_clt_entry
  | pool, [] => (pool, [])
  | pool, _ :: rest => ble_att_clt_entry_list_free (ble_att_clt_entry_free pool) rest

/-- The `SLIST_FOREACH` loop of `ble_att_clt_entry_insert`.  `none`: an entry
with the handle was met (`return EEXIST`).  `some k`: the loop ended (by `break`
or at the end of the list) after walking past `k` entries, so `prev` is the
`k`-th entry of the list and `prev == NULL` exactly when `k = 0`. -/
def ble_att_clt_entry_insert_scan (handle_id : Nat) : List ble_att_clt_entry → Option Nat
  | [] => some 0
  | cur :: rest =>
    if cur.bhac_handle_id = handle_id then none
    else if cur.bhac_handle_id > handle_id then some 0
    else (ble_att_clt_entry_insert_scan handle_id rest).map (fun k => k + 1)

/-- `ble_att_clt_entry_insert`: returns the status, the pool and the
connection's list `bhc_att_clt_list` afterwards.  The block is allocated
before the list is scanned, and the `EEXIST` return does not give it back. -/
def ble_att_clt_entry_insert (pool : os_mempool) (list : List ble_att_clt_entry)
    (handle_id : Nat) (uuid : Uuid128) : Int × os_mempool × List ble_att_clt_entry :=
  match ble_att_clt_entry_alloc pool with
  | none => (ENOMEM, pool, list)
  | some pool1 =>
    let entry : ble_att_clt_entry := { bhac_handle_id := handle_id, bhac_uuid := uuid }
    match ble_att_clt_entry_insert_scan handle_id list with
    | none => (EEXIST, pool1, list)
    | some 0 => (0, pool1, entry :: list)
    | some (k + 1) => (0, pool1, list.take (k + 1) ++ entry :: list.drop (k + 1))

/-- `ble_att_clt_find_entry_uuid128`: the handle of the first entry whose UUID
equals `uuid128`, or 0. -/
def ble_att_clt_find_entry_uuid128 (list : List ble_att_clt_entry) (uuid128 : Uuid128) : Nat :=
  match list with
  | [] => 0
  | entry :: rest =>
    if entry.bhac_uuid = uuid128 then entry.bhac_handle_id
    else ble_att_clt_find_entry_uuid128 rest uuid128

/-- `ble_att_clt_find_entry_uuid16`.  The parameter `ble_hs_uuid_from_16bit`
stands for the function of `ble_hs_uuid.c` (not part of the sources): `none`
is a nonzero status, `some u` is status 0 with `u` written to `uuid128`. -/
def ble_att_clt_find_entry_uuid16 (ble_hs_uuid_from_16bit : Nat → Option Uuid128)
    (list : List ble_att_clt_entry) (uuid16 : Nat) : Nat :=
  match ble_hs_uuid_from_16bit uuid16 with
  | none => 0
  | some uuid128 => ble_att_clt_find_entry_uuid128 list uuid128

/-- A driver that performs a sequence of `ble_att_clt_entry_insert` calls on
one connection, whatever each call returns. -/
def entry_insert_seq (pool : os_mempool) (list : List ble_att_clt_entry) :
    List (Nat × Uuid128) → os_mempool × List ble_att_clt_entry
  | [] => (pool, list)
  | (h, u) :: rest =>
    let r := ble_att_clt_entry_insert pool list h u
    entry_insert_seq r.2.1 r.2.2 rest

/-- The entry cache invariant: strictly ascending by handle. -/
def cache_sorted (list : List ble_att_clt_entry) : Prop :=
  list.Pairwise (fun a b => a.bhac_handle_id < b.bhac_handle_id)

instance (list : List ble_att_clt_entry) : Decidable (cache_sorted list) := by
  unfold cache_sorted; infer_instance

/-- A sample UUID whose last byte is `b`. -/
def uuid_of_byte (b : Nat) : Uuid128 :=
  ⟨[0, 0, 0, 0, 0, 0, 0, 0, 0, 0, 0, 0, 0, 0, 0, b], rfl⟩

/-! ## ATT client requests (`ble_att_clt.c`) -/

/-- Modelled from the spec: a packet buffer of the external buffer pool
(`struct os_mbuf`, not part of the sources); only its data length is kept. -/
structure os_mbuf where
  om_len : Nat
  deriving DecidableEq, Repr

/-- What a request operation does to the transmit buffer, in order. -/
inductive tx_event where
  /-- `os_mbuf_get_pkthdr` handed out a buffer. -/
  | acquired
  /-- `os_mbuf_extend` extended the buffer. -/
  | extended
  /-- an encoder of `ble_att_cmd.c` was called on the buffer. -/
  | written
  /-- `ble_hs_uuid_append` was called on the buffer. -/
  | appended
  /-- the buffer was handed to `ble_l2cap_tx`, which takes ownership of it
  whatever it returns. -/
  | transmitted
  /-- `os_mbuf_free_chain` was called on the buffer. -/
  | freed
  deriving DecidableEq, Repr

/-- The request structures of `ble_att_cmd.h`. -/
structure ble_att_mtu_cmd where
  bhamc_mtu : Nat
  deriving DecidableEq, Repr

structure ble_att_find_info_req where
  bhafq_start_handle : Nat
  bhafq_end_handle : Nat
  deriving DecidableEq, Repr

structure ble_att_read_req where
  bharq_handle : Nat
  deriving DecidableEq, Repr

structure ble_att_read_group_type_req where
  bhagq_start_handle : Nat
  bhagq_end_handle : Nat
  deriving DecidableEq, Repr

/-- The constants and functions that the request operations use and that are
not part of the sources: the sizes and the default MTU of `ble_att_cmd.h`, the
outcome of the buffer pool calls, the encoders of `ble_att_cmd.c`,
`ble_hs_uuid_append` and `ble_l2cap_tx`.  Each is a parameter. -/
structure ble_att_clt_tx_env where
  BLE_ATT_MTU_DFLT : Nat
  BLE_ATT_MTU_CMD_SZ : Nat
  BLE_ATT_FIND_INFO_REQ_SZ : Nat
  BLE_ATT_READ_REQ_SZ : Nat
  BLE_ATT_READ_GROUP_TYPE_REQ_BASE_SZ : Nat
  /-- whether `os_mbuf_get_pkthdr` returns a buffer (`false`: `NULL`). -/
  os_mbuf_get_pkthdr : Bool
  /-- whether `os_mbuf_extend` of that many bytes returns a pointer. -/
  os_mbuf_extend : Nat → Bool
  ble_att_mtu_req_write : Nat → ble_att_mtu_cmd → Int
  ble_att_find_info_req_write : Nat → ble_att_find_info_req → Int
  ble_att_read_req_write : Nat → ble_att_read_req → Int
  ble_att_read_group_type_req_write : Nat → ble_att_read_group_type_req → Int
  ble_hs_uuid_append : os_mbuf → Uuid128 → Int
  ble_l2cap_tx : os_mbuf → Int

/-- Modelled from the spec: `os_mbuf_free_chain`, "free a buffer chain"; on
`NULL` it does nothing. -/
def os_mbuf_free_chain (txom : Option os_mbuf) (log : List tx_event) : List tx_event :=
  match txom with
  | none => log
  | some _ => log ++ [tx_event.freed]

/-- `ble_att_clt_prep_req`: status, `*txom` and the event log afterwards. -/
def ble_att_clt_prep_req (env : ble_att_clt_tx_env) (initial_sz : Nat)
    (log : List tx_event) : Int × Option os_mbuf × List tx_event :=
  if env.os_mbuf_get_pkthdr then
    let txom : os_mbuf := { om_len := 0 }
    let log1 := log ++ [tx_event.acquired]
    if env.os_mbuf_extend initial_sz then
      (0, some { om_len := txom.om_len + initial_sz }, log1 ++ [tx_event.extended])
    else
      (ENOMEM, none, os_mbuf_free_chain (some txom) log1)
  else
    (ENOMEM, none, os_mbuf_free_chain none log)

/-- `ble_att_clt_tx_mtu`: status and event log.  After `ble_att_clt_prep_req`
the code goes to `err` when the status is nonzero and uses `txom` otherwise;
status 0 always comes with a buffer, so the first branch of the `match` is
the `goto err` with `txom == NULL`. -/
def ble_att_clt_tx_mtu (env : ble_att_clt_tx_env) (req : ble_att_mtu_cmd) :
    Int × List tx_event :=
  if req.bhamc_mtu < env.BLE_ATT_MTU_DFLT then
    (EINVAL, os_mbuf_free_chain none [])
  else
    match ble_att_clt_prep_req env env.BLE_ATT_MTU_CMD_SZ [] with
    | (rc, none, log) => (rc, os_mbuf_free_chain none log)
    | (rc, some txom, log) =>
      if rc ≠ 0 then (rc, os_mbuf_free_chain (some txom) log)
      else
        let rc1 := env.ble_att_mtu_req_write txom.om_len req
        let log1 := log ++ [tx_event.written]
        if rc1 ≠ 0 then (rc1, os_mbuf_free_chain (some txom) log1)
        else
          let rc2 := env.ble_l2cap_tx txom
          let log2 := log1 ++ [tx_event.transmitted]
          if rc2 ≠ 0 then (rc2, os_mbuf_free_chain none log2)
          else (0, log2)

/-- `ble_att_clt_tx_find_info`: status and event log. -/
def ble_att_clt_tx_find_info (env : ble_att_clt_tx_env) (req : ble_att_find_info_req) :
    Int × List tx_event :=
  if req.bhafq_start_handle = 0 ∨ req.bhafq_start_handle > req.bhafq_end_handle then
    (EINVAL, os_mbuf_free_chain none [])
  else
    match ble_att_clt_prep_req env env.BLE_ATT_FIND_INFO_REQ_SZ [] with
    | (rc, none, log) => (rc, os_mbuf_free_chain none log)
    | (rc, some txom, log) =>
      if rc ≠ 0 then (rc, os_mbuf_free_chain (some txom) log)
      else
        let rc1 := env.ble_att_find_info_req_write txom.om_len req
        let log1 := log ++ [tx_event.written]
        if rc1 ≠ 0 then (rc1, os_mbuf_free_chain (some txom) log1)
        else
          let rc2 := env.ble_l2cap_tx txom
          let log2 := log1 ++ [tx_event.transmitted]
          if rc2 ≠ 0 then (rc2, os_mbuf_free_chain none log2)
          else (0, log2)

/-- `ble_att_clt_tx_read`: status and event log. -/
def ble_att_clt_tx_read (env : ble_att_clt_tx_env) (req : ble_att_read_req) :
    Int × List tx_event :=
  if req.bharq_handle = 0 then
    (EINVAL, os_mbuf_free_chain none [])
  else
    match ble_att_clt_prep_req env env.BLE_ATT_READ_REQ_SZ [] with
    | (rc, none, log) => (rc, os_mbuf_free_chain none log)
    | (rc, some txom, log) =>
      if rc ≠ 0 then (rc, os_mbuf_free_chain (some txom) log)
      else
        let rc1 := env.ble_att_read_req_write txom.om_len req
        let log1 := log ++ [tx_event.written]
        if rc1 ≠ 0 then (rc1, os_mbuf_free_chain (some txom) log1)
        else
          let rc2 := env.ble_l2cap_tx txom
          let log2 := log1 ++ [tx_event.transmitted]
          if rc2 ≠ 0 then (rc2, os_mbuf_free_chain none log2)
          else (0, log2)

/-- `ble_att_clt_tx_read_group_type`: status and event log. -/
def ble_att_clt_tx_read_group_type (env : ble_att_clt_tx_env)
    (req : ble_att_read_group_type_req) (uuid128 : Uuid128) : Int × List tx_event :=
  if req.bhagq_start_handle = 0 ∨ req.bhagq_start_handle > req.bhagq_end_handle then
    (EINVAL, os_mbuf_free_chain none [])
  else
    match ble_att_clt_prep_req env env.BLE_ATT_READ_GROUP_TYPE_REQ_BASE_SZ [] with
    | (rc, none, log) => (rc, os_mbuf_free_chain none log)
    | (rc, some txom, log) =>
      if rc ≠ 0 then (rc, os_mbuf_free_chain (some txom) log)
      else
        let rc1 := env.ble_att_read_group_type_req_write txom.om_len req
        let log1 := log ++ [tx_event.written]
        if rc1 ≠ 0 then (rc1, os_mbuf_free_chain (some txom) log1)
        else
          let rc2 := env.ble_hs_uuid_append txom uuid128
          let log2 := log1 ++ [tx_event.appended]
          if rc2 ≠ 0 then (rc2, os_mbuf_free_chain (some txom) log2)
          else
            let rc3 := env.ble_l2cap_tx txom
            let log3 := log2 ++ [tx_event.transmitted]
            if rc3 ≠ 0 then (rc3, os_mbuf_free_chain none log3)
            else (0, log3)

/-- A sample environment for the request operations: the sizes of the
Bluetooth ATT PDUs, a buffer pool that has a buffer, encoders that accept a
buffer of at least the size of the PDU, and a transport that accepts the
buffer. -/
def sample_tx_env : ble_att_clt_tx_env where
  BLE_ATT_MTU_DFLT := 23
  BLE_ATT_MTU_CMD_SZ := 3
  BLE_ATT_FIND_INFO_REQ_SZ := 5
  BLE_ATT_READ_REQ_SZ := 3
  BLE_ATT_READ_GROUP_TYPE_REQ_BASE_SZ := 5
  os_mbuf_get_pkthdr := true
  os_mbuf_extend := fun _ => true
  ble_att_mtu_req_write := fun len _ => if len < 3 then 4 else 0
  ble_att_find_info_req_write := fun len _ => if len < 5 then 4 else 0
  ble_att_read_req_write := fun len _ => if len < 3 then 4 else 0
  ble_att_read_group_type_req_write := fun len _ => if len < 5 then 4 else 0
  ble_hs_uuid_append := fun _ _ => 0
  ble_l2cap_tx := fun _ => 0

/-- A buffer that was acquired is disposed of exactly once: the log holds at
most one acquisition, and as many hand-overs to the transport plus frees as
acquisitions. -/
def disposed_exactly_once (log : List tx_event) : Prop :=
  log.count tx_event.acquired ≤ 1 ∧
  log.count tx_event.transmitted + log.count tx_event.freed = log.count tx_event.acquired

instance (log : List tx_event) : Decidable (disposed_exactly_once log) := by
  unfold disposed_exactly_once; infer_instance

/-- The status agrees with what happened to the buffer: status 0 is returned
only after the hand-over to the transport, and a buffer is freed only on a
path that returns an error. -/
def status_agrees_with_log (r : Int × List tx_event) : Prop :=
  (r.1 = 0 → tx_event.transmitted ∈ r.2) ∧ (tx_event.freed ∈ r.2 → r.1 ≠ 0)

/-! ## ATT client responses (`ble_att_clt.c`) -/

/-- Modelled from the spec: `le16toh`, the little-endian 16-bit value of two
bytes ("ATT PDU fields are little-endian"). -/
def le16toh (b : List Nat) : Nat :=
  b.getD 0 0 % 256 + 256 * (b.getD 1 0 % 256)

/-- Modelled from the spec: `os_mbuf_copydata(om, off, len, dst)` of the external
buffer pool; the packet is one contiguous run of bytes.  `some` is status 0
with the `len` bytes at offset `off`; `none` is a nonzero status, returned
when the packet has fewer than `off + len` bytes. -/
def os_mbuf_copydata (om : List Nat) (off len : Nat) : Option (List Nat) :=
  if off + len ≤ om.length then some ((om.drop off).take len) else none

/-- Modelled from the spec: `os_mbuf_adj(om, req_len)` with `req_len >= 0`, which
removes `req_len` bytes from the head of the packet (all of them when the
packet is shorter). -/
def os_mbuf_adj (om : List Nat) (req_len : Nat) : List Nat :=
  om.drop req_len

/-- The sixteen bytes that a successful 16-byte copy left in `uuid128`. -/
def uuid_of_bytes (b : List Nat) : Uuid128 :=
  ⟨(b ++ List.replicate 16 0).take 16, by simp⟩

/-- The constants and functions that the Find-Information response handler
uses and that are not part of the sources.  Each is a parameter. -/
structure ble_att_clt_rx_env where
  BLE_ATT_FIND_INFO_RSP_MIN_SZ : Nat
  BLE_ATT_FIND_INFO_RSP_FORMAT_16BIT : Nat
  BLE_ATT_FIND_INFO_RSP_FORMAT_128BIT : Nat
  /-- `ble_att_find_info_rsp_parse` on the packet bytes: status and
  `bhafp_format`. -/
  ble_att_find_info_rsp_parse : List Nat → Int × Nat
  /-- `ble_hs_uuid_from_16bit`: `none` is a nonzero status. -/
  ble_hs_uuid_from_16bit : Nat → Option Uuid128
  /-- what a failed `os_mbuf_copydata` of the handle leaves in `handle_id`,
  from the value it had and the bytes that were left in the packet. -/
  handle_id_after_short_copy : Nat → List Nat → Nat

/-- The outcome of `ble_att_clt_rx_find_info`: status, entry pool and cache
afterwards, and the calls `ble_gatt_rx_find_info(conn, status, last_handle)`
made. -/
structure rx_find_info_result where
  rc : Int
  pool : os_mempool
  list : List ble_att_clt_entry
  gatt_calls : List (Int × Nat)
  deriving DecidableEq

/-- The label `done` of `ble_att_clt_rx_find_info`. -/
def rx_find_info_done (rc : Int) (handle_id : Nat) (pool : os_mempool)
    (list : List ble_att_clt_entry) : rx_find_info_result :=
  { rc := rc, pool := pool, list := list, gatt_calls := [(-rc, handle_id)] }

/-- The `while (off < OS_MBUF_PKTHDR(om)->omp_len)` loop of
`ble_att_clt_rx_find_info`, with the statements after it.  The first argument
bounds the number of iterations; `none` means the bound was reached. -/
def ble_att_clt_rx_find_info_loop (env : ble_att_clt_rx_env) (om : List Nat) (format : Nat) :
    Nat → Nat → Nat → os_mempool → List ble_att_clt_entry → Option rx_find_info_result
  | 0, _, _, _, _ => none
  | fuel + 1, off, handle_id, pool, list =>
    if off < om.length then
      match os_mbuf_copydata om off 2 with
      | none =>
        some (rx_find_info_done EINVAL
          (env.handle_id_after_short_copy handle_id (om.drop off)) pool list)
      | some hb =>
        let off1 := off + 2
        let handle_id1 := le16toh hb
        if format = env.BLE_ATT_FIND_INFO_RSP_FORMAT_16BIT then
          match os_mbuf_copydata om off1 2 with
          | none => some (rx_find_info_done EINVAL handle_id1 pool list)
          | some ub =>
            let off2 := off1 + 2
            let uuid16 := le16toh ub
            match env.ble_hs_uuid_from_16bit uuid16 with
            | none => some (rx_find_info_done EINVAL handle_id1 pool list)
            | some uuid128 =>
              match ble_att_clt_entry_insert pool list handle_id1 uuid128 with
              | (rc, pool1, list1) =>
                if rc ≠ 0 then
                  some { rc := rc, pool := pool1, list := list1, gatt_calls := [] }
                else
                  ble_att_clt_rx_find_info_loop env om format fuel off2 handle_id1 pool1 list1
        else if format = env.BLE_ATT_FIND_INFO_RSP_FORMAT_128BIT then
          match os_mbuf_copydata om off1 16 with
          | none => some (rx_find_info_done EINVAL handle_id1 pool list)
          | some ub =>
            let off2 := off1 + 16
            let uuid128 := uuid_of_bytes ub
            match ble_att_clt_entry_insert pool list handle_id1 uuid128 with
            | (rc, pool1, list1) =>
              if rc ≠ 0 then
                some { rc := rc, pool := pool1, list := list1, gatt_calls := [] }
              else
                ble_att_clt_rx_find_info_loop env om format fuel off2 handle_id1 pool1 list1
        else
          some (rx_find_info_done EINVAL handle_id1 pool list)
    else
      some (rx_find_info_done 0 handle_id pool list)

/-- `ble_att_clt_rx_find_info` on the packet `om`.  Every iteration of the loop
that does not leave it moves `off` forward, so `om.length + 1` iterations
are enough; `none` would mean that they were not. -/
def ble_att_clt_rx_find_info (env : ble_att_clt_rx_env) (pool : os_mempool)
    (list : List ble_att_clt_entry) (om : List Nat) : Option rx_find_info_result :=
  match env.ble_att_find_info_rsp_parse om with
  | (rc, format) =>
    if rc ≠ 0 then
      some { rc := rc, pool := pool, list := list, gatt_calls := [] }
    else
      ble_att_clt_rx_find_info_loop env om format (om.length + 1)
        env.BLE_ATT_FIND_INFO_RSP_MIN_SZ 0 pool list

/-- The `struct ble_att_clt_adata` without its `value` pointer. -/
structure ble_att_clt_adata where
  att_handle : Nat
  end_group_handle : Nat
  deriving DecidableEq, Repr

/-- `ble_att_clt_parse_attribute_data`: reads the two handles at offsets 0 and 2
of the packet data and returns 0 (a byte past the end of the data reads as 0
here). -/
def ble_att_clt_parse_attribute_data (om : List Nat) (_data_len : Nat) :
    Int × ble_att_clt_adata :=
  (0, { att_handle := le16toh (om.drop 0), end_group_handle := le16toh (om.drop 2) })

/-- The `while (OS_MBUF_PKTHDR(om)->omp_len > 0)` loop of
`ble_att_clt_rx_read_group_type_rsp` with the `return 0` after it.  The first
argument bounds the number of iterations; `none` means the bound was
reached. -/
def ble_att_clt_rx_read_group_type_rsp_loop (bhagp_length : Nat) :
    Nat → List Nat → Option Int
  | 0, _ => none
  | fuel + 1, om =>
    if om.length > 0 then
      if (ble_att_clt_parse_attribute_data om bhagp_length).1 ≠ 0 then
        some 0
      else
        ble_att_clt_rx_read_group_type_rsp_loop bhagp_length fuel (os_mbuf_adj om bhagp_length)
    else
      some 0

/-- `ble_att_clt_rx_read_group_type_rsp` run for at most `fuel` iterations of
its loop.  The parameter `ble_att_read_group_type_rsp_parse` stands for the
decoder of `ble_att_cmd.c` (not part of the sources): status and
`bhagp_length`. -/
def ble_att_clt_rx_read_group_type_rsp
    (ble_att_read_group_type_rsp_parse : List Nat → Int × Nat)
    (fuel : Nat) (om : List Nat) : Option Int :=
  match ble_att_read_group_type_rsp_parse om with
  | (rc, bhagp_length) =>
    if rc ≠ 0 then some rc
    else ble_att_clt_rx_read_group_type_rsp_loop bhagp_length fuel om

/-- Modelled from the spec: a `ble_hs_uuid_from_16bit` for the examples, "lossless
16-bit to 128-bit conversion ... within the reserved Bluetooth base-UUID
range": the base UUID with the 16-bit value in bytes 12 and 13; the value 0 is
refused. -/
def sample_uuid_from_16bit (uuid16 : Nat) : Option Uuid128 :=
  if uuid16 = 0 then none
  else some ⟨[0xfb, 0x34, 0x9b, 0x5f, 0x80, 0x00, 0x00, 0x80, 0x00, 0x10, 0x00, 0x00,
    uuid16 % 256, uuid16 / 256 % 256, 0x00, 0x00], rfl⟩

/-- Modelled from the spec: a Find-Information response decoder for the
examples, "decoders validate the input length against each PDU's minimum size
before reading any field": two bytes, an opcode and the format. -/
def sample_find_info_rsp_parse (om : List Nat) : Int × Nat :=
  if om.length < 2 then (4, 0)
  else if om.getD 0 0 ≠ 0x05 then (EINVAL, 0)
  else (0, om.getD 1 0)

/-- A sample environment for the Find-Information response handler; a failed
copy of the handle leaves `handle_id` as it was. -/
def sample_rx_env : ble_att_clt_rx_env where
  BLE_ATT_FIND_INFO_RSP_MIN_SZ := 2
  BLE_ATT_FIND_INFO_RSP_FORMAT_16BIT := 1
  BLE_ATT_FIND_INFO_RSP_FORMAT_128BIT := 2
  ble_att_find_info_rsp_parse := sample_find_info_rsp_parse
  ble_hs_uuid_from_16bit := sample_uuid_from_16bit
  handle_id_after_short_copy := fun handle_id _ => handle_id

/-- Modelled from the spec: a Read-By-Group-Type response decoder for the
examples: two bytes, an opcode and the length of one attribute-data record. -/
def sample_read_group_type_rsp_parse (om : List Nat) : Int × Nat :=
  if om.length < 2 then (4, 0)
  else if om.getD 0 0 ≠ 0x11 then (EINVAL, 0)
  else (0, om.getD 1 0)

/-- The UUID that the handler decodes from the UUID bytes `ub` of one element
of a Find-Information response with the given format: two bytes expanded by
`ble_hs_uuid_from_16bit`, or sixteen bytes taken as they are. -/
def find_info_elem_uuid (env : ble_att_clt_rx_env) (format : Nat) (ub : List Nat) :
    Option Uuid128 :=
  if format = env.BLE_ATT_FIND_INFO_RSP_FORMAT_16BIT then
    if ub.length = 2 then env.ble_hs_uuid_from_16bit (le16toh ub) else none
  else if format = env.BLE_ATT_FIND_INFO_RSP_FORMAT_128BIT then
    if ub.length = 16 then some (uuid_of_bytes ub) else none
  else none

/-- The width in bytes of the UUID of one element, for the two known formats. -/
def find_info_uuid_width (env : ble_att_clt_rx_env) (format : Nat) : Option Nat :=
  if format = env.BLE_ATT_FIND_INFO_RSP_FORMAT_16BIT then some 2
  else if format = env.BLE_ATT_FIND_INFO_RSP_FORMAT_128BIT then some 16
  else none

/-- The bytes of a list of elements of a Find-Information response, one after
the other.  An element is given as its two handle bytes, its UUID bytes and the
UUID they stand for. -/
def find_info_elems_bytes : List (List Nat × List Nat × Uuid128) → List Nat
  | [] => []
  | (hb, ub, _) :: rest => hb ++ ub ++ find_info_elems_bytes rest

/-- The (handle, UUID) pairs that a list of elements stands for. -/
def find_info_elems_pairs (elems : List (List Nat × List Nat × Uuid128)) :
    List (Nat × Uuid128) :=
  elems.map (fun e => (le16toh e.1, e.2.2))

/-- The handle of the last element of a list of elements, or `handle_id` when
the list is empty. -/
def find_info_last_handle : Nat → List (List Nat × List Nat × Uuid128) → Nat
  | handle_id, [] => handle_id
  | _, e :: rest => find_info_last_handle (le16toh e.1) rest

/-! ## GATT server registry (`ble_gatts.c`) -/

/-- Modelled from the spec: the status of the soft "unsatisfied include, retry
next round" condition, `BLE_HS_EAGAIN` of `ble_hs.h` (not part of the
sources). -/
def BLE_HS_EAGAIN : Int := 1

/-- Modelled from the spec: InvalidArgument, `BLE_HS_EINVAL` of `ble_hs.h` (not
part of the sources). -/
def BLE_HS_EINVAL : Int := 3

/-- Modelled from the spec: OutOfMemory, `BLE_HS_ENOMEM` of `ble_hs.h` (not part
of the sources). -/
def BLE_HS_ENOMEM : Int := 6

/-- The capacity of `ble_gatts_svc_entries`. -/
def BLE_GATTS_MAX_SERVICES : Nat := 32

/-- The values of the `type` field of a service definition: the three constants
of `host/ble_gatt.h` and any other byte. -/
inductive ble_gatt_svc_type where
  | END
  | PRIMARY
  | SECONDARY
  | other (v : Nat)
  deriving DecidableEq, Repr

/-- The `struct ble_gatt_dsc_def`.  A pointer field is `none` when it is `NULL`;
an access callback is named by a number. -/
structure ble_gatt_dsc_def where
  uuid128 : Option Uuid128
  att_flags : Nat
  access_cb : Option Nat
  deriving DecidableEq

/-- The `struct ble_gatt_chr_def`.  `descriptors` is `NULL` or an array that ends
at the first element whose `uuid128` is `NULL`; the list holds the elements
before the terminator that closes the array. -/
structure ble_gatt_chr_def where
  uuid128 : Option Uuid128
  access_cb : Option Nat
  flags : Nat
  descriptors : Option (List ble_gatt_dsc_def)
  deriving DecidableEq

/-- The `struct ble_gatt_svc_def`.  `includes` is `NULL` or a `NULL`-terminated
array of pointers to service definitions; a pointer is a number, and the
pointer `svcs + i` to the `i`-th element of the array given to
`ble_gatts_register_services` is the number `i`.  `characteristics` is `NULL`
or an array that ends at the first element whose `uuid128` is `NULL`. -/
structure ble_gatt_svc_def where
  type : ble_gatt_svc_type
  uuid128 : Option Uuid128
  includes : Option (List Nat)
  characteristics : Option (List ble_gatt_chr_def)
  deriving DecidableEq

/-- The access behaviour and context that an attribute is registered with. -/
inductive ble_att_svr_access where
  /-- `ble_gatts_svc_access` with the service definition `svcs + svc`. -/
  | svc (svc : Nat)
  /-- `ble_gatts_inc_access` with the registry entry `ble_gatts_svc_entries + idx`. -/
  | inc (idx : Nat)
  /-- `ble_gatts_chr_def_access` with the characteristic. -/
  | chr_def (chr : ble_gatt_chr_def)
  /-- `ble_gatts_chr_val_access` with the characteristic. -/
  | chr_val (chr : ble_gatt_chr_def)
  /-- `ble_gatts_dsc_access` with the descriptor. -/
  | dsc (dsc : ble_gatt_dsc_def)
  deriving DecidableEq

/-- Modelled from the spec: an entry of the external attribute table, "handle,
..., bound access behavior, opaque context". -/
structure ble_att_svr_entry where
  ha_handle_id : Nat
  ha_cb : ble_att_svr_access
  deriving DecidableEq

/-- Modelled from the spec: the external attribute table (`ble_att_svr.c`, not
part of the sources): the handle allocated last (`ble_att_svr_prev_handle`),
the number of attributes it can still take, and the attributes registered so
far, in order. -/
structure ble_att_svr where
  prev_handle : Nat
  num_free : Nat
  attrs : List ble_att_svr_entry
  deriving DecidableEq

/-- Modelled from the spec: `ble_att_svr_register` and
`ble_att_svr_register_uuid16`, "register(uuid, permission_flags) -> handle",
handles "assigned monotonically increasing as attributes register": status,
`*handle_id` and the table afterwards.  It fails with `BLE_HS_ENOMEM` when the
table is full.  The handle is a natural number: the 16 bits of a handle are
enough as long as the handle allocated last is below 65535. -/
def ble_att_svr_register (svr : ble_att_svr) (cb : ble_att_svr_access) :
    Int × Nat × ble_att_svr :=
  if svr.num_free = 0 then (BLE_HS_ENOMEM, 0, svr)
  else
    (0, svr.prev_handle + 1,
      { prev_handle := svr.prev_handle + 1,
        num_free := svr.num_free - 1,
        attrs := svr.attrs ++ [{ ha_handle_id := svr.prev_handle + 1, ha_cb := cb }] })

/-- Modelled from the spec: `ble_att_svr_prev_handle`,
"previous_allocated_handle() -> handle". -/
def ble_att_svr_prev_handle (svr : ble_att_svr) : Nat :=
  svr.prev_handle

/-- The `struct ble_gatts_svc_entry`; `svc` is the pointer to the definition. -/
structure ble_gatts_svc_entry where
  svc : Nat
  handle : Nat
  end_group_handle : Nat
  deriving DecidableEq, Repr

/-- A call of the registration callback `register_cb`. -/
inductive ble_gatt_register_event where
  /-- `BLE_GATT_REGISTER_OP_SVC` with `svc_reg.handle` and `svc_reg.svc`. -/
  | svc (handle : Nat) (svc : Nat)
  /-- `BLE_GATT_REGISTER_OP_CHR` with `def_handle`, `val_handle` and `chr`. -/
  | chr (def_handle val_handle : Nat) (chr : ble_gatt_chr_def)
  /-- `BLE_GATT_REGISTER_OP_DSC` with `dsc_handle`, `dsc`, `chr_def_handle`, `chr`. -/
  | dsc (dsc_handle : Nat) (dsc : ble_gatt_dsc_def) (chr_def_handle : Nat)
      (chr : ble_gatt_chr_def)
  deriving DecidableEq

/-- The state that registration works on: the attribute table, the first
`ble_gatts_num_svc_entries` elements of `ble_gatts_svc_entries`, and the calls of
the registration callback made so far. -/
structure ble_gatts_state where
  svr : ble_att_svr
  ble_gatts_svc_entries : List ble_gatts_svc_entry
  cb_log : List ble_gatt_register_event
  deriving DecidableEq

/-- The loop of `ble_gatts_find_svc` from index `i` on. -/
def ble_gatts_find_svc_from (svc : Nat) : List ble_gatts_svc_entry → Nat → Option Nat
  | [], _ => none
  | e :: rest, i => if e.svc = svc then some i else ble_gatts_find_svc_from svc rest (i + 1)

/-- `ble_gatts_find_svc`: the index of the first entry for the definition `svc`;
`none` is -1. -/
def ble_gatts_find_svc (entries : List ble_gatts_svc_entry) (svc : Nat) : Option Nat :=
  ble_gatts_find_svc_from svc entries 0

/-- The loop of `ble_gatts_svc_incs_satisfied` over the `includes` array. -/
def ble_gatts_svc_incs_satisfied_loop (entries : List ble_gatts_svc_entry) :
    List Nat → Bool
  | [] => true
  | inc :: rest =>
    match ble_gatts_find_svc entries inc with
    | none => false
    | some idx =>
      match entries[idx]? with
      | none => false
      | some e =>
        if e.handle = 0 then false
        else ble_gatts_svc_incs_satisfied_loop entries rest

/-- `ble_gatts_svc_incs_satisfied`. -/
def ble_gatts_svc_incs_satisfied (entries : List ble_gatts_svc_entry)
    (svc : ble_gatt_svc_def) : Bool :=
  match svc.includes with
  | none => true
  | some incs => ble_gatts_svc_incs_satisfied_loop entries incs

/-- `ble_gatts_register_inc` for the entry at index `idx`. -/
def ble_gatts_register_inc (idx : Nat) (st : ble_gatts_state) : Int × ble_gatts_state :=
  match ble_att_svr_register st.svr (ble_att_svr_access.inc idx) with
  | (rc, _, svr1) =>
    if rc ≠ 0 then (rc, { st with svr := svr1 })
    else (0, { st with svr := svr1 })

/-- `ble_gatts_dsc_is_sane`. -/
def ble_gatts_dsc_is_sane (dsc : ble_gatt_dsc_def) : Bool :=
  if dsc.uuid128 = none then false
  else if dsc.access_cb = none then false
  else true

/-- `ble_gatts_register_dsc`; `register_cb` tells whether a callback was given. -/
def ble_gatts_register_dsc (dsc : ble_gatt_dsc_def) (chr : ble_gatt_chr_def)
    (chr_def_handle : Nat) (register_cb : Bool) (st : ble_gatts_state) :
    Int × ble_gatts_state :=
  if !ble_gatts_dsc_is_sane dsc then (BLE_HS_EINVAL, st)
  else
    match ble_att_svr_register st.svr (ble_att_svr_access.dsc dsc) with
    | (rc, dsc_handle, svr1) =>
      if rc ≠ 0 then (rc, { st with svr := svr1 })
      else if register_cb then
        (0, { st with svr := svr1,
                      cb_log := st.cb_log ++
                        [ble_gatt_register_event.dsc dsc_handle dsc chr_def_handle chr] })
      else (0, { st with svr := svr1 })

/-- The descriptor loop of `ble_gatts_register_chr`: it ends at the first
descriptor whose `uuid128` is `NULL`. -/
def ble_gatts_register_dscs_loop (chr : ble_gatt_chr_def) (def_handle : Nat)
    (register_cb : Bool) : List ble_gatt_dsc_def → ble_gatts_state → Int × ble_gatts_state
  | [], st => (0, st)
  | dsc :: rest, st =>
    if dsc.uuid128 = none then (0, st)
    else
      match ble_gatts_register_dsc dsc chr def_handle register_cb st with
      | (rc, st1) =>
        if rc ≠ 0 then (rc, st1)
        else ble_gatts_register_dscs_loop chr def_handle register_cb rest st1

/-- The part "register each descriptor" of `ble_gatts_register_chr`: the loop,
when `chr->descriptors` is not `NULL`. -/
def ble_gatts_register_dscs (chr : ble_gatt_chr_def) (def_handle : Nat) (register_cb : Bool)
    (st : ble_gatts_state) : Int × ble_gatts_state :=
  match chr.descriptors with
  | none => (0, st)
  | some dscs => ble_gatts_register_dscs_loop chr def_handle register_cb dscs st

/-- `ble_gatts_chr_is_sane`. -/
def ble_gatts_chr_is_sane (chr : ble_gatt_chr_def) : Bool :=
  if chr.uuid128 = none then false
  else if chr.access_cb = none then false
  else true

/-- `ble_gatts_register_chr`. -/
def ble_gatts_register_chr (chr : ble_gatt_chr_def) (register_cb : Bool)
    (st : ble_gatts_state) : Int × ble_gatts_state :=
  if !ble_gatts_chr_is_sane chr then (BLE_HS_EINVAL, st)
  else
    match ble_att_svr_register st.svr (ble_att_svr_access.chr_def chr) with
    | (rc, def_handle, svr1) =>
      if rc ≠ 0 then (rc, { st with svr := svr1 })
      else
        match ble_att_svr_register svr1 (ble_att_svr_access.chr_val chr) with
        | (rc2, val_handle, svr2) =>
          if rc2 ≠ 0 then (rc2, { st with svr := svr2 })
          else
            let st2 : ble_gatts_state :=
              if register_cb then
                { st with svr := svr2,
                          cb_log := st.cb_log ++
                            [ble_gatt_register_event.chr def_handle val_handle chr] }
              else { st with svr := svr2 }
            match ble_gatts_register_dscs chr def_handle register_cb st2 with
            | (rc3, st3) =>
              if rc3 ≠ 0 then (rc3, st3)
              else (0, st3)

/-- The characteristic loop of `ble_gatts_register_svc`: it ends at the first
characteristic whose `uuid128` is `NULL`. -/
def ble_gatts_register_chrs_loop (register_cb : Bool) :
    List ble_gatt_chr_def → ble_gatts_state → Int × ble_gatts_state
  | [], st => (0, st)
  | chr :: rest, st =>
    if chr.uuid128 = none then (0, st)
    else
      match ble_gatts_register_chr chr register_cb st with
      | (rc, st1) =>
        if rc ≠ 0 then (rc, st1)
        else ble_gatts_register_chrs_loop register_cb rest st1

/-- The part "register each characteristic" of `ble_gatts_register_svc`: the
loop, when `svc->characteristics` is not `NULL`. -/
def ble_gatts_register_chrs (sdef : ble_gatt_svc_def) (register_cb : Bool)
    (st : ble_gatts_state) : Int × ble_gatts_state :=
  match sdef.characteristics with
  | none => (0, st)
  | some chrs => ble_gatts_register_chrs_loop register_cb chrs st

/-- The include loop of `ble_gatts_register_svc`.  The `assert(idx != -1)` holds
after `ble_gatts_svc_incs_satisfied`, so the `none` branch is not reached. -/
def ble_gatts_register_incs_loop : List Nat → ble_gatts_state → Int × ble_gatts_state
  | [], st => (0, st)
  | inc :: rest, st =>
    match ble_gatts_find_svc st.ble_gatts_svc_entries inc with
    | none => (BLE_HS_EINVAL, st)
    | some idx =>
      match ble_gatts_register_inc idx st with
      | (rc, st1) =>
        if rc ≠ 0 then (rc, st1)
        else ble_gatts_register_incs_loop rest st1

/-- The part "register each include" of `ble_gatts_register_svc`: the loop, when
`svc->includes` is not `NULL`. -/
def ble_gatts_register_incs (sdef : ble_gatt_svc_def) (st : ble_gatts_state) :
    Int × ble_gatts_state :=
  match sdef.includes with
  | none => (0, st)
  | some incs => ble_gatts_register_incs_loop incs st

/-- `ble_gatts_svc_is_sane`. -/
def ble_gatts_svc_is_sane (svc : ble_gatt_svc_def) : Bool :=
  if svc.type ≠ ble_gatt_svc_type.PRIMARY ∧ svc.type ≠ ble_gatt_svc_type.SECONDARY then false
  else if svc.uuid128 = none then false
  else true

/-- `ble_gatts_register_svc` for the definition `sdef` at the pointer `svc`:
status, `*out_handle` and the state afterwards. -/
def ble_gatts_register_svc (svc : Nat) (sdef : ble_gatt_svc_def) (register_cb : Bool)
    (st : ble_gatts_state) : Int × Nat × ble_gatts_state :=
  if !ble_gatts_svc_incs_satisfied st.ble_gatts_svc_entries sdef then (BLE_HS_EAGAIN, 0, st)
  else if !ble_gatts_svc_is_sane sdef then (BLE_HS_EINVAL, 0, st)
  else
    match ble_att_svr_register st.svr (ble_att_svr_access.svc svc) with
    | (rc, out_handle, svr1) =>
      if rc ≠ 0 then (rc, out_handle, { st with svr := svr1 })
      else
        let st1 : ble_gatts_state :=
          if register_cb then
            { st with svr := svr1,
                      cb_log := st.cb_log ++ [ble_gatt_register_event.svc out_handle svc] }
          else { st with svr := svr1 }
        match ble_gatts_register_incs sdef st1 with
        | (rc2, st2) =>
          if rc2 ≠ 0 then (rc2, out_handle, st2)
          else
            match ble_gatts_register_chrs sdef register_cb st2 with
            | (rc3, st3) =>
              if rc3 ≠ 0 then (rc3, out_handle, st3)
              else (0, out_handle, st3)

/-- The `for` loop of `ble_gatts_register_round` with the statements after it:
`n` entries are left, `i` is the index, `num_registered` is
`*out_num_registered`.  The result is the status, `*out_num_registered` and the
state.  The two `none` branches are not reached: `i` is an index of the
entries, and the entry points into the array `svcs`. -/
def ble_gatts_register_round_loop (svcs : List ble_gatt_svc_def) (cb : Bool) :
    Nat → Nat → Nat → ble_gatts_state → Int × Nat × ble_gatts_state
  | 0, _, num_registered, st =>
    if num_registered = 0 then (BLE_HS_EINVAL, num_registered, st)
    else (0, num_registered, st)
  | n + 1, i, num_registered, st =>
    match st.ble_gatts_svc_entries[i]? with
    | none => ble_gatts_register_round_loop svcs cb n (i + 1) num_registered st
    | some entry =>
      if entry.handle = 0 then
        match svcs[entry.svc]? with
        | none => ble_gatts_register_round_loop svcs cb n (i + 1) num_registered st
        | some sdef =>
          match ble_gatts_register_svc entry.svc sdef cb st with
          | (rc, handle, st1) =>
            if rc = 0 then
              let entry1 : ble_gatts_svc_entry :=
                { entry with handle := handle,
                             end_group_handle := ble_att_svr_prev_handle st1.svr }
              ble_gatts_register_round_loop svcs cb n (i + 1) (num_registered + 1)
                { st1 with ble_gatts_svc_entries := st1.ble_gatts_svc_entries.set i entry1 }
            else if rc = BLE_HS_EAGAIN then
              ble_gatts_register_round_loop svcs cb n (i + 1) num_registered st1
            else (rc, num_registered, st1)
      else ble_gatts_register_round_loop svcs cb n (i + 1) num_registered st

/-- `ble_gatts_register_round`. -/
def ble_gatts_register_round (svcs : List ble_gatt_svc_def) (cb : Bool)
    (st : ble_gatts_state) : Int × Nat × ble_gatts_state :=
  ble_gatts_register_round_loop svcs cb st.ble_gatts_svc_entries.length 0 0 st

/-- The number of elements of the array `svcs` before the element whose type is
`BLE_GATT_SVC_TYPE_END` (the end of the list is that element when none comes
before). -/
def ble_gatts_count_svcs : List ble_gatt_svc_def → Nat
  | [] => 0
  | s :: rest => if s.type = ble_gatt_svc_type.END then 0 else ble_gatts_count_svcs rest + 1

/-- The `while (total_registered < ble_gatts_num_svc_entries)` loop of
`ble_gatts_register_services` with the `return 0` after it.  The first argument
bounds the number of rounds; `none` means the bound was reached. -/
def ble_gatts_register_services_loop (svcs : List ble_gatt_svc_def) (cb : Bool) :
    Nat → Nat → ble_gatts_state → Option (Int × ble_gatts_state)
  | 0, _, _ => none
  | fuel + 1, total_registered, st =>
    if total_registered < st.ble_gatts_svc_entries.length then
      match ble_gatts_register_round svcs cb st with
      | (rc, cur_registered, st1) =>
        if rc ≠ 0 then some (rc, st1)
        else ble_gatts_register_services_loop svcs cb fuel
          (total_registered + cur_registered) st1
    else some (0, st)

/-- The entries that the first loop of `ble_gatts_register_services` writes:
entry `i` points to `svcs + i`, with handle 0 and end group handle 0xffff. -/
def ble_gatts_init_entries (n : Nat) : List ble_gatts_svc_entry :=
  (List.range n).map (fun i => { svc := i, handle := 0, end_group_handle := 0xffff })

/-- `ble_gatts_register_services` on the array `svcs`, with the attribute table
`svr`; the callback log starts empty.  A round that returns 0 registers at
least one service, so as many rounds as there are services, plus the final
test, are enough; `none` would mean that they were not. -/
def ble_gatts_register_services (svcs : List ble_gatt_svc_def) (cb : Bool)
    (svr : ble_att_svr) : Option (Int × ble_gatts_state) :=
  ble_gatts_register_services_loop svcs cb (ble_gatts_count_svcs svcs + 1) 0
    { svr := svr,
      ble_gatts_svc_entries := ble_gatts_init_entries (ble_gatts_count_svcs svcs),
      cb_log := [] }

/-- A sample service: primary, without characteristics, with the given
includes. -/
def sample_svc (b : Nat) (includes : Option (List Nat)) : ble_gatt_svc_def :=
  { type := ble_gatt_svc_type.PRIMARY, uuid128 := some (uuid_of_byte b),
    includes := includes, characteristics := none }

/-- An empty attribute table with room for `n` attributes. -/
def sample_svr (n : Nat) : ble_att_svr :=
  { prev_handle := 0, num_free := n, attrs := [] }

/-- What every step of registration leaves as it is or only moves forward: the
registry entries stay, and the handle allocated last does not go down. -/
def gatts_frame (st st1 : ble_gatts_state) : Prop :=
  st1.ble_gatts_svc_entries = st.ble_gatts_svc_entries ∧
  st.svr.prev_handle ≤ st1.svr.prev_handle

/-- The number of registered entries (handle not 0). -/
def gatts_num_registered (entries : List ble_gatts_svc_entry) : Nat :=
  entries.countP (fun e => decide (e.handle ≠ 0))

/-- The invariant of registration: entry `i` points to `svcs + i`; no entry has a
handle above the handle allocated last; every service that a registered
service includes is registered, with a smaller handle. -/
def gatts_inv (svcs : List ble_gatt_svc_def) (st : ble_gatts_state) : Prop :=
  (∀ (i : Nat) (e : ble_gatts_svc_entry), st.ble_gatts_svc_entries[i]? = some e → e.svc = i) ∧
  (∀ e ∈ st.ble_gatts_svc_entries, e.handle ≤ st.svr.prev_handle) ∧
  (∀ (i : Nat) (e : ble_gatts_svc_entry) (sdef : ble_gatt_svc_def) (incs : List Nat) (p : Nat),
    st.ble_gatts_svc_entries[i]? = some e → e.handle ≠ 0 →
    svcs[i]? = some sdef → sdef.includes = some incs → p ∈ incs →
    ∃ e1 : ble_gatts_svc_entry,
      st.ble_gatts_svc_entries[p]? = some e1 ∧ 0 < e1.handle ∧ e1.handle < e.handle)

/-! ## GATT access dispatch (`ble_gatts.c`) -/

/-- The size of the static buffer of `ble_gatts_inc_access`. -/
def BLE_GATTS_INCLUDE_SZ : Nat := 6

/-- The size of the static buffer of `ble_gatts_chr_def_access`. -/
def BLE_GATTS_CHR_MAX_SZ : Nat := 19

/-- Modelled from the spec: `htole16(buf, v)`, the two bytes that it stores, low
byte first ("ATT PDU fields are little-endian"); `v` is taken as a
`uint16_t`. -/
def htole16 (v : Nat) : List Nat :=
  [v % 256, v / 256 % 256]

/-- The effect of `memcpy(dst + off, src, n)` on the byte array `dst`, where
`src` lists the `n` bytes copied. -/
def memcpy_at : List Nat → Nat → List Nat → List Nat
  | dst, _, [] => dst
  | dst, off, b :: rest => memcpy_at (dst.set off b) (off + 1) rest

/-- The generic operation that the attribute server passes to an access
function: the two constants `BLE_ATT_ACCESS_OP_READ` and
`BLE_ATT_ACCESS_OP_WRITE` of `ble_att_priv.h`, and any other byte. -/
inductive ble_att_access_op where
  | READ
  | WRITE
  | other (v : Nat)
  deriving DecidableEq, Repr

/-- The `struct ble_att_svr_access_ctxt`: `attr_data` is the byte array that the
pointer designates, `attr_len` the length. -/
structure ble_att_svr_access_ctxt where
  attr_data : List Nat
  attr_len : Nat
  deriving DecidableEq, Repr

/-- The bytes that a read leaves for the peer: the first `attr_len` bytes at
`attr_data`. -/
def ble_att_svr_access_ctxt.value (ctxt : ble_att_svr_access_ctxt) : List Nat :=
  ctxt.attr_data.take ctxt.attr_len

/-- The operations of a characteristic or descriptor access callback,
`BLE_GATT_ACCESS_OP_*` of `host/ble_gatt.h`. -/
inductive ble_gatt_access_op where
  | READ_CHR
  | WRITE_CHR
  | READ_DSC
  | WRITE_DSC
  deriving DecidableEq, Repr

/-- The `union ble_gatt_access_ctxt`: the member `chr_access` or the member
`dsc_access`, each with the definition, the data and the length. -/
inductive ble_gatt_access_ctxt where
  | chr_access (chr : ble_gatt_chr_def) (data : List Nat) (len : Nat)
  | dsc_access (dsc : ble_gatt_dsc_def) (data : List Nat) (len : Nat)
  deriving DecidableEq

/-- The field `len`, which the two members of the union have at the same
place. -/
def ble_gatt_access_ctxt.len : ble_gatt_access_ctxt → Nat
  | ble_gatt_access_ctxt.chr_access _ _ len => len
  | ble_gatt_access_ctxt.dsc_access _ _ len => len

/-- The behaviour of the access callbacks: for the callback named `cb`, called
with `conn_handle`, `attr_handle`, the operation and the context, the status
and the context afterwards (the opaque `arg` is part of the behaviour). -/
abbrev ble_gatt_access_fns :=
  Nat → Nat → Nat → ble_gatt_access_op → ble_gatt_access_ctxt → Int × ble_gatt_access_ctxt

/-- The flag and property constants of `host/ble_gatt.h` that
`ble_gatts_chr_properties` uses and that are not part of the sources.  Each is
a parameter. -/
structure ble_gatt_chr_consts where
  BLE_GATT_CHR_F_BROADCAST : Nat
  BLE_GATT_CHR_F_READ : Nat
  BLE_GATT_CHR_F_WRITE_NO_RSP : Nat
  BLE_GATT_CHR_F_WRITE : Nat
  BLE_GATT_CHR_F_NOTIFY : Nat
  BLE_GATT_CHR_F_INDICATE : Nat
  BLE_GATT_CHR_F_AUTH_SIGN_WRITE : Nat
  BLE_GATT_CHR_F_RELIABLE_WRITE : Nat
  BLE_GATT_CHR_F_AUX_WRITE : Nat
  BLE_GATT_CHR_PROP_BROADCAST : Nat
  BLE_GATT_CHR_PROP_READ : Nat
  BLE_GATT_CHR_PROP_WRITE_NO_RSP : Nat
  BLE_GATT_CHR_PROP_WRITE : Nat
  BLE_GATT_CHR_PROP_NOTIFY : Nat
  BLE_GATT_CHR_PROP_INDICATE : Nat
  BLE_GATT_CHR_PROP_AUTH_SIGN_WRITE : Nat
  BLE_GATT_CHR_PROP_EXTENDED : Nat

/-- One step `if (chr->flags & f) { properties |= p; }` of
`ble_gatts_chr_properties`; `properties` is a `uint8_t`. -/
def chr_properties_step (flags f p properties : Nat) : Nat :=
  if flags &&& f ≠ 0 then (properties ||| p) % 256 else properties

/-- `ble_gatts_chr_properties`. -/
def ble_gatts_chr_properties (k : ble_gatt_chr_consts) (chr : ble_gatt_chr_def) : Nat :=
  let p0 := 0
  let p1 := chr_properties_step chr.flags k.BLE_GATT_CHR_F_BROADCAST
    k.BLE_GATT_CHR_PROP_BROADCAST p0
  let p2 := chr_properties_step chr.flags k.BLE_GATT_CHR_F_READ k.BLE_GATT_CHR_PROP_READ p1
  let p3 := chr_properties_step chr.flags k.BLE_GATT_CHR_F_WRITE_NO_RSP
    k.BLE_GATT_CHR_PROP_WRITE_NO_RSP p2
  let p4 := chr_properties_step chr.flags k.BLE_GATT_CHR_F_WRITE k.BLE_GATT_CHR_PROP_WRITE p3
  let p5 := chr_properties_step chr.flags k.BLE_GATT_CHR_F_NOTIFY k.BLE_GATT_CHR_PROP_NOTIFY p4
  let p6 := chr_properties_step chr.flags k.BLE_GATT_CHR_F_INDICATE
    k.BLE_GATT_CHR_PROP_INDICATE p5
  let p7 := chr_properties_step chr.flags k.BLE_GATT_CHR_F_AUTH_SIGN_WRITE
    k.BLE_GATT_CHR_PROP_AUTH_SIGN_WRITE p6
  chr_properties_step chr.flags
    (k.BLE_GATT_CHR_F_RELIABLE_WRITE ||| k.BLE_GATT_CHR_F_AUX_WRITE)
    k.BLE_GATT_CHR_PROP_EXTENDED p7

/-- `ble_gatts_svc_access` for the service definition `svc` (the `arg`): status
and `*ctxt`.  `none`: the `assert(op == BLE_ATT_ACCESS_OP_READ)` fails, or
`svc->uuid128` is `NULL`. -/
def ble_gatts_svc_access (op : ble_att_access_op) (svc : ble_gatt_svc_def) :
    Option (Int × ble_att_svr_access_ctxt) :=
  if op ≠ ble_att_access_op.READ then none
  else
    match svc.uuid128 with
    | none => none
    | some uuid128 => some (0, { attr_data := uuid128.bytes, attr_len := 16 })

/-- `ble_gatts_inc_access` for the registry entry `entry` (the `arg`), whose
definition is `svcs + entry.svc`.  `buf` is the content of the static buffer
before the call; the parameter `ble_uuid_128_to_16` stands for the function of
`host/ble_uuid.h` (not part of the sources), which returns 0 when the UUID has
no 16-bit representation.  `none`: the assertion on `op` fails, or the
definition or its `uuid128` is not there. -/
def ble_gatts_inc_access (ble_uuid_128_to_16 : Uuid128 → Nat) (svcs : List ble_gatt_svc_def)
    (buf : List Nat) (op : ble_att_access_op) (entry : ble_gatts_svc_entry) :
    Option (Int × ble_att_svr_access_ctxt) :=
  if op ≠ ble_att_access_op.READ then none
  else
    let buf1 := memcpy_at buf 0 (htole16 entry.handle)
    let buf2 := memcpy_at buf1 2 (htole16 entry.end_group_handle)
    match (svcs[entry.svc]?).bind (fun sdef => sdef.uuid128) with
    | none => none
    | some uuid128 =>
      let uuid16 := ble_uuid_128_to_16 uuid128
      if uuid16 ≠ 0 then
        let buf3 := memcpy_at buf2 4 (htole16 uuid16)
        some (0, { attr_data := buf3, attr_len := 6 })
      else
        some (0, { attr_data := buf2, attr_len := 4 })

/-- `ble_gatts_chr_def_access` for the characteristic `chr` (the `arg`) at the
handle `attr_handle`; `buf` is the content of the static buffer before the
call.  `none`: the assertion on `op` fails, or `chr->uuid128` is `NULL`. -/
def ble_gatts_chr_def_access (ble_uuid_128_to_16 : Uuid128 → Nat) (k : ble_gatt_chr_consts)
    (buf : List Nat) (attr_handle : Nat) (op : ble_att_access_op) (chr : ble_gatt_chr_def) :
    Option (Int × ble_att_svr_access_ctxt) :=
  if op ≠ ble_att_access_op.READ then none
  else
    let buf1 := buf.set 0 (ble_gatts_chr_properties k chr)
    let buf2 := memcpy_at buf1 1 (htole16 (attr_handle + 1))
    match chr.uuid128 with
    | none => none
    | some uuid128 =>
      let uuid16 := ble_uuid_128_to_16 uuid128
      if uuid16 ≠ 0 then
        let buf3 := memcpy_at buf2 3 (htole16 uuid16)
        some (0, { attr_data := buf3, attr_len := 5 })
      else
        let buf3 := memcpy_at buf2 3 uuid128.bytes
        some (0, { attr_data := buf3, attr_len := 19 })

/-- `ble_gatts_chr_op`; `none`: the `assert(0)` of the default case. -/
def ble_gatts_chr_op (att_op : ble_att_access_op) : Option ble_gatt_access_op :=
  match att_op with
  | ble_att_access_op.READ => some ble_gatt_access_op.READ_CHR
  | ble_att_access_op.WRITE => some ble_gatt_access_op.WRITE_CHR
  | ble_att_access_op.other _ => none

/-- `ble_gatts_chr_val_access` for the characteristic `chr` (the `arg`, `none`
when it is `NULL`): status and `*att_ctxt`.  `none`: an assertion fails. -/
def ble_gatts_chr_val_access (cbs : ble_gatt_access_fns) (conn_handle attr_handle : Nat)
    (att_op : ble_att_access_op) (att_ctxt : ble_att_svr_access_ctxt)
    (chr : Option ble_gatt_chr_def) : Option (Int × ble_att_svr_access_ctxt) :=
  match chr with
  | none => none
  | some chr =>
    match chr.access_cb with
    | none => none
    | some access_cb =>
      match ble_gatts_chr_op att_op with
      | none => none
      | some gatt_op =>
        let gatt_ctxt :=
          ble_gatt_access_ctxt.chr_access chr att_ctxt.attr_data att_ctxt.attr_len
        match cbs access_cb conn_handle attr_handle gatt_op gatt_ctxt with
        | (rc, gatt_ctxt1) =>
          if rc ≠ 0 then some (rc, att_ctxt)
          else some (0, { att_ctxt with attr_len := gatt_ctxt1.len })

/-- `ble_gatts_dsc_op`; `none`: the `assert(0)` of the default case. -/
def ble_gatts_dsc_op (att_op : ble_att_access_op) : Option ble_gatt_access_op :=
  match att_op with
  | ble_att_access_op.READ => some ble_gatt_access_op.READ_DSC
  | ble_att_access_op.WRITE => some ble_gatt_access_op.WRITE_DSC
  | ble_att_access_op.other _ => none

/-- `ble_gatts_dsc_access` for the descriptor `dsc` (the `arg`, `none` when it is
`NULL`): status and `*att_ctxt`.  `none`: an assertion fails. -/
def ble_gatts_dsc_access (cbs : ble_gatt_access_fns) (conn_handle attr_handle : Nat)
    (att_op : ble_att_access_op) (att_ctxt : ble_att_svr_access_ctxt)
    (dsc : Option ble_gatt_dsc_def) : Option (Int × ble_att_svr_access_ctxt) :=
  match dsc with
  | none => none
  | some dsc =>
    match dsc.access_cb with
    | none => none
    | some access_cb =>
      match ble_gatts_dsc_op att_op with
      | none => none
      | some gatt_op =>
        let gatt_ctxt :=
          ble_gatt_access_ctxt.dsc_access dsc att_ctxt.attr_data att_ctxt.attr_len
        match cbs access_cb conn_handle attr_handle gatt_op gatt_ctxt with
        | (rc, gatt_ctxt1) =>
          if rc ≠ 0 then some (rc, att_ctxt)
          else some (0, { att_ctxt with attr_len := gatt_ctxt1.len })

/-- The flag and property constants of the Bluetooth characteristic properties,
for the examples. -/
def sample_chr_consts : ble_gatt_chr_consts where
  BLE_GATT_CHR_F_BROADCAST := 0x0001
  BLE_GATT_CHR_F_READ := 0x0002
  BLE_GATT_CHR_F_WRITE_NO_RSP := 0x0004
  BLE_GATT_CHR_F_WRITE := 0x0008
  BLE_GATT_CHR_F_NOTIFY := 0x0010
  BLE_GATT_CHR_F_INDICATE := 0x0020
  BLE_GATT_CHR_F_AUTH_SIGN_WRITE := 0x0040
  BLE_GATT_CHR_F_RELIABLE_WRITE := 0x0080
  BLE_GATT_CHR_F_AUX_WRITE := 0x0100
  BLE_GATT_CHR_PROP_BROADCAST := 0x01
  BLE_GATT_CHR_PROP_READ := 0x02
  BLE_GATT_CHR_PROP_WRITE_NO_RSP := 0x04
  BLE_GATT_CHR_PROP_WRITE := 0x08
  BLE_GATT_CHR_PROP_NOTIFY := 0x10
  BLE_GATT_CHR_PROP_INDICATE := 0x20
  BLE_GATT_CHR_PROP_AUTH_SIGN_WRITE := 0x40
  BLE_GATT_CHR_PROP_EXTENDED := 0x80

/-- Modelled from the spec: a `ble_uuid_128_to_16` for the examples, "lossless
16-bit to 128-bit conversion, valid only within the reserved Bluetooth
base-UUID range": the 16-bit value in bytes 12 and 13 when the other bytes are
those of the base UUID, and 0 otherwise. -/
def sample_uuid_128_to_16 (u : Uuid128) : Nat :=
  if u.bytes.take 12 = [0xfb, 0x34, 0x9b, 0x5f, 0x80, 0x00, 0x00, 0x80, 0x00, 0x10, 0x00, 0x00]
      ∧ u.bytes.drop 14 = [0x00, 0x00] then
    le16toh (u.bytes.drop 12)
  else 0

/-- A sample characteristic with the given UUID, flags and descriptors, bound to
the access callback 1. -/
def sample_chr (uuid128 : Uuid128) (flags : Nat)
    (descriptors : Option (List ble_gatt_dsc_def)) : ble_gatt_chr_def :=
  { uuid128 := some uuid128, access_cb := some 1, flags := flags, descriptors := descriptors }

/-- A sample descriptor with the given UUID, bound to the access callback 2. -/
def sample_dsc (uuid128 : Uuid128) : ble_gatt_dsc_def :=
  { uuid128 := some uuid128, att_flags := 1, access_cb := some 2 }

/-- A sample access behaviour: the callback 1 leaves a value of 3 bytes, every
other callback refuses with status 9. -/
def sample_access_fns : ble_gatt_access_fns :=
  fun cb _ _ _ ctxt =>
    if cb = 1 then
      match ctxt with
      | ble_gatt_access_ctxt.chr_access chr _ _ =>
        (0, ble_gatt_access_ctxt.chr_access chr [1, 2, 3] 3)
      | ble_gatt_access_ctxt.dsc_access dsc _ _ =>
        (0, ble_gatt_access_ctxt.dsc_access dsc [1, 2, 3] 3)
    else (9, ctxt)

/-! ## Advertising fields (`ble_hs_adv.c`) -/

/-- Modelled from the spec: MessageTooLarge, `BLE_HS_EMSGSIZE` of `ble_hs.h` (not
part of the sources). -/
def BLE_HS_EMSGSIZE : Int := 4

/-- `ble_hs_adv_set_one_field`: status, the array `dst` and `*dst_len`
afterwards.  `data` holds the bytes at `data`.  `data_len + 1` is stored in a
`uint8_t` element and `new_len` in the `uint8_t` `*dst_len`. -/
def ble_hs_adv_set_one_field (type data_len : Nat) (data : List Nat) (dst : List Nat)
    (dst_len max_len : Nat) : Int × List Nat × Nat :=
  let new_len := dst_len + 2 + data_len
  if new_len > max_len then (BLE_HS_EMSGSIZE, dst, dst_len)
  else
    let dst1 := dst.set dst_len ((data_len + 1) % 256)
    let dst2 := dst1.set (dst_len + 1) type
    let dst3 := memcpy_at dst2 (dst_len + 2) (data.take data_len)
    (0, dst3, new_len % 256)

/-! ## What one service registers (`ble_gatts.c`) -/

/-- One attribute that the registration of a service asks the attribute table
for: the service declaration, an include (with the index of the registry entry
of the included service), a characteristic declaration, a characteristic
value, or the `k`-th descriptor of a characteristic. -/
inductive ble_gatts_reg_item where
  | svc (svc : Nat)
  | inc (idx : Nat)
  | chr_def (chr : ble_gatt_chr_def)
  | chr_val (chr : ble_gatt_chr_def)
  | dsc (dsc : ble_gatt_dsc_def) (chr : ble_gatt_chr_def) (k : Nat)
  deriving DecidableEq

/-- The access behaviour and context that the attribute is registered with. -/
def reg_item_access : ble_gatts_reg_item → ble_att_svr_access
  | ble_gatts_reg_item.svc svc => ble_att_svr_access.svc svc
  | ble_gatts_reg_item.inc idx => ble_att_svr_access.inc idx
  | ble_gatts_reg_item.chr_def chr => ble_att_svr_access.chr_def chr
  | ble_gatts_reg_item.chr_val chr => ble_att_svr_access.chr_val chr
  | ble_gatts_reg_item.dsc dsc _ _ => ble_att_svr_access.dsc dsc

/-- The items with consecutive handles, the first one with the handle `h`. -/
def number_items : Nat → List ble_gatts_reg_item → List (Nat × ble_gatts_reg_item)
  | _, [] => []
  | h, it :: rest => (h, it) :: number_items (h + 1) rest

/-- The attribute table entry of an item with its handle. -/
def item_attr (p : Nat × ble_gatts_reg_item) : ble_att_svr_entry :=
  { ha_handle_id := p.1, ha_cb := reg_item_access p.2 }

/-- The call of the registration callback for an item with its handle: one for
a service declaration, one for a characteristic declaration (with the handle
after it as value handle), one for a descriptor (with the handle of the
declaration of its characteristic, which lies `2 + k` handles before the `k`-th
descriptor), none for an include or a characteristic value. -/
def item_event (p : Nat × ble_gatts_reg_item) : Option ble_gatt_register_event :=
  match p.2 with
  | ble_gatts_reg_item.svc svc => some (ble_gatt_register_event.svc p.1 svc)
  | ble_gatts_reg_item.inc _ => none
  | ble_gatts_reg_item.chr_def chr => some (ble_gatt_register_event.chr p.1 (p.1 + 1) chr)
  | ble_gatts_reg_item.chr_val _ => none
  | ble_gatts_reg_item.dsc dsc chr k => some (ble_gatt_register_event.dsc p.1 dsc (p.1 - 2 - k) chr)

/-- The descriptors of an array of descriptors, up to the first one whose
`uuid128` is `NULL`, as the `k`-th and following descriptors of `chr`. -/
def dsc_items (chr : ble_gatt_chr_def) : Nat → List ble_gatt_dsc_def → List ble_gatts_reg_item
  | _, [] => []
  | k, dsc :: rest =>
    if dsc.uuid128 = none then []
    else ble_gatts_reg_item.dsc dsc chr k :: dsc_items chr (k + 1) rest

/-- The items of one characteristic: declaration, value, descriptors. -/
def chr_items (chr : ble_gatt_chr_def) : List ble_gatts_reg_item :=
  ble_gatts_reg_item.chr_def chr :: ble_gatts_reg_item.chr_val chr ::
    dsc_items chr 0 (chr.descriptors.getD [])

/-- The items of an array of characteristics, up to the first one whose
`uuid128` is `NULL`. -/
def chrs_items : List ble_gatt_chr_def → List ble_gatts_reg_item
  | [] => []
  | chr :: rest =>
    if chr.uuid128 = none then []
    else chr_items chr ++ chrs_items rest

/-- The items of one service at the pointer `svc`: the declaration, one include
per included service, then the characteristics. -/
def svc_items (svc : Nat) (sdef : ble_gatt_svc_def) : List ble_gatts_reg_item :=
  ble_gatts_reg_item.svc svc ::
    ((sdef.includes.getD []).map ble_gatts_reg_item.inc ++
      chrs_items (sdef.characteristics.getD []))

/-- The state `st1` is the state `st` after the items were registered one after
the other with consecutive handles: the entries are the same, the table has
the attributes of the items behind the ones it had, and the callback (when
`cb` says that there is one) was called for the items that have a call. -/
def alloc_ok (cb : Bool) (st st1 : ble_gatts_state) (items : List ble_gatts_reg_item) : Prop :=
  st1.ble_gatts_svc_entries = st.ble_gatts_svc_entries ∧
  st1.svr.prev_handle = st.svr.prev_handle + items.length ∧
  st1.svr.attrs = st.svr.attrs ++ (number_items (st.svr.prev_handle + 1) items).map item_attr ∧
  st1.cb_log = st.cb_log ++
    (if cb then (number_items (st.svr.prev_handle + 1) items).filterMap item_event else [])

/-- The statuses that the registration of includes, characteristics and
descriptors returns: 0, `BLE_HS_EINVAL` or `BLE_HS_ENOMEM`. -/
def gatts_rc_plain (rc : Int) : Prop :=
  rc = 0 ∨ rc = BLE_HS_EINVAL ∨ rc = BLE_HS_ENOMEM

/-- A sample service that includes the service at the pointer 0 and has one
characteristic with one descriptor. -/
def sample_svc_full : ble_gatt_svc_def :=
  { type := ble_gatt_svc_type.PRIMARY, uuid128 := some (uuid_of_byte 2),
    includes := some [0],
    characteristics :=
      some [sample_chr (uuid_of_byte 3) 2 (some [sample_dsc (uuid_of_byte 4)])] }

/-- The registry after the service at the pointer 0 was registered with the
handle 1, with room for 9 more attributes. -/
def sample_state_one_registered : ble_gatts_state :=
  { svr := { prev_handle := 1, num_free := 9, attrs := [⟨1, ble_att_svr_access.svc 0⟩] },
    ble_gatts_svc_entries := [⟨0, 1, 1⟩, ⟨1, 0, 0xffff⟩],
    cb_log := [ble_gatt_register_event.svc 1 0] }

/-- The descriptors of a characteristic that the descriptor loop visits: those
before the first one whose `uuid128` is `NULL` (none when `descriptors` is
`NULL`). -/
def chr_dscs (chr : ble_gatt_chr_def) : List ble_gatt_dsc_def :=
  (chr.descriptors.getD []).takeWhile (fun d => d.uuid128.isSome)

/-- The characteristics of a service that the characteristic loop visits: those
before the first one whose `uuid128` is `NULL`. -/
def svc_chrs (sdef : ble_gatt_svc_def) : List ble_gatt_chr_def :=
  (sdef.characteristics.getD []).takeWhile (fun c => c.uuid128.isSome)

/-- The number of handles of a service behind its declaration: the number of
includes plus, for every characteristic, 2 plus the number of its
descriptors. -/
def svc_subtree_size (sdef : ble_gatt_svc_def) : Nat :=
  (sdef.includes.getD []).length +
    ((svc_chrs sdef).map (fun c => 2 + (chr_dscs c).length)).sum

/-- The end group handles of the registered entries: each one is the handle plus
the number of handles behind the declaration and is at most the handle
allocated last, and the handle ranges of two registered entries do not
overlap. -/
def gatts_group_inv (svcs : List ble_gatt_svc_def) (st : ble_gatts_state) : Prop :=
  (∀ (i : Nat) (e : ble_gatts_svc_entry), st.ble_gatts_svc_entries[i]? = some e →
    e.handle ≠ 0 →
    ∃ sdef : ble_gatt_svc_def, svcs[i]? = some sdef ∧
      e.end_group_handle = e.handle + svc_subtree_size sdef ∧
      e.end_group_handle ≤ st.svr.prev_handle) ∧
  (∀ (i j : Nat) (e e1 : ble_gatts_svc_entry), i ≠ j →
    st.ble_gatts_svc_entries[i]? = some e → st.ble_gatts_svc_entries[j]? = some e1 →
    e.handle ≠ 0 → e1.handle ≠ 0 →
    e.end_group_handle < e1.handle ∨ e1.end_group_handle < e.handle)

/-- What a step of registration that returns `rc` does to the attribute table,
also when it fails: `BLE_HS_ENOMEM` comes with a full table, and every
attribute that is new is not a service declaration, or is the one of the
service at the pointer `svc`. -/
def gatts_fail_frame (svc : Nat) (rc : Int) (st st1 : ble_gatts_state) : Prop :=
  (rc = BLE_HS_ENOMEM → st1.svr.num_free = 0) ∧
  (∀ a ∈ st1.svr.attrs, a ∈ st.svr.attrs ∨
    ∀ k : Nat, a.ha_cb = ble_att_svr_access.svc k → k = svc)

/-- The statuses with which a round, and `ble_gatts_register_services`, ends in
the state `st`: 0, `BLE_HS_EINVAL`, or `BLE_HS_ENOMEM` with a full attribute
table. -/
def gatts_rc_round (rc : Int) (st : ble_gatts_state) : Prop :=
  rc = 0 ∨ rc = BLE_HS_EINVAL ∨ (rc = BLE_HS_ENOMEM ∧ st.svr.num_free = 0)

/-- The service at the pointer `i` was left alone: its entry is there with the
handle 0, and every service declaration attribute with the pointer `i` was in
the table `svr0` already. -/
def gatts_untouched (svr0 : ble_att_svr) (i : Nat) (st : ble_gatts_state) : Prop :=
  (∃ e : ble_gatts_svc_entry, st.ble_gatts_svc_entries[i]? = some e ∧ e.svc = i ∧
    e.handle = 0) ∧
  (∀ a ∈ st.svr.attrs, a.ha_cb = ble_att_svr_access.svc i → a ∈ svr0.attrs)

/-- A sample service of a type that is neither primary nor secondary. -/
def sample_svc_bad_type : ble_gatt_svc_def :=
  { type := ble_gatt_svc_type.other 7, uuid128 := some (uuid_of_byte 9),
    includes := none, characteristics := none }

/-- A characteristic that the characteristic loop cannot register: it is not
sane, or one of the descriptors that the descriptor loop visits is not sane. -/
def chr_unsound (chr : ble_gatt_chr_def) : Prop :=
  ble_gatts_chr_is_sane chr = false ∨
  ∃ d ∈ chr_dscs chr, ble_gatts_dsc_is_sane d = false

/-- A sample service with two characteristics: the first one has a null UUID
(and an access callback), the second one is a complete characteristic. -/
def sample_svc_null_chr : ble_gatt_svc_def :=
  { type := ble_gatt_svc_type.PRIMARY, uuid128 := some (uuid_of_byte 5), includes := none,
    characteristics := some [⟨none, some 1, 2, none⟩, sample_chr (uuid_of_byte 6) 2 none] }

/-- A sample service whose only characteristic has two descriptors: the first
one has a null UUID and no access callback, the second one is complete. -/
def sample_svc_null_dsc : ble_gatt_svc_def :=
  { type := ble_gatt_svc_type.PRIMARY, uuid128 := some (uuid_of_byte 5), includes := none,
    characteristics :=
      some [sample_chr (uuid_of_byte 6) 2 (some [⟨none, 1, none⟩, sample_dsc (uuid_of_byte 7)])] }

/-- A sample service whose only characteristic has no access callback; the
service includes `includes`. -/
def sample_svc_unbound_chr (includes : Option (List Nat)) : ble_gatt_svc_def :=
  { type := ble_gatt_svc_type.PRIMARY, uuid128 := some (uuid_of_byte 5), includes := includes,
    characteristics := some [⟨some (uuid_of_byte 6), none, 2, none⟩] }

/-! ## The calls of the registration callback, as the specification counts them -/

/-- One call per descriptor: the first one has the handle `h`, the next ones the
handles after it; each call carries the handle `dh` of the declaration of the
characteristic `chr` that owns the descriptors. -/
def dscs_events (chr : ble_gatt_chr_def) (dh : Nat) :
    Nat → List ble_gatt_dsc_def → List ble_gatt_register_event
  | _, [] => []
  | h, d :: rest => ble_gatt_register_event.dsc h d dh chr :: dscs_events chr dh (h + 1) rest

/-- One call for the characteristic, with its declaration handle `dh` and the
value handle after it, then one call per descriptor. -/
def chr_events (dh : Nat) (chr : ble_gatt_chr_def) : List ble_gatt_register_event :=
  ble_gatt_register_event.chr dh (dh + 1) chr :: dscs_events chr dh (dh + 2) (chr_dscs chr)

/-- The calls for the characteristics, the first of which is declared at the
handle `h`. -/
def chrs_events : Nat → List ble_gatt_chr_def → List ble_gatt_register_event
  | _, [] => []
  | h, c :: rest => chr_events h c ++ chrs_events (h + 2 + (chr_dscs c).length) rest

/-- The calls for the service at the pointer `svc`, declared at the handle `h`:
one for the service, none for its includes, then the calls for its
characteristics, which come behind the includes. -/
def svc_events (h svc : Nat) (sdef : ble_gatt_svc_def) : List ble_gatt_register_event :=
  ble_gatt_register_event.svc h svc ::
    chrs_events (h + 1 + (sdef.includes.getD []).length) (svc_chrs sdef)

/-- The attribute that a call of the registration callback is about: the service
declaration, the characteristic declaration, or the descriptor, with the handle
that the call passes. -/
def event_attr : ble_gatt_register_event → ble_att_svr_entry
  | ble_gatt_register_event.svc h svc => ⟨h, ble_att_svr_access.svc svc⟩
  | ble_gatt_register_event.chr dh _ chr => ⟨dh, ble_att_svr_access.chr_def chr⟩
  | ble_gatt_register_event.dsc h d _ _ => ⟨h, ble_att_svr_access.dsc d⟩

/-- The attributes for which the registration callback is to be called: service
declarations, characteristic declarations and descriptors; not includes, and
not characteristic values (their handle goes with the call for the
declaration). -/
def attr_called (a : ble_att_svr_entry) : Bool :=
  match a.ha_cb with
  | ble_att_svr_access.svc _ => true
  | ble_att_svr_access.inc _ => false
  | ble_att_svr_access.chr_def _ => true
  | ble_att_svr_access.chr_val _ => false
  | ble_att_svr_access.dsc _ => true

/-- The items, with their handles, of the service at the pointer `p.1` of the
array `svcs`, registered with the declaration handle `p.2`. -/
def svc_block (svcs : List ble_gatt_svc_def) (p : Nat × Nat) :
    List (Nat × ble_gatts_reg_item) :=
  match svcs[p.1]? with
  | none => []
  | some sdef => number_items p.2 (svc_items p.1 sdef)

/-- The calls for the service at the pointer `p.1` of the array `svcs`, declared
at the handle `p.2`. -/
def svc_block_events (svcs : List ble_gatt_svc_def) (p : Nat × Nat) :
    List ble_gatt_register_event :=
  match svcs[p.1]? with
  | none => []
  | some sdef => svc_events p.2 p.1 sdef

/-- The history of a registration with a callback: `hist` lists the registered
services in the order of their registration, each with its declaration handle;
the attributes behind the ones of `svr0` and the calls of the callback are those
of the services of `hist`, block by block. -/
def gatts_log_inv (svcs : List ble_gatt_svc_def) (svr0 : ble_att_svr)
    (hist : List (Nat × Nat)) (st : ble_gatts_state) : Prop :=
  (hist.map Prod.fst).Nodup ∧
  (∀ (i h : Nat), (i, h) ∈ hist ↔
    ∃ e : ble_gatts_svc_entry, st.ble_gatts_svc_entries[i]? = some e ∧ e.handle = h ∧ h ≠ 0) ∧
  st.svr.attrs = svr0.attrs ++ (hist.flatMap (svc_block svcs)).map item_attr ∧
  st.cb_log = (hist.flatMap (svc_block svcs)).filterMap item_event

/-- Two states with the same attribute table and the same registry entries: they
differ in the calls of the registration callback at most. -/
def gatts_same_handles (st st1 : ble_gatts_state) : Prop :=
  st.svr = st1.svr ∧ st.ble_gatts_svc_entries = st1.ble_gatts_svc_entries

/-- The result of `ble_gatts_register_services` without the calls of the
callback: the status, the attribute table and the registry entries. -/
def gatts_result_handles (r : Int × ble_gatts_state) :
    Int × ble_att_svr × List ble_gatts_svc_entry :=
  (r.1, r.2.svr, r.2.ble_gatts_svc_entries)

/-- The state after `ble_gatts_register_services` with a callback on the array
[a service without includes and characteristics, `sample_svc_full`] and an
empty table with room for 10 attributes. -/
def sample_state_two_registered : ble_gatts_state :=
  ⟨⟨6, 4, [⟨1, ble_att_svr_access.svc 0⟩, ⟨2, ble_att_svr_access.svc 1⟩,
      ⟨3, ble_att_svr_access.inc 0⟩,
      ⟨4, ble_att_svr_access.chr_def
        (sample_chr (uuid_of_byte 3) 2 (some [sample_dsc (uuid_of_byte 4)]))⟩,
      ⟨5, ble_att_svr_access.chr_val
        (sample_chr (uuid_of_byte 3) 2 (some [sample_dsc (uuid_of_byte 4)]))⟩,
      ⟨6, ble_att_svr_access.dsc (sample_dsc (uuid_of_byte 4))⟩]⟩,
    [⟨0, 1, 1⟩, ⟨1, 2, 6⟩],
    [ble_gatt_register_event.svc 1 0, ble_gatt_register_event.svc 2 1,
      ble_gatt_register_event.chr 4 5
        (sample_chr (uuid_of_byte 3) 2 (some [sample_dsc (uuid_of_byte 4)])),
      ble_gatt_register_event.dsc 6 (sample_dsc (uuid_of_byte 4)) 4
        (sample_chr (uuid_of_byte 3) 2 (some [sample_dsc (uuid_of_byte 4)]))]⟩

/-- The second attribute that a call of the registration callback names: the
characteristic value for a characteristic (with the value handle that the call
passes), the declaration of the owning characteristic for a descriptor (with
the declaration handle that the call passes). -/
def event_attr2 : ble_gatt_register_event → Option ble_att_svr_entry
  | ble_gatt_register_event.svc _ _ => none
  | ble_gatt_register_event.chr _ vh chr => some ⟨vh, ble_att_svr_access.chr_val chr⟩
  | ble_gatt_register_event.dsc _ _ dh chr => some ⟨dh, ble_att_svr_access.chr_def chr⟩

/-! ## Advertising data: parsing (`ble_hs_adv.c`) -/

/-- Modelled from the spec: BadData, `BLE_HS_EBADDATA` of `ble_hs.h` (not part of
the sources). -/
def BLE_HS_EBADDATA : Int := 10

/-- The constants of `ble_hs_adv.h` (not part of the sources) that
`ble_hs_adv.c` uses.  Each is a parameter. -/
structure ble_hs_adv_consts where
  BLE_HS_ADV_TYPE_FLAGS : Nat
  BLE_HS_ADV_TYPE_INCOMP_NAME : Nat
  BLE_HS_ADV_TYPE_COMP_NAME : Nat
  BLE_HS_ADV_FLAGS_LEN : Nat
  deriving DecidableEq, Repr

/-- What the theorems ask of the constants: the three `case` labels of the
`switch` are different values (a `switch` does not compile otherwise), and a
flags field has one byte ("a Flags record must carry exactly one payload
byte"). -/
def adv_consts_ok (k : ble_hs_adv_consts) : Prop :=
  k.BLE_HS_ADV_TYPE_FLAGS ≠ k.BLE_HS_ADV_TYPE_INCOMP_NAME ∧
  k.BLE_HS_ADV_TYPE_FLAGS ≠ k.BLE_HS_ADV_TYPE_COMP_NAME ∧
  k.BLE_HS_ADV_TYPE_INCOMP_NAME ≠ k.BLE_HS_ADV_TYPE_COMP_NAME ∧
  k.BLE_HS_ADV_FLAGS_LEN = 1

/-- The constants with the Bluetooth assigned numbers: flags 0x01, shortened
local name 0x08, complete local name 0x09. -/
def sample_adv_consts : ble_hs_adv_consts :=
  { BLE_HS_ADV_TYPE_FLAGS := 0x01, BLE_HS_ADV_TYPE_INCOMP_NAME := 0x08,
    BLE_HS_ADV_TYPE_COMP_NAME := 0x09, BLE_HS_ADV_FLAGS_LEN := 1 }

/-- The members of `struct ble_hs_adv_fields` (`ble_hs_adv.h`, not part of the
sources) that `ble_hs_adv.c` uses.  The pointer `name` is `none` when it is
`NULL`, and otherwise the offset of the byte it points to in the buffer it
points into; `flags`, `name_len` and `name_is_complete` are bytes. -/
structure ble_hs_adv_fields where
  flags : Nat
  name : Option Nat
  name_len : Nat
  name_is_complete : Nat
  deriving DecidableEq, Repr

/-- The fields after `memset(adv_fields, 0, sizeof *adv_fields)`. -/
def adv_fields_zero : ble_hs_adv_fields :=
  { flags := 0, name := none, name_len := 0, name_is_complete := 0 }

/-- The byte at the index `i` of the buffer `buf`; an index behind the buffer
reads `behind`, the byte that lies behind the buffer in memory. -/
def adv_rd (behind : Nat) (buf : List Nat) (i : Nat) : Nat :=
  buf.getD i behind

/-- `ble_hs_adv_parse_one_field`, called with `src = buf + pos`: the status,
`*total_len` and the fields afterwards.  `total_len` is `*total_len` before the
call; `*total_len` and `data_len` are `uint8_t`.  The `switch` is the chain of
tests of its `case` labels, in their order. -/
def ble_hs_adv_parse_one_field (k : ble_hs_adv_consts) (behind : Nat)
    (adv_fields : ble_hs_adv_fields) (total_len : Nat) (buf : List Nat) (pos src_len : Nat) :
    Int × Nat × ble_hs_adv_fields :=
  if src_len < 1 then (BLE_HS_EMSGSIZE, total_len, adv_fields)
  else
    let total_len1 := (adv_rd behind buf pos + 1) % 256
    if src_len < total_len1 then (BLE_HS_EMSGSIZE, total_len1, adv_fields)
    else
      let type := adv_rd behind buf (pos + 1)
      let data := pos + 2
      let data_len := (total_len1 + 256 - 2) % 256
      if type = k.BLE_HS_ADV_TYPE_FLAGS then
        if data_len ≠ k.BLE_HS_ADV_FLAGS_LEN then (BLE_HS_EBADDATA, total_len1, adv_fields)
        else (0, total_len1, { adv_fields with flags := adv_rd behind buf data })
      else if type = k.BLE_HS_ADV_TYPE_INCOMP_NAME then
        (0, total_len1,
          { adv_fields with name := some data, name_len := data_len, name_is_complete := 0 })
      else if type = k.BLE_HS_ADV_TYPE_COMP_NAME then
        (0, total_len1,
          { adv_fields with name := some data, name_len := data_len, name_is_complete := 1 })
      else (0, total_len1, adv_fields)

/-- The `while (src_len > 0)` loop of `ble_hs_adv_parse_fields` with the
`return 0` after it, where `src = buf + pos`: the status and the fields.  The
first argument bounds the number of iterations; `none` means the bound was
reached.  `src_len` is a `uint8_t`. -/
def ble_hs_adv_parse_fields_loop (k : ble_hs_adv_consts) (behind : Nat) :
    Nat → ble_hs_adv_fields → Nat → List Nat → Nat → Nat → Option (Int × ble_hs_adv_fields)
  | 0, _, _, _, _, _ => none
  | fuel + 1, adv_fields, field_len, buf, pos, src_len =>
    if src_len > 0 then
      match ble_hs_adv_parse_one_field k behind adv_fields field_len buf pos src_len with
      | (rc, field_len1, adv_fields1) =>
        if rc ≠ 0 then some (rc, adv_fields1)
        else ble_hs_adv_parse_fields_loop k behind fuel adv_fields1 field_len1 buf
          (pos + field_len1) ((src_len + 256 - field_len1) % 256)
    else some (0, adv_fields)

/-- `ble_hs_adv_parse_fields` on the `src_len` bytes `src`, run for at most
`fuel` iterations of its loop; `field_len` is what the local variable holds
before it is written. -/
def ble_hs_adv_parse_fields (k : ble_hs_adv_consts) (behind : Nat) (fuel : Nat)
    (field_len : Nat) (src : List Nat) (src_len : Nat) : Option (Int × ble_hs_adv_fields) :=
  ble_hs_adv_parse_fields_loop k behind fuel adv_fields_zero field_len src 0 src_len

/-- `ble_hs_adv_set_fields`: the status, the array `dst` and `*dst_len`
afterwards.  `mem` is the memory that `adv_fields->name` points into. -/
def ble_hs_adv_set_fields (k : ble_hs_adv_consts) (adv_fields : ble_hs_adv_fields)
    (mem : List Nat) (dst : List Nat) (_dst_len max_len : Nat) : Int × List Nat × Nat :=
  match adv_fields.name with
  | none => (0, dst, 0)
  | some off =>
    if adv_fields.name_len > 0 then
      let type :=
        if adv_fields.name_is_complete ≠ 0 then k.BLE_HS_ADV_TYPE_COMP_NAME
        else k.BLE_HS_ADV_TYPE_INCOMP_NAME
      match ble_hs_adv_set_one_field type adv_fields.name_len (mem.drop off) dst 0 max_len with
      | (rc, dst1, dst_len1) =>
        if rc ≠ 0 then (rc, dst1, dst_len1)
        else (0, dst1, dst_len1)
    else (0, dst, 0)

/-- The bytes of one record of advertising data, `[length][type][payload]` with
length = 1 + the payload length; a record is a type with a payload. -/
def adv_record (r : Nat × List Nat) : List Nat :=
  [1 + r.2.length, r.1] ++ r.2

/-- Advertising data: "a flat concatenation of records, no padding". -/
def adv_encode (rs : List (Nat × List Nat)) : List Nat :=
  rs.flatMap adv_record

/-- What the specification says one record that starts at the offset `pos` does
to the parsed fields: a flags record must carry exactly one payload byte (else
`none`, BadData) and sets the flags to it; a name record is captured as a view
on its payload, which starts at `pos + 2`; a record of another type is
skipped. -/
def adv_apply_record (k : ble_hs_adv_consts) (pos : Nat) (adv_fields : ble_hs_adv_fields)
    (r : Nat × List Nat) : Option ble_hs_adv_fields :=
  if r.1 = k.BLE_HS_ADV_TYPE_FLAGS then
    if r.2.length = 1 then some { adv_fields with flags := r.2.getD 0 0 } else none
  else if r.1 = k.BLE_HS_ADV_TYPE_INCOMP_NAME then
    some { adv_fields with name := some (pos + 2), name_len := r.2.length,
                           name_is_complete := 0 }
  else if r.1 = k.BLE_HS_ADV_TYPE_COMP_NAME then
    some { adv_fields with name := some (pos + 2), name_len := r.2.length,
                           name_is_complete := 1 }
  else some adv_fields

/-- What the specification says parsing the records `rs`, the first of which
starts at the offset `pos`, returns: BadData at the first flags record that does
not carry exactly one byte, with the fields as the records before it left them,
and otherwise 0 with the fields as all the records left them. -/
def adv_parse_records (k : ble_hs_adv_consts) :
    Nat → ble_hs_adv_fields → List (Nat × List Nat) → Int × ble_hs_adv_fields
  | _, adv_fields, [] => (0, adv_fields)
  | pos, adv_fields, r :: rest =>
    match adv_apply_record k pos adv_fields r with
    | none => (BLE_HS_EBADDATA, adv_fields)
    | some adv_fields1 => adv_parse_records k (pos + 2 + r.2.length) adv_fields1 rest

instance adv_consts_ok_decidable (k : ble_hs_adv_consts) : Decidable (adv_consts_ok k) := by
  unfold adv_consts_ok
  infer_instance

/-- A sequence of calls of `ble_hs_adv_set_one_field`, one per field (a type with
its payload), that ends at the first call that fails: the last status, the
array `dst` and `*dst_len` afterwards. -/
def adv_append_all (max_len : Nat) :
    List (Nat × List Nat) → List Nat → Nat → Int × List Nat × Nat
  | [], dst, dst_len => (0, dst, dst_len)
  | r :: rest, dst, dst_len =>
    match ble_hs_adv_set_one_field r.1 r.2.length r.2 dst dst_len max_len with
    | (rc, dst1, dst_len1) =>
      if rc ≠ 0 then (rc, dst1, dst_len1)
      else adv_append_all max_len rest dst1 dst_len1

/-- Whether a record is a name record, incomplete or complete. -/
def adv_is_name (k : ble_hs_adv_consts) (r : Nat × List Nat) : Bool :=
  decide (r.1 = k.BLE_HS_ADV_TYPE_INCOMP_NAME ∨ r.1 = k.BLE_HS_ADV_TYPE_COMP_NAME)

/-- Whether a record is a flags record. -/
def adv_is_flags (k : ble_hs_adv_consts) (r : Nat × List Nat) : Bool :=
  decide (r.1 = k.BLE_HS_ADV_TYPE_FLAGS)

/-- The offsets, in the packet data, of the bytes that
`ble_att_clt_parse_attribute_data` reads: `le16toh(om->om_data + 0)` and
`le16toh(om->om_data + 2)`. -/
def ble_att_clt_parse_attribute_data_reads : List Nat := [0, 1, 2, 3]

/-- The packets that the loop of `ble_att_clt_rx_read_group_type_rsp` passes to
`ble_att_clt_parse_attribute_data`, one per iteration, in at most `fuel`
iterations. -/
def ble_att_clt_rx_read_group_type_rsp_packets (bhagp_length : Nat) :
    Nat → List Nat → List (List Nat)
  | 0, _ => []
  | fuel + 1, om =>
    if om.length > 0 then
      if (ble_att_clt_parse_attribute_data om bhagp_length).1 ≠ 0 then [om]
      else om :: ble_att_clt_rx_read_group_type_rsp_packets bhagp_length fuel
        (os_mbuf_adj om bhagp_length)
    else []

/-- A characteristic that can be registered: it is sane, and so is every
descriptor that the descriptor loop visits. -/
def ble_gatts_chr_sound (chr : ble_gatt_chr_def) : Bool :=
  ble_gatts_chr_is_sane chr && (chr_dscs chr).all ble_gatts_dsc_is_sane

/-- A service that can be registered: it is sane, and every characteristic that
the characteristic loop visits can be registered. -/
def ble_gatts_svc_sound (sdef : ble_gatt_svc_def) : Bool :=
  ble_gatts_svc_is_sane sdef && (svc_chrs sdef).all ble_gatts_chr_sound

/-- A step of registration that asks the attribute table for up to `k`
attributes and returns `rc`: the handle allocated last and the number of free
entries move together, and either the status is 0 and `k` attributes were
allocated, or it is `BLE_HS_ENOMEM`, the table is full and fewer than `k`
attributes were allocated. -/
def gatts_alloc_exact (k : Nat) (rc : Int) (st st1 : ble_gatts_state) : Prop :=
  st1.svr.prev_handle + st1.svr.num_free = st.svr.prev_handle + st.svr.num_free ∧
  ((rc = 0 ∧ st1.svr.prev_handle = st.svr.prev_handle + k) ∨
   (rc = BLE_HS_ENOMEM ∧ st1.svr.num_free = 0 ∧
     st1.svr.prev_handle < st.svr.prev_handle + k))

/-- The number of attributes of the service at the pointer `i`: its declaration
and what lies behind it. -/
def svc_need (svcs : List ble_gatt_svc_def) (i : Nat) : Nat :=
  match svcs[i]? with
  | none => 0
  | some sdef => 1 + svc_subtree_size sdef

/-- The number of attributes that the services that are not registered yet
need. -/
def gatts_need (svcs : List ble_gatt_svc_def) (entries : List ble_gatts_svc_entry) : Nat :=
  (entries.map (fun e => if e.handle = 0 then svc_need svcs e.svc else 0)).sum

/-- The number of attributes of all the declared services. -/
def gatts_total_need (svcs : List ble_gatt_svc_def) : Nat :=
  gatts_need svcs (ble_gatts_init_entries (ble_gatts_count_svcs svcs))

/-- The attribute table has room for the services that are not registered
yet, and there is one entry per declared service. -/
def gatts_room (svcs : List ble_gatt_svc_def) (st : ble_gatts_state) : Prop :=
  st.ble_gatts_svc_entries.length = ble_gatts_count_svcs svcs ∧
  gatts_need svcs st.ble_gatts_svc_entries < st.svr.num_free

/-- No service can be registered in the state `st`: every entry that is not
registered belongs to a service with an include that is not registered. -/
def gatts_stuck (svcs : List ble_gatt_svc_def) (st : ble_gatts_state) : Prop :=
  ∀ (j : Nat) (e : ble_gatts_svc_entry) (sdef : ble_gatt_svc_def),
    st.ble_gatts_svc_entries[j]? = some e → e.handle = 0 → svcs[j]? = some sdef →
    ble_gatts_svc_incs_satisfied st.ble_gatts_svc_entries sdef = false

/-- The declared service at the pointer `i` includes the service at the pointer
`p`. -/
def inc_edge (svcs : List ble_gatt_svc_def) (i p : Nat) : Prop :=
  i < ble_gatts_count_svcs svcs ∧
  ∃ sdef : ble_gatt_svc_def, svcs[i]? = some sdef ∧ p ∈ sdef.includes.getD []

/-- The services that can be registered: a declared service all of whose
includes can be registered. -/
inductive gatts_registrable (svcs : List ble_gatt_svc_def) : Nat → Prop
  | intro (i : Nat) (hi : i < ble_gatts_count_svcs svcs)
      (h : ∀ p : Nat, inc_edge svcs i p → gatts_registrable svcs p) : gatts_registrable svcs i

/-- The service at the pointer `i` depends on an undeclared service or on a
cycle: following includes from it, one reaches a service that includes a
service that is not declared, or a service that includes itself, directly or
through other services. -/
def gatts_dep_bad (svcs : List ble_gatt_svc_def) (i : Nat) : Prop :=
  ∃ q : Nat, Relation.ReflTransGen (inc_edge svcs) i q ∧
    ((∃ p : Nat, inc_edge svcs q p ∧ ble_gatts_count_svcs svcs ≤ p) ∨
      Relation.TransGen (inc_edge svcs) q q)

/-- The service `x` is an include of the declared service `y`, and `y` does not
depend on an undeclared service or on a cycle. -/
def gatts_good_edge (svcs : List ble_gatt_svc_def)
    (x y : Fin (ble_gatts_count_svcs svcs)) : Prop :=
  inc_edge svcs y.val x.val ∧ ¬ gatts_dep_bad svcs y.val

/-- Three sample services: the first two include each other, the third one has
no includes. -/
def sample_svcs_cycle : List ble_gatt_svc_def :=
  [sample_svc 1 (some [1]), sample_svc 2 (some [0]), sample_svc 3 none]

/-- An array of 33 sample services without includes, closed by the element of
type `BLE_GATT_SVC_TYPE_END`. -/
def sample_svcs_33 : List ble_gatt_svc_def :=
  List.replicate 33 (sample_svc 1 none) ++
    [{ type := ble_gatt_svc_type.END, uuid128 := none, includes := none,
       characteristics := none }]

/-! # Theorems -/

/-! ## Entry cache -/

theorem scan_none_mem (h : Nat) (l : List ble_att_clt_entry)
    (hs : ble_att_clt_entry_insert_scan h l = none) : ∃ e ∈ l, e.bhac_handle_id = h := by
  induction l with
  | nil => simp [ble_att_clt_entry_insert_scan] at hs
  | cons cur rest ih =>
    unfold ble_att_clt_entry_insert_scan at hs
    by_cases h1 : cur.bhac_handle_id = h
    · exact ⟨cur, List.mem_cons_self _ _, h1⟩
    · by_cases h2 : cur.bhac_handle_id > h
      · simp [h1, h2] at hs
      · simp only [h1, h2, if_false, Option.map_eq_none'] at hs
        obtain ⟨e, he, heq⟩ := ih hs
        exact ⟨e, List.mem_cons_of_mem _ he, heq⟩

theorem scan_mem_none (h : Nat) (l : List ble_att_clt_entry) (hsorted : cache_sorted l)
    (hmem : ∃ e ∈ l, e.bhac_handle_id = h) : ble_att_clt_entry_insert_scan h l = none := by
  induction l with
  | nil => obtain ⟨e, he, _⟩ := hmem; simp at he
  | cons cur rest ih =>
    unfold ble_att_clt_entry_insert_scan
    by_cases h1 : cur.bhac_handle_id = h
    · simp [h1]
    · obtain ⟨e, he, heq⟩ := hmem
      have hp := List.pairwise_cons.mp hsorted
      rcases List.mem_cons.mp he with rfl | her
      · exact absurd heq h1
      · have hlt : cur.bhac_handle_id < h := heq ▸ hp.1 e her
        have h2 : ¬ cur.bhac_handle_id > h := by omega
        simp only [h1, h2, if_false, Option.map_eq_none']
        exact ih hp.2 ⟨e, her, heq⟩

theorem scan_some_spec (h : Nat) (entry : ble_att_clt_entry) (hh : entry.bhac_handle_id = h)
    (l : List ble_att_clt_entry) (hsorted : cache_sorted l) :
    ∀ k, ble_att_clt_entry_insert_scan h l = some k →
      cache_sorted (l.take k ++ entry :: l.drop k) ∧
      (l.take k ++ entry :: l.drop k).Perm (entry :: l) := by
  induction l with
  | nil =>
    intro k _
    simp [cache_sorted]
  | cons cur rest ih =>
    intro k hk
    have hp := List.pairwise_cons.mp hsorted
    unfold ble_att_clt_entry_insert_scan at hk
    by_cases h1 : cur.bhac_handle_id = h
    · simp [h1] at hk
    · by_cases h2 : cur.bhac_handle_id > h
      · simp only [h1, h2, if_false, if_true, Option.some.injEq] at hk
        subst hk
        refine ⟨?_, List.Perm.refl _⟩
        simp only [List.take_zero, List.drop_zero, List.nil_append]
        refine List.pairwise_cons.mpr ⟨?_, hsorted⟩
        intro x hx
        rcases List.mem_cons.mp hx with rfl | hxr
        · omega
        · have := hp.1 x hxr; omega
      · simp only [h1, h2, if_false, Option.map_eq_some'] at hk
        obtain ⟨k1, hk1, rfl⟩ := hk
        obtain ⟨hs1, hperm1⟩ := ih hp.2 k1 hk1
        simp only [List.take_succ_cons, List.drop_succ_cons, List.cons_append]
        refine ⟨List.pairwise_cons.mpr ⟨?_, hs1⟩, ?_⟩
        · intro x hx
          rcases List.mem_cons.mp (hperm1.subset hx) with rfl | hxr
          · omega
          · exact hp.1 x hxr
        · exact (List.Perm.cons cur hperm1).trans (List.Perm.swap entry cur rest)

theorem entry_insert_success (pool : os_mempool) (list : List ble_att_clt_entry)
    (h : Nat) (u : Uuid128) (hsorted : cache_sorted list)
    (hfresh : ∀ e ∈ list, e.bhac_handle_id ≠ h) (hpool : 0 < pool.mp_num_free) :
    (ble_att_clt_entry_insert pool list h u).1 = 0 ∧
    (ble_att_clt_entry_insert pool list h u).2.1 = ⟨pool.mp_num_free - 1⟩ ∧
    cache_sorted (ble_att_clt_entry_insert pool list h u).2.2 ∧
    (ble_att_clt_entry_insert pool list h u).2.2.Perm (⟨h, u⟩ :: list) := by
  have halloc : ble_att_clt_entry_alloc pool = some ⟨pool.mp_num_free - 1⟩ := by
    simp [ble_att_clt_entry_alloc, os_memblock_get]; omega
  cases hscan : ble_att_clt_entry_insert_scan h list with
  | none =>
    obtain ⟨e, he, heq⟩ := scan_none_mem h list hscan
    exact absurd heq (hfresh e he)
  | some k =>
    have hspec := scan_some_spec h ⟨h, u⟩ rfl list hsorted k hscan
    cases k with
    | zero => simpa [ble_att_clt_entry_insert, halloc, hscan] using hspec
    | succ k => simpa [ble_att_clt_entry_insert, halloc, hscan] using hspec

theorem entry_insert_sorted (pool : os_mempool) (list : List ble_att_clt_entry)
    (h : Nat) (u : Uuid128) (hsorted : cache_sorted list) :
    cache_sorted (ble_att_clt_entry_insert pool list h u).2.2 := by
  unfold ble_att_clt_entry_insert
  cases ble_att_clt_entry_alloc pool with
  | none => exact hsorted
  | some pool1 =>
    cases hscan : ble_att_clt_entry_insert_scan h list with
    | none => exact hsorted
    | some k =>
      have hspec := (scan_some_spec h ⟨h, u⟩ rfl list hsorted k hscan).1
      cases k with
      | zero => simpa using hspec
      | succ k => simpa using hspec

theorem entry_insert_seq_sorted (seq : List (Nat × Uuid128)) :
    ∀ (pool : os_mempool) (list : List ble_att_clt_entry), cache_sorted list →
      cache_sorted (entry_insert_seq pool list seq).2 := by
  induction seq with
  | nil => intro pool list hs; exact hs
  | cons p rest ih =>
    intro pool list hs
    obtain ⟨h, u⟩ := p
    exact ih _ _ (entry_insert_sorted pool list h u hs)

theorem entry_insert_seq_perm (seq : List (Nat × Uuid128)) :
    ∀ (pool : os_mempool) (list : List ble_att_clt_entry), cache_sorted list →
      (seq.map Prod.fst).Nodup →
      (∀ p ∈ seq, ∀ e ∈ list, e.bhac_handle_id ≠ p.1) →
      seq.length ≤ pool.mp_num_free →
      (entry_insert_seq pool list seq).2.Perm
        (list ++ seq.map (fun p => (⟨p.1, p.2⟩ : ble_att_clt_entry))) ∧
      (entry_insert_seq pool list seq).1 = ⟨pool.mp_num_free - seq.length⟩ := by
  induction seq with
  | nil => intro pool list _ _ _ _; simp [entry_insert_seq]
  | cons p rest ih =>
    intro pool list hs hnd hfresh hlen
    obtain ⟨h, u⟩ := p
    simp only [List.map_cons, List.nodup_cons, List.length_cons] at hnd hlen
    obtain ⟨_, hpool1, hs1, hperm1⟩ := entry_insert_success pool list h u hs
      (fun e he => hfresh (h, u) (List.mem_cons_self _ _) e he) (by omega)
    have hfresh1 : ∀ p ∈ rest, ∀ e ∈ (ble_att_clt_entry_insert pool list h u).2.2,
        e.bhac_handle_id ≠ p.1 := by
      intro p hp e he
      rcases List.mem_cons.mp (hperm1.subset he) with rfl | hel
      · intro heq
        exact hnd.1 (List.mem_map.mpr ⟨p, hp, heq.symm⟩)
      · exact hfresh p (List.mem_cons_of_mem _ hp) e hel
    have := ih (ble_att_clt_entry_insert pool list h u).2.1
      (ble_att_clt_entry_insert pool list h u).2.2 hs1 hnd.2 hfresh1
      (by rw [hpool1]; simp; omega)
    refine ⟨?_, ?_⟩
    · simp only [entry_insert_seq, List.map_cons]
      refine this.1.trans ?_
      refine (List.Perm.append_right _ hperm1).trans ?_
      simp only [List.cons_append]
      exact List.perm_middle.symm
    · simp only [entry_insert_seq, List.length_cons]
      rw [this.2, hpool1]
      simp; omega

theorem cache_sorted_nodup (l : List ble_att_clt_entry) (hs : cache_sorted l) :
    (l.map (fun e => e.bhac_handle_id)).Nodup := by
  unfold cache_sorted at hs
  rw [List.Nodup, List.pairwise_map]
  exact hs.imp (fun hlt => Nat.ne_of_lt hlt)

theorem find_entry_uuid128_absent (l : List ble_att_clt_entry) (u : Uuid128)
    (habs : ∀ e ∈ l, e.bhac_uuid ≠ u) : ble_att_clt_find_entry_uuid128 l u = 0 := by
  induction l with
  | nil => rfl
  | cons e rest ih =>
    have h1 : e.bhac_uuid ≠ u := habs e (List.mem_cons_self _ _)
    simp only [ble_att_clt_find_entry_uuid128, h1, if_false]
    exact ih (fun x hx => habs x (List.mem_cons_of_mem _ hx))

theorem find_entry_uuid128_present (l : List ble_att_clt_entry) (u : Uuid128)
    (hs : cache_sorted l) (hpres : ∃ e ∈ l, e.bhac_uuid = u) :
    (⟨ble_att_clt_find_entry_uuid128 l u, u⟩ : ble_att_clt_entry) ∈ l ∧
    ∀ e ∈ l, e.bhac_uuid = u → ble_att_clt_find_entry_uuid128 l u ≤ e.bhac_handle_id := by
  induction l with
  | nil => obtain ⟨e, he, _⟩ := hpres; simp at he
  | cons c rest ih =>
    have hp := List.pairwise_cons.mp hs
    by_cases h1 : c.bhac_uuid = u
    · simp only [ble_att_clt_find_entry_uuid128, h1, if_true]
      refine ⟨?_, ?_⟩
      · have : (⟨c.bhac_handle_id, u⟩ : ble_att_clt_entry) = c := by
          cases c; simp_all
        rw [this]; exact List.mem_cons_self _ _
      · intro e he _
        rcases List.mem_cons.mp he with rfl | her
        · exact Nat.le_refl _
        · exact Nat.le_of_lt (hp.1 e her)
    · simp only [ble_att_clt_find_entry_uuid128, h1, if_false]
      obtain ⟨e, he, heq⟩ := hpres
      have her : e ∈ rest := by
        rcases List.mem_cons.mp he with rfl | her
        · exact absurd heq h1
        · exact her
      obtain ⟨hm, hmin⟩ := ih hp.2 ⟨e, her, heq⟩
      refine ⟨List.mem_cons_of_mem _ hm, ?_⟩
      intro x hx hxu
      rcases List.mem_cons.mp hx with rfl | hxr
      · exact absurd hxu h1
      · exact hmin x hxr hxu

/-- C1: inserting a handle that is not yet present into a cache that is strictly
ascending by handle, while a pool block is available, returns 0 and gives a
cache that is again strictly ascending and holds exactly the old entries plus
the new one; any sequence of inserts with distinct handles into an empty cache
gives a strictly ascending, duplicate-free cache. -/
theorem C1_entry_insert_keeps_cache_sorted (pool : os_mempool)
    (list : List ble_att_clt_entry) (h : Nat) (u : Uuid128)
    (pool0 : os_mempool) (seq : List (Nat × Uuid128))
    (hsorted : cache_sorted list)
    (hfresh : ∀ e ∈ list, e.bhac_handle_id ≠ h)
    (hpool : 0 < pool.mp_num_free)
    (hdistinct : (seq.map Prod.fst).Nodup) :
    (ble_att_clt_entry_insert pool list h u).1 = 0 ∧
    cache_sorted (ble_att_clt_entry_insert pool list h u).2.2 ∧
    (ble_att_clt_entry_insert pool list h u).2.2.Perm (⟨h, u⟩ :: list) ∧
    cache_sorted (entry_insert_seq pool0 [] seq).2 ∧
    ((entry_insert_seq pool0 [] seq).2.map (fun e => e.bhac_handle_id)).Nodup ∧
    (seq.length ≤ pool0.mp_num_free →
      (entry_insert_seq pool0 [] seq).2.Perm
        (seq.map (fun p => (⟨p.1, p.2⟩ : ble_att_clt_entry)))) := by
  obtain ⟨hrc, _, hs1, hperm⟩ := entry_insert_success pool list h u hsorted hfresh hpool
  have hseq := entry_insert_seq_sorted seq pool0 [] List.Pairwise.nil
  refine ⟨hrc, hs1, hperm, hseq, cache_sorted_nodup _ hseq, ?_⟩
  intro hlen
  have := (entry_insert_seq_perm seq pool0 [] List.Pairwise.nil hdistinct
    (fun _ _ e he => absurd he (List.not_mem_nil e)) hlen).1
  simpa using this

/-- Handle 3 goes between 1 and 5, and the inserts 5, 1, 3 give the cache 1, 3, 5. -/
theorem C1_entry_insert_keeps_cache_sorted_witness :
    (ble_att_clt_entry_insert ⟨3⟩ [⟨1, uuid_of_byte 1⟩, ⟨5, uuid_of_byte 5⟩] 3
        (uuid_of_byte 3)).2.2
      = [⟨1, uuid_of_byte 1⟩, ⟨3, uuid_of_byte 3⟩, ⟨5, uuid_of_byte 5⟩] ∧
    (entry_insert_seq ⟨8⟩ [] [(5, uuid_of_byte 5), (1, uuid_of_byte 1), (3, uuid_of_byte 3)]).2
      = [⟨1, uuid_of_byte 1⟩, ⟨3, uuid_of_byte 3⟩, ⟨5, uuid_of_byte 5⟩] ∧
    ((ble_att_clt_entry_insert ⟨3⟩ [⟨1, uuid_of_byte 1⟩, ⟨5, uuid_of_byte 5⟩] 3
        (uuid_of_byte 3)).1 = 0 ∧
     cache_sorted (ble_att_clt_entry_insert ⟨3⟩ [⟨1, uuid_of_byte 1⟩, ⟨5, uuid_of_byte 5⟩] 3
        (uuid_of_byte 3)).2.2) :=
  ⟨by decide, by decide,
   let t := C1_entry_insert_keeps_cache_sorted ⟨3⟩
      [⟨1, uuid_of_byte 1⟩, ⟨5, uuid_of_byte 5⟩] 3 (uuid_of_byte 3) ⟨8⟩
      [(5, uuid_of_byte 5), (1, uuid_of_byte 1), (3, uuid_of_byte 3)]
      (by decide) (by decide) (by decide) (by decide)
   ⟨t.1, t.2.1⟩⟩

/-- C2 (counterexample): with no free pool block, inserting a handle that the
cache already holds returns ENOMEM, not EEXIST.  (On a list that is not in
ascending order, which no sequence of inserts builds, the scan can also stop
before it meets the handle: inserting 3 into the list 5, 3 returns 0 and puts a
second entry with handle 3 at the head.) -/
theorem C2_counterexample_pool_exhausted :
    (∃ e ∈ [(⟨5, uuid_of_byte 5⟩ : ble_att_clt_entry)], e.bhac_handle_id = 5) ∧
    (ble_att_clt_entry_insert ⟨0⟩ [⟨5, uuid_of_byte 5⟩] 5 (uuid_of_byte 7)).1 = ENOMEM ∧
    (ble_att_clt_entry_insert ⟨0⟩ [⟨5, uuid_of_byte 5⟩] 5 (uuid_of_byte 7)).1 ≠ EEXIST ∧
    ble_att_clt_entry_insert ⟨1⟩ [⟨5, uuid_of_byte 5⟩, ⟨3, uuid_of_byte 3⟩] 3 (uuid_of_byte 7)
      = (0, ⟨0⟩, [⟨3, uuid_of_byte 7⟩, ⟨5, uuid_of_byte 5⟩, ⟨3, uuid_of_byte 3⟩]) := by
  decide

/-- C2 (amended): for every cache, strictly ascending by handle, that already
holds an entry with handle h, and every UUID u, when a pool block is available
ble_att_clt_entry_insert returns EEXIST and leaves the list of entries exactly
as it was. -/
theorem C2_entry_insert_duplicate (pool : os_mempool) (list : List ble_att_clt_entry)
    (h : Nat) (u : Uuid128)
    (hsorted : cache_sorted list)
    (hdup : ∃ e ∈ list, e.bhac_handle_id = h)
    (hpool : 0 < pool.mp_num_free) :
    (ble_att_clt_entry_insert pool list h u).1 = EEXIST ∧
    (ble_att_clt_entry_insert pool list h u).2.2 = list := by
  have halloc : ble_att_clt_entry_alloc pool = some ⟨pool.mp_num_free - 1⟩ := by
    simp [ble_att_clt_entry_alloc, os_memblock_get]; omega
  simp [ble_att_clt_entry_insert, halloc, scan_mem_none h list hsorted hdup]

/-- Inserting handle 5 again, with two free blocks, returns EEXIST and keeps the list. -/
theorem C2_entry_insert_duplicate_witness :
    (ble_att_clt_entry_insert ⟨2⟩ [⟨1, uuid_of_byte 1⟩, ⟨5, uuid_of_byte 5⟩] 5
        (uuid_of_byte 7)).1 = EEXIST ∧
    (ble_att_clt_entry_insert ⟨2⟩ [⟨1, uuid_of_byte 1⟩, ⟨5, uuid_of_byte 5⟩] 5
        (uuid_of_byte 7)).2.2 = [⟨1, uuid_of_byte 1⟩, ⟨5, uuid_of_byte 5⟩] :=
  C2_entry_insert_duplicate ⟨2⟩ [⟨1, uuid_of_byte 1⟩, ⟨5, uuid_of_byte 5⟩] 5 (uuid_of_byte 7)
    (by decide) (by decide) (by decide)

/-- C3: when the entry pool has no free block, ble_att_clt_entry_insert returns
ENOMEM for every handle and UUID, and leaves the pool and the connection's cache
unchanged. -/
theorem C3_entry_insert_pool_exhausted (pool : os_mempool) (list : List ble_att_clt_entry)
    (h : Nat) (u : Uuid128) (hpool : pool.mp_num_free = 0) :
    ble_att_clt_entry_insert pool list h u = (ENOMEM, pool, list) := by
  simp [ble_att_clt_entry_insert, ble_att_clt_entry_alloc, os_memblock_get, hpool]

/-- An insert with an empty pool returns ENOMEM and changes nothing. -/
theorem C3_entry_insert_pool_exhausted_witness :
    ble_att_clt_entry_insert ⟨0⟩ [⟨1, uuid_of_byte 1⟩] 4 (uuid_of_byte 4)
      = (ENOMEM, ⟨0⟩, [⟨1, uuid_of_byte 1⟩]) :=
  C3_entry_insert_pool_exhausted ⟨0⟩ [⟨1, uuid_of_byte 1⟩] 4 (uuid_of_byte 4) rfl

/-- C4: in a cache built by inserts with distinct handles (each of which found a
pool block), ble_att_clt_find_entry_uuid128 u returns a handle under which u was
inserted, the lowest one; it returns 0 when no entry has UUID u; and
ble_att_clt_find_entry_uuid16 x returns what the 128-bit lookup of the
expansion of x returns (0 when x has no expansion). -/
theorem C4_find_entry_by_uuid (pool : os_mempool) (seq : List (Nat × Uuid128))
    (from16 : Nat → Option Uuid128)
    (hdistinct : (seq.map Prod.fst).Nodup)
    (hpool : seq.length ≤ pool.mp_num_free) :
    (∀ u, (∃ h, (h, u) ∈ seq) →
      (ble_att_clt_find_entry_uuid128 (entry_insert_seq pool [] seq).2 u, u) ∈ seq ∧
      ∀ h, (h, u) ∈ seq →
        ble_att_clt_find_entry_uuid128 (entry_insert_seq pool [] seq).2 u ≤ h) ∧
    (∀ u, (∀ h, (h, u) ∉ seq) →
      ble_att_clt_find_entry_uuid128 (entry_insert_seq pool [] seq).2 u = 0) ∧
    (∀ x u, from16 x = some u →
      ble_att_clt_find_entry_uuid16 from16 (entry_insert_seq pool [] seq).2 x
        = ble_att_clt_find_entry_uuid128 (entry_insert_seq pool [] seq).2 u) ∧
    (∀ x, from16 x = none →
      ble_att_clt_find_entry_uuid16 from16 (entry_insert_seq pool [] seq).2 x = 0) := by
  have hsorted := entry_insert_seq_sorted seq pool [] List.Pairwise.nil
  have hperm : (entry_insert_seq pool [] seq).2.Perm
      (seq.map (fun p => (⟨p.1, p.2⟩ : ble_att_clt_entry))) := by
    simpa using (entry_insert_seq_perm seq pool [] List.Pairwise.nil hdistinct
      (fun _ _ e he => absurd he (List.not_mem_nil e)) hpool).1
  have hmem : ∀ h u, (⟨h, u⟩ : ble_att_clt_entry) ∈ (entry_insert_seq pool [] seq).2 ↔
      (h, u) ∈ seq := by
    intro h u
    rw [hperm.mem_iff, List.mem_map]
    constructor
    · rintro ⟨⟨h1, u1⟩, hp, heq⟩
      simp only [ble_att_clt_entry.mk.injEq] at heq
      obtain ⟨rfl, rfl⟩ := heq
      exact hp
    · intro hp
      exact ⟨(h, u), hp, rfl⟩
  refine ⟨?_, ?_, ?_, ?_⟩
  · rintro u ⟨h, hin⟩
    obtain ⟨hm, hmin⟩ := find_entry_uuid128_present _ u hsorted
      ⟨⟨h, u⟩, (hmem h u).mpr hin, rfl⟩
    refine ⟨(hmem _ u).mp hm, ?_⟩
    intro h1 hin1
    exact hmin ⟨h1, u⟩ ((hmem h1 u).mpr hin1) rfl
  · intro u habs
    apply find_entry_uuid128_absent
    rintro ⟨h1, u1⟩ he heq
    simp only at heq
    subst heq
    exact habs h1 ((hmem h1 u1).mp he)
  · intro x u hx
    simp [ble_att_clt_find_entry_uuid16, hx]
  · intro x hx
    simp [ble_att_clt_find_entry_uuid16, hx]

/-- A UUID stored under the handles 9 and 4 is found under a handle that is at most 4. -/
theorem C4_find_entry_by_uuid_witness :
    ble_att_clt_find_entry_uuid128
      (entry_insert_seq ⟨4⟩ [] [(9, uuid_of_byte 2), (4, uuid_of_byte 2), (6, uuid_of_byte 1)]).2
      (uuid_of_byte 2) ≤ 4 :=
  (C4_find_entry_by_uuid ⟨4⟩ [(9, uuid_of_byte 2), (4, uuid_of_byte 2), (6, uuid_of_byte 1)]
    (fun _ => none) (by decide) (by decide)).1 (uuid_of_byte 2)
    ⟨4, by decide⟩ |>.2 4 (by decide)

/-! ## Request operations -/

/-- C5: each request operation rejects a violated precondition with EINVAL and
an empty event log: no buffer is acquired, nothing is written and nothing is
handed to the transport. -/
theorem C5_requests_reject_bad_arguments (env : ble_att_clt_tx_env)
    (mtu : ble_att_mtu_cmd) (fi : ble_att_find_info_req) (rd : ble_att_read_req)
    (rg : ble_att_read_group_type_req) (uuid128 : Uuid128)
    (hmtu : mtu.bhamc_mtu < env.BLE_ATT_MTU_DFLT)
    (hfi : fi.bhafq_start_handle = 0 ∨ fi.bhafq_start_handle > fi.bhafq_end_handle)
    (hrd : rd.bharq_handle = 0)
    (hrg : rg.bhagq_start_handle = 0 ∨ rg.bhagq_start_handle > rg.bhagq_end_handle) :
    ble_att_clt_tx_mtu env mtu = (EINVAL, []) ∧
    ble_att_clt_tx_find_info env fi = (EINVAL, []) ∧
    ble_att_clt_tx_read env rd = (EINVAL, []) ∧
    ble_att_clt_tx_read_group_type env rg uuid128 = (EINVAL, []) := by
  refine ⟨?_, ?_, ?_, ?_⟩
  · simp [ble_att_clt_tx_mtu, hmtu, os_mbuf_free_chain]
  · simp only [ble_att_clt_tx_find_info, hfi, if_true, os_mbuf_free_chain]
  · simp [ble_att_clt_tx_read, hrd, os_mbuf_free_chain]
  · simp only [ble_att_clt_tx_read_group_type, hrg, if_true, os_mbuf_free_chain]

/-- An MTU of 22, a start handle 0, a read of handle 0 and a range 9..3 are all refused. -/
theorem C5_requests_reject_bad_arguments_witness :
    ble_att_clt_tx_mtu sample_tx_env ⟨22⟩ = (EINVAL, []) ∧
    ble_att_clt_tx_find_info sample_tx_env ⟨0, 7⟩ = (EINVAL, []) ∧
    ble_att_clt_tx_read sample_tx_env ⟨0⟩ = (EINVAL, []) ∧
    ble_att_clt_tx_read_group_type sample_tx_env ⟨9, 3⟩ (uuid_of_byte 1) = (EINVAL, []) :=
  C5_requests_reject_bad_arguments sample_tx_env ⟨22⟩ ⟨0, 7⟩ ⟨0⟩ ⟨9, 3⟩ (uuid_of_byte 1)
    (by decide) (by decide) (by decide) (by decide)

/-- C6: for each of the four request operations and every outcome of buffer
acquisition, buffer extension, encoding, UUID append and transmit, a buffer
that was acquired is disposed of exactly once, by the hand-over to the
transport or by a free before the error is returned, never both and never
neither; nothing is freed or handed over when no buffer was acquired. -/
theorem C6_buffer_disposed_exactly_once (env : ble_att_clt_tx_env)
    (mtu : ble_att_mtu_cmd) (fi : ble_att_find_info_req) (rd : ble_att_read_req)
    (rg : ble_att_read_group_type_req) (uuid128 : Uuid128) :
    (disposed_exactly_once (ble_att_clt_tx_mtu env mtu).2 ∧
      status_agrees_with_log (ble_att_clt_tx_mtu env mtu)) ∧
    (disposed_exactly_once (ble_att_clt_tx_find_info env fi).2 ∧
      status_agrees_with_log (ble_att_clt_tx_find_info env fi)) ∧
    (disposed_exactly_once (ble_att_clt_tx_read env rd).2 ∧
      status_agrees_with_log (ble_att_clt_tx_read env rd)) ∧
    (disposed_exactly_once (ble_att_clt_tx_read_group_type env rg uuid128).2 ∧
      status_agrees_with_log (ble_att_clt_tx_read_group_type env rg uuid128)) := by
  refine ⟨?_, ?_, ?_, ?_⟩
  · unfold ble_att_clt_tx_mtu ble_att_clt_prep_req
    split_ifs <;>
      simp [disposed_exactly_once, status_agrees_with_log, os_mbuf_free_chain, ENOMEM, EINVAL]
    split_ifs <;> simp_all
  · unfold ble_att_clt_tx_find_info ble_att_clt_prep_req
    split_ifs <;>
      simp [disposed_exactly_once, status_agrees_with_log, os_mbuf_free_chain, ENOMEM, EINVAL]
    split_ifs <;> simp_all
  · unfold ble_att_clt_tx_read ble_att_clt_prep_req
    split_ifs <;>
      simp [disposed_exactly_once, status_agrees_with_log, os_mbuf_free_chain, ENOMEM, EINVAL]
    split_ifs <;> simp_all
  · unfold ble_att_clt_tx_read_group_type ble_att_clt_prep_req
    split_ifs <;>
      simp [disposed_exactly_once, status_agrees_with_log, os_mbuf_free_chain, ENOMEM, EINVAL]
    split_ifs <;> simp_all

/-! ## Find-Information response -/

theorem copydata_of_drop (om : List Nat) (off : Nat) (a rest : List Nat)
    (hd : om.drop off = a ++ rest) (hpos : 0 < a.length) :
    os_mbuf_copydata om off a.length = some a := by
  have hlen : (om.drop off).length = a.length + rest.length := by rw [hd]; simp
  rw [List.length_drop] at hlen
  have hle : off + a.length ≤ om.length := by omega
  simp [os_mbuf_copydata, hle, hd]

theorem drop_of_drop (om : List Nat) (off : Nat) (a rest : List Nat)
    (hd : om.drop off = a ++ rest) : om.drop (off + a.length) = rest := by
  have : om.drop (off + a.length) = (om.drop off).drop a.length := by
    rw [List.drop_drop]
  rw [this, hd]; simp

theorem lt_length_of_drop (om : List Nat) (off : Nat) (a rest : List Nat)
    (hd : om.drop off = a ++ rest) (hpos : 0 < a.length) : off < om.length := by
  have hlen : (om.drop off).length = a.length + rest.length := by rw [hd]; simp
  rw [List.length_drop] at hlen
  omega

theorem rx_find_info_loop_step (env : ble_att_clt_rx_env) (om : List Nat) (format : Nat)
    (fuel off handle_id : Nat) (pool : os_mempool) (list : List ble_att_clt_entry)
    (hb ub rest : List Nat) (u : Uuid128)
    (hd : om.drop off = hb ++ ub ++ rest) (hhb : hb.length = 2)
    (hu : find_info_elem_uuid env format ub = some u) :
    ble_att_clt_rx_find_info_loop env om format (fuel + 1) off handle_id pool list =
      if (ble_att_clt_entry_insert pool list (le16toh hb) u).1 ≠ 0 then
        some { rc := (ble_att_clt_entry_insert pool list (le16toh hb) u).1,
               pool := (ble_att_clt_entry_insert pool list (le16toh hb) u).2.1,
               list := (ble_att_clt_entry_insert pool list (le16toh hb) u).2.2,
               gatt_calls := [] }
      else
        ble_att_clt_rx_find_info_loop env om format fuel (off + 2 + ub.length)
          (le16toh hb) (ble_att_clt_entry_insert pool list (le16toh hb) u).2.1
          (ble_att_clt_entry_insert pool list (le16toh hb) u).2.2 := by
  have hd1 : om.drop off = hb ++ (ub ++ rest) := by rw [hd, List.append_assoc]
  have hlt : off < om.length := lt_length_of_drop om off hb _ hd1 (by omega)
  have hc1 : os_mbuf_copydata om off 2 = some hb := by
    have := copydata_of_drop om off hb _ hd1 (by omega)
    rwa [hhb] at this
  have hd2 : om.drop (off + 2) = ub ++ rest := by
    have := drop_of_drop om off hb _ hd1
    rwa [hhb] at this
  unfold find_info_elem_uuid at hu
  rw [ble_att_clt_rx_find_info_loop]
  by_cases h16 : format = env.BLE_ATT_FIND_INFO_RSP_FORMAT_16BIT
  · simp only [h16, if_true] at hu
    by_cases hl : ub.length = 2
    · simp only [hl, if_true] at hu
      have hc2 : os_mbuf_copydata om (off + 2) 2 = some ub := by
        have := copydata_of_drop om (off + 2) ub rest hd2 (by omega)
        rwa [hl] at this
      simp only [hlt, if_true, hc1, h16, hc2, hu, hl]
    · simp [hl] at hu
  · simp only [h16, if_false] at hu
    by_cases h128 : format = env.BLE_ATT_FIND_INFO_RSP_FORMAT_128BIT
    · simp only [h128, if_true] at hu
      by_cases hl : ub.length = 16
      · simp only [hl, if_true, Option.some.injEq] at hu
        have hc2 : os_mbuf_copydata om (off + 2) 16 = some ub := by
          have := copydata_of_drop om (off + 2) ub rest hd2 (by omega)
          rwa [hl] at this
        have h16a : ¬ env.BLE_ATT_FIND_INFO_RSP_FORMAT_128BIT =
            env.BLE_ATT_FIND_INFO_RSP_FORMAT_16BIT := h128 ▸ h16
        simp only [hlt, if_true, hc1, h128, h16a, if_false, hc2, hu, hl]
      · simp [hl] at hu
    · simp [h128] at hu

theorem rx_find_info_loop_elems (env : ble_att_clt_rx_env) (om : List Nat) (format : Nat) :
    ∀ (elems : List (List Nat × List Nat × Uuid128)) (fuel off handle_id : Nat)
      (pool : os_mempool) (list : List ble_att_clt_entry) (tail : List Nat),
      om.drop off = find_info_elems_bytes elems ++ tail →
      (∀ e ∈ elems, e.1.length = 2 ∧ find_info_elem_uuid env format e.2.1 = some e.2.2) →
      cache_sorted list →
      ((find_info_elems_pairs elems).map Prod.fst).Nodup →
      (∀ p ∈ find_info_elems_pairs elems, ∀ c ∈ list, c.bhac_handle_id ≠ p.1) →
      elems.length ≤ pool.mp_num_free →
      ble_att_clt_rx_find_info_loop env om format (fuel + elems.length) off handle_id pool list =
        ble_att_clt_rx_find_info_loop env om format fuel
          (off + (find_info_elems_bytes elems).length)
          (find_info_last_handle handle_id elems)
          (entry_insert_seq pool list (find_info_elems_pairs elems)).1
          (entry_insert_seq pool list (find_info_elems_pairs elems)).2 := by
  intro elems
  induction elems with
  | nil =>
    intro fuel off handle_id pool list tail _ _ _ _ _ _
    simp [find_info_elems_bytes, find_info_last_handle, find_info_elems_pairs, entry_insert_seq]
  | cons e rest ih =>
    intro fuel off handle_id pool list tail hd hwf hsorted hnd hfresh hlen
    obtain ⟨hb, ub, u⟩ := e
    have hwf0 := hwf (hb, ub, u) (List.mem_cons_self _ _)
    simp only at hwf0
    simp only [find_info_elems_pairs, List.map_cons, List.nodup_cons, List.length_cons,
      List.map_map] at hnd hlen hfresh
    have hd0 : om.drop off = hb ++ ub ++ (find_info_elems_bytes rest ++ tail) := by
      rw [hd]; simp [find_info_elems_bytes]
    obtain ⟨hrc, hpool1, hs1, hperm1⟩ := entry_insert_success pool list (le16toh hb) u hsorted
      (fun c hc => hfresh (le16toh hb, u) (List.mem_cons_self _ _) c hc) (by omega)
    have hstep := rx_find_info_loop_step env om format (fuel + rest.length) off handle_id
      pool list hb ub _ u hd0 hwf0.1 hwf0.2
    simp only [hrc, ne_eq, not_true_eq_false, if_false] at hstep
    have hd1 : om.drop (off + 2 + ub.length) = find_info_elems_bytes rest ++ tail := by
      have := drop_of_drop om off (hb ++ ub) _ hd0
      rw [List.length_append, hwf0.1] at this
      rw [Nat.add_assoc]; exact this
    have hfresh1 : ∀ p ∈ find_info_elems_pairs rest,
        ∀ c ∈ (ble_att_clt_entry_insert pool list (le16toh hb) u).2.2,
        c.bhac_handle_id ≠ p.1 := by
      intro p hp c hc
      rcases List.mem_cons.mp (hperm1.subset hc) with rfl | hcl
      · intro heq
        apply hnd.1
        simp only [find_info_elems_pairs, List.mem_map] at hp ⊢
        obtain ⟨e1, he1, rfl⟩ := hp
        exact ⟨e1, he1, heq.symm⟩
      · exact hfresh p (List.mem_cons_of_mem _ hp) c hcl
    have hnd1 : ((find_info_elems_pairs rest).map Prod.fst).Nodup := by
      simpa [find_info_elems_pairs, List.map_map] using hnd.2
    have hih := ih fuel (off + 2 + ub.length) (le16toh hb)
      (ble_att_clt_entry_insert pool list (le16toh hb) u).2.1
      (ble_att_clt_entry_insert pool list (le16toh hb) u).2.2 tail hd1
      (fun e he => hwf e (List.mem_cons_of_mem _ he)) hs1 hnd1 hfresh1
      (by rw [hpool1]; simp; omega)
    have hlen2 : off + (find_info_elems_bytes ((hb, ub, u) :: rest)).length =
        off + 2 + ub.length + (find_info_elems_bytes rest).length := by
      simp [find_info_elems_bytes, hwf0.1]; omega
    rw [hlen2]
    show ble_att_clt_rx_find_info_loop env om format (fuel + rest.length + 1) off handle_id
      pool list = _
    rw [hstep, hih]
    rfl

theorem rx_find_info_loop_end (env : ble_att_clt_rx_env) (om : List Nat) (format : Nat)
    (fuel off handle_id : Nat) (pool : os_mempool) (list : List ble_att_clt_entry)
    (hoff : om.length ≤ off) :
    ble_att_clt_rx_find_info_loop env om format (fuel + 1) off handle_id pool list =
      some (rx_find_info_done 0 handle_id pool list) := by
  rw [ble_att_clt_rx_find_info_loop]
  have : ¬ off < om.length := by omega
  simp only [this, if_false]

theorem rx_find_info_loop_short_handle (env : ble_att_clt_rx_env) (om : List Nat)
    (format : Nat) (fuel off handle_id : Nat) (pool : os_mempool)
    (list : List ble_att_clt_entry) (hlen : om.length = off + 1) :
    ble_att_clt_rx_find_info_loop env om format (fuel + 1) off handle_id pool list =
      some (rx_find_info_done EINVAL
        (env.handle_id_after_short_copy handle_id (om.drop off)) pool list) := by
  rw [ble_att_clt_rx_find_info_loop]
  have h1 : off < om.length := by omega
  have h2 : os_mbuf_copydata om off 2 = none := by
    simp [os_mbuf_copydata]; omega
  simp only [h1, if_true, h2]

theorem rx_find_info_loop_short_uuid (env : ble_att_clt_rx_env) (om : List Nat)
    (format : Nat) (fuel off handle_id w : Nat) (pool : os_mempool)
    (list : List ble_att_clt_entry)
    (hw : find_info_uuid_width env format = some w)
    (hlo : off + 2 ≤ om.length) (hhi : om.length < off + 2 + w) :
    ble_att_clt_rx_find_info_loop env om format (fuel + 1) off handle_id pool list =
      some (rx_find_info_done EINVAL (le16toh ((om.drop off).take 2)) pool list) := by
  rw [ble_att_clt_rx_find_info_loop]
  have h1 : off < om.length := by omega
  have h2 : os_mbuf_copydata om off 2 = some ((om.drop off).take 2) := by
    simp [os_mbuf_copydata, hlo]
  unfold find_info_uuid_width at hw
  by_cases h16 : format = env.BLE_ATT_FIND_INFO_RSP_FORMAT_16BIT
  · simp only [h16, if_true, Option.some.injEq] at hw
    have h3 : os_mbuf_copydata om (off + 2) 2 = none := by
      simp [os_mbuf_copydata]; omega
    simp only [h1, if_true, h2, h16, h3]
  · simp only [h16, if_false] at hw
    by_cases h128 : format = env.BLE_ATT_FIND_INFO_RSP_FORMAT_128BIT
    · simp only [h128, if_true, Option.some.injEq] at hw
      have h16a : ¬ env.BLE_ATT_FIND_INFO_RSP_FORMAT_128BIT =
          env.BLE_ATT_FIND_INFO_RSP_FORMAT_16BIT := h128 ▸ h16
      have h3 : os_mbuf_copydata om (off + 2) 16 = none := by
        simp [os_mbuf_copydata]; omega
      simp only [h1, if_true, h2, h128, h16a, if_false, h3]
    · simp [h128] at hw

theorem find_info_elems_bytes_length (elems : List (List Nat × List Nat × Uuid128))
    (hwf : ∀ e ∈ elems, e.1.length = 2) :
    elems.length ≤ (find_info_elems_bytes elems).length := by
  induction elems with
  | nil => simp
  | cons e rest ih =>
    obtain ⟨hb, ub, u⟩ := e
    have h0 := hwf (hb, ub, u) (List.mem_cons_self _ _)
    have h1 := ih (fun e he => hwf e (List.mem_cons_of_mem _ he))
    simp only at h0
    simp only [find_info_elems_bytes, List.length_cons, List.length_append]
    omega

theorem rx_find_info_run (env : ble_att_clt_rx_env) (pool : os_mempool)
    (list : List ble_att_clt_entry) (hdr : List Nat)
    (elems : List (List Nat × List Nat × Uuid128)) (tail : List Nat) (format : Nat)
    (hparse : env.ble_att_find_info_rsp_parse (hdr ++ find_info_elems_bytes elems ++ tail)
      = (0, format))
    (hhdr : hdr.length = env.BLE_ATT_FIND_INFO_RSP_MIN_SZ)
    (hwf : ∀ e ∈ elems, e.1.length = 2 ∧ find_info_elem_uuid env format e.2.1 = some e.2.2)
    (hdistinct : ((find_info_elems_pairs elems).map Prod.fst).Nodup)
    (hfresh : ∀ p ∈ find_info_elems_pairs elems, ∀ c ∈ list, c.bhac_handle_id ≠ p.1)
    (hsorted : cache_sorted list)
    (hpool : elems.length ≤ pool.mp_num_free) :
    ble_att_clt_rx_find_info env pool list (hdr ++ find_info_elems_bytes elems ++ tail) =
      ble_att_clt_rx_find_info_loop env (hdr ++ find_info_elems_bytes elems ++ tail) format
        ((hdr ++ find_info_elems_bytes elems ++ tail).length - elems.length + 1)
        (hdr.length + (find_info_elems_bytes elems).length)
        (find_info_last_handle 0 elems)
        (entry_insert_seq pool list (find_info_elems_pairs elems)).1
        (entry_insert_seq pool list (find_info_elems_pairs elems)).2 := by
  have hlen := find_info_elems_bytes_length elems (fun e he => (hwf e he).1)
  have hd : (hdr ++ find_info_elems_bytes elems ++ tail).drop hdr.length =
      find_info_elems_bytes elems ++ tail := by
    rw [List.append_assoc, List.drop_left]
  have hfuel : (hdr ++ find_info_elems_bytes elems ++ tail).length + 1 =
      ((hdr ++ find_info_elems_bytes elems ++ tail).length - elems.length + 1)
        + elems.length := by
    simp only [List.length_append]; omega
  unfold ble_att_clt_rx_find_info
  simp only [hparse, ne_eq, not_true_eq_false, if_false]
  rw [hfuel, ← hhdr]
  exact rx_find_info_loop_elems env _ format elems _ hdr.length 0 pool list tail hd hwf
    hsorted hdistinct hfresh hpool

/-- C7: a Find-Information response with the 16-bit format that carries N
elements with pairwise distinct handles that are not yet in the (strictly
ascending) cache, each with a UUID16 that expands, is handled with status 0
when N pool blocks are free: the cache gains exactly the N entries, one per
element with the expanded UUID, and is strictly ascending by handle afterwards
whatever the order of the elements. -/
theorem C7_rx_find_info_inserts_all (env : ble_att_clt_rx_env) (pool : os_mempool)
    (list : List ble_att_clt_entry) (hdr : List Nat)
    (elems : List (List Nat × List Nat × Uuid128))
    (hparse : env.ble_att_find_info_rsp_parse (hdr ++ find_info_elems_bytes elems)
      = (0, env.BLE_ATT_FIND_INFO_RSP_FORMAT_16BIT))
    (hhdr : hdr.length = env.BLE_ATT_FIND_INFO_RSP_MIN_SZ)
    (hwf : ∀ e ∈ elems, e.1.length = 2 ∧ e.2.1.length = 2 ∧
      env.ble_hs_uuid_from_16bit (le16toh e.2.1) = some e.2.2)
    (hdistinct : ((find_info_elems_pairs elems).map Prod.fst).Nodup)
    (hfresh : ∀ p ∈ find_info_elems_pairs elems, ∀ c ∈ list, c.bhac_handle_id ≠ p.1)
    (hsorted : cache_sorted list)
    (hpool : elems.length ≤ pool.mp_num_free) :
    ∃ r, ble_att_clt_rx_find_info env pool list (hdr ++ find_info_elems_bytes elems) = some r ∧
      r.rc = 0 ∧
      r.list.length = list.length + elems.length ∧
      r.list.Perm (list ++ (find_info_elems_pairs elems).map
        (fun p => (⟨p.1, p.2⟩ : ble_att_clt_entry))) ∧
      cache_sorted r.list ∧
      r.pool = ⟨pool.mp_num_free - elems.length⟩ ∧
      r.gatt_calls = [(0, find_info_last_handle 0 elems)] := by
  have hwf1 : ∀ e ∈ elems, e.1.length = 2 ∧
      find_info_elem_uuid env env.BLE_ATT_FIND_INFO_RSP_FORMAT_16BIT e.2.1 = some e.2.2 := by
    intro e he
    obtain ⟨h1, h2, h3⟩ := hwf e he
    exact ⟨h1, by simp [find_info_elem_uuid, h2, h3]⟩
  have hrun := rx_find_info_run env pool list hdr elems [] _
    (by simpa using hparse) hhdr hwf1 hdistinct hfresh hsorted hpool
  simp only [List.append_nil] at hrun
  rw [rx_find_info_loop_end env _ _ _ _ _ _ _ (by simp)] at hrun
  obtain ⟨hperm, hp⟩ := entry_insert_seq_perm (find_info_elems_pairs elems) pool list hsorted
    hdistinct hfresh (by simpa [find_info_elems_pairs] using hpool)
  refine ⟨_, hrun, rfl, ?_, hperm, ?_, ?_, ?_⟩
  · simpa [find_info_elems_pairs] using hperm.length_eq
  · exact entry_insert_seq_sorted _ pool list hsorted
  · simpa [rx_find_info_done, find_info_elems_pairs] using hp
  · simp [rx_find_info_done]

/-- A response with the elements (7, 0x1800) and (3, 0x1801) adds two entries to
the cache that holds handle 5. -/
theorem C7_rx_find_info_inserts_all_witness :
    ∃ r, ble_att_clt_rx_find_info sample_rx_env ⟨4⟩ [⟨5, uuid_of_byte 5⟩]
        ([5, 1] ++ find_info_elems_bytes
          [([7, 0], [0x00, 0x18], (sample_uuid_from_16bit 0x1800).get (by decide)),
           ([3, 0], [0x01, 0x18], (sample_uuid_from_16bit 0x1801).get (by decide))]) = some r ∧
      r.rc = 0 ∧ r.list.length = 1 + 2 ∧ cache_sorted r.list := by
  obtain ⟨r, h1, h2, h3, _, h5, _⟩ := C7_rx_find_info_inserts_all sample_rx_env ⟨4⟩
    [⟨5, uuid_of_byte 5⟩] [5, 1]
    [([7, 0], [0x00, 0x18], (sample_uuid_from_16bit 0x1800).get (by decide)),
     ([3, 0], [0x01, 0x18], (sample_uuid_from_16bit 0x1801).get (by decide))]
    (by decide) (by decide) (by decide) (by decide) (by decide) (by decide) (by decide)
  exact ⟨r, h1, h2, h3, h5⟩

/-- C8 (counterexample): a 16-bit response whose first element (handle 7) is
complete and whose final element has its handle (3) but only one byte of its
UUID.  Only the entry with handle 7 is inserted, and the handle reported to
the completion callback is 3, the handle of the truncated element. -/
theorem C8_counterexample_truncated_uuid :
    ble_att_clt_rx_find_info sample_rx_env ⟨4⟩ [] [5, 1, 7, 0, 0x00, 0x18, 3, 0, 0x01]
      = some ⟨EINVAL, ⟨3⟩, [⟨7, (sample_uuid_from_16bit 0x1800).get (by decide)⟩],
          [(-EINVAL, 3)]⟩ ∧ (3 : Nat) ≠ 7 := by
  decide

/-- C8 (amended): for a Find-Information response with a known format whose
complete elements all insert (pairwise distinct handles not yet cached, pool
blocks available) and whose final element is truncated, the handler stops with
EINVAL, keeps the entries inserted from the complete elements, and calls the
completion callback once with the negated status and with: the handle of the
truncated element itself when its two handle bytes are present, and what the
failed copy leaves in handle_id (starting from the handle of the last complete
element, or 0) when the handle is cut short. -/
theorem C8_rx_find_info_truncated (env : ble_att_clt_rx_env) (pool : os_mempool)
    (list : List ble_att_clt_entry) (hdr : List Nat)
    (elems : List (List Nat × List Nat × Uuid128)) (tail : List Nat) (format w : Nat)
    (hparse : env.ble_att_find_info_rsp_parse (hdr ++ find_info_elems_bytes elems ++ tail)
      = (0, format))
    (hhdr : hdr.length = env.BLE_ATT_FIND_INFO_RSP_MIN_SZ)
    (hw : find_info_uuid_width env format = some w)
    (hwf : ∀ e ∈ elems, e.1.length = 2 ∧ find_info_elem_uuid env format e.2.1 = some e.2.2)
    (hdistinct : ((find_info_elems_pairs elems).map Prod.fst).Nodup)
    (hfresh : ∀ p ∈ find_info_elems_pairs elems, ∀ c ∈ list, c.bhac_handle_id ≠ p.1)
    (hsorted : cache_sorted list)
    (hpool : elems.length ≤ pool.mp_num_free)
    (htail : 0 < tail.length ∧ tail.length < 2 + w) :
    ∃ r, ble_att_clt_rx_find_info env pool list (hdr ++ find_info_elems_bytes elems ++ tail)
        = some r ∧
      r.rc = EINVAL ∧
      r.list.Perm (list ++ (find_info_elems_pairs elems).map
        (fun p => (⟨p.1, p.2⟩ : ble_att_clt_entry))) ∧
      r.gatt_calls = [(-EINVAL,
        if tail.length < 2 then
          env.handle_id_after_short_copy (find_info_last_handle 0 elems) tail
        else le16toh (tail.take 2))] := by
  have hrun := rx_find_info_run env pool list hdr elems tail format hparse hhdr hwf
    hdistinct hfresh hsorted hpool
  have hperm := (entry_insert_seq_perm (find_info_elems_pairs elems) pool list hsorted
    hdistinct hfresh (by simpa [find_info_elems_pairs] using hpool)).1
  have hdrop : (hdr ++ find_info_elems_bytes elems ++ tail).drop
      (hdr.length + (find_info_elems_bytes elems).length) = tail := by
    rw [← List.length_append, List.drop_left]
  by_cases ht : tail.length < 2
  · rw [rx_find_info_loop_short_handle env _ _ _ _ _ _ _
      (by simp only [List.length_append]; omega)] at hrun
    refine ⟨_, hrun, rfl, hperm, ?_⟩
    simp [rx_find_info_done, ht, hdrop]
  · rw [rx_find_info_loop_short_uuid env _ _ _ _ _ w _ _ hw
      (by simp only [List.length_append]; omega)
      (by simp only [List.length_append]; omega)] at hrun
    refine ⟨_, hrun, rfl, hperm, ?_⟩
    simp [rx_find_info_done, ht, hdrop]

/-- After the element (7, 0x1800), an element with handle 3 and one UUID byte is
reported with handle 3. -/
theorem C8_rx_find_info_truncated_witness :
    ∃ r, ble_att_clt_rx_find_info sample_rx_env ⟨4⟩ []
        ([5, 1] ++ find_info_elems_bytes
          [([7, 0], [0x00, 0x18], (sample_uuid_from_16bit 0x1800).get (by decide))]
          ++ [3, 0, 0x01]) = some r ∧
      r.rc = EINVAL ∧ r.gatt_calls = [(-EINVAL, 3)] := by
  obtain ⟨r, h1, h2, _, h4⟩ := C8_rx_find_info_truncated sample_rx_env ⟨4⟩ [] [5, 1]
    [([7, 0], [0x00, 0x18], (sample_uuid_from_16bit 0x1800).get (by decide))] [3, 0, 0x01] 1 2
    (by decide) (by decide) (by decide) (by decide) (by decide) (by decide) (by decide)
    (by decide) (by decide)
  exact ⟨r, h1, h2, h4⟩

/-! ## Read-By-Group-Type response -/

theorem rx_read_group_type_rsp_loop_zero (fuel : Nat) (om : List Nat) (hne : 0 < om.length) :
    ble_att_clt_rx_read_group_type_rsp_loop 0 fuel om = none := by
  induction fuel with
  | zero => rfl
  | succ n ih =>
    rw [ble_att_clt_rx_read_group_type_rsp_loop]
    simp [hne, ble_att_clt_parse_attribute_data, os_mbuf_adj, ih]

theorem rx_read_group_type_rsp_loop_pos (len : Nat) (hlen : 0 < len) :
    ∀ (fuel : Nat) (om : List Nat), om.length < fuel →
      ble_att_clt_rx_read_group_type_rsp_loop len fuel om = some 0 := by
  intro fuel
  induction fuel with
  | zero => intro om h; omega
  | succ n ih =>
    intro om h
    rw [ble_att_clt_rx_read_group_type_rsp_loop]
    by_cases hne : om.length > 0
    · simp only [hne, if_true, ble_att_clt_parse_attribute_data, ne_eq, not_true_eq_false,
        if_false]
      apply ih
      simp only [os_mbuf_adj, List.length_drop]
      omega
    · simp [hne]

/-- C9 (the code at the failing input): a Read-By-Group-Type response whose
header declares the record length 0 is never finished, whatever number of
iterations the loop is given: each iteration removes 0 bytes from a packet
that is not empty. -/
theorem C9_zero_record_length_never_returns (fuel : Nat) :
    sample_read_group_type_rsp_parse [0x11, 0] = (0, 0) ∧
    ble_att_clt_rx_read_group_type_rsp sample_read_group_type_rsp_parse fuel [0x11, 0]
      = none := by
  refine ⟨by decide, ?_⟩
  have hp : sample_read_group_type_rsp_parse [0x11, 0] = (0, 0) := by decide
  simp only [ble_att_clt_rx_read_group_type_rsp, hp, ne_eq, not_true_eq_false, if_false]
  exact rx_read_group_type_rsp_loop_zero fuel _ (by decide)

/-! ## GATT server registration -/

theorem att_svr_register_spec (svr : ble_att_svr) (cb : ble_att_svr_access) :
    svr.prev_handle ≤ (ble_att_svr_register svr cb).2.2.prev_handle ∧
    ((ble_att_svr_register svr cb).1 = 0 →
      (ble_att_svr_register svr cb).2.1 = svr.prev_handle + 1 ∧
      (ble_att_svr_register svr cb).2.2.prev_handle = svr.prev_handle + 1) := by
  unfold ble_att_svr_register
  split_ifs <;> simp [BLE_HS_ENOMEM]

theorem gatts_frame_refl (st : ble_gatts_state) : gatts_frame st st :=
  ⟨rfl, Nat.le_refl _⟩

theorem gatts_frame_trans {a b c : ble_gatts_state} (h1 : gatts_frame a b)
    (h2 : gatts_frame b c) : gatts_frame a c :=
  ⟨h2.1.trans h1.1, Nat.le_trans h1.2 h2.2⟩

theorem register_inc_frame (idx : Nat) (st : ble_gatts_state) :
    gatts_frame st (ble_gatts_register_inc idx st).2 := by
  have h := (att_svr_register_spec st.svr (ble_att_svr_access.inc idx)).1
  rcases hreg : ble_att_svr_register st.svr (ble_att_svr_access.inc idx) with ⟨rc, hh, svr1⟩
  rw [hreg] at h
  simp only [ble_gatts_register_inc, hreg]
  split_ifs <;> exact ⟨rfl, h⟩

theorem register_incs_loop_frame (incs : List Nat) :
    ∀ st : ble_gatts_state, gatts_frame st (ble_gatts_register_incs_loop incs st).2 := by
  induction incs with
  | nil => intro st; exact gatts_frame_refl st
  | cons inc rest ih =>
    intro st
    cases hf : ble_gatts_find_svc st.ble_gatts_svc_entries inc with
    | none =>
      simp only [ble_gatts_register_incs_loop, hf]
      exact gatts_frame_refl st
    | some idx =>
      have h1 := register_inc_frame idx st
      rcases hreg : ble_gatts_register_inc idx st with ⟨rc, st1⟩
      rw [hreg] at h1
      simp only [ble_gatts_register_incs_loop, hf, hreg]
      split_ifs
      · exact h1
      · exact gatts_frame_trans h1 (ih _)

theorem register_incs_frame (sdef : ble_gatt_svc_def) (st : ble_gatts_state) :
    gatts_frame st (ble_gatts_register_incs sdef st).2 := by
  unfold ble_gatts_register_incs
  cases sdef.includes with
  | none => exact gatts_frame_refl st
  | some incs => exact register_incs_loop_frame incs st

theorem register_dsc_frame (dsc : ble_gatt_dsc_def) (chr : ble_gatt_chr_def) (dh : Nat)
    (cb : Bool) (st : ble_gatts_state) :
    gatts_frame st (ble_gatts_register_dsc dsc chr dh cb st).2 := by
  have h := (att_svr_register_spec st.svr (ble_att_svr_access.dsc dsc)).1
  rcases hreg : ble_att_svr_register st.svr (ble_att_svr_access.dsc dsc) with ⟨rc, hh, svr1⟩
  rw [hreg] at h
  simp only [ble_gatts_register_dsc, hreg]
  split_ifs
  · exact gatts_frame_refl st
  · exact ⟨rfl, h⟩
  · exact ⟨rfl, h⟩
  · exact ⟨rfl, h⟩

theorem register_dscs_loop_frame (chr : ble_gatt_chr_def) (dh : Nat) (cb : Bool)
    (dscs : List ble_gatt_dsc_def) :
    ∀ st : ble_gatts_state,
      gatts_frame st (ble_gatts_register_dscs_loop chr dh cb dscs st).2 := by
  induction dscs with
  | nil => intro st; exact gatts_frame_refl st
  | cons dsc rest ih =>
    intro st
    have h1 := register_dsc_frame dsc chr dh cb st
    rcases hreg : ble_gatts_register_dsc dsc chr dh cb st with ⟨rc, st1⟩
    rw [hreg] at h1
    simp only [ble_gatts_register_dscs_loop, hreg]
    split_ifs
    · exact gatts_frame_refl st
    · exact h1
    · exact gatts_frame_trans h1 (ih _)

theorem register_dscs_frame (chr : ble_gatt_chr_def) (dh : Nat) (cb : Bool)
    (st : ble_gatts_state) : gatts_frame st (ble_gatts_register_dscs chr dh cb st).2 := by
  unfold ble_gatts_register_dscs
  cases chr.descriptors with
  | none => exact gatts_frame_refl st
  | some dscs => exact register_dscs_loop_frame chr dh cb dscs st

theorem register_chr_frame (chr : ble_gatt_chr_def) (cb : Bool) (st : ble_gatts_state) :
    gatts_frame st (ble_gatts_register_chr chr cb st).2 := by
  have h1 := (att_svr_register_spec st.svr (ble_att_svr_access.chr_def chr)).1
  rcases hreg : ble_att_svr_register st.svr (ble_att_svr_access.chr_def chr) with ⟨rc, dh, svr1⟩
  rw [hreg] at h1
  have h2 := (att_svr_register_spec svr1 (ble_att_svr_access.chr_val chr)).1
  rcases hreg2 : ble_att_svr_register svr1 (ble_att_svr_access.chr_val chr) with ⟨rc2, vh, svr2⟩
  rw [hreg2] at h2
  simp only at h1 h2
  have h12 := Nat.le_trans h1 h2
  cases cb with
  | false =>
    have h3 := register_dscs_frame chr dh false { st with svr := svr2 }
    rcases hreg3 : ble_gatts_register_dscs chr dh false { st with svr := svr2 } with ⟨rc3, st3⟩
    rw [hreg3] at h3
    have hmid : gatts_frame st { st with svr := svr2 } := ⟨rfl, h12⟩
    have h13 : gatts_frame st st3 := gatts_frame_trans hmid h3
    simp only [ble_gatts_register_chr, hreg, hreg2, Bool.false_eq_true, if_false, hreg3]
    split_ifs
    · exact gatts_frame_refl st
    · exact ⟨rfl, h1⟩
    · exact ⟨rfl, h12⟩
    · exact h13
    · exact h13
  | true =>
    have h3 := register_dscs_frame chr dh true
      { st with svr := svr2,
                cb_log := st.cb_log ++ [ble_gatt_register_event.chr dh vh chr] }
    rcases hreg3 : ble_gatts_register_dscs chr dh true
      { st with svr := svr2,
                cb_log := st.cb_log ++ [ble_gatt_register_event.chr dh vh chr] } with ⟨rc3, st3⟩
    rw [hreg3] at h3
    have hmid : gatts_frame st ⟨svr2, st.ble_gatts_svc_entries,
        st.cb_log ++ [ble_gatt_register_event.chr dh vh chr]⟩ := ⟨rfl, h12⟩
    have h13 : gatts_frame st st3 := gatts_frame_trans hmid h3
    simp only [ble_gatts_register_chr, hreg, hreg2, if_true, hreg3]
    split_ifs
    · exact gatts_frame_refl st
    · exact ⟨rfl, h1⟩
    · exact ⟨rfl, h12⟩
    · exact h13
    · exact h13

theorem register_chrs_loop_frame (cb : Bool) (chrs : List ble_gatt_chr_def) :
    ∀ st : ble_gatts_state, gatts_frame st (ble_gatts_register_chrs_loop cb chrs st).2 := by
  induction chrs with
  | nil => intro st; exact gatts_frame_refl st
  | cons chr rest ih =>
    intro st
    have h1 := register_chr_frame chr cb st
    rcases hreg : ble_gatts_register_chr chr cb st with ⟨rc, st1⟩
    rw [hreg] at h1
    simp only [ble_gatts_register_chrs_loop, hreg]
    split_ifs
    · exact gatts_frame_refl st
    · exact h1
    · exact gatts_frame_trans h1 (ih _)

theorem register_chrs_frame (sdef : ble_gatt_svc_def) (cb : Bool) (st : ble_gatts_state) :
    gatts_frame st (ble_gatts_register_chrs sdef cb st).2 := by
  unfold ble_gatts_register_chrs
  cases sdef.characteristics with
  | none => exact gatts_frame_refl st
  | some chrs => exact register_chrs_loop_frame cb chrs st

theorem register_svc_spec (svc : Nat) (sdef : ble_gatt_svc_def) (cb : Bool)
    (st : ble_gatts_state) :
    gatts_frame st (ble_gatts_register_svc svc sdef cb st).2.2 ∧
    ((ble_gatts_register_svc svc sdef cb st).1 = 0 →
      ble_gatts_svc_incs_satisfied st.ble_gatts_svc_entries sdef = true ∧
      (ble_gatts_register_svc svc sdef cb st).2.1 = st.svr.prev_handle + 1 ∧
      (ble_gatts_register_svc svc sdef cb st).2.1 ≤
        (ble_gatts_register_svc svc sdef cb st).2.2.svr.prev_handle) := by
  by_cases hinc : ble_gatts_svc_incs_satisfied st.ble_gatts_svc_entries sdef = true
  swap
  · simp only [ble_gatts_register_svc, hinc, Bool.not_false, if_true, Bool.false_eq_true,
      Bool.not_eq_true] at *
    simp [hinc, gatts_frame_refl, BLE_HS_EAGAIN]
  by_cases hsane : ble_gatts_svc_is_sane sdef = true
  swap
  · simp only [Bool.not_eq_true] at hsane
    simp [ble_gatts_register_svc, hinc, hsane, gatts_frame_refl, BLE_HS_EINVAL]
  have hr := att_svr_register_spec st.svr (ble_att_svr_access.svc svc)
  rcases hreg : ble_att_svr_register st.svr (ble_att_svr_access.svc svc) with ⟨rc, oh, svr1⟩
  rw [hreg] at hr
  simp only at hr
  obtain ⟨hr1, hr2⟩ := hr
  cases cb with
  | false =>
    have hst1 : gatts_frame st { st with svr := svr1 } := ⟨rfl, hr1⟩
    have h2 := register_incs_frame sdef { st with svr := svr1 }
    rcases hreg2 : ble_gatts_register_incs sdef { st with svr := svr1 } with ⟨rc2, st2⟩
    rw [hreg2] at h2
    have h3 := register_chrs_frame sdef false st2
    rcases hreg3 : ble_gatts_register_chrs sdef false st2 with ⟨rc3, st3⟩
    rw [hreg3] at h3
    simp only at h2 h3
    have h12 := gatts_frame_trans hst1 h2
    have h13 := gatts_frame_trans h12 h3
    simp only [ble_gatts_register_svc, hinc, hsane, Bool.not_true, Bool.false_eq_true,
      if_false, hreg, hreg2, hreg3]
    split_ifs with h1 h2a h3a
    · exact ⟨hst1, fun h => absurd h h1⟩
    · exact ⟨h12, fun h => absurd h h2a⟩
    · exact ⟨h13, fun h => absurd h h3a⟩
    · refine ⟨h13, fun _ => ⟨trivial, ?_, ?_⟩⟩
      · exact (hr2 (by simpa using h1)).1
      · have e1 := hr2 (by simpa using h1)
        have e2 := h2.2
        have e3 := h3.2
        simp only at e1 e2 e3 ⊢
        rw [e1.1]
        omega
  | true =>
    have hst1 : gatts_frame st ⟨svr1, st.ble_gatts_svc_entries,
        st.cb_log ++ [ble_gatt_register_event.svc oh svc]⟩ := ⟨rfl, hr1⟩
    have h2 := register_incs_frame sdef ⟨svr1, st.ble_gatts_svc_entries,
        st.cb_log ++ [ble_gatt_register_event.svc oh svc]⟩
    rcases hreg2 : ble_gatts_register_incs sdef ⟨svr1, st.ble_gatts_svc_entries,
        st.cb_log ++ [ble_gatt_register_event.svc oh svc]⟩ with ⟨rc2, st2⟩
    rw [hreg2] at h2
    have h3 := register_chrs_frame sdef true st2
    rcases hreg3 : ble_gatts_register_chrs sdef true st2 with ⟨rc3, st3⟩
    rw [hreg3] at h3
    simp only at h2 h3
    have h12 := gatts_frame_trans hst1 h2
    have h13 := gatts_frame_trans h12 h3
    simp only [ble_gatts_register_svc, hinc, hsane, Bool.not_true, Bool.false_eq_true,
      if_false, hreg, if_true, hreg2, hreg3]
    split_ifs with h1 h2a h3a
    · exact ⟨⟨rfl, hr1⟩, fun h => absurd h h1⟩
    · exact ⟨h12, fun h => absurd h h2a⟩
    · exact ⟨h13, fun h => absurd h h3a⟩
    · refine ⟨h13, fun _ => ⟨trivial, ?_, ?_⟩⟩
      · exact (hr2 (by simpa using h1)).1
      · have e1 := hr2 (by simpa using h1)
        have e2 := h2.2
        have e3 := h3.2
        simp only at e1 e2 e3 ⊢
        rw [e1.1]
        omega

theorem find_svc_from_spec (svc : Nat) (l : List ble_gatts_svc_entry) :
    ∀ (i idx : Nat), ble_gatts_find_svc_from svc l i = some idx →
      i ≤ idx ∧ ∃ e, l[idx - i]? = some e ∧ e.svc = svc := by
  induction l with
  | nil => intro i idx h; simp [ble_gatts_find_svc_from] at h
  | cons e rest ih =>
    intro i idx h
    unfold ble_gatts_find_svc_from at h
    by_cases hs : e.svc = svc
    · simp only [hs, if_true, Option.some.injEq] at h
      subst h
      exact ⟨Nat.le_refl _, e, by simp, hs⟩
    · simp only [hs, if_false] at h
      obtain ⟨hle, e1, he1, hs1⟩ := ih (i + 1) idx h
      refine ⟨by omega, e1, ?_, hs1⟩
      have : idx - i = (idx - (i + 1)) + 1 := by omega
      rw [this, List.getElem?_cons_succ]
      exact he1

theorem incs_satisfied_loop_spec (entries : List ble_gatts_svc_entry)
    (hptr : ∀ (i : Nat) (e : ble_gatts_svc_entry), entries[i]? = some e → e.svc = i)
    (incs : List Nat) (hsat : ble_gatts_svc_incs_satisfied_loop entries incs = true) :
    ∀ p ∈ incs, ∃ e, entries[p]? = some e ∧ e.handle ≠ 0 := by
  induction incs with
  | nil => intro p hp; simp at hp
  | cons inc rest ih =>
    unfold ble_gatts_svc_incs_satisfied_loop at hsat
    cases hf : ble_gatts_find_svc entries inc with
    | none => simp [hf] at hsat
    | some idx =>
      cases he : entries[idx]? with
      | none => simp [hf, he] at hsat
      | some e =>
        simp only [hf, he] at hsat
        by_cases h0 : e.handle = 0
        · simp [h0] at hsat
        · simp only [h0, if_false] at hsat
          obtain ⟨_, e1, he1, hs1⟩ := find_svc_from_spec inc entries 0 idx hf
          simp only [Nat.sub_zero] at he1
          have hidx : idx = inc := by
            rw [← hs1]; exact (hptr idx e1 he1).symm
          intro p hp
          rcases List.mem_cons.mp hp with rfl | hpr
          · exact ⟨e, hidx ▸ he, h0⟩
          · exact ih hsat p hpr

theorem gatts_inv_of_frame (svcs : List ble_gatt_svc_def) (st st1 : ble_gatts_state)
    (hinv : gatts_inv svcs st) (hf : gatts_frame st st1) : gatts_inv svcs st1 := by
  obtain ⟨h1, h2, h3⟩ := hinv
  obtain ⟨he, hp⟩ := hf
  refine ⟨?_, ?_, ?_⟩
  · rw [he]; exact h1
  · rw [he]; intro e hm; exact Nat.le_trans (h2 e hm) hp
  · rw [he]; exact h3

theorem gatts_inv_register (svcs : List ble_gatt_svc_def) (st st1 : ble_gatts_state)
    (i handle egh : Nat) (entry : ble_gatts_svc_entry) (sdef : ble_gatt_svc_def)
    (hinv : gatts_inv svcs st) (hf : gatts_frame st st1)
    (hi : st.ble_gatts_svc_entries[i]? = some entry) (h0 : entry.handle = 0)
    (hdef : svcs[entry.svc]? = some sdef)
    (hsat : ble_gatts_svc_incs_satisfied st.ble_gatts_svc_entries sdef = true)
    (hh : handle = st.svr.prev_handle + 1) (hle : handle ≤ st1.svr.prev_handle) :
    gatts_inv svcs { st1 with ble_gatts_svc_entries :=
      st1.ble_gatts_svc_entries.set i { entry with handle := handle,
                                                   end_group_handle := egh } } := by
  obtain ⟨h1, h2, h3⟩ := hinv
  obtain ⟨he, hp⟩ := hf
  have hsvc : entry.svc = i := h1 i entry hi
  have hilt : i < st.ble_gatts_svc_entries.length := by
    obtain ⟨h, _⟩ := List.getElem?_eq_some.mp hi
    exact h
  have hne : ∀ (p : Nat) (e1 : ble_gatts_svc_entry),
      st.ble_gatts_svc_entries[p]? = some e1 → e1.handle ≠ 0 → i ≠ p := by
    intro p e1 hp1 hn heq
    subst heq
    rw [hi] at hp1
    simp only [Option.some.injEq] at hp1
    subst hp1
    exact hn h0
  simp only [he]
  refine ⟨?_, ?_, ?_⟩
  · intro j e hj
    rw [List.getElem?_set] at hj
    by_cases hij : i = j
    · simp only [hij, if_true] at hj
      split_ifs at hj
      simp only [Option.some.injEq] at hj
      subst hj
      simp only
      rw [hsvc, hij]
    · simp only [hij, if_false] at hj
      exact h1 j e hj
  · intro e hm
    rcases List.mem_or_eq_of_mem_set hm with hm1 | rfl
    · exact Nat.le_trans (h2 e hm1) hp
    · exact hle
  · intro j e sdef1 incs p hj hn hd hincs hpm
    rw [List.getElem?_set] at hj
    by_cases hij : i = j
    · simp only [hij, if_true] at hj
      split_ifs at hj
      simp only [Option.some.injEq] at hj
      subst hj
      subst hij
      rw [hsvc] at hdef
      rw [hdef] at hd
      simp only [Option.some.injEq] at hd
      subst hd
      simp only [ble_gatts_svc_incs_satisfied, hincs] at hsat
      obtain ⟨e1, hp1, hn1⟩ := incs_satisfied_loop_spec _ h1 incs hsat p hpm
      refine ⟨e1, ?_, Nat.pos_of_ne_zero hn1, ?_⟩
      · rw [List.getElem?_set_ne (hne p e1 hp1 hn1)]
        exact hp1
      · have := h2 e1 (List.mem_iff_getElem?.mpr ⟨p, hp1⟩)
        simp only
        omega
    · simp only [hij, if_false] at hj
      obtain ⟨e1, hp1, hpos, hlt⟩ := h3 j e sdef1 incs p hj hn hd hincs hpm
      refine ⟨e1, ?_, hpos, hlt⟩
      rw [List.getElem?_set_ne (hne p e1 hp1 (by omega))]
      exact hp1

theorem gatts_num_registered_set (entries : List ble_gatts_svc_entry) (i : Nat)
    (entry entry1 : ble_gatts_svc_entry) (hi : entries[i]? = some entry)
    (h0 : entry.handle = 0) (h1 : entry1.handle ≠ 0) :
    gatts_num_registered (entries.set i entry1) = gatts_num_registered entries + 1 := by
  obtain ⟨hlt, hget⟩ := List.getElem?_eq_some.mp hi
  unfold gatts_num_registered
  rw [List.countP_set _ _ _ _ hlt, hget]
  simp [h0, h1]

theorem register_round_loop_spec (svcs : List ble_gatt_svc_def) (cb : Bool) :
    ∀ (n i num : Nat) (st : ble_gatts_state), gatts_inv svcs st →
      gatts_inv svcs (ble_gatts_register_round_loop svcs cb n i num st).2.2 ∧
      (ble_gatts_register_round_loop svcs cb n i num st).2.2.ble_gatts_svc_entries.length =
        st.ble_gatts_svc_entries.length ∧
      gatts_num_registered
          (ble_gatts_register_round_loop svcs cb n i num st).2.2.ble_gatts_svc_entries + num =
        gatts_num_registered st.ble_gatts_svc_entries +
          (ble_gatts_register_round_loop svcs cb n i num st).2.1 := by
  intro n
  induction n with
  | zero =>
    intro i num st hinv
    unfold ble_gatts_register_round_loop
    split_ifs <;> exact ⟨hinv, rfl, rfl⟩
  | succ n ih =>
    intro i num st hinv
    cases hi : st.ble_gatts_svc_entries[i]? with
    | none =>
      simp only [ble_gatts_register_round_loop, hi]
      exact ih (i + 1) num st hinv
    | some entry =>
      by_cases h0 : entry.handle = 0
      swap
      · simp only [ble_gatts_register_round_loop, hi, h0, if_false]
        exact ih (i + 1) num st hinv
      cases hdef : svcs[entry.svc]? with
      | none =>
        simp only [ble_gatts_register_round_loop, hi, h0, if_true, hdef]
        exact ih (i + 1) num st hinv
      | some sdef =>
        have hspec := register_svc_spec entry.svc sdef cb st
        rcases hreg : ble_gatts_register_svc entry.svc sdef cb st with ⟨rc, handle, st1⟩
        rw [hreg] at hspec
        simp only at hspec
        obtain ⟨hframe, hok⟩ := hspec
        simp only [ble_gatts_register_round_loop, hi, h0, if_true, hdef, hreg]
        by_cases hrc : rc = 0
        · obtain ⟨hsat, hh, hle⟩ := hok hrc
          have hinv2 := gatts_inv_register svcs st st1 i handle
            (ble_att_svr_prev_handle st1.svr) entry sdef hinv hframe hi h0 hdef hsat hh hle
          have hnum := gatts_num_registered_set st.ble_gatts_svc_entries i entry
            { entry with handle := handle,
                         end_group_handle := ble_att_svr_prev_handle st1.svr }
            hi h0 (by simp only; omega)
          obtain ⟨r1, r2, r3⟩ := ih (i + 1) (num + 1) _ hinv2
          simp only [hrc, if_true]
          refine ⟨r1, ?_, ?_⟩
          · rw [r2]; simp [hframe.1]
          · simp only [hframe.1] at r3 hnum ⊢
            rw [hnum] at r3
            omega
        · have hinv1 := gatts_inv_of_frame svcs st st1 hinv hframe
          simp only [hrc, if_false]
          by_cases hag : rc = BLE_HS_EAGAIN
          · simp only [hag, if_true]
            obtain ⟨r1, r2, r3⟩ := ih (i + 1) num st1 hinv1
            refine ⟨r1, ?_, ?_⟩
            · rw [r2, hframe.1]
            · rw [hframe.1] at r3; exact r3
          · simp only [hag, if_false]
            refine ⟨hinv1, ?_, ?_⟩
            · rw [hframe.1]
            · rw [hframe.1]

theorem register_services_loop_spec (svcs : List ble_gatt_svc_def) (cb : Bool) :
    ∀ (fuel total : Nat) (st st1 : ble_gatts_state), gatts_inv svcs st →
      total = gatts_num_registered st.ble_gatts_svc_entries →
      ble_gatts_register_services_loop svcs cb fuel total st = some (0, st1) →
      gatts_inv svcs st1 ∧
      st1.ble_gatts_svc_entries.length = st.ble_gatts_svc_entries.length ∧
      st1.ble_gatts_svc_entries.length ≤ gatts_num_registered st1.ble_gatts_svc_entries := by
  intro fuel
  induction fuel with
  | zero => intro total st st1 _ _ h; simp [ble_gatts_register_services_loop] at h
  | succ fuel ih =>
    intro total st st1 hinv htotal h
    unfold ble_gatts_register_services_loop at h
    by_cases hlt : total < st.ble_gatts_svc_entries.length
    · have hspec := register_round_loop_spec svcs cb st.ble_gatts_svc_entries.length 0 0 st hinv
      rcases hround : ble_gatts_register_round svcs cb st with ⟨rc, cur, st2⟩
      have hround1 : ble_gatts_register_round_loop svcs cb st.ble_gatts_svc_entries.length
          0 0 st = (rc, cur, st2) := hround
      rw [hround1] at hspec
      simp only at hspec
      obtain ⟨r1, r2, r3⟩ := hspec
      simp only [hlt, if_true, hround] at h
      by_cases hrc : rc = 0
      · simp only [hrc, ne_eq, not_true_eq_false, if_false] at h
        obtain ⟨q1, q2, q3⟩ := ih (total + cur) st2 st1 r1 (by omega) h
        exact ⟨q1, by rw [q2, r2], q3⟩
      · simp only [ne_eq, hrc, not_false_eq_true, if_true, Option.some.injEq,
          Prod.mk.injEq] at h
        exact h.1.elim
    · simp only [hlt, if_false, Option.some.injEq, Prod.mk.injEq, true_and] at h
      subst h
      exact ⟨hinv, rfl, by omega⟩

theorem gatts_inv_init (svcs : List ble_gatt_svc_def) (svr : ble_att_svr) (n : Nat) :
    gatts_inv svcs { svr := svr, ble_gatts_svc_entries := ble_gatts_init_entries n,
                     cb_log := [] } ∧
    gatts_num_registered (ble_gatts_init_entries n) = 0 ∧
    (ble_gatts_init_entries n).length = n := by
  have hmem : ∀ e ∈ ble_gatts_init_entries n, e.handle = 0 := by
    intro e he
    simp only [ble_gatts_init_entries, List.mem_map] at he
    obtain ⟨i, _, rfl⟩ := he
    rfl
  refine ⟨⟨?_, ?_, ?_⟩, ?_, ?_⟩
  · intro i e hi
    simp only [ble_gatts_init_entries, List.getElem?_map, Option.map_eq_some'] at hi
    obtain ⟨j, hj, rfl⟩ := hi
    obtain ⟨hlt, hget⟩ := List.getElem?_eq_some.mp hj
    simp only [List.getElem_range] at hget
    exact hget.symm
  · intro e he
    simp only at he ⊢
    rw [hmem e he]
    exact Nat.zero_le _
  · intro i e sdef incs p hi hn
    exact absurd (hmem e (List.mem_iff_getElem?.mpr ⟨i, hi⟩)) hn
  · simp only [gatts_num_registered, List.countP_eq_zero]
    intro e he
    simp [hmem e he]
  · simp [ble_gatts_init_entries]

/-- C10: whenever ble_gatts_register_services returns 0, every declared service
has a nonzero handle and every service that a declared service includes is a
declared service that was registered before it, with a smaller handle.  In
particular [B (includes A), A (no includes)] registers A in round 1 (handle 1)
and B in round 2 (handle 2) and returns 0. -/
theorem C10_register_services_include_order (svcs : List ble_gatt_svc_def) (cb : Bool)
    (svr : ble_att_svr) (st : ble_gatts_state)
    (hok : ble_gatts_register_services svcs cb svr = some (0, st)) :
    st.ble_gatts_svc_entries.length = ble_gatts_count_svcs svcs ∧
    (∀ e ∈ st.ble_gatts_svc_entries, e.handle ≠ 0) ∧
    (∀ (i : Nat) (e : ble_gatts_svc_entry) (sdef : ble_gatt_svc_def) (incs : List Nat)
        (p : Nat),
      st.ble_gatts_svc_entries[i]? = some e → svcs[i]? = some sdef →
      sdef.includes = some incs → p ∈ incs →
      e.svc = i ∧
      ∃ e1 : ble_gatts_svc_entry, st.ble_gatts_svc_entries[p]? = some e1 ∧ e1.svc = p ∧
        0 < e1.handle ∧ e1.handle < e.handle) ∧
    ((ble_gatts_register_round [sample_svc 2 (some [1]), sample_svc 1 none] cb
        ⟨sample_svr 8, ble_gatts_init_entries 2, []⟩).2.2.ble_gatts_svc_entries
      = [⟨0, 0, 0xffff⟩, ⟨1, 1, 1⟩] ∧
     (ble_gatts_register_services [sample_svc 2 (some [1]), sample_svc 1 none] cb
        (sample_svr 8)).map (fun r => (r.1, r.2.ble_gatts_svc_entries))
      = some (0, [⟨0, 2, 3⟩, ⟨1, 1, 1⟩])) := by
  obtain ⟨hinv0, hnum0, hlen0⟩ := gatts_inv_init svcs svr (ble_gatts_count_svcs svcs)
  obtain ⟨⟨h1, h2, h3⟩, hlen, hall⟩ := register_services_loop_spec svcs cb _ 0 _ st hinv0
    hnum0.symm hok
  have hall1 : ∀ e ∈ st.ble_gatts_svc_entries, e.handle ≠ 0 := by
    have hle : gatts_num_registered st.ble_gatts_svc_entries ≤
        st.ble_gatts_svc_entries.length := List.countP_le_length _
    have heq : gatts_num_registered st.ble_gatts_svc_entries =
        st.ble_gatts_svc_entries.length := by omega
    intro e he
    have := (List.countP_eq_length.mp heq) e he
    simpa using this
  refine ⟨by rw [hlen]; exact hlen0, hall1, ?_, ?_⟩
  · intro i e sdef incs p hi hd hincs hp
    obtain ⟨e1, hp1, hpos, hlt⟩ := h3 i e sdef incs p hi
      (hall1 e (List.mem_iff_getElem?.mpr ⟨i, hi⟩)) hd hincs hp
    exact ⟨h1 i e hi, e1, hp1, h1 p e1 hp1, hpos, hlt⟩
  · cases cb <;> decide

/-- In the registered pair B (entry 0, handle 2), A (entry 1, handle 1), the
service that B includes has the smaller handle. -/
theorem C10_register_services_include_order_witness :
    (⟨0, 2, 3⟩ : ble_gatts_svc_entry).svc = 0 ∧
    ∃ e1 : ble_gatts_svc_entry,
      [(⟨0, 2, 3⟩ : ble_gatts_svc_entry), ⟨1, 1, 1⟩][1]? = some e1 ∧ e1.svc = 1 ∧
      0 < e1.handle ∧ e1.handle < (⟨0, 2, 3⟩ : ble_gatts_svc_entry).handle :=
  (C10_register_services_include_order [sample_svc 2 (some [1]), sample_svc 1 none] true
    (sample_svr 8)
    ⟨⟨3, 5, [⟨1, ble_att_svr_access.svc 1⟩, ⟨2, ble_att_svr_access.svc 0⟩,
        ⟨3, ble_att_svr_access.inc 1⟩]⟩,
      [⟨0, 2, 3⟩, ⟨1, 1, 1⟩],
      [ble_gatt_register_event.svc 1 1, ble_gatt_register_event.svc 2 0]⟩
    (by decide)).2.2.1 0 ⟨0, 2, 3⟩ (sample_svc 2 (some [1])) [1] 1 (by decide) (by decide)
    (by decide) (by decide)

/-! ## Access dispatch and advertising fields -/

theorem memcpy_at_length (src : List Nat) :
    ∀ (dst : List Nat) (off : Nat), (memcpy_at dst off src).length = dst.length := by
  induction src with
  | nil => intro dst off; rfl
  | cons b rest ih => intro dst off; simp [memcpy_at, ih]

theorem memcpy_at_eq (src : List Nat) :
    ∀ (dst : List Nat) (off : Nat), off + src.length ≤ dst.length →
      memcpy_at dst off src = dst.take off ++ src ++ dst.drop (off + src.length) := by
  induction src with
  | nil => intro dst off _; simp [memcpy_at]
  | cons b rest ih =>
    intro dst off h
    simp only [List.length_cons] at h
    have hlt : off < dst.length := by omega
    simp only [memcpy_at]
    rw [ih (dst.set off b) (off + 1) (by simp; omega)]
    rw [List.set_eq_take_append_cons_drop, if_pos hlt]
    have h1 : (List.take off dst ++ b :: List.drop (off + 1) dst).take (off + 1)
        = List.take off dst ++ [b] := by
      rw [List.take_append_eq_append_take]
      simp [List.length_take, Nat.min_eq_left (Nat.le_of_lt hlt)]
    have h2 : (List.take off dst ++ b :: List.drop (off + 1) dst).drop (off + 1 + rest.length)
        = List.drop (off + (rest.length + 1)) dst := by
      rw [List.drop_append_eq_append_drop]
      simp only [List.length_take, Nat.min_eq_left (Nat.le_of_lt hlt)]
      have e1 : off + 1 + rest.length - off = rest.length + 1 := by omega
      have e2 : List.drop (off + 1 + rest.length) (List.take off dst) = [] := by
        apply List.drop_eq_nil_of_le
        simp only [List.length_take]; omega
      rw [e1, e2, List.drop_succ_cons, List.drop_drop]
      simp only [List.nil_append]
      congr 1; omega
    rw [h1, h2]
    simp [List.length_cons]

/-- C17: reading an include attribute returns the handle of the included service
in bytes 0-1 and its end group handle in bytes 2-3, little-endian; the value has
6 bytes, with the 16-bit UUID little-endian in bytes 4-5, exactly when
ble_uuid_128_to_16 finds a 16-bit representation of the UUID of the included
service, and 4 bytes otherwise. -/
theorem C17_inc_access_read (to16 : Uuid128 → Nat) (svcs : List ble_gatt_svc_def)
    (buf : List Nat) (entry : ble_gatts_svc_entry) (sdef : ble_gatt_svc_def)
    (uuid128 : Uuid128)
    (hbuf : buf.length = BLE_GATTS_INCLUDE_SZ)
    (hsvc : svcs[entry.svc]? = some sdef)
    (huuid : sdef.uuid128 = some uuid128) :
    ∃ ctxt, ble_gatts_inc_access to16 svcs buf ble_att_access_op.READ entry = some (0, ctxt) ∧
      ctxt.value.take 4 = htole16 entry.handle ++ htole16 entry.end_group_handle ∧
      (to16 uuid128 ≠ 0 →
        ctxt.value = htole16 entry.handle ++ htole16 entry.end_group_handle ++
          htole16 (to16 uuid128)) ∧
      (to16 uuid128 = 0 →
        ctxt.value = htole16 entry.handle ++ htole16 entry.end_group_handle) ∧
      (ctxt.value.length = 6 ↔ to16 uuid128 ≠ 0) ∧
      (ctxt.value.length = 4 ↔ to16 uuid128 = 0) := by
  have hb : (svcs[entry.svc]?).bind (fun sdef => sdef.uuid128) = some uuid128 := by
    simp [hsvc, huuid]
  simp only [BLE_GATTS_INCLUDE_SZ] at hbuf
  obtain ⟨b0, b1, b2, b3, b4, b5, rfl⟩ : ∃ b0 b1 b2 b3 b4 b5, buf = [b0, b1, b2, b3, b4, b5] := by
    match buf, hbuf with
    | [b0, b1, b2, b3, b4, b5], _ => exact ⟨b0, b1, b2, b3, b4, b5, rfl⟩
  by_cases h16 : to16 uuid128 = 0
  · simp [ble_gatts_inc_access, hb, h16, memcpy_at, htole16, ble_att_svr_access_ctxt.value]
  · simp [ble_gatts_inc_access, hb, h16, memcpy_at, htole16, ble_att_svr_access_ctxt.value]

/-- A service with the 16-bit UUID 0x1800, handle 0x0102 and end group handle
0x0304 is read as 02 01 04 03 00 18. -/
theorem C17_inc_access_read_witness :
    ∃ ctxt, ble_gatts_inc_access sample_uuid_128_to_16
        [{ type := ble_gatt_svc_type.PRIMARY,
           uuid128 := sample_uuid_from_16bit 0x1800,
           includes := none, characteristics := none }]
        [0, 0, 0, 0, 0, 0] ble_att_access_op.READ ⟨0, 0x0102, 0x0304⟩ = some (0, ctxt) ∧
      ctxt.value = [0x02, 0x01, 0x04, 0x03, 0x00, 0x18] := by
  obtain ⟨ctxt, h1, _, h3, _⟩ := C17_inc_access_read sample_uuid_128_to_16
    [{ type := ble_gatt_svc_type.PRIMARY,
       uuid128 := sample_uuid_from_16bit 0x1800,
       includes := none, characteristics := none }]
    [0, 0, 0, 0, 0, 0] ⟨0, 0x0102, 0x0304⟩
    { type := ble_gatt_svc_type.PRIMARY,
      uuid128 := sample_uuid_from_16bit 0x1800,
      includes := none, characteristics := none }
    ((sample_uuid_from_16bit 0x1800).get (by decide)) (by decide) (by decide) (by decide)
  exact ⟨ctxt, h1, h3 (by decide)⟩

theorem le16toh_htole16 (v : Nat) (hv : v < 65536) : le16toh (htole16 v) = v := by
  simp only [le16toh, htole16, List.getD_cons_zero, List.getD_cons_succ]
  omega

/-- One step of `ble_gatts_chr_properties` keeps a byte a byte, and its result has
the bits that were there and, when the flag is set, the bits of the property
that lie in a byte. -/
theorem chr_properties_step_bits (flags f p a : Nat) (ha : a < 256) :
    chr_properties_step flags f p a < 256 ∧
    ∀ i, (chr_properties_step flags f p a).testBit i =
      (a.testBit i || (decide (flags &&& f ≠ 0) && (decide (i < 8) && p.testBit i))) := by
  unfold chr_properties_step
  by_cases hf : flags &&& f ≠ 0
  · rw [if_pos hf]
    refine ⟨Nat.mod_lt _ (by decide), fun i => ?_⟩
    have e : (256 : Nat) = 2 ^ 8 := by norm_num
    rw [e, Nat.testBit_mod_two_pow, Nat.testBit_or]
    by_cases hi : i < 8
    · simp [hi, hf]
    · have hle : 2 ^ 8 ≤ 2 ^ i := Nat.pow_le_pow_right (by decide) (by omega)
      have ha0 : a.testBit i = false :=
        Nat.testBit_eq_false_of_lt (lt_of_lt_of_le (by rw [← e]; exact ha) hle)
      simp [hi, ha0, hf]
  · rw [if_neg hf]
    exact ⟨ha, fun i => by simp [hf]⟩

/-- The properties byte of `ble_gatts_chr_properties`, bit by bit: it is a byte,
and a bit is set exactly when it is a bit of the property of a flag that is
set. -/
theorem chr_properties_bits (k : ble_gatt_chr_consts) (chr : ble_gatt_chr_def) :
    ble_gatts_chr_properties k chr < 256 ∧
    ∀ i, (ble_gatts_chr_properties k chr).testBit i =
      (decide (i < 8) &&
        ((decide (chr.flags &&& k.BLE_GATT_CHR_F_BROADCAST ≠ 0) &&
            k.BLE_GATT_CHR_PROP_BROADCAST.testBit i) ||
         (decide (chr.flags &&& k.BLE_GATT_CHR_F_READ ≠ 0) &&
            k.BLE_GATT_CHR_PROP_READ.testBit i) ||
         (decide (chr.flags &&& k.BLE_GATT_CHR_F_WRITE_NO_RSP ≠ 0) &&
            k.BLE_GATT_CHR_PROP_WRITE_NO_RSP.testBit i) ||
         (decide (chr.flags &&& k.BLE_GATT_CHR_F_WRITE ≠ 0) &&
            k.BLE_GATT_CHR_PROP_WRITE.testBit i) ||
         (decide (chr.flags &&& k.BLE_GATT_CHR_F_NOTIFY ≠ 0) &&
            k.BLE_GATT_CHR_PROP_NOTIFY.testBit i) ||
         (decide (chr.flags &&& k.BLE_GATT_CHR_F_INDICATE ≠ 0) &&
            k.BLE_GATT_CHR_PROP_INDICATE.testBit i) ||
         (decide (chr.flags &&& k.BLE_GATT_CHR_F_AUTH_SIGN_WRITE ≠ 0) &&
            k.BLE_GATT_CHR_PROP_AUTH_SIGN_WRITE.testBit i) ||
         (decide (chr.flags &&&
              (k.BLE_GATT_CHR_F_RELIABLE_WRITE ||| k.BLE_GATT_CHR_F_AUX_WRITE) ≠ 0) &&
            k.BLE_GATT_CHR_PROP_EXTENDED.testBit i))) := by
  have s1 := chr_properties_step_bits chr.flags k.BLE_GATT_CHR_F_BROADCAST
    k.BLE_GATT_CHR_PROP_BROADCAST 0 (by decide)
  have s2 := chr_properties_step_bits chr.flags k.BLE_GATT_CHR_F_READ
    k.BLE_GATT_CHR_PROP_READ _ s1.1
  have s3 := chr_properties_step_bits chr.flags k.BLE_GATT_CHR_F_WRITE_NO_RSP
    k.BLE_GATT_CHR_PROP_WRITE_NO_RSP _ s2.1
  have s4 := chr_properties_step_bits chr.flags k.BLE_GATT_CHR_F_WRITE
    k.BLE_GATT_CHR_PROP_WRITE _ s3.1
  have s5 := chr_properties_step_bits chr.flags k.BLE_GATT_CHR_F_NOTIFY
    k.BLE_GATT_CHR_PROP_NOTIFY _ s4.1
  have s6 := chr_properties_step_bits chr.flags k.BLE_GATT_CHR_F_INDICATE
    k.BLE_GATT_CHR_PROP_INDICATE _ s5.1
  have s7 := chr_properties_step_bits chr.flags k.BLE_GATT_CHR_F_AUTH_SIGN_WRITE
    k.BLE_GATT_CHR_PROP_AUTH_SIGN_WRITE _ s6.1
  have s8 := chr_properties_step_bits chr.flags
    (k.BLE_GATT_CHR_F_RELIABLE_WRITE ||| k.BLE_GATT_CHR_F_AUX_WRITE)
    k.BLE_GATT_CHR_PROP_EXTENDED _ s7.1
  refine ⟨s8.1, fun i => ?_⟩
  show (chr_properties_step chr.flags _ _ _).testBit i = _
  rw [s8.2, s7.2, s6.2, s5.2, s4.2, s3.2, s2.2, s1.2, Nat.zero_testBit]
  by_cases hi : i < 8
  · simp only [hi, decide_True, Bool.true_and, Bool.false_or, Bool.or_assoc]
  · simp only [hi, decide_False, Bool.false_and, Bool.and_false, Bool.or_false]

/-- The bytes that `ble_gatts_chr_def_access` leaves on a read at the handle `h`,
when `h + 1` is a 16-bit handle: the result of `ble_gatts_chr_properties`, the
two bytes of `h + 1`, and the 16-bit UUID or the sixteen UUID bytes. -/
theorem chr_def_access_read_bytes (to16 : Uuid128 → Nat) (k : ble_gatt_chr_consts)
    (buf : List Nat) (h : Nat) (chr : ble_gatt_chr_def) (uuid128 : Uuid128)
    (hbuf : buf.length = BLE_GATTS_CHR_MAX_SZ)
    (huuid : chr.uuid128 = some uuid128)
    (hh : h + 1 < 65536) :
    ∃ ctxt, ble_gatts_chr_def_access to16 k buf h ble_att_access_op.READ chr = some (0, ctxt) ∧
      ctxt.value.take 3 = ble_gatts_chr_properties k chr :: htole16 (h + 1) ∧
      le16toh ((ctxt.value.drop 1).take 2) = h + 1 ∧
      (to16 uuid128 ≠ 0 →
        ctxt.value = ble_gatts_chr_properties k chr :: htole16 (h + 1) ++
          htole16 (to16 uuid128) ∧ ctxt.value.length = 5) ∧
      (to16 uuid128 = 0 →
        ctxt.value = ble_gatts_chr_properties k chr :: htole16 (h + 1) ++ uuid128.bytes ∧
        ctxt.value.length = 19) := by
  simp only [BLE_GATTS_CHR_MAX_SZ] at hbuf
  have hset : buf.set 0 (ble_gatts_chr_properties k chr) =
      ble_gatts_chr_properties k chr :: buf.drop 1 := by
    cases buf with
    | nil => simp at hbuf
    | cons b rest => simp
  have e2 := memcpy_at_eq (htole16 (h + 1)) (buf.set 0 (ble_gatts_chr_properties k chr)) 1
    (by simp [htole16]; omega)
  have hval := le16toh_htole16 (h + 1) hh
  have hl : (ble_gatts_chr_properties k chr :: buf.drop 1).length = 19 := by
    simp [hbuf]
  by_cases h16 : to16 uuid128 = 0
  · have e3 := memcpy_at_eq uuid128.bytes
      (memcpy_at (buf.set 0 (ble_gatts_chr_properties k chr)) 1 (htole16 (h + 1))) 3
      (by rw [memcpy_at_length, uuid128.size]; simp [hbuf])
    refine ⟨⟨memcpy_at (memcpy_at (buf.set 0 (ble_gatts_chr_properties k chr)) 1
        (htole16 (h + 1))) 3 uuid128.bytes, 19⟩,
      by simp [ble_gatts_chr_def_access, huuid, h16], ?_⟩
    have hfull : (memcpy_at (memcpy_at (buf.set 0 (ble_gatts_chr_properties k chr)) 1
        (htole16 (h + 1))) 3 uuid128.bytes) =
        ble_gatts_chr_properties k chr :: htole16 (h + 1) ++ uuid128.bytes := by
      rw [e3, e2, hset]
      have hd : List.drop (3 + uuid128.bytes.length)
          (List.take 1 (ble_gatts_chr_properties k chr :: List.drop 1 buf) ++
            htole16 (h + 1) ++
            List.drop (1 + (htole16 (h + 1)).length)
              (ble_gatts_chr_properties k chr :: List.drop 1 buf)) = [] := by
        apply List.drop_eq_nil_of_le
        simp [htole16, uuid128.size, hbuf]
      rw [hd]
      simp [htole16]
    have hlen : (ble_gatts_chr_properties k chr :: htole16 (h + 1) ++ uuid128.bytes).length
        = 19 := by simp [htole16, uuid128.size]
    simp only [ble_att_svr_access_ctxt.value, h16, ne_eq, not_true_eq_false, false_implies,
      true_implies, hfull]
    rw [List.take_of_length_le (Nat.le_of_eq hlen)]
    refine ⟨by simp [htole16], ?_, trivial, rfl, hlen⟩
    have : (List.drop 1 (ble_gatts_chr_properties k chr :: htole16 (h + 1) ++ uuid128.bytes)).take 2
        = htole16 (h + 1) := by simp [htole16]
    rw [this]; exact hval
  · have e3 := memcpy_at_eq (htole16 (to16 uuid128))
      (memcpy_at (buf.set 0 (ble_gatts_chr_properties k chr)) 1 (htole16 (h + 1))) 3
      (by rw [memcpy_at_length]; simp [htole16, hbuf])
    refine ⟨⟨memcpy_at (memcpy_at (buf.set 0 (ble_gatts_chr_properties k chr)) 1
        (htole16 (h + 1))) 3 (htole16 (to16 uuid128)), 5⟩,
      by simp [ble_gatts_chr_def_access, huuid, h16], ?_⟩
    have hfull : (memcpy_at (memcpy_at (buf.set 0 (ble_gatts_chr_properties k chr)) 1
        (htole16 (h + 1))) 3 (htole16 (to16 uuid128))).take 5 =
        ble_gatts_chr_properties k chr :: htole16 (h + 1) ++ htole16 (to16 uuid128) := by
      rw [e3, e2, hset]
      simp [htole16]
    simp only [ble_att_svr_access_ctxt.value, h16, ne_eq, not_false_eq_true, true_implies,
      false_implies, hfull]
    refine ⟨by simp [htole16], ?_, by simp [htole16]⟩
    have : (List.drop 1 (ble_gatts_chr_properties k chr :: htole16 (h + 1) ++
        htole16 (to16 uuid128))).take 2 = htole16 (h + 1) := by simp [htole16]
    rw [this]; exact hval

/-- C18 as stated fails at the last handle: a read of a characteristic
declaration at the handle 65535 leaves 00 00 in the bytes 1-2, the `uint16_t`
that `htole16` is given for 65535 + 1, so the encoded value handle is 0 and not
the declaration handle + 1. -/
theorem C18_counterexample_handle_65535 :
    (ble_gatts_chr_def_access sample_uuid_128_to_16 sample_chr_consts (List.replicate 19 0)
        65535 ble_att_access_op.READ
        (sample_chr ⟨[0xfb, 0x34, 0x9b, 0x5f, 0x80, 0x00, 0x00, 0x80, 0x00, 0x10, 0x00, 0x00,
          0x00, 0x2a, 0x00, 0x00], rfl⟩ 0x12 none)).map
      (fun r => (r.1, r.2.value)) = some (0, [0x12, 0x00, 0x00, 0x00, 0x2a]) ∧
    le16toh [0x00, 0x00] ≠ 65535 + 1 := by
  decide

/-- C18 (amended): reading a characteristic declaration at a handle h below 65535
returns, in byte 0, the properties byte derived from the flags of the
characteristic: a byte in which a bit is set exactly when it is a bit of the
property of a flag that is set (broadcast, read, write without response,
write, notify, indicate, authenticated signed write, and the extended
property for reliable write or auxiliary write); in bytes 1-2 the value handle
h + 1, little-endian; then the UUID: 5 bytes in all with the 16-bit UUID when
ble_uuid_128_to_16 finds one, and 19 bytes with the sixteen UUID bytes
otherwise; in both cases the encoded value handle is h + 1. -/
theorem C18_chr_def_access_read (to16 : Uuid128 → Nat) (k : ble_gatt_chr_consts)
    (buf : List Nat) (h : Nat) (chr : ble_gatt_chr_def) (uuid128 : Uuid128)
    (hbuf : buf.length = BLE_GATTS_CHR_MAX_SZ)
    (huuid : chr.uuid128 = some uuid128)
    (hh : h < 65535) :
    ∃ (ctxt : ble_att_svr_access_ctxt) (p : Nat),
      ble_gatts_chr_def_access to16 k buf h ble_att_access_op.READ chr = some (0, ctxt) ∧
      ctxt.value.take 3 = p :: htole16 (h + 1) ∧
      p = ble_gatts_chr_properties k chr ∧
      p < 256 ∧
      (∀ i, p.testBit i =
        (decide (i < 8) &&
          ((decide (chr.flags &&& k.BLE_GATT_CHR_F_BROADCAST ≠ 0) &&
              k.BLE_GATT_CHR_PROP_BROADCAST.testBit i) ||
           (decide (chr.flags &&& k.BLE_GATT_CHR_F_READ ≠ 0) &&
              k.BLE_GATT_CHR_PROP_READ.testBit i) ||
           (decide (chr.flags &&& k.BLE_GATT_CHR_F_WRITE_NO_RSP ≠ 0) &&
              k.BLE_GATT_CHR_PROP_WRITE_NO_RSP.testBit i) ||
           (decide (chr.flags &&& k.BLE_GATT_CHR_F_WRITE ≠ 0) &&
              k.BLE_GATT_CHR_PROP_WRITE.testBit i) ||
           (decide (chr.flags &&& k.BLE_GATT_CHR_F_NOTIFY ≠ 0) &&
              k.BLE_GATT_CHR_PROP_NOTIFY.testBit i) ||
           (decide (chr.flags &&& k.BLE_GATT_CHR_F_INDICATE ≠ 0) &&
              k.BLE_GATT_CHR_PROP_INDICATE.testBit i) ||
           (decide (chr.flags &&& k.BLE_GATT_CHR_F_AUTH_SIGN_WRITE ≠ 0) &&
              k.BLE_GATT_CHR_PROP_AUTH_SIGN_WRITE.testBit i) ||
           (decide (chr.flags &&&
                (k.BLE_GATT_CHR_F_RELIABLE_WRITE ||| k.BLE_GATT_CHR_F_AUX_WRITE) ≠ 0) &&
              k.BLE_GATT_CHR_PROP_EXTENDED.testBit i)))) ∧
      le16toh ((ctxt.value.drop 1).take 2) = h + 1 ∧
      (to16 uuid128 ≠ 0 →
        ctxt.value = p :: htole16 (h + 1) ++ htole16 (to16 uuid128) ∧
        ctxt.value.length = 5) ∧
      (to16 uuid128 = 0 →
        ctxt.value = p :: htole16 (h + 1) ++ uuid128.bytes ∧ ctxt.value.length = 19) := by
  obtain ⟨ctxt, h1, h2, h3, h4, h5⟩ :=
    chr_def_access_read_bytes to16 k buf h chr uuid128 hbuf huuid (by omega)
  exact ⟨ctxt, ble_gatts_chr_properties k chr, h1, h2, rfl, (chr_properties_bits k chr).1,
    (chr_properties_bits k chr).2, h3, h4, h5⟩

/-- A readable, notifying characteristic with auxiliary write (flags 0x0112) and
the 16-bit UUID 0x2a00 at the handle 0x0102 is read as 92 03 01 00 2a: the
flag 0x0100 gives the extended property 0x80. -/
theorem C18_chr_def_access_read_witness :
    ∃ ctxt, ble_gatts_chr_def_access sample_uuid_128_to_16 sample_chr_consts
        (List.replicate 19 0) 0x0102 ble_att_access_op.READ
        (sample_chr ((sample_uuid_from_16bit 0x2a00).get (by decide)) 0x0112 none)
          = some (0, ctxt) ∧
      ctxt.value = [0x92, 0x03, 0x01, 0x00, 0x2a] := by
  obtain ⟨ctxt, p, h1, _, hp, _, _, _, h4, _⟩ := C18_chr_def_access_read sample_uuid_128_to_16
    sample_chr_consts (List.replicate 19 0) 0x0102
    (sample_chr ((sample_uuid_from_16bit 0x2a00).get (by decide)) 0x0112 none)
    ((sample_uuid_from_16bit 0x2a00).get (by decide)) (by decide) (by decide) (by decide)
  have hp2 : p = 0x92 := by rw [hp]; decide
  rw [hp2] at h4
  exact ⟨ctxt, h1, (h4 (by decide)).1⟩

/-- C19: characteristic-value access calls the access callback of the
characteristic with the read operation for a generic read and the write
operation for a generic write, and with the data and length of the generic
context; descriptor access does the same with the descriptor operations.  A
nonzero status of the callback is returned as it is and the generic context
is left unchanged; on status 0 the result is 0 and the length of the generic
context is the length that the callback left. -/
theorem C19_val_and_dsc_access (cbs : ble_gatt_access_fns) (conn_handle attr_handle : Nat)
    (att_ctxt : ble_att_svr_access_ctxt) (chr : ble_gatt_chr_def) (dsc : ble_gatt_dsc_def)
    (ccb dcb : Nat) (att_op : ble_att_access_op) (cop dop : ble_gatt_access_op)
    (hccb : chr.access_cb = some ccb) (hdcb : dsc.access_cb = some dcb)
    (hop : (att_op = ble_att_access_op.READ ∧ cop = ble_gatt_access_op.READ_CHR ∧
              dop = ble_gatt_access_op.READ_DSC) ∨
           (att_op = ble_att_access_op.WRITE ∧ cop = ble_gatt_access_op.WRITE_CHR ∧
              dop = ble_gatt_access_op.WRITE_DSC)) :
    (∀ rc gctxt,
      cbs ccb conn_handle attr_handle cop
        (ble_gatt_access_ctxt.chr_access chr att_ctxt.attr_data att_ctxt.attr_len)
          = (rc, gctxt) →
      (rc ≠ 0 → ble_gatts_chr_val_access cbs conn_handle attr_handle att_op att_ctxt (some chr)
        = some (rc, att_ctxt)) ∧
      (rc = 0 → ble_gatts_chr_val_access cbs conn_handle attr_handle att_op att_ctxt (some chr)
        = some (0, { attr_data := att_ctxt.attr_data, attr_len := gctxt.len }))) ∧
    (∀ rc gctxt,
      cbs dcb conn_handle attr_handle dop
        (ble_gatt_access_ctxt.dsc_access dsc att_ctxt.attr_data att_ctxt.attr_len)
          = (rc, gctxt) →
      (rc ≠ 0 → ble_gatts_dsc_access cbs conn_handle attr_handle att_op att_ctxt (some dsc)
        = some (rc, att_ctxt)) ∧
      (rc = 0 → ble_gatts_dsc_access cbs conn_handle attr_handle att_op att_ctxt (some dsc)
        = some (0, { attr_data := att_ctxt.attr_data, attr_len := gctxt.len }))) := by
  rcases hop with ⟨rfl, rfl, rfl⟩ | ⟨rfl, rfl, rfl⟩
  · refine ⟨?_, ?_⟩
    · intro rc gctxt hcb
      simp only [ble_gatts_chr_val_access, hccb, ble_gatts_chr_op, hcb]
      exact ⟨fun h => by simp [h], fun h => by simp [h]⟩
    · intro rc gctxt hcb
      simp only [ble_gatts_dsc_access, hdcb, ble_gatts_dsc_op, hcb]
      exact ⟨fun h => by simp [h], fun h => by simp [h]⟩
  · refine ⟨?_, ?_⟩
    · intro rc gctxt hcb
      simp only [ble_gatts_chr_val_access, hccb, ble_gatts_chr_op, hcb]
      exact ⟨fun h => by simp [h], fun h => by simp [h]⟩
    · intro rc gctxt hcb
      simp only [ble_gatts_dsc_access, hdcb, ble_gatts_dsc_op, hcb]
      exact ⟨fun h => by simp [h], fun h => by simp [h]⟩

/-- A read through the callback 1, which leaves 3 bytes, returns 0 with length 3;
a write to a descriptor bound to the callback 2, which refuses with status 9,
returns 9 and keeps the length 7. -/
theorem C19_val_and_dsc_access_witness :
    ble_gatts_chr_val_access sample_access_fns 1 5 ble_att_access_op.READ ⟨[], 0⟩
        (some (sample_chr (uuid_of_byte 1) 2 none)) = some (0, ⟨[], 3⟩) ∧
    ble_gatts_dsc_access sample_access_fns 1 6 ble_att_access_op.WRITE ⟨[4, 4], 7⟩
        (some (sample_dsc (uuid_of_byte 2))) = some (9, ⟨[4, 4], 7⟩) :=
  ⟨((C19_val_and_dsc_access sample_access_fns 1 5 ⟨[], 0⟩ (sample_chr (uuid_of_byte 1) 2 none)
      (sample_dsc (uuid_of_byte 2)) 1 2 ble_att_access_op.READ ble_gatt_access_op.READ_CHR
      ble_gatt_access_op.READ_DSC rfl rfl (Or.inl ⟨rfl, rfl, rfl⟩)).1 0
      (ble_gatt_access_ctxt.chr_access (sample_chr (uuid_of_byte 1) 2 none) [1, 2, 3] 3)
      (by decide)).2 rfl,
   by decide⟩

/-- C20: when a field of type t with payload p fits (the current length plus 2
plus the payload length is at most the capacity), ble_hs_adv_set_one_field
returns 0, leaves the bytes before the old end as they are, writes the record
[1 + |p|][t][p] at the old end, leaves the bytes after the record as they are,
and makes the length the old length plus 2 + |p|. -/
theorem C20_set_one_field_fits (t dst_len max_len : Nat) (p dst : List Nat)
    (hfit : dst_len + 2 + p.length ≤ max_len)
    (hmax : max_len ≤ 255)
    (hcap : max_len ≤ dst.length) :
    ble_hs_adv_set_one_field t p.length p dst dst_len max_len =
      (0,
       dst.take dst_len ++ ([1 + p.length, t] ++ p) ++ dst.drop (dst_len + 2 + p.length),
       dst_len + 2 + p.length) := by
  have h1 : ¬ dst_len + 2 + p.length > max_len := by omega
  have e := memcpy_at_eq ([(p.length + 1) % 256, t] ++ p) dst dst_len
    (by simp only [List.length_append, List.length_cons, List.length_nil]; omega)
  have hm1 : (p.length + 1) % 256 = 1 + p.length := by omega
  have hm2 : (dst_len + 2 + p.length) % 256 = dst_len + 2 + p.length := by omega
  simp only [ble_hs_adv_set_one_field, h1, if_false, List.take_length, hm2]
  have e2 : memcpy_at ((dst.set dst_len ((p.length + 1) % 256)).set (dst_len + 1) t)
      (dst_len + 2) p = memcpy_at dst dst_len ([(p.length + 1) % 256, t] ++ p) := by
    simp [memcpy_at]
  rw [e2, e, hm1]
  simp only [List.length_append, List.length_cons, List.length_nil]
  have : dst_len + (0 + 1 + 1 + p.length) = dst_len + 2 + p.length := by omega
  rw [this]

/-- Appending the field of type 9 with the payload 7 8 9 to a destination of
length 3 and capacity 10 writes 04 09 07 08 09 behind the first three bytes. -/
theorem C20_set_one_field_fits_witness :
    ble_hs_adv_set_one_field 9 3 [7, 8, 9] [1, 1, 1, 0, 0, 0, 0, 0, 0, 0] 3 10
      = (0, [1, 1, 1, 4, 9, 7, 8, 9, 0, 0], 8) :=
  C20_set_one_field_fits 9 3 10 [7, 8, 9] [1, 1, 1, 0, 0, 0, 0, 0, 0, 0]
    (by decide) (by decide) (by decide)

/-! ## GATT server registration: failures -/

theorem incs_unsatisfied_of_unregistered (svcs : List ble_gatt_svc_def) (st : ble_gatts_state)
    (sdef : ble_gatt_svc_def) (incs : List Nat) (p : Nat) (e : ble_gatts_svc_entry)
    (hinv : gatts_inv svcs st) (hincs : sdef.includes = some incs) (hp : p ∈ incs)
    (he : st.ble_gatts_svc_entries[p]? = some e) (h0 : e.handle = 0) :
    ble_gatts_svc_incs_satisfied st.ble_gatts_svc_entries sdef = false := by
  cases hsat : ble_gatts_svc_incs_satisfied st.ble_gatts_svc_entries sdef with
  | false => rfl
  | true =>
    simp only [ble_gatts_svc_incs_satisfied, hincs] at hsat
    obtain ⟨e1, he1, hn⟩ := incs_satisfied_loop_spec _ hinv.1 incs hsat p hp
    rw [he] at he1
    simp only [Option.some.injEq] at he1
    subst he1
    exact absurd h0 hn

theorem register_svc_unsatisfied (svc : Nat) (sdef : ble_gatt_svc_def) (cb : Bool)
    (st : ble_gatts_state)
    (h : ble_gatts_svc_incs_satisfied st.ble_gatts_svc_entries sdef = false) :
    ble_gatts_register_svc svc sdef cb st = (BLE_HS_EAGAIN, 0, st) := by
  simp [ble_gatts_register_svc, h]

/-- C11: two services that include each other are not registered: round 1
registers zero services and returns BLE_HS_EINVAL, the status with which the
code reports a circular dependency; ble_gatts_register_services returns it
after that single round; both handles are still 0, the attribute table is as
it was and the callback was not called. -/
theorem C11_circular_dependency (A B : ble_gatt_svc_def) (ia ib : List Nat) (cb : Bool)
    (svr : ble_att_svr)
    (hA : A.type ≠ ble_gatt_svc_type.END) (hB : B.type ≠ ble_gatt_svc_type.END)
    (hia : A.includes = some ia) (hab : 1 ∈ ia)
    (hib : B.includes = some ib) (hba : 0 ∈ ib) :
    ble_gatts_register_round [A, B] cb ⟨svr, ble_gatts_init_entries 2, []⟩
      = (BLE_HS_EINVAL, 0, ⟨svr, [⟨0, 0, 0xffff⟩, ⟨1, 0, 0xffff⟩], []⟩) ∧
    ble_gatts_register_services_loop [A, B] cb 1 0 ⟨svr, ble_gatts_init_entries 2, []⟩
      = some (BLE_HS_EINVAL, ⟨svr, [⟨0, 0, 0xffff⟩, ⟨1, 0, 0xffff⟩], []⟩) ∧
    ble_gatts_register_services [A, B] cb svr
      = some (BLE_HS_EINVAL, ⟨svr, [⟨0, 0, 0xffff⟩, ⟨1, 0, 0xffff⟩], []⟩) := by
  have hinv := (gatts_inv_init [A, B] svr 2).1
  have hent : ble_gatts_init_entries 2 = [⟨0, 0, 0xffff⟩, ⟨1, 0, 0xffff⟩] := by decide
  rw [hent] at hinv ⊢
  have hsA := incs_unsatisfied_of_unregistered [A, B] _ A ia 1 ⟨1, 0, 0xffff⟩ hinv hia hab
    rfl rfl
  have hsB := incs_unsatisfied_of_unregistered [A, B] _ B ib 0 ⟨0, 0, 0xffff⟩ hinv hib hba
    rfl rfl
  have hrA := register_svc_unsatisfied 0 A cb _ hsA
  have hrB := register_svc_unsatisfied 1 B cb _ hsB
  have hround : ble_gatts_register_round [A, B] cb
      ⟨svr, [⟨0, 0, 0xffff⟩, ⟨1, 0, 0xffff⟩], []⟩
      = (BLE_HS_EINVAL, 0, ⟨svr, [⟨0, 0, 0xffff⟩, ⟨1, 0, 0xffff⟩], []⟩) := by
    simp [ble_gatts_register_round, ble_gatts_register_round_loop, hrA, hrB, BLE_HS_EAGAIN,
      BLE_HS_EINVAL]
  have hcount : ble_gatts_count_svcs [A, B] = 2 := by
    simp [ble_gatts_count_svcs, hA, hB]
  refine ⟨hround, ?_, ?_⟩
  · simp [ble_gatts_register_services_loop, hround, BLE_HS_EINVAL]
  · simp [ble_gatts_register_services, hcount, hent, ble_gatts_register_services_loop, hround,
      BLE_HS_EINVAL]

/-- Two sample services that include each other, with room in the attribute
table: the result is BLE_HS_EINVAL and nothing was registered. -/
theorem C11_circular_dependency_witness :
    ble_gatts_register_services [sample_svc 1 (some [1]), sample_svc 2 (some [0])] true
        (sample_svr 8)
      = some (BLE_HS_EINVAL, ⟨sample_svr 8, [⟨0, 0, 0xffff⟩, ⟨1, 0, 0xffff⟩], []⟩) :=
  (C11_circular_dependency (sample_svc 1 (some [1])) (sample_svc 2 (some [0])) [1] [0] true
    (sample_svr 8) (by decide) (by decide) rfl (by decide) rfl (by decide)).2.2

/-! ## GATT server registration: what is allocated -/

theorem number_items_append (a b : List ble_gatts_reg_item) :
    ∀ h : Nat, number_items h (a ++ b) = number_items h a ++ number_items (h + a.length) b := by
  induction a with
  | nil => intro h; simp [number_items]
  | cons x rest ih =>
    intro h
    have e : h + 1 + rest.length = h + (rest.length + 1) := by omega
    show number_items h (x :: (rest ++ b)) =
      number_items h (x :: rest) ++ number_items (h + (rest.length + 1)) b
    simp only [number_items, List.cons_append]
    rw [ih (h + 1), e]

theorem alloc_ok_nil (cb : Bool) (st : ble_gatts_state) : alloc_ok cb st st [] := by
  refine ⟨rfl, rfl, ?_, ?_⟩
  · simp [number_items]
  · simp [number_items]

theorem alloc_ok_trans (cb : Bool) (st st1 st2 : ble_gatts_state)
    (a b : List ble_gatts_reg_item) (h1 : alloc_ok cb st st1 a) (h2 : alloc_ok cb st1 st2 b) :
    alloc_ok cb st st2 (a ++ b) := by
  obtain ⟨e1, p1, a1, l1⟩ := h1
  obtain ⟨e2, p2, a2, l2⟩ := h2
  refine ⟨e2.trans e1, ?_, ?_, ?_⟩
  · rw [p2, p1, List.length_append]; omega
  · have : st.svr.prev_handle + a.length + 1 = st.svr.prev_handle + 1 + a.length := by omega
    rw [a2, a1, p1, number_items_append, List.map_append, List.append_assoc, this]
  · rw [l2, l1, p1, number_items_append]
    have : st.svr.prev_handle + a.length + 1 = st.svr.prev_handle + 1 + a.length := by omega
    rw [this]
    cases cb <;> simp [List.filterMap_append]

theorem att_svr_register_cases (svr : ble_att_svr) (k : ble_att_svr_access) :
    (svr.num_free = 0 ∧ ble_att_svr_register svr k = (BLE_HS_ENOMEM, 0, svr)) ∨
    (svr.num_free ≠ 0 ∧ ble_att_svr_register svr k =
      (0, svr.prev_handle + 1,
        ⟨svr.prev_handle + 1, svr.num_free - 1,
          svr.attrs ++ [⟨svr.prev_handle + 1, k⟩]⟩)) := by
  by_cases h : svr.num_free = 0
  · left; exact ⟨h, by simp [ble_att_svr_register, h]⟩
  · right; exact ⟨h, by simp [ble_att_svr_register, h]⟩

theorem register_inc_alloc (cb : Bool) (idx : Nat) (st st1 : ble_gatts_state)
    (h : ble_gatts_register_inc idx st = (0, st1)) :
    alloc_ok cb st st1 [ble_gatts_reg_item.inc idx] := by
  rcases att_svr_register_cases st.svr (ble_att_svr_access.inc idx) with ⟨_, hr⟩ | ⟨_, hr⟩
  · simp [ble_gatts_register_inc, hr, BLE_HS_ENOMEM] at h
  · simp only [ble_gatts_register_inc, hr, ne_eq, not_true_eq_false, if_false,
      Prod.mk.injEq, true_and] at h
    subst h
    refine ⟨rfl, rfl, ?_, ?_⟩
    · simp [number_items, item_attr, reg_item_access]
    · cases cb <;> simp [number_items, item_event]

theorem find_svc_eq_of_ptr (entries : List ble_gatts_svc_entry)
    (hptr : ∀ (i : Nat) (e : ble_gatts_svc_entry), entries[i]? = some e → e.svc = i)
    (p idx : Nat) (h : ble_gatts_find_svc entries p = some idx) : idx = p := by
  obtain ⟨_, e1, he1, hs1⟩ := find_svc_from_spec p entries 0 idx h
  simp only [Nat.sub_zero] at he1
  rw [← hs1]
  exact (hptr idx e1 he1).symm

theorem register_incs_loop_alloc (cb : Bool) (incs : List Nat) :
    ∀ (st st1 : ble_gatts_state),
      (∀ (i : Nat) (e : ble_gatts_svc_entry),
        st.ble_gatts_svc_entries[i]? = some e → e.svc = i) →
      ble_gatts_register_incs_loop incs st = (0, st1) →
      alloc_ok cb st st1 (incs.map ble_gatts_reg_item.inc) := by
  induction incs with
  | nil =>
    intro st st1 _ h
    simp only [ble_gatts_register_incs_loop, Prod.mk.injEq, true_and] at h
    subst h
    exact alloc_ok_nil cb st
  | cons inc rest ih =>
    intro st st1 hptr h
    cases hf : ble_gatts_find_svc st.ble_gatts_svc_entries inc with
    | none => simp [ble_gatts_register_incs_loop, hf, BLE_HS_EINVAL] at h
    | some idx =>
      have hidx := find_svc_eq_of_ptr _ hptr inc idx hf
      subst hidx
      rcases hreg : ble_gatts_register_inc idx st with ⟨rc, st2⟩
      simp only [ble_gatts_register_incs_loop, hf, hreg] at h
      by_cases hrc : rc = 0
      · subst hrc
        simp only [ne_eq, not_true_eq_false, if_false] at h
        have h1 := register_inc_alloc cb idx st st2 hreg
        have h2 := ih st2 st1 (by rw [h1.1]; exact hptr) h
        exact alloc_ok_trans cb st st2 st1 [ble_gatts_reg_item.inc idx] _ h1 h2
      · simp only [ne_eq, hrc, not_false_eq_true, if_true, Prod.mk.injEq] at h
        exact h.1.elim

theorem register_incs_alloc (cb : Bool) (sdef : ble_gatt_svc_def) (st st1 : ble_gatts_state)
    (hptr : ∀ (i : Nat) (e : ble_gatts_svc_entry),
      st.ble_gatts_svc_entries[i]? = some e → e.svc = i)
    (h : ble_gatts_register_incs sdef st = (0, st1)) :
    alloc_ok cb st st1 ((sdef.includes.getD []).map ble_gatts_reg_item.inc) := by
  unfold ble_gatts_register_incs at h
  cases hi : sdef.includes with
  | none =>
    simp only [hi, Prod.mk.injEq, true_and] at h
    subst h
    exact alloc_ok_nil cb st
  | some incs =>
    simp only [hi] at h
    exact register_incs_loop_alloc cb incs st st1 hptr h

theorem register_dsc_alloc (cb : Bool) (dsc : ble_gatt_dsc_def) (chr : ble_gatt_chr_def)
    (dh k : Nat) (st st1 : ble_gatts_state) (hprev : st.svr.prev_handle + 1 = dh + 2 + k)
    (h : ble_gatts_register_dsc dsc chr dh cb st = (0, st1)) :
    alloc_ok cb st st1 [ble_gatts_reg_item.dsc dsc chr k] := by
  have hdh : st.svr.prev_handle + 1 - 2 - k = dh := by omega
  by_cases hs : ble_gatts_dsc_is_sane dsc = true
  swap
  · simp only [Bool.not_eq_true] at hs
    simp [ble_gatts_register_dsc, hs, BLE_HS_EINVAL] at h
  rcases att_svr_register_cases st.svr (ble_att_svr_access.dsc dsc) with ⟨_, hr⟩ | ⟨_, hr⟩
  · simp [ble_gatts_register_dsc, hs, hr, BLE_HS_ENOMEM] at h
  · cases cb with
    | false =>
      simp only [ble_gatts_register_dsc, hs, Bool.not_true, Bool.false_eq_true, if_false, hr,
        ne_eq, not_true_eq_false, Prod.mk.injEq, true_and] at h
      subst h
      refine ⟨rfl, rfl, ?_, ?_⟩
      · simp [number_items, item_attr, reg_item_access]
      · simp
    | true =>
      simp only [ble_gatts_register_dsc, hs, Bool.not_true, Bool.false_eq_true, if_false, hr,
        ne_eq, not_true_eq_false, if_true, Prod.mk.injEq, true_and] at h
      subst h
      refine ⟨rfl, rfl, ?_, ?_⟩
      · simp [number_items, item_attr, reg_item_access]
      · simp only [number_items, item_event, if_true, List.filterMap_cons,
          List.filterMap_nil, hdh]

theorem register_dscs_loop_alloc (cb : Bool) (chr : ble_gatt_chr_def) (dh : Nat)
    (dscs : List ble_gatt_dsc_def) :
    ∀ (k : Nat) (st st1 : ble_gatts_state), st.svr.prev_handle + 1 = dh + 2 + k →
      ble_gatts_register_dscs_loop chr dh cb dscs st = (0, st1) →
      alloc_ok cb st st1 (dsc_items chr k dscs) := by
  induction dscs with
  | nil =>
    intro k st st1 _ h
    simp only [ble_gatts_register_dscs_loop, Prod.mk.injEq, true_and] at h
    subst h
    exact alloc_ok_nil cb st
  | cons dsc rest ih =>
    intro k st st1 hprev h
    by_cases hu : dsc.uuid128 = none
    · simp only [ble_gatts_register_dscs_loop, hu, if_true, Prod.mk.injEq, true_and] at h
      subst h
      simp only [dsc_items, hu, if_true]
      exact alloc_ok_nil cb st
    · rcases hreg : ble_gatts_register_dsc dsc chr dh cb st with ⟨rc, st2⟩
      simp only [ble_gatts_register_dscs_loop, hu, if_false, hreg] at h
      by_cases hrc : rc = 0
      · subst hrc
        simp only [ne_eq, not_true_eq_false, if_false] at h
        have h1 := register_dsc_alloc cb dsc chr dh k st st2 hprev hreg
        have h2 := ih (k + 1) st2 st1 (by rw [h1.2.1]; simp; omega) h
        simp only [dsc_items, hu, if_false]
        exact alloc_ok_trans cb st st2 st1 [ble_gatts_reg_item.dsc dsc chr k] _ h1 h2
      · simp only [ne_eq, hrc, not_false_eq_true, if_true, Prod.mk.injEq] at h
        exact h.1.elim

theorem register_dscs_alloc (cb : Bool) (chr : ble_gatt_chr_def) (dh : Nat)
    (st st1 : ble_gatts_state) (hprev : st.svr.prev_handle + 1 = dh + 2)
    (h : ble_gatts_register_dscs chr dh cb st = (0, st1)) :
    alloc_ok cb st st1 (dsc_items chr 0 (chr.descriptors.getD [])) := by
  unfold ble_gatts_register_dscs at h
  cases hd : chr.descriptors with
  | none =>
    simp only [hd, Prod.mk.injEq, true_and] at h
    subst h
    simp only [Option.getD_none, dsc_items]
    exact alloc_ok_nil cb st
  | some dscs =>
    simp only [hd] at h
    exact register_dscs_loop_alloc cb chr dh dscs 0 st st1 (by omega) h

theorem register_chr_alloc (cb : Bool) (chr : ble_gatt_chr_def) (st st1 : ble_gatts_state)
    (h : ble_gatts_register_chr chr cb st = (0, st1)) :
    alloc_ok cb st st1 (chr_items chr) := by
  by_cases hs : ble_gatts_chr_is_sane chr = true
  swap
  · simp only [Bool.not_eq_true] at hs
    simp [ble_gatts_register_chr, hs, BLE_HS_EINVAL] at h
  rcases att_svr_register_cases st.svr (ble_att_svr_access.chr_def chr) with ⟨_, hr⟩ | ⟨_, hr⟩
  · simp [ble_gatts_register_chr, hs, hr, BLE_HS_ENOMEM] at h
  rcases att_svr_register_cases
    ⟨st.svr.prev_handle + 1, st.svr.num_free - 1,
      st.svr.attrs ++ [⟨st.svr.prev_handle + 1, ble_att_svr_access.chr_def chr⟩]⟩
    (ble_att_svr_access.chr_val chr) with ⟨_, hr2⟩ | ⟨_, hr2⟩
  · simp [ble_gatts_register_chr, hs, hr, hr2, BLE_HS_ENOMEM] at h
  simp only at hr2
  cases cb with
  | false =>
    rcases hreg3 : ble_gatts_register_dscs chr (st.svr.prev_handle + 1) false
      ⟨⟨st.svr.prev_handle + 1 + 1, st.svr.num_free - 1 - 1,
        st.svr.attrs ++ [⟨st.svr.prev_handle + 1, ble_att_svr_access.chr_def chr⟩] ++
          [⟨st.svr.prev_handle + 1 + 1, ble_att_svr_access.chr_val chr⟩]⟩,
        st.ble_gatts_svc_entries, st.cb_log⟩ with ⟨rc3, st3⟩
    simp only [ble_gatts_register_chr, hs, Bool.not_true, Bool.false_eq_true, if_false, hr,
      ne_eq, not_true_eq_false, hr2, hreg3] at h
    by_cases hrc : rc3 = 0
    · subst hrc
      simp only [not_true_eq_false, if_false, Prod.mk.injEq, true_and] at h
      subst h
      have h3 := register_dscs_alloc false chr (st.svr.prev_handle + 1) _ st3 (by simp) hreg3
      have h12 : alloc_ok false st
          ⟨⟨st.svr.prev_handle + 1 + 1, st.svr.num_free - 1 - 1,
            st.svr.attrs ++ [⟨st.svr.prev_handle + 1, ble_att_svr_access.chr_def chr⟩] ++
              [⟨st.svr.prev_handle + 1 + 1, ble_att_svr_access.chr_val chr⟩]⟩,
            st.ble_gatts_svc_entries, st.cb_log⟩
          [ble_gatts_reg_item.chr_def chr, ble_gatts_reg_item.chr_val chr] := by
        refine ⟨rfl, rfl, ?_, ?_⟩
        · simp [number_items, item_attr, reg_item_access]
        · simp
      exact alloc_ok_trans false st _ st3 _ _ h12 h3
    · simp only [hrc, not_false_eq_true, if_true, Prod.mk.injEq] at h
      exact h.1.elim
  | true =>
    rcases hreg3 : ble_gatts_register_dscs chr (st.svr.prev_handle + 1) true
      ⟨⟨st.svr.prev_handle + 1 + 1, st.svr.num_free - 1 - 1,
        st.svr.attrs ++ [⟨st.svr.prev_handle + 1, ble_att_svr_access.chr_def chr⟩] ++
          [⟨st.svr.prev_handle + 1 + 1, ble_att_svr_access.chr_val chr⟩]⟩,
        st.ble_gatts_svc_entries,
        st.cb_log ++ [ble_gatt_register_event.chr (st.svr.prev_handle + 1)
          (st.svr.prev_handle + 1 + 1) chr]⟩ with ⟨rc3, st3⟩
    simp only [ble_gatts_register_chr, hs, Bool.not_true, Bool.false_eq_true, if_false, hr,
      ne_eq, not_true_eq_false, hr2, if_true, hreg3] at h
    by_cases hrc : rc3 = 0
    · subst hrc
      simp only [not_true_eq_false, if_false, Prod.mk.injEq, true_and] at h
      subst h
      have h3 := register_dscs_alloc true chr (st.svr.prev_handle + 1) _ st3 (by simp) hreg3
      have h12 : alloc_ok true st
          ⟨⟨st.svr.prev_handle + 1 + 1, st.svr.num_free - 1 - 1,
            st.svr.attrs ++ [⟨st.svr.prev_handle + 1, ble_att_svr_access.chr_def chr⟩] ++
              [⟨st.svr.prev_handle + 1 + 1, ble_att_svr_access.chr_val chr⟩]⟩,
            st.ble_gatts_svc_entries,
            st.cb_log ++ [ble_gatt_register_event.chr (st.svr.prev_handle + 1)
              (st.svr.prev_handle + 1 + 1) chr]⟩
          [ble_gatts_reg_item.chr_def chr, ble_gatts_reg_item.chr_val chr] := by
        refine ⟨rfl, rfl, ?_, ?_⟩
        · simp [number_items, item_attr, reg_item_access]
        · simp [number_items, item_event]
      exact alloc_ok_trans true st _ st3 _ _ h12 h3
    · simp only [hrc, not_false_eq_true, if_true, Prod.mk.injEq] at h
      exact h.1.elim

theorem register_chrs_loop_alloc (cb : Bool) (chrs : List ble_gatt_chr_def) :
    ∀ (st st1 : ble_gatts_state),
      ble_gatts_register_chrs_loop cb chrs st = (0, st1) →
      alloc_ok cb st st1 (chrs_items chrs) := by
  induction chrs with
  | nil =>
    intro st st1 h
    simp only [ble_gatts_register_chrs_loop, Prod.mk.injEq, true_and] at h
    subst h
    exact alloc_ok_nil cb st
  | cons chr rest ih =>
    intro st st1 h
    by_cases hu : chr.uuid128 = none
    · simp only [ble_gatts_register_chrs_loop, hu, if_true, Prod.mk.injEq, true_and] at h
      subst h
      simp only [chrs_items, hu, if_true]
      exact alloc_ok_nil cb st
    · rcases hreg : ble_gatts_register_chr chr cb st with ⟨rc, st2⟩
      simp only [ble_gatts_register_chrs_loop, hu, if_false, hreg] at h
      by_cases hrc : rc = 0
      · subst hrc
        simp only [ne_eq, not_true_eq_false, if_false] at h
        have h1 := register_chr_alloc cb chr st st2 hreg
        have h2 := ih st2 st1 h
        simp only [chrs_items, hu, if_false]
        exact alloc_ok_trans cb st st2 st1 _ _ h1 h2
      · simp only [ne_eq, hrc, not_false_eq_true, if_true, Prod.mk.injEq] at h
        exact h.1.elim

theorem register_chrs_alloc (cb : Bool) (sdef : ble_gatt_svc_def) (st st1 : ble_gatts_state)
    (h : ble_gatts_register_chrs sdef cb st = (0, st1)) :
    alloc_ok cb st st1 (chrs_items (sdef.characteristics.getD [])) := by
  unfold ble_gatts_register_chrs at h
  cases hc : sdef.characteristics with
  | none =>
    simp only [hc, Prod.mk.injEq, true_and] at h
    subst h
    simp only [Option.getD_none, chrs_items]
    exact alloc_ok_nil cb st
  | some chrs =>
    simp only [hc] at h
    exact register_chrs_loop_alloc cb chrs st st1 h

theorem register_svc_alloc (cb : Bool) (svc : Nat) (sdef : ble_gatt_svc_def)
    (st st1 : ble_gatts_state) (handle : Nat)
    (hptr : ∀ (i : Nat) (e : ble_gatts_svc_entry),
      st.ble_gatts_svc_entries[i]? = some e → e.svc = i)
    (h : ble_gatts_register_svc svc sdef cb st = (0, handle, st1)) :
    handle = st.svr.prev_handle + 1 ∧ alloc_ok cb st st1 (svc_items svc sdef) := by
  by_cases hinc : ble_gatts_svc_incs_satisfied st.ble_gatts_svc_entries sdef = true
  swap
  · simp only [Bool.not_eq_true] at hinc
    simp [ble_gatts_register_svc, hinc, BLE_HS_EAGAIN] at h
  by_cases hsane : ble_gatts_svc_is_sane sdef = true
  swap
  · simp only [Bool.not_eq_true] at hsane
    simp [ble_gatts_register_svc, hinc, hsane, BLE_HS_EINVAL] at h
  rcases att_svr_register_cases st.svr (ble_att_svr_access.svc svc) with ⟨_, hr⟩ | ⟨_, hr⟩
  · simp [ble_gatts_register_svc, hinc, hsane, hr, BLE_HS_ENOMEM] at h
  cases cb with
  | false =>
    have h01 : alloc_ok false st
        ⟨⟨st.svr.prev_handle + 1, st.svr.num_free - 1,
          st.svr.attrs ++ [⟨st.svr.prev_handle + 1, ble_att_svr_access.svc svc⟩]⟩,
          st.ble_gatts_svc_entries, st.cb_log⟩ [ble_gatts_reg_item.svc svc] := by
      refine ⟨rfl, rfl, ?_, ?_⟩
      · simp [number_items, item_attr, reg_item_access]
      · simp
    rcases hreg2 : ble_gatts_register_incs sdef
      ⟨⟨st.svr.prev_handle + 1, st.svr.num_free - 1,
        st.svr.attrs ++ [⟨st.svr.prev_handle + 1, ble_att_svr_access.svc svc⟩]⟩,
        st.ble_gatts_svc_entries, st.cb_log⟩ with ⟨rc2, st2⟩
    rcases hreg3 : ble_gatts_register_chrs sdef false st2 with ⟨rc3, st3⟩
    simp only [ble_gatts_register_svc, hinc, hsane, Bool.not_true, Bool.false_eq_true,
      if_false, hr, ne_eq, not_true_eq_false, hreg2, hreg3] at h
    by_cases hrc2 : rc2 = 0
    swap
    · simp only [hrc2, not_false_eq_true, if_true, Prod.mk.injEq] at h
      exact h.1.elim
    subst hrc2
    by_cases hrc3 : rc3 = 0
    swap
    · simp only [not_true_eq_false, if_false, hrc3, not_false_eq_true, if_true,
        Prod.mk.injEq] at h
      exact h.1.elim
    subst hrc3
    simp only [not_true_eq_false, if_false, Prod.mk.injEq, true_and] at h
    obtain ⟨hh, hst⟩ := h
    subst hst
    have h12 := register_incs_alloc false sdef _ st2 (by exact hptr) hreg2
    have h23 := register_chrs_alloc false sdef st2 st3 hreg3
    refine ⟨hh.symm, ?_⟩
    exact alloc_ok_trans false st _ st3 [ble_gatts_reg_item.svc svc] _ h01
      (alloc_ok_trans false _ st2 st3 _ _ h12 h23)
  | true =>
    have h01 : alloc_ok true st
        ⟨⟨st.svr.prev_handle + 1, st.svr.num_free - 1,
          st.svr.attrs ++ [⟨st.svr.prev_handle + 1, ble_att_svr_access.svc svc⟩]⟩,
          st.ble_gatts_svc_entries,
          st.cb_log ++ [ble_gatt_register_event.svc (st.svr.prev_handle + 1) svc]⟩
        [ble_gatts_reg_item.svc svc] := by
      refine ⟨rfl, rfl, ?_, ?_⟩
      · simp [number_items, item_attr, reg_item_access]
      · simp [number_items, item_event]
    rcases hreg2 : ble_gatts_register_incs sdef
      ⟨⟨st.svr.prev_handle + 1, st.svr.num_free - 1,
        st.svr.attrs ++ [⟨st.svr.prev_handle + 1, ble_att_svr_access.svc svc⟩]⟩,
        st.ble_gatts_svc_entries,
        st.cb_log ++ [ble_gatt_register_event.svc (st.svr.prev_handle + 1) svc]⟩
      with ⟨rc2, st2⟩
    rcases hreg3 : ble_gatts_register_chrs sdef true st2 with ⟨rc3, st3⟩
    simp only [ble_gatts_register_svc, hinc, hsane, Bool.not_true, Bool.false_eq_true,
      if_false, hr, ne_eq, not_true_eq_false, if_true, hreg2, hreg3] at h
    by_cases hrc2 : rc2 = 0
    swap
    · simp only [hrc2, not_false_eq_true, if_true, Prod.mk.injEq] at h
      exact h.1.elim
    subst hrc2
    by_cases hrc3 : rc3 = 0
    swap
    · simp only [not_true_eq_false, if_false, hrc3, not_false_eq_true, if_true,
        Prod.mk.injEq] at h
      exact h.1.elim
    subst hrc3
    simp only [not_true_eq_false, if_false, Prod.mk.injEq, true_and] at h
    obtain ⟨hh, hst⟩ := h
    subst hst
    have h12 := register_incs_alloc true sdef _ st2 (by exact hptr) hreg2
    have h23 := register_chrs_alloc true sdef st2 st3 hreg3
    refine ⟨hh.symm, ?_⟩
    exact alloc_ok_trans true st _ st3 [ble_gatts_reg_item.svc svc] _ h01
      (alloc_ok_trans true _ st2 st3 _ _ h12 h23)

/-! ## GATT server registration: statuses -/

theorem register_inc_rc (idx : Nat) (st : ble_gatts_state) :
    gatts_rc_plain (ble_gatts_register_inc idx st).1 := by
  rcases att_svr_register_cases st.svr (ble_att_svr_access.inc idx) with ⟨_, hr⟩ | ⟨_, hr⟩
  · simp [ble_gatts_register_inc, hr, gatts_rc_plain, BLE_HS_ENOMEM]
  · simp [ble_gatts_register_inc, hr, gatts_rc_plain]

theorem register_incs_loop_rc (incs : List Nat) :
    ∀ st : ble_gatts_state, gatts_rc_plain (ble_gatts_register_incs_loop incs st).1 := by
  induction incs with
  | nil => intro st; simp [ble_gatts_register_incs_loop, gatts_rc_plain]
  | cons inc rest ih =>
    intro st
    cases hf : ble_gatts_find_svc st.ble_gatts_svc_entries inc with
    | none => simp [ble_gatts_register_incs_loop, hf, gatts_rc_plain]
    | some idx =>
      have h1 := register_inc_rc idx st
      rcases hreg : ble_gatts_register_inc idx st with ⟨rc, st2⟩
      rw [hreg] at h1
      simp only [ble_gatts_register_incs_loop, hf, hreg]
      split_ifs
      · exact h1
      · exact ih st2

theorem register_incs_rc (sdef : ble_gatt_svc_def) (st : ble_gatts_state) :
    gatts_rc_plain (ble_gatts_register_incs sdef st).1 := by
  unfold ble_gatts_register_incs
  cases sdef.includes with
  | none => simp [gatts_rc_plain]
  | some incs => exact register_incs_loop_rc incs st

theorem register_dsc_rc (dsc : ble_gatt_dsc_def) (chr : ble_gatt_chr_def) (dh : Nat)
    (cb : Bool) (st : ble_gatts_state) :
    gatts_rc_plain (ble_gatts_register_dsc dsc chr dh cb st).1 := by
  rcases att_svr_register_cases st.svr (ble_att_svr_access.dsc dsc) with ⟨_, hr⟩ | ⟨_, hr⟩
  · simp only [ble_gatts_register_dsc, hr]
    split_ifs <;> simp [gatts_rc_plain, BLE_HS_ENOMEM]
  · simp only [ble_gatts_register_dsc, hr]
    split_ifs <;> simp [gatts_rc_plain]

theorem register_dscs_loop_rc (chr : ble_gatt_chr_def) (dh : Nat) (cb : Bool)
    (dscs : List ble_gatt_dsc_def) :
    ∀ st : ble_gatts_state,
      gatts_rc_plain (ble_gatts_register_dscs_loop chr dh cb dscs st).1 := by
  induction dscs with
  | nil => intro st; simp [ble_gatts_register_dscs_loop, gatts_rc_plain]
  | cons dsc rest ih =>
    intro st
    have h1 := register_dsc_rc dsc chr dh cb st
    rcases hreg : ble_gatts_register_dsc dsc chr dh cb st with ⟨rc, st2⟩
    rw [hreg] at h1
    simp only [ble_gatts_register_dscs_loop, hreg]
    split_ifs
    · simp [gatts_rc_plain]
    · exact h1
    · exact ih st2

theorem register_dscs_rc (chr : ble_gatt_chr_def) (dh : Nat) (cb : Bool)
    (st : ble_gatts_state) : gatts_rc_plain (ble_gatts_register_dscs chr dh cb st).1 := by
  unfold ble_gatts_register_dscs
  cases chr.descriptors with
  | none => simp [gatts_rc_plain]
  | some dscs => exact register_dscs_loop_rc chr dh cb dscs st

theorem register_chr_rc (chr : ble_gatt_chr_def) (cb : Bool) (st : ble_gatts_state) :
    gatts_rc_plain (ble_gatts_register_chr chr cb st).1 := by
  by_cases hs : ble_gatts_chr_is_sane chr = true
  swap
  · simp only [Bool.not_eq_true] at hs
    simp [ble_gatts_register_chr, hs, gatts_rc_plain]
  rcases att_svr_register_cases st.svr (ble_att_svr_access.chr_def chr) with ⟨_, hr⟩ | ⟨_, hr⟩
  · simp [ble_gatts_register_chr, hs, hr, gatts_rc_plain, BLE_HS_ENOMEM]
  rcases att_svr_register_cases
    ⟨st.svr.prev_handle + 1, st.svr.num_free - 1,
      st.svr.attrs ++ [⟨st.svr.prev_handle + 1, ble_att_svr_access.chr_def chr⟩]⟩
    (ble_att_svr_access.chr_val chr) with ⟨_, hr2⟩ | ⟨_, hr2⟩
  · simp [ble_gatts_register_chr, hs, hr, hr2, gatts_rc_plain, BLE_HS_ENOMEM]
  simp only at hr2
  simp only [ble_gatts_register_chr, hs, Bool.not_true, Bool.false_eq_true, if_false, hr,
    ne_eq, not_true_eq_false, hr2]
  generalize hst2 : (if cb = true then _ else _ : ble_gatts_state) = st2
  have h3 := register_dscs_rc chr (st.svr.prev_handle + 1) cb st2
  rcases hreg3 : ble_gatts_register_dscs chr (st.svr.prev_handle + 1) cb st2 with ⟨rc3, st3⟩
  rw [hreg3] at h3
  simp only
  split_ifs <;> first | exact h3 | simp [gatts_rc_plain]

theorem register_chrs_loop_rc (cb : Bool) (chrs : List ble_gatt_chr_def) :
    ∀ st : ble_gatts_state, gatts_rc_plain (ble_gatts_register_chrs_loop cb chrs st).1 := by
  induction chrs with
  | nil => intro st; simp [ble_gatts_register_chrs_loop, gatts_rc_plain]
  | cons chr rest ih =>
    intro st
    have h1 := register_chr_rc chr cb st
    rcases hreg : ble_gatts_register_chr chr cb st with ⟨rc, st2⟩
    rw [hreg] at h1
    simp only [ble_gatts_register_chrs_loop, hreg]
    split_ifs
    · simp [gatts_rc_plain]
    · exact h1
    · exact ih st2

theorem register_chrs_rc (sdef : ble_gatt_svc_def) (cb : Bool) (st : ble_gatts_state) :
    gatts_rc_plain (ble_gatts_register_chrs sdef cb st).1 := by
  unfold ble_gatts_register_chrs
  cases sdef.characteristics with
  | none => simp [gatts_rc_plain]
  | some chrs => exact register_chrs_loop_rc cb chrs st

theorem register_svc_rc (svc : Nat) (sdef : ble_gatt_svc_def) (cb : Bool)
    (st : ble_gatts_state) :
    (ble_gatts_svc_incs_satisfied st.ble_gatts_svc_entries sdef = false ∧
      ble_gatts_register_svc svc sdef cb st = (BLE_HS_EAGAIN, 0, st)) ∨
    (ble_gatts_svc_incs_satisfied st.ble_gatts_svc_entries sdef = true ∧
      ble_gatts_svc_is_sane sdef = false ∧
      ble_gatts_register_svc svc sdef cb st = (BLE_HS_EINVAL, 0, st)) ∨
    (ble_gatts_svc_incs_satisfied st.ble_gatts_svc_entries sdef = true ∧
      ble_gatts_svc_is_sane sdef = true ∧
      gatts_rc_plain (ble_gatts_register_svc svc sdef cb st).1) := by
  by_cases hinc : ble_gatts_svc_incs_satisfied st.ble_gatts_svc_entries sdef = true
  swap
  · simp only [Bool.not_eq_true] at hinc
    left
    exact ⟨hinc, register_svc_unsatisfied svc sdef cb st hinc⟩
  right
  by_cases hsane : ble_gatts_svc_is_sane sdef = true
  swap
  · simp only [Bool.not_eq_true] at hsane
    left
    exact ⟨hinc, hsane, by simp [ble_gatts_register_svc, hinc, hsane]⟩
  right
  refine ⟨hinc, hsane, ?_⟩
  rcases att_svr_register_cases st.svr (ble_att_svr_access.svc svc) with ⟨_, hr⟩ | ⟨_, hr⟩
  · simp [ble_gatts_register_svc, hinc, hsane, hr, gatts_rc_plain, BLE_HS_ENOMEM]
  simp only [ble_gatts_register_svc, hinc, hsane, Bool.not_true, Bool.false_eq_true, if_false,
    hr, ne_eq, not_true_eq_false]
  generalize hst1 : (if cb = true then _ else _ : ble_gatts_state) = st1
  have h2 := register_incs_rc sdef st1
  rcases hreg2 : ble_gatts_register_incs sdef st1 with ⟨rc2, st2⟩
  rw [hreg2] at h2
  have h3 := register_chrs_rc sdef cb st2
  rcases hreg3 : ble_gatts_register_chrs sdef cb st2 with ⟨rc3, st3⟩
  rw [hreg3] at h3
  simp only
  split_ifs <;> first | exact h2 | exact h3 | simp [gatts_rc_plain]

theorem register_svc_eagain (svc : Nat) (sdef : ble_gatt_svc_def) (cb : Bool)
    (st st1 : ble_gatts_state) (handle : Nat)
    (h : ble_gatts_register_svc svc sdef cb st = (BLE_HS_EAGAIN, handle, st1)) : st1 = st := by
  rcases register_svc_rc svc sdef cb st with ⟨_, hr⟩ | ⟨_, _, hr⟩ | ⟨_, _, hr⟩
  · rw [hr] at h
    simp only [Prod.mk.injEq] at h
    exact h.2.2.symm
  · rw [hr] at h
    simp [BLE_HS_EINVAL, BLE_HS_EAGAIN] at h
  · rw [h] at hr
    simp [gatts_rc_plain, BLE_HS_EINVAL, BLE_HS_EAGAIN, BLE_HS_ENOMEM] at hr

/-! ## GATT server registration: induction over the rounds -/

theorem register_round_loop_ok (svcs : List ble_gatt_svc_def) (cb : Bool)
    (P : ble_gatts_state → Prop)
    (hstep : ∀ (st : ble_gatts_state) (i : Nat) (entry : ble_gatts_svc_entry)
      (sdef : ble_gatt_svc_def) (handle : Nat) (st1 : ble_gatts_state),
      gatts_inv svcs st → P st → st.ble_gatts_svc_entries[i]? = some entry →
      entry.handle = 0 → svcs[entry.svc]? = some sdef →
      ble_gatts_register_svc entry.svc sdef cb st = (0, handle, st1) →
      P ⟨st1.svr,
        st1.ble_gatts_svc_entries.set i
          ⟨entry.svc, handle, ble_att_svr_prev_handle st1.svr⟩,
        st1.cb_log⟩) :
    ∀ (n i num : Nat) (st : ble_gatts_state), gatts_inv svcs st → P st →
      (ble_gatts_register_round_loop svcs cb n i num st).1 = 0 →
      P (ble_gatts_register_round_loop svcs cb n i num st).2.2 := by
  intro n
  induction n with
  | zero =>
    intro i num st _ hP _
    unfold ble_gatts_register_round_loop
    split_ifs <;> exact hP
  | succ n ih =>
    intro i num st hinv hP
    cases hi : st.ble_gatts_svc_entries[i]? with
    | none =>
      simp only [ble_gatts_register_round_loop, hi]
      exact ih (i + 1) num st hinv hP
    | some entry =>
      by_cases h0 : entry.handle = 0
      swap
      · simp only [ble_gatts_register_round_loop, hi, h0, if_false]
        exact ih (i + 1) num st hinv hP
      cases hdef : svcs[entry.svc]? with
      | none =>
        simp only [ble_gatts_register_round_loop, hi, h0, if_true, hdef]
        exact ih (i + 1) num st hinv hP
      | some sdef =>
        have hspec := register_svc_spec entry.svc sdef cb st
        rcases hreg : ble_gatts_register_svc entry.svc sdef cb st with ⟨rc, handle, st1⟩
        rw [hreg] at hspec
        simp only at hspec
        obtain ⟨hframe, hok⟩ := hspec
        simp only [ble_gatts_register_round_loop, hi, h0, if_true, hdef, hreg]
        by_cases hrc : rc = 0
        · subst hrc
          obtain ⟨hsat, hh, hle⟩ := hok rfl
          have hinv2 := gatts_inv_register svcs st st1 i handle
            (ble_att_svr_prev_handle st1.svr) entry sdef hinv hframe hi h0 hdef hsat hh hle
          have hP2 := hstep st i entry sdef handle st1 hinv hP hi h0 hdef hreg
          simp only [if_true]
          exact ih (i + 1) (num + 1) _ hinv2 hP2
        · simp only [hrc, if_false]
          by_cases hag : rc = BLE_HS_EAGAIN
          · subst hag
            have hst := register_svc_eagain entry.svc sdef cb st st1 handle hreg
            subst hst
            simp only [if_true]
            exact ih (i + 1) num st1 hinv hP
          · simp only [hag, if_false]
            intro h
            exact absurd h hrc

theorem register_services_loop_ok (svcs : List ble_gatt_svc_def) (cb : Bool)
    (P : ble_gatts_state → Prop)
    (hstep : ∀ (st : ble_gatts_state) (i : Nat) (entry : ble_gatts_svc_entry)
      (sdef : ble_gatt_svc_def) (handle : Nat) (st1 : ble_gatts_state),
      gatts_inv svcs st → P st → st.ble_gatts_svc_entries[i]? = some entry →
      entry.handle = 0 → svcs[entry.svc]? = some sdef →
      ble_gatts_register_svc entry.svc sdef cb st = (0, handle, st1) →
      P ⟨st1.svr,
        st1.ble_gatts_svc_entries.set i
          ⟨entry.svc, handle, ble_att_svr_prev_handle st1.svr⟩,
        st1.cb_log⟩) :
    ∀ (fuel total : Nat) (st st1 : ble_gatts_state), gatts_inv svcs st → P st →
      ble_gatts_register_services_loop svcs cb fuel total st = some (0, st1) → P st1 := by
  intro fuel
  induction fuel with
  | zero => intro total st st1 _ _ h; simp [ble_gatts_register_services_loop] at h
  | succ fuel ih =>
    intro total st st1 hinv hP h
    unfold ble_gatts_register_services_loop at h
    by_cases hlt : total < st.ble_gatts_svc_entries.length
    · have hspec := register_round_loop_spec svcs cb st.ble_gatts_svc_entries.length 0 0 st hinv
      have hPr := register_round_loop_ok svcs cb P hstep st.ble_gatts_svc_entries.length
        0 0 st hinv hP
      rcases hround : ble_gatts_register_round svcs cb st with ⟨rc, cur, st2⟩
      have hround1 : ble_gatts_register_round_loop svcs cb st.ble_gatts_svc_entries.length
          0 0 st = (rc, cur, st2) := hround
      rw [hround1] at hspec hPr
      simp only at hspec hPr
      simp only [hlt, if_true, hround] at h
      by_cases hrc : rc = 0
      · simp only [hrc, ne_eq, not_true_eq_false, if_false] at h
        exact ih (total + cur) st2 st1 hspec.1 (hPr hrc) h
      · simp only [ne_eq, hrc, not_false_eq_true, if_true, Option.some.injEq,
          Prod.mk.injEq] at h
        exact h.1.elim
    · simp only [hlt, if_false, Option.some.injEq, Prod.mk.injEq, true_and] at h
      subst h
      exact hP

theorem register_round_loop_all (svcs : List ble_gatt_svc_def) (cb : Bool)
    (P : ble_gatts_state → Prop)
    (hstep : ∀ (st : ble_gatts_state) (i : Nat) (entry : ble_gatts_svc_entry)
      (sdef : ble_gatt_svc_def) (handle : Nat) (st1 : ble_gatts_state),
      gatts_inv svcs st → P st → st.ble_gatts_svc_entries[i]? = some entry →
      entry.handle = 0 → svcs[entry.svc]? = some sdef →
      ble_gatts_register_svc entry.svc sdef cb st = (0, handle, st1) →
      P ⟨st1.svr,
        st1.ble_gatts_svc_entries.set i
          ⟨entry.svc, handle, ble_att_svr_prev_handle st1.svr⟩,
        st1.cb_log⟩)
    (hfail : ∀ (st : ble_gatts_state) (i : Nat) (entry : ble_gatts_svc_entry)
      (sdef : ble_gatt_svc_def) (rc : Int) (handle : Nat) (st1 : ble_gatts_state),
      gatts_inv svcs st → P st → st.ble_gatts_svc_entries[i]? = some entry →
      entry.handle = 0 → svcs[entry.svc]? = some sdef →
      ble_gatts_register_svc entry.svc sdef cb st = (rc, handle, st1) → rc ≠ 0 → P st1) :
    ∀ (n i num : Nat) (st : ble_gatts_state), gatts_inv svcs st → P st →
      P (ble_gatts_register_round_loop svcs cb n i num st).2.2 := by
  intro n
  induction n with
  | zero =>
    intro i num st _ hP
    unfold ble_gatts_register_round_loop
    split_ifs <;> exact hP
  | succ n ih =>
    intro i num st hinv hP
    cases hi : st.ble_gatts_svc_entries[i]? with
    | none =>
      simp only [ble_gatts_register_round_loop, hi]
      exact ih (i + 1) num st hinv hP
    | some entry =>
      by_cases h0 : entry.handle = 0
      swap
      · simp only [ble_gatts_register_round_loop, hi, h0, if_false]
        exact ih (i + 1) num st hinv hP
      cases hdef : svcs[entry.svc]? with
      | none =>
        simp only [ble_gatts_register_round_loop, hi, h0, if_true, hdef]
        exact ih (i + 1) num st hinv hP
      | some sdef =>
        have hspec := register_svc_spec entry.svc sdef cb st
        rcases hreg : ble_gatts_register_svc entry.svc sdef cb st with ⟨rc, handle, st1⟩
        rw [hreg] at hspec
        simp only at hspec
        obtain ⟨hframe, hok⟩ := hspec
        simp only [ble_gatts_register_round_loop, hi, h0, if_true, hdef, hreg]
        by_cases hrc : rc = 0
        · subst hrc
          obtain ⟨hsat, hh, hle⟩ := hok rfl
          have hinv2 := gatts_inv_register svcs st st1 i handle
            (ble_att_svr_prev_handle st1.svr) entry sdef hinv hframe hi h0 hdef hsat hh hle
          have hP2 := hstep st i entry sdef handle st1 hinv hP hi h0 hdef hreg
          simp only [if_true]
          exact ih (i + 1) (num + 1) _ hinv2 hP2
        · have hP1 := hfail st i entry sdef rc handle st1 hinv hP hi h0 hdef hreg hrc
          have hinv1 := gatts_inv_of_frame svcs st st1 hinv hframe
          simp only [hrc, if_false]
          by_cases hag : rc = BLE_HS_EAGAIN
          · simp only [hag, if_true]
            exact ih (i + 1) num st1 hinv1 hP1
          · simp only [hag, if_false]
            exact hP1

theorem register_services_loop_all (svcs : List ble_gatt_svc_def) (cb : Bool)
    (P : ble_gatts_state → Prop)
    (hstep : ∀ (st : ble_gatts_state) (i : Nat) (entry : ble_gatts_svc_entry)
      (sdef : ble_gatt_svc_def) (handle : Nat) (st1 : ble_gatts_state),
      gatts_inv svcs st → P st → st.ble_gatts_svc_entries[i]? = some entry →
      entry.handle = 0 → svcs[entry.svc]? = some sdef →
      ble_gatts_register_svc entry.svc sdef cb st = (0, handle, st1) →
      P ⟨st1.svr,
        st1.ble_gatts_svc_entries.set i
          ⟨entry.svc, handle, ble_att_svr_prev_handle st1.svr⟩,
        st1.cb_log⟩)
    (hfail : ∀ (st : ble_gatts_state) (i : Nat) (entry : ble_gatts_svc_entry)
      (sdef : ble_gatt_svc_def) (rc : Int) (handle : Nat) (st1 : ble_gatts_state),
      gatts_inv svcs st → P st → st.ble_gatts_svc_entries[i]? = some entry →
      entry.handle = 0 → svcs[entry.svc]? = some sdef →
      ble_gatts_register_svc entry.svc sdef cb st = (rc, handle, st1) → rc ≠ 0 → P st1) :
    ∀ (fuel total : Nat) (st : ble_gatts_state) (r : Int × ble_gatts_state),
      gatts_inv svcs st → P st →
      ble_gatts_register_services_loop svcs cb fuel total st = some r → P r.2 := by
  intro fuel
  induction fuel with
  | zero => intro total st r _ _ h; simp [ble_gatts_register_services_loop] at h
  | succ fuel ih =>
    intro total st r hinv hP h
    unfold ble_gatts_register_services_loop at h
    by_cases hlt : total < st.ble_gatts_svc_entries.length
    · have hspec := register_round_loop_spec svcs cb st.ble_gatts_svc_entries.length 0 0 st hinv
      have hPr := register_round_loop_all svcs cb P hstep hfail
        st.ble_gatts_svc_entries.length 0 0 st hinv hP
      rcases hround : ble_gatts_register_round svcs cb st with ⟨rc, cur, st2⟩
      have hround1 : ble_gatts_register_round_loop svcs cb st.ble_gatts_svc_entries.length
          0 0 st = (rc, cur, st2) := hround
      rw [hround1] at hspec hPr
      simp only at hspec hPr
      simp only [hlt, if_true, hround] at h
      by_cases hrc : rc = 0
      · simp only [hrc, ne_eq, not_true_eq_false, if_false] at h
        exact ih (total + cur) st2 r hspec.1 hPr h
      · simp only [ne_eq, hrc, not_false_eq_true, if_true, Option.some.injEq] at h
        subst h
        exact hPr
    · simp only [hlt, if_false, Option.some.injEq] at h
      subst h
      exact hP

theorem number_items_handles (items : List ble_gatts_reg_item) :
    ∀ h : Nat, (number_items h items).map Prod.fst = List.range' h items.length := by
  induction items with
  | nil => intro h; rfl
  | cons x rest ih =>
    intro h
    simp only [number_items, List.map_cons, List.length_cons, List.range'_succ, ih]

theorem item_attr_handles (items : List ble_gatts_reg_item) (h : Nat) :
    ((number_items h items).map item_attr).map (fun a => a.ha_handle_id) =
      List.range' h items.length := by
  rw [← number_items_handles items h, List.map_map]
  rfl

/-- C12: with the attribute table that hands out consecutive handles, a
successful ble_gatts_register_svc allocates, from the next free handle on and
without gaps, the service declaration, one handle per include, then for each
characteristic a declaration, its value and its descriptors; the handles are
strictly increasing; a successful ble_gatts_register_chr allocates the
declaration handle and the value handle right after it (value = declaration
+ 1), then the descriptors. -/
theorem C12_register_svc_handle_order (cb : Bool) (svc : Nat) (sdef : ble_gatt_svc_def)
    (st st1 : ble_gatts_state) (handle : Nat) (chr : ble_gatt_chr_def)
    (st2 st3 : ble_gatts_state)
    (hptr : ∀ (i : Nat) (e : ble_gatts_svc_entry),
      st.ble_gatts_svc_entries[i]? = some e → e.svc = i)
    (hsvc : ble_gatts_register_svc svc sdef cb st = (0, handle, st1))
    (hchr : ble_gatts_register_chr chr cb st2 = (0, st3)) :
    handle = st.svr.prev_handle + 1 ∧
    st1.svr.attrs = st.svr.attrs ++
      (number_items (st.svr.prev_handle + 1) (svc_items svc sdef)).map item_attr ∧
    ((number_items (st.svr.prev_handle + 1) (svc_items svc sdef)).map item_attr).map
      (fun a => a.ha_handle_id) =
        List.range' (st.svr.prev_handle + 1) (svc_items svc sdef).length ∧
    (((number_items (st.svr.prev_handle + 1) (svc_items svc sdef)).map item_attr).map
      (fun a => a.ha_handle_id)).Pairwise (fun a b => a < b) ∧
    st1.svr.prev_handle = st.svr.prev_handle + (svc_items svc sdef).length ∧
    st3.svr.attrs = st2.svr.attrs ++
      (⟨st2.svr.prev_handle + 1, ble_att_svr_access.chr_def chr⟩ ::
       ⟨st2.svr.prev_handle + 1 + 1, ble_att_svr_access.chr_val chr⟩ ::
       (number_items (st2.svr.prev_handle + 1 + 1 + 1)
          (dsc_items chr 0 (chr.descriptors.getD []))).map item_attr) := by
  obtain ⟨hh, _, hprev, hattrs, _⟩ := register_svc_alloc cb svc sdef st st1 handle hptr hsvc
  obtain ⟨_, _, hattrs2, _⟩ := register_chr_alloc cb chr st2 st3 hchr
  refine ⟨hh, hattrs, item_attr_handles _ _, ?_, hprev, ?_⟩
  · rw [item_attr_handles]
    exact List.pairwise_lt_range' _ _
  · rw [hattrs2]
    simp [chr_items, number_items, item_attr, reg_item_access]

/-- The sample service gets the handles 2 (declaration), 3 (include), 4 and 5
(characteristic declaration and value) and 6 (descriptor). -/
theorem C12_register_svc_handle_order_witness :
    (ble_gatts_register_svc 1 sample_svc_full true sample_state_one_registered).2.1 = 1 + 1 ∧
    (ble_gatts_register_svc 1 sample_svc_full true sample_state_one_registered).2.2.svr.attrs
      = [⟨1, ble_att_svr_access.svc 0⟩, ⟨2, ble_att_svr_access.svc 1⟩,
         ⟨3, ble_att_svr_access.inc 0⟩,
         ⟨4, ble_att_svr_access.chr_def
            (sample_chr (uuid_of_byte 3) 2 (some [sample_dsc (uuid_of_byte 4)]))⟩,
         ⟨5, ble_att_svr_access.chr_val
            (sample_chr (uuid_of_byte 3) 2 (some [sample_dsc (uuid_of_byte 4)]))⟩,
         ⟨6, ble_att_svr_access.dsc (sample_dsc (uuid_of_byte 4))⟩] :=
  let t := C12_register_svc_handle_order true 1 sample_svc_full sample_state_one_registered
    (ble_gatts_register_svc 1 sample_svc_full true sample_state_one_registered).2.2
    (ble_gatts_register_svc 1 sample_svc_full true sample_state_one_registered).2.1
    (sample_chr (uuid_of_byte 3) 2 none) sample_state_one_registered
    (ble_gatts_register_chr (sample_chr (uuid_of_byte 3) 2 none) true
      sample_state_one_registered).2
    (by
      intro i e h
      rcases i with _ | _ | i <;> simp [sample_state_one_registered] at h <;> subst h <;> rfl)
    (by decide) (by decide)
  ⟨t.1, t.2.1.trans (by decide)⟩

/-! ## GATT server registration: end group handles -/

theorem dsc_items_length (chr : ble_gatt_chr_def) (dscs : List ble_gatt_dsc_def) :
    ∀ k : Nat, (dsc_items chr k dscs).length =
      (dscs.takeWhile (fun d => d.uuid128.isSome)).length := by
  induction dscs with
  | nil => intro k; rfl
  | cons d rest ih =>
    intro k
    by_cases hu : d.uuid128 = none
    · simp [dsc_items, hu, List.takeWhile]
    · have hs : d.uuid128.isSome = true := by
        cases h : d.uuid128 with
        | none => exact absurd h hu
        | some u => rfl
      simp [dsc_items, hu, List.takeWhile, hs, ih]

theorem chrs_items_length (chrs : List ble_gatt_chr_def) :
    (chrs_items chrs).length =
      ((chrs.takeWhile (fun c => c.uuid128.isSome)).map
        (fun c => 2 + (chr_dscs c).length)).sum := by
  induction chrs with
  | nil => rfl
  | cons c rest ih =>
    by_cases hu : c.uuid128 = none
    · simp [chrs_items, hu, List.takeWhile]
    · have hs : c.uuid128.isSome = true := by
        cases h : c.uuid128 with
        | none => exact absurd h hu
        | some u => rfl
      simp only [chrs_items, hu, if_false, List.length_append, ih, List.takeWhile, hs,
        List.map_cons, List.sum_cons, chr_items, List.length_cons, dsc_items_length, chr_dscs]
      omega

theorem svc_items_length (svc : Nat) (sdef : ble_gatt_svc_def) :
    (svc_items svc sdef).length = 1 + svc_subtree_size sdef := by
  simp only [svc_items, List.length_cons, List.length_append, List.length_map,
    chrs_items_length, svc_subtree_size, svc_chrs]
  omega

theorem gatts_group_inv_step (svcs : List ble_gatt_svc_def) (cb : Bool)
    (st : ble_gatts_state) (i : Nat) (entry : ble_gatts_svc_entry)
    (sdef : ble_gatt_svc_def) (handle : Nat) (st1 : ble_gatts_state)
    (hinv : gatts_inv svcs st) (hP : gatts_group_inv svcs st)
    (hi : st.ble_gatts_svc_entries[i]? = some entry) (_h0 : entry.handle = 0)
    (hdef : svcs[entry.svc]? = some sdef)
    (hreg : ble_gatts_register_svc entry.svc sdef cb st = (0, handle, st1)) :
    gatts_group_inv svcs ⟨st1.svr,
      st1.ble_gatts_svc_entries.set i ⟨entry.svc, handle, ble_att_svr_prev_handle st1.svr⟩,
      st1.cb_log⟩ := by
  obtain ⟨hh, hent, hprev, _, _⟩ :=
    register_svc_alloc cb entry.svc sdef st st1 handle hinv.1 hreg
  have hsvc : entry.svc = i := hinv.1 i entry hi
  have hlen := svc_items_length entry.svc sdef
  obtain ⟨hg1, hg2⟩ := hP
  have hilt : i < st.ble_gatts_svc_entries.length := by
    obtain ⟨h, _⟩ := List.getElem?_eq_some.mp hi
    exact h
  have hnew : ∀ (j : Nat) (e : ble_gatts_svc_entry),
      (st.ble_gatts_svc_entries.set i
        ⟨entry.svc, handle, ble_att_svr_prev_handle st1.svr⟩)[j]? = some e →
      (j = i ∧ e = ⟨entry.svc, handle, ble_att_svr_prev_handle st1.svr⟩) ∨
      (j ≠ i ∧ st.ble_gatts_svc_entries[j]? = some e) := by
    intro j e hj
    rw [List.getElem?_set] at hj
    by_cases hij : i = j
    · simp only [hij, if_true] at hj
      split_ifs at hj
      simp only [Option.some.injEq] at hj
      exact Or.inl ⟨hij.symm, hj.symm⟩
    · simp only [hij, if_false] at hj
      exact Or.inr ⟨fun h => hij h.symm, hj⟩
  simp only [hent, ble_att_svr_prev_handle]
  refine ⟨?_, ?_⟩
  · intro j e hj hn
    rcases hnew j e hj with ⟨rfl, rfl⟩ | ⟨_, hold⟩
    · refine ⟨sdef, by rw [← hsvc]; exact hdef, ?_, Nat.le_refl _⟩
      show st1.svr.prev_handle = handle + svc_subtree_size sdef
      omega
    · obtain ⟨sd, h1, h2, h3⟩ := hg1 j e hold hn
      exact ⟨sd, h1, h2, by show e.end_group_handle ≤ st1.svr.prev_handle; omega⟩
  · intro j k e e1 hjk hj hk hnj hnk
    rcases hnew j e hj with ⟨rfl, rfl⟩ | ⟨hji, holdj⟩
    · rcases hnew k e1 hk with ⟨rfl, _⟩ | ⟨_, holdk⟩
      · exact absurd rfl hjk
      · obtain ⟨_, _, _, h3⟩ := hg1 k e1 holdk hnk
        right
        show e1.end_group_handle < handle
        omega
    · rcases hnew k e1 hk with ⟨rfl, rfl⟩ | ⟨_, holdk⟩
      · obtain ⟨_, _, _, h3⟩ := hg1 j e holdj hnj
        left
        show e.end_group_handle < handle
        omega
      · exact hg2 j k e e1 hjk holdj holdk hnj hnk

theorem init_entries_handle (n : Nat) :
    ∀ e ∈ ble_gatts_init_entries n, e.handle = 0 := by
  intro e he
  simp only [ble_gatts_init_entries, List.mem_map] at he
  obtain ⟨i, _, rfl⟩ := he
  rfl

theorem gatts_group_inv_init (svcs : List ble_gatt_svc_def) (svr : ble_att_svr) (n : Nat) :
    gatts_group_inv svcs ⟨svr, ble_gatts_init_entries n, []⟩ := by
  refine ⟨?_, ?_⟩
  · intro i e hi hn
    exact absurd (init_entries_handle n e (List.mem_iff_getElem?.mpr ⟨i, hi⟩)) hn
  · intro i j e e1 _ hi _ hn
    exact absurd (init_entries_handle n e (List.mem_iff_getElem?.mpr ⟨i, hi⟩)) hn

/-- A successful `ble_gatts_register_services` leaves the invariant, one entry
per declared service, and every entry registered. -/
theorem register_services_ok_spec (svcs : List ble_gatt_svc_def) (cb : Bool)
    (svr : ble_att_svr) (st : ble_gatts_state)
    (hok : ble_gatts_register_services svcs cb svr = some (0, st)) :
    gatts_inv svcs st ∧
    st.ble_gatts_svc_entries.length = ble_gatts_count_svcs svcs ∧
    (∀ e ∈ st.ble_gatts_svc_entries, e.handle ≠ 0) := by
  obtain ⟨hinv0, hnum0, hlen0⟩ := gatts_inv_init svcs svr (ble_gatts_count_svcs svcs)
  obtain ⟨hinv, hlen, hall⟩ := register_services_loop_spec svcs cb _ 0 _ st hinv0
    hnum0.symm hok
  refine ⟨hinv, by rw [hlen]; exact hlen0, ?_⟩
  have hle : gatts_num_registered st.ble_gatts_svc_entries ≤
      st.ble_gatts_svc_entries.length := List.countP_le_length _
  have heq : gatts_num_registered st.ble_gatts_svc_entries =
      st.ble_gatts_svc_entries.length := by omega
  intro e he
  have := (List.countP_eq_length.mp heq) e he
  simpa using this

theorem register_services_group_inv (svcs : List ble_gatt_svc_def) (cb : Bool)
    (svr : ble_att_svr) (st : ble_gatts_state)
    (hok : ble_gatts_register_services svcs cb svr = some (0, st)) :
    gatts_group_inv svcs st :=
  register_services_loop_ok svcs cb (gatts_group_inv svcs)
    (fun st i entry sdef handle st1 hinv hP hi h0 hdef hreg =>
      gatts_group_inv_step svcs cb st i entry sdef handle st1 hinv hP hi h0 hdef hreg)
    _ 0 _ st (gatts_inv_init svcs svr (ble_gatts_count_svcs svcs)).1
    (gatts_group_inv_init svcs svr (ble_gatts_count_svcs svcs)) hok

/-- C13 as stated fails: with the handle 65534 allocated last, the service
[one primary service without includes and characteristics] registers with the
handle 65535, and its end group handle is 0xFFFF. -/
theorem C13_counterexample_end_group_0xffff :
    ∃ (st : ble_gatts_state) (e : ble_gatts_svc_entry),
      ble_gatts_register_services [sample_svc 1 none] true ⟨65534, 4, []⟩ = some (0, st) ∧
      st.ble_gatts_svc_entries[0]? = some e ∧ e.handle ≠ 0 ∧ e.end_group_handle = 0xFFFF :=
  ⟨⟨⟨65535, 3, [⟨65535, ble_att_svr_access.svc 0⟩]⟩, [⟨0, 65535, 65535⟩],
      [ble_gatt_register_event.svc 65535 0]⟩, ⟨0, 65535, 65535⟩,
    by decide, by decide, by decide, by decide⟩

/-- C13 (amended): after a successful ble_gatts_register_services, the end group
handle of every service is its handle plus the number of its includes plus the
sum over its characteristics of 2 plus the number of descriptors; it is at
least the handle and at most the handle allocated last, so it is not 0xFFFF as
long as the handle allocated last is below 0xFFFF; the handle ranges of
distinct services are disjoint. -/
theorem C13_end_group_handle (svcs : List ble_gatt_svc_def) (cb : Bool)
    (svr : ble_att_svr) (st : ble_gatts_state)
    (hok : ble_gatts_register_services svcs cb svr = some (0, st)) :
    (∀ (i : Nat) (e : ble_gatts_svc_entry), st.ble_gatts_svc_entries[i]? = some e →
      ∃ sdef : ble_gatt_svc_def, svcs[i]? = some sdef ∧ e.svc = i ∧ e.handle ≠ 0 ∧
        e.end_group_handle = e.handle + (sdef.includes.getD []).length +
          ((svc_chrs sdef).map (fun c => 2 + (chr_dscs c).length)).sum ∧
        e.handle ≤ e.end_group_handle ∧
        e.end_group_handle ≤ st.svr.prev_handle ∧
        (st.svr.prev_handle < 0xFFFF → e.end_group_handle ≠ 0xFFFF)) ∧
    (∀ (i j : Nat) (e e1 : ble_gatts_svc_entry), i ≠ j →
      st.ble_gatts_svc_entries[i]? = some e → st.ble_gatts_svc_entries[j]? = some e1 →
      e.end_group_handle < e1.handle ∨ e1.end_group_handle < e.handle) := by
  obtain ⟨hinv, _, hall⟩ := register_services_ok_spec svcs cb svr st hok
  obtain ⟨hg1, hg2⟩ := register_services_group_inv svcs cb svr st hok
  refine ⟨?_, ?_⟩
  · intro i e hi
    have hn := hall e (List.mem_iff_getElem?.mpr ⟨i, hi⟩)
    obtain ⟨sdef, hd, heq, hle⟩ := hg1 i e hi hn
    refine ⟨sdef, hd, hinv.1 i e hi, hn, ?_, ?_, hle, ?_⟩
    · rw [heq, svc_subtree_size, Nat.add_assoc]
    · omega
    · intro h
      omega
  · intro i j e e1 hij hi hj
    exact hg2 i j e e1 hij hi hj (hall e (List.mem_iff_getElem?.mpr ⟨i, hi⟩))
      (hall e1 (List.mem_iff_getElem?.mpr ⟨j, hj⟩))

/-- The pair [B (includes A), A] registered from an empty table: B has the
handles 2 to 3 and A the handle 1. -/
theorem C13_end_group_handle_witness :
    ∃ sdef : ble_gatt_svc_def,
      [sample_svc 2 (some [1]), sample_svc 1 none][0]? = some sdef ∧
      (⟨0, 2, 3⟩ : ble_gatts_svc_entry).svc = 0 ∧
      (⟨0, 2, 3⟩ : ble_gatts_svc_entry).handle ≠ 0 ∧
      (⟨0, 2, 3⟩ : ble_gatts_svc_entry).end_group_handle =
        (⟨0, 2, 3⟩ : ble_gatts_svc_entry).handle + (sdef.includes.getD []).length +
          ((svc_chrs sdef).map (fun c => 2 + (chr_dscs c).length)).sum ∧
      (⟨0, 2, 3⟩ : ble_gatts_svc_entry).handle ≤
        (⟨0, 2, 3⟩ : ble_gatts_svc_entry).end_group_handle ∧
      (⟨0, 2, 3⟩ : ble_gatts_svc_entry).end_group_handle ≤ 3 ∧
      (3 < 0xFFFF → (⟨0, 2, 3⟩ : ble_gatts_svc_entry).end_group_handle ≠ 0xFFFF) :=
  (C13_end_group_handle [sample_svc 2 (some [1]), sample_svc 1 none] true
    (sample_svr 8)
    ⟨⟨3, 5, [⟨1, ble_att_svr_access.svc 1⟩, ⟨2, ble_att_svr_access.svc 0⟩,
        ⟨3, ble_att_svr_access.inc 1⟩]⟩,
      [⟨0, 2, 3⟩, ⟨1, 1, 1⟩],
      [ble_gatt_register_event.svc 1 1, ble_gatt_register_event.svc 2 0]⟩
    (by decide)).1 0 ⟨0, 2, 3⟩ (by decide)

/-! ## GATT server registration: failures -/

theorem gatts_fail_frame_refl (svc : Nat) (rc : Int) (st : ble_gatts_state)
    (h : rc ≠ BLE_HS_ENOMEM) : gatts_fail_frame svc rc st st :=
  ⟨fun e => absurd e h, fun _ ha => Or.inl ha⟩

theorem gatts_fail_frame_trans (svc : Nat) (rc1 rc2 : Int) (st st1 st2 : ble_gatts_state)
    (h1 : gatts_fail_frame svc rc1 st st1) (h2 : gatts_fail_frame svc rc2 st1 st2) :
    gatts_fail_frame svc rc2 st st2 := by
  refine ⟨h2.1, ?_⟩
  intro a ha
  rcases h2.2 a ha with h | h
  · exact h1.2 a h
  · exact Or.inr h

/-- One call of `ble_att_svr_register` for a callback `k` that is not a service
declaration other than the one of `svc`. -/
theorem att_svr_register_fail_frame (svc : Nat) (st : ble_gatts_state)
    (k : ble_att_svr_access) (log : List ble_gatt_register_event)
    (hk : ∀ j : Nat, k = ble_att_svr_access.svc j → j = svc) :
    gatts_fail_frame svc (ble_att_svr_register st.svr k).1 st
      ⟨(ble_att_svr_register st.svr k).2.2, st.ble_gatts_svc_entries, log⟩ := by
  rcases att_svr_register_cases st.svr k with ⟨h0, hr⟩ | ⟨_, hr⟩
  · rw [hr]
    exact ⟨fun _ => h0, fun _ ha => Or.inl ha⟩
  · rw [hr]
    refine ⟨fun e => by simp [BLE_HS_ENOMEM] at e, ?_⟩
    intro a ha
    simp only [List.mem_append, List.mem_singleton] at ha
    rcases ha with ha | rfl
    · exact Or.inl ha
    · exact Or.inr hk

theorem register_inc_fail_frame (svc idx : Nat) (st : ble_gatts_state) :
    gatts_fail_frame svc (ble_gatts_register_inc idx st).1 st
      (ble_gatts_register_inc idx st).2 := by
  have h := att_svr_register_fail_frame svc st (ble_att_svr_access.inc idx) st.cb_log
    (fun j e => by cases e)
  rcases hr : ble_att_svr_register st.svr (ble_att_svr_access.inc idx) with ⟨rc, hd, svr1⟩
  rw [hr] at h
  simp only [ble_gatts_register_inc, hr]
  split_ifs with h0
  · exact h
  · simp only [ne_eq, not_not] at h0
    subst h0
    exact h

theorem register_incs_loop_fail_frame (svc : Nat) (incs : List Nat) :
    ∀ st : ble_gatts_state,
      gatts_fail_frame svc (ble_gatts_register_incs_loop incs st).1 st
        (ble_gatts_register_incs_loop incs st).2 := by
  induction incs with
  | nil =>
    intro st
    exact gatts_fail_frame_refl svc _ st (by simp [ble_gatts_register_incs_loop, BLE_HS_ENOMEM])
  | cons inc rest ih =>
    intro st
    cases hf : ble_gatts_find_svc st.ble_gatts_svc_entries inc with
    | none =>
      simp only [ble_gatts_register_incs_loop, hf]
      exact gatts_fail_frame_refl svc _ st (by simp [BLE_HS_ENOMEM, BLE_HS_EINVAL])
    | some idx =>
      have h1 := register_inc_fail_frame svc idx st
      rcases hreg : ble_gatts_register_inc idx st with ⟨rc, st2⟩
      rw [hreg] at h1
      simp only [ble_gatts_register_incs_loop, hf, hreg]
      split_ifs
      · exact h1
      · exact gatts_fail_frame_trans svc _ _ st st2 _ h1 (ih st2)

theorem register_incs_fail_frame (svc : Nat) (sdef : ble_gatt_svc_def)
    (st : ble_gatts_state) :
    gatts_fail_frame svc (ble_gatts_register_incs sdef st).1 st
      (ble_gatts_register_incs sdef st).2 := by
  unfold ble_gatts_register_incs
  cases sdef.includes with
  | none => exact gatts_fail_frame_refl svc _ st (by simp [BLE_HS_ENOMEM])
  | some incs => exact register_incs_loop_fail_frame svc incs st

theorem register_dsc_fail_frame (svc : Nat) (dsc : ble_gatt_dsc_def) (chr : ble_gatt_chr_def)
    (dh : Nat) (cb : Bool) (st : ble_gatts_state) :
    gatts_fail_frame svc (ble_gatts_register_dsc dsc chr dh cb st).1 st
      (ble_gatts_register_dsc dsc chr dh cb st).2 := by
  by_cases hs : ble_gatts_dsc_is_sane dsc = true
  swap
  · simp only [Bool.not_eq_true] at hs
    simp only [ble_gatts_register_dsc, hs, Bool.not_false, if_true]
    exact gatts_fail_frame_refl svc _ st (by simp [BLE_HS_ENOMEM, BLE_HS_EINVAL])
  have h := fun log => att_svr_register_fail_frame svc st (ble_att_svr_access.dsc dsc) log
    (fun j e => by cases e)
  rcases hr : ble_att_svr_register st.svr (ble_att_svr_access.dsc dsc) with ⟨rc, hd, svr1⟩
  rw [hr] at h
  simp only [ble_gatts_register_dsc, hs, Bool.not_true, Bool.false_eq_true, if_false, hr]
  by_cases h0 : rc = 0
  · subst h0
    cases cb
    · exact h _
    · exact h _
  · simp only [ne_eq, h0, not_false_eq_true, if_true]
    exact h _

theorem register_dscs_loop_fail_frame (svc : Nat) (chr : ble_gatt_chr_def) (dh : Nat)
    (cb : Bool) (dscs : List ble_gatt_dsc_def) :
    ∀ st : ble_gatts_state,
      gatts_fail_frame svc (ble_gatts_register_dscs_loop chr dh cb dscs st).1 st
        (ble_gatts_register_dscs_loop chr dh cb dscs st).2 := by
  induction dscs with
  | nil =>
    intro st
    exact gatts_fail_frame_refl svc _ st (by simp [ble_gatts_register_dscs_loop, BLE_HS_ENOMEM])
  | cons dsc rest ih =>
    intro st
    have h1 := register_dsc_fail_frame svc dsc chr dh cb st
    rcases hreg : ble_gatts_register_dsc dsc chr dh cb st with ⟨rc, st2⟩
    rw [hreg] at h1
    simp only [ble_gatts_register_dscs_loop, hreg]
    split_ifs
    · exact gatts_fail_frame_refl svc _ st (by simp [BLE_HS_ENOMEM])
    · exact h1
    · exact gatts_fail_frame_trans svc _ _ st st2 _ h1 (ih st2)

theorem register_dscs_fail_frame (svc : Nat) (chr : ble_gatt_chr_def) (dh : Nat) (cb : Bool)
    (st : ble_gatts_state) :
    gatts_fail_frame svc (ble_gatts_register_dscs chr dh cb st).1 st
      (ble_gatts_register_dscs chr dh cb st).2 := by
  unfold ble_gatts_register_dscs
  cases chr.descriptors with
  | none => exact gatts_fail_frame_refl svc _ st (by simp [BLE_HS_ENOMEM])
  | some dscs => exact register_dscs_loop_fail_frame svc chr dh cb dscs st

theorem register_chr_fail_frame (svc : Nat) (chr : ble_gatt_chr_def) (cb : Bool)
    (st : ble_gatts_state) :
    gatts_fail_frame svc (ble_gatts_register_chr chr cb st).1 st
      (ble_gatts_register_chr chr cb st).2 := by
  by_cases hs : ble_gatts_chr_is_sane chr = true
  swap
  · simp only [Bool.not_eq_true] at hs
    simp only [ble_gatts_register_chr, hs, Bool.not_false, if_true]
    exact gatts_fail_frame_refl svc _ st (by simp [BLE_HS_ENOMEM, BLE_HS_EINVAL])
  have h := att_svr_register_fail_frame svc st (ble_att_svr_access.chr_def chr) st.cb_log
    (fun j e => by cases e)
  rcases hr : ble_att_svr_register st.svr (ble_att_svr_access.chr_def chr) with ⟨rc, dh, svr1⟩
  rw [hr] at h
  simp only [ble_gatts_register_chr, hs, Bool.not_true, Bool.false_eq_true, if_false, hr]
  by_cases h0 : rc = 0
  swap
  · simp only [ne_eq, h0, not_false_eq_true, if_true]
    exact h
  subst h0
  simp only [ne_eq, not_true_eq_false, if_false]
  have h2 := fun log => att_svr_register_fail_frame svc
    ⟨svr1, st.ble_gatts_svc_entries, st.cb_log⟩ (ble_att_svr_access.chr_val chr) log
    (fun j e => by cases e)
  rcases hr2 : ble_att_svr_register svr1 (ble_att_svr_access.chr_val chr) with ⟨rc2, vh, svr2⟩
  simp only [hr2] at h2
  by_cases h02 : rc2 = 0
  swap
  · simp only [h02, not_false_eq_true, if_true]
    exact gatts_fail_frame_trans svc _ _ st _ _ h (h2 _)
  subst h02
  simp only [not_true_eq_false, if_false]
  generalize hst2 : (if cb = true then _ else _ : ble_gatts_state) = st2
  have hf2 : gatts_fail_frame svc 0 st st2 := by
    subst hst2
    cases cb
    · exact gatts_fail_frame_trans svc _ _ st _ _ h (h2 _)
    · exact gatts_fail_frame_trans svc _ _ st _ _ h (h2 _)
  have h3 := register_dscs_fail_frame svc chr dh cb st2
  rcases hreg3 : ble_gatts_register_dscs chr dh cb st2 with ⟨rc3, st3⟩
  rw [hreg3] at h3
  simp only
  by_cases h03 : rc3 = 0
  · subst h03
    simp only [not_true_eq_false, if_false]
    exact gatts_fail_frame_trans svc _ _ st st2 _ hf2 h3
  · simp only [h03, not_false_eq_true, if_true]
    exact gatts_fail_frame_trans svc _ _ st st2 _ hf2 h3

theorem register_chrs_loop_fail_frame (svc : Nat) (cb : Bool) (chrs : List ble_gatt_chr_def) :
    ∀ st : ble_gatts_state,
      gatts_fail_frame svc (ble_gatts_register_chrs_loop cb chrs st).1 st
        (ble_gatts_register_chrs_loop cb chrs st).2 := by
  induction chrs with
  | nil =>
    intro st
    exact gatts_fail_frame_refl svc _ st (by simp [ble_gatts_register_chrs_loop, BLE_HS_ENOMEM])
  | cons chr rest ih =>
    intro st
    have h1 := register_chr_fail_frame svc chr cb st
    rcases hreg : ble_gatts_register_chr chr cb st with ⟨rc, st2⟩
    rw [hreg] at h1
    simp only [ble_gatts_register_chrs_loop, hreg]
    split_ifs
    · exact gatts_fail_frame_refl svc _ st (by simp [BLE_HS_ENOMEM])
    · exact h1
    · exact gatts_fail_frame_trans svc _ _ st st2 _ h1 (ih st2)

theorem register_chrs_fail_frame (svc : Nat) (sdef : ble_gatt_svc_def) (cb : Bool)
    (st : ble_gatts_state) :
    gatts_fail_frame svc (ble_gatts_register_chrs sdef cb st).1 st
      (ble_gatts_register_chrs sdef cb st).2 := by
  unfold ble_gatts_register_chrs
  cases sdef.characteristics with
  | none => exact gatts_fail_frame_refl svc _ st (by simp [BLE_HS_ENOMEM])
  | some chrs => exact register_chrs_loop_fail_frame svc cb chrs st

theorem register_svc_fail_frame (svc : Nat) (sdef : ble_gatt_svc_def) (cb : Bool)
    (st : ble_gatts_state) :
    gatts_fail_frame svc (ble_gatts_register_svc svc sdef cb st).1 st
      (ble_gatts_register_svc svc sdef cb st).2.2 := by
  by_cases hinc : ble_gatts_svc_incs_satisfied st.ble_gatts_svc_entries sdef = true
  swap
  · simp only [Bool.not_eq_true] at hinc
    simp only [ble_gatts_register_svc, hinc, Bool.not_false, if_true]
    exact gatts_fail_frame_refl svc _ st (by simp [BLE_HS_ENOMEM, BLE_HS_EAGAIN])
  by_cases hsane : ble_gatts_svc_is_sane sdef = true
  swap
  · simp only [Bool.not_eq_true] at hsane
    simp only [ble_gatts_register_svc, hinc, hsane, Bool.not_true, Bool.false_eq_true, if_false,
      Bool.not_false, if_true]
    exact gatts_fail_frame_refl svc _ st (by simp [BLE_HS_ENOMEM, BLE_HS_EINVAL])
  have h := fun log => att_svr_register_fail_frame svc st (ble_att_svr_access.svc svc) log
    (fun j e => by cases e; rfl)
  rcases hr : ble_att_svr_register st.svr (ble_att_svr_access.svc svc) with ⟨rc, oh, svr1⟩
  simp only [hr] at h
  simp only [ble_gatts_register_svc, hinc, hsane, Bool.not_true, Bool.false_eq_true, if_false,
    hr]
  by_cases h0 : rc = 0
  swap
  · simp only [ne_eq, h0, not_false_eq_true, if_true]
    exact h _
  subst h0
  simp only [ne_eq, not_true_eq_false, if_false]
  generalize hst1 : (if cb = true then _ else _ : ble_gatts_state) = st1
  have hf1 : gatts_fail_frame svc 0 st st1 := by
    subst hst1
    cases cb
    · exact h _
    · exact h _
  have h2 := register_incs_fail_frame svc sdef st1
  rcases hreg2 : ble_gatts_register_incs sdef st1 with ⟨rc2, st2⟩
  rw [hreg2] at h2
  have h3 := register_chrs_fail_frame svc sdef cb st2
  rcases hreg3 : ble_gatts_register_chrs sdef cb st2 with ⟨rc3, st3⟩
  rw [hreg3] at h3
  have h12 := gatts_fail_frame_trans svc _ _ st st1 st2 hf1 h2
  have h13 := gatts_fail_frame_trans svc _ _ st st2 st3 h12 h3
  simp only
  by_cases h02 : rc2 = 0
  swap
  · simp only [h02, not_false_eq_true, if_true]
    exact h12
  simp only [h02, not_true_eq_false, if_false]
  by_cases h03 : rc3 = 0
  · subst h03
    simp only [not_true_eq_false, if_false]
    exact h13
  · simp only [h03, not_false_eq_true, if_true]
    exact h13

/-- A service that is not sane is not registered: the call returns
`BLE_HS_EAGAIN` or `BLE_HS_EINVAL` and leaves the state as it is. -/
theorem register_svc_insane (svc : Nat) (sdef : ble_gatt_svc_def) (cb : Bool)
    (st : ble_gatts_state) (hs : ble_gatts_svc_is_sane sdef = false) :
    ∃ rc : Int, ble_gatts_register_svc svc sdef cb st = (rc, 0, st) ∧ rc ≠ 0 ∧
      (ble_gatts_svc_incs_satisfied st.ble_gatts_svc_entries sdef = true →
        rc = BLE_HS_EINVAL) := by
  rcases register_svc_rc svc sdef cb st with ⟨h1, hr⟩ | ⟨_, _, hr⟩ | ⟨_, h2, _⟩
  · exact ⟨BLE_HS_EAGAIN, hr, by simp [BLE_HS_EAGAIN], fun h => by rw [h1] at h; cases h⟩
  · exact ⟨BLE_HS_EINVAL, hr, by simp [BLE_HS_EINVAL], fun _ => rfl⟩
  · rw [hs] at h2
    cases h2

/-- The status of `ble_gatts_register_svc`: 0, `BLE_HS_EAGAIN`, `BLE_HS_EINVAL`,
or `BLE_HS_ENOMEM` with a full attribute table. -/
theorem register_svc_rc_round (svc : Nat) (sdef : ble_gatt_svc_def) (cb : Bool)
    (st : ble_gatts_state) :
    (ble_gatts_register_svc svc sdef cb st).1 = BLE_HS_EAGAIN ∨
    gatts_rc_round (ble_gatts_register_svc svc sdef cb st).1
      (ble_gatts_register_svc svc sdef cb st).2.2 := by
  have hf := (register_svc_fail_frame svc sdef cb st).1
  rcases register_svc_rc svc sdef cb st with ⟨_, hr⟩ | ⟨_, _, hr⟩ | ⟨_, _, hr⟩
  · left
    rw [hr]
  · right
    rw [hr]
    exact Or.inr (Or.inl rfl)
  · right
    rcases hr with h | h | h
    · exact Or.inl h
    · exact Or.inr (Or.inl h)
    · exact Or.inr (Or.inr ⟨h, hf h⟩)

theorem register_round_loop_rc (svcs : List ble_gatt_svc_def) (cb : Bool) :
    ∀ (n i num : Nat) (st : ble_gatts_state),
      gatts_rc_round (ble_gatts_register_round_loop svcs cb n i num st).1
        (ble_gatts_register_round_loop svcs cb n i num st).2.2 ∧
      ((ble_gatts_register_round_loop svcs cb n i num st).1 = 0 →
        0 < (ble_gatts_register_round_loop svcs cb n i num st).2.1) := by
  intro n
  induction n with
  | zero =>
    intro i num st
    unfold ble_gatts_register_round_loop
    split_ifs with h
    · exact ⟨Or.inr (Or.inl rfl), fun e => by simp [BLE_HS_EINVAL] at e⟩
    · exact ⟨Or.inl rfl, fun _ => Nat.pos_of_ne_zero h⟩
  | succ n ih =>
    intro i num st
    cases hi : st.ble_gatts_svc_entries[i]? with
    | none =>
      simp only [ble_gatts_register_round_loop, hi]
      exact ih (i + 1) num st
    | some entry =>
      by_cases h0 : entry.handle = 0
      swap
      · simp only [ble_gatts_register_round_loop, hi, h0, if_false]
        exact ih (i + 1) num st
      cases hdef : svcs[entry.svc]? with
      | none =>
        simp only [ble_gatts_register_round_loop, hi, h0, if_true, hdef]
        exact ih (i + 1) num st
      | some sdef =>
        have hrc := register_svc_rc_round entry.svc sdef cb st
        rcases hreg : ble_gatts_register_svc entry.svc sdef cb st with ⟨rc, handle, st1⟩
        rw [hreg] at hrc
        simp only at hrc
        simp only [ble_gatts_register_round_loop, hi, h0, if_true, hdef, hreg]
        by_cases hz : rc = 0
        · simp only [hz, if_true]
          exact ih (i + 1) (num + 1) _
        · simp only [hz, if_false]
          by_cases hag : rc = BLE_HS_EAGAIN
          · simp only [hag, if_true]
            exact ih (i + 1) num st1
          · simp only [hag, if_false]
            rcases hrc with h | h
            · exact absurd h hag
            · exact ⟨h, fun e => absurd e hz⟩

/-- The loop of `ble_gatts_register_services` returns when the bound on the
rounds is above the number of services that are not registered yet. -/
theorem register_services_loop_total (svcs : List ble_gatt_svc_def) (cb : Bool) :
    ∀ (fuel total : Nat) (st : ble_gatts_state), gatts_inv svcs st →
      total = gatts_num_registered st.ble_gatts_svc_entries →
      st.ble_gatts_svc_entries.length < fuel + total →
      ∃ (rc : Int) (st1 : ble_gatts_state),
        ble_gatts_register_services_loop svcs cb fuel total st = some (rc, st1) ∧
        gatts_rc_round rc st1 := by
  intro fuel
  induction fuel with
  | zero =>
    intro total st _ htotal hlt
    have hle : gatts_num_registered st.ble_gatts_svc_entries ≤
        st.ble_gatts_svc_entries.length := List.countP_le_length _
    omega
  | succ fuel ih =>
    intro total st hinv htotal hfuel
    unfold ble_gatts_register_services_loop
    by_cases hlt : total < st.ble_gatts_svc_entries.length
    · have hspec := register_round_loop_spec svcs cb st.ble_gatts_svc_entries.length 0 0 st hinv
      have hrc := register_round_loop_rc svcs cb st.ble_gatts_svc_entries.length 0 0 st
      rcases hround : ble_gatts_register_round svcs cb st with ⟨rc, cur, st2⟩
      have hround1 : ble_gatts_register_round_loop svcs cb st.ble_gatts_svc_entries.length
          0 0 st = (rc, cur, st2) := hround
      rw [hround1] at hspec hrc
      simp only at hspec hrc
      obtain ⟨r1, r2, r3⟩ := hspec
      simp only [hlt, if_true]
      by_cases hz : rc = 0
      · have hpos := hrc.2 hz
        simp only [hz, ne_eq, not_true_eq_false, if_false]
        exact ih (total + cur) st2 r1 (by omega) (by omega)
      · simp only [ne_eq, hz, not_false_eq_true, if_true]
        exact ⟨rc, st2, rfl, hrc.1⟩
    · simp only [hlt, if_false]
      exact ⟨0, st, rfl, Or.inl rfl⟩

/-- The function `ble_gatts_register_services` returns, with the status 0,
`BLE_HS_EINVAL`, or `BLE_HS_ENOMEM` and a full attribute table. -/
theorem register_services_total (svcs : List ble_gatt_svc_def) (cb : Bool)
    (svr : ble_att_svr) :
    ∃ (rc : Int) (st1 : ble_gatts_state),
      ble_gatts_register_services svcs cb svr = some (rc, st1) ∧ gatts_rc_round rc st1 := by
  obtain ⟨hinv0, hnum0, hlen0⟩ := gatts_inv_init svcs svr (ble_gatts_count_svcs svcs)
  exact register_services_loop_total svcs cb _ 0 _ hinv0 hnum0.symm
    (by simp only [hlen0]; omega)

theorem gatts_untouched_step (svcs : List ble_gatt_svc_def) (cb : Bool) (svr0 : ble_att_svr)
    (i : Nat) (sdef0 : ble_gatt_svc_def) (hd : svcs[i]? = some sdef0)
    (hs : ble_gatts_svc_is_sane sdef0 = false)
    (st : ble_gatts_state) (j : Nat) (entry : ble_gatts_svc_entry)
    (sdef : ble_gatt_svc_def) (rc : Int) (handle : Nat) (st1 : ble_gatts_state)
    (hinv : gatts_inv svcs st) (hP : gatts_untouched svr0 i st)
    (hj : st.ble_gatts_svc_entries[j]? = some entry)
    (hdef : svcs[entry.svc]? = some sdef)
    (hreg : ble_gatts_register_svc entry.svc sdef cb st = (rc, handle, st1)) :
    rc ≠ 0 ∧ gatts_untouched svr0 i st1 ∨
    rc = 0 ∧ gatts_untouched svr0 i ⟨st1.svr,
      st1.ble_gatts_svc_entries.set j ⟨entry.svc, handle, ble_att_svr_prev_handle st1.svr⟩,
      st1.cb_log⟩ := by
  have hsvc : entry.svc = j := hinv.1 j entry hj
  by_cases hji : j = i
  · left
    rw [hsvc, hji, hd] at hdef
    simp only [Option.some.injEq] at hdef
    subst hdef
    obtain ⟨rc1, hr, hne, _⟩ := register_svc_insane entry.svc sdef0 cb st hs
    rw [hr] at hreg
    simp only [Prod.mk.injEq] at hreg
    obtain ⟨h1, _, h3⟩ := hreg
    subst h1 h3
    exact ⟨hne, hP⟩
  · have hframe := (register_svc_spec entry.svc sdef cb st).1
    have hfail := (register_svc_fail_frame entry.svc sdef cb st).2
    rw [hreg] at hframe hfail
    simp only at hframe hfail
    obtain ⟨⟨e, he, hes, he0⟩, hattr⟩ := hP
    have hattr1 : ∀ a ∈ st1.svr.attrs, a.ha_cb = ble_att_svr_access.svc i → a ∈ svr0.attrs := by
      intro a ha hcb
      rcases hfail a ha with h | h
      · exact hattr a h hcb
      · exact absurd ((h i hcb).trans hsvc).symm hji
    by_cases hz : rc = 0
    · right
      refine ⟨hz, ⟨e, ?_, hes, he0⟩, hattr1⟩
      show (st1.ble_gatts_svc_entries.set j _)[i]? = some e
      rw [List.getElem?_set_ne hji, hframe.1]
      exact he
    · left
      exact ⟨hz, ⟨e, by rw [hframe.1]; exact he, hes, he0⟩, hattr1⟩

theorem register_services_untouched (svcs : List ble_gatt_svc_def) (cb : Bool)
    (svr : ble_att_svr) (i : Nat) (sdef : ble_gatt_svc_def)
    (hi : i < ble_gatts_count_svcs svcs) (hd : svcs[i]? = some sdef)
    (hs : ble_gatts_svc_is_sane sdef = false)
    (r : Int × ble_gatts_state)
    (h : ble_gatts_register_services svcs cb svr = some r) :
    gatts_untouched svr i r.2 := by
  refine register_services_loop_all svcs cb (gatts_untouched svr i) ?_ ?_ _ 0 _ r
    (gatts_inv_init svcs svr (ble_gatts_count_svcs svcs)).1 ?_ h
  · intro st j entry sd handle st1 hinv hP hj _ hdef hreg
    rcases gatts_untouched_step svcs cb svr i sdef hd hs st j entry sd 0 handle st1 hinv hP hj
      hdef hreg with ⟨h0, _⟩ | ⟨_, h1⟩
    · exact absurd rfl h0
    · exact h1
  · intro st j entry sd rc handle st1 hinv hP hj _ hdef hreg hrc
    rcases gatts_untouched_step svcs cb svr i sdef hd hs st j entry sd rc handle st1 hinv hP hj
      hdef hreg with ⟨_, h1⟩ | ⟨h0, _⟩
    · exact h1
    · exact absurd h0 hrc
  · refine ⟨⟨⟨i, 0, 0xffff⟩, ?_, rfl, rfl⟩, fun a ha _ => ha⟩
    simp [ble_gatts_init_entries, hi]

/-- C14 as stated fails: in [a sane service, a service of a type that is neither
primary nor secondary and without includes] with a full attribute table, the
registration of the first service fails with BLE_HS_ENOMEM, and
ble_gatts_register_services returns that status, not BLE_HS_EINVAL. -/
theorem C14_counterexample_table_full :
    sample_svc_bad_type.type ≠ ble_gatt_svc_type.PRIMARY ∧
    sample_svc_bad_type.type ≠ ble_gatt_svc_type.SECONDARY ∧
    ble_gatts_svc_incs_satisfied (ble_gatts_init_entries 2) sample_svc_bad_type = true ∧
    ble_gatts_register_services [sample_svc 1 none, sample_svc_bad_type] true (sample_svr 0)
      = some (BLE_HS_ENOMEM, ⟨sample_svr 0, ble_gatts_init_entries 2, []⟩) ∧
    BLE_HS_ENOMEM ≠ BLE_HS_EINVAL := by
  decide

/-- C14 (amended): if a declared service has a type that is neither primary nor
secondary, or a null UUID, then ble_gatts_register_svc on it, with its includes
satisfied, returns BLE_HS_EINVAL and leaves the state as it is, and
ble_gatts_register_services returns and fails: with BLE_HS_EINVAL, or with
BLE_HS_ENOMEM when the attribute table ran out first; the service keeps the
handle 0 and no service declaration attribute is allocated for it. -/
theorem C14_insane_service_fails (svcs : List ble_gatt_svc_def) (cb : Bool)
    (svr : ble_att_svr) (i : Nat) (sdef : ble_gatt_svc_def)
    (hi : i < ble_gatts_count_svcs svcs) (hd : svcs[i]? = some sdef)
    (hs : (sdef.type ≠ ble_gatt_svc_type.PRIMARY ∧ sdef.type ≠ ble_gatt_svc_type.SECONDARY) ∨
      sdef.uuid128 = none) :
    (∀ st : ble_gatts_state,
      ble_gatts_svc_incs_satisfied st.ble_gatts_svc_entries sdef = true →
      ble_gatts_register_svc i sdef cb st = (BLE_HS_EINVAL, 0, st)) ∧
    ∃ (rc : Int) (st : ble_gatts_state),
      ble_gatts_register_services svcs cb svr = some (rc, st) ∧
      (rc = BLE_HS_EINVAL ∨ (rc = BLE_HS_ENOMEM ∧ st.svr.num_free = 0)) ∧
      (∃ e : ble_gatts_svc_entry, st.ble_gatts_svc_entries[i]? = some e ∧ e.svc = i ∧
        e.handle = 0) ∧
      (∀ a ∈ st.svr.attrs, a.ha_cb = ble_att_svr_access.svc i → a ∈ svr.attrs) := by
  have hsane : ble_gatts_svc_is_sane sdef = false := by
    unfold ble_gatts_svc_is_sane
    rcases hs with h | h
    · simp [h]
    · simp [h]
  refine ⟨?_, ?_⟩
  · intro st hsat
    obtain ⟨rc, hr, _, hrc⟩ := register_svc_insane i sdef cb st hsane
    rw [hr, hrc hsat]
  · obtain ⟨rc, st, hr, hrc⟩ := register_services_total svcs cb svr
    have hun := register_services_untouched svcs cb svr i sdef hi hd hsane (rc, st) hr
    refine ⟨rc, st, hr, ?_, hun.1, hun.2⟩
    rcases hrc with h | h | h
    · subst h
      obtain ⟨_, _, hall⟩ := register_services_ok_spec svcs cb svr st hr
      obtain ⟨e, he, _, he0⟩ := hun.1
      exact absurd he0 (hall e (List.mem_iff_getElem?.mpr ⟨i, he⟩))
    · exact Or.inl h
    · exact Or.inr h

/-- With room in the table, [a sane service, a service of a bad type] fails with
BLE_HS_EINVAL after the first service was registered; the second one keeps the
handle 0. -/
theorem C14_insane_service_fails_witness :
    ∃ (rc : Int) (st : ble_gatts_state),
      ble_gatts_register_services [sample_svc 1 none, sample_svc_bad_type] true (sample_svr 8)
        = some (rc, st) ∧
      (rc = BLE_HS_EINVAL ∨ (rc = BLE_HS_ENOMEM ∧ st.svr.num_free = 0)) ∧
      (∃ e : ble_gatts_svc_entry, st.ble_gatts_svc_entries[1]? = some e ∧ e.svc = 1 ∧
        e.handle = 0) ∧
      (∀ a ∈ st.svr.attrs, a.ha_cb = ble_att_svr_access.svc 1 → a ∈ (sample_svr 8).attrs) :=
  (C14_insane_service_fails [sample_svc 1 none, sample_svc_bad_type] true (sample_svr 8) 1
    sample_svc_bad_type (by decide) (by decide) (Or.inl (by decide))).2

theorem register_dscs_loop_unsound (chr : ble_gatt_chr_def) (dh : Nat) (cb : Bool)
    (dscs : List ble_gatt_dsc_def) :
    ∀ st : ble_gatts_state,
      (∃ d ∈ dscs.takeWhile (fun d => d.uuid128.isSome), ble_gatts_dsc_is_sane d = false) →
      (ble_gatts_register_dscs_loop chr dh cb dscs st).1 ≠ 0 := by
  induction dscs with
  | nil => intro st ⟨d, hd, _⟩; simp at hd
  | cons dsc rest ih =>
    intro st ⟨d, hd, hbad⟩
    by_cases hu : dsc.uuid128 = none
    · simp [List.takeWhile, hu] at hd
    have hs : dsc.uuid128.isSome = true := by
      cases h : dsc.uuid128 with
      | none => exact absurd h hu
      | some u => rfl
    simp only [List.takeWhile, hs, List.mem_cons] at hd
    rcases hreg : ble_gatts_register_dsc dsc chr dh cb st with ⟨rc, st2⟩
    simp only [ble_gatts_register_dscs_loop, hu, if_false, hreg]
    by_cases hz : rc = 0
    · simp only [hz, ne_eq, not_true_eq_false, if_false]
      rcases hd with rfl | hd
      · simp [ble_gatts_register_dsc, hbad, BLE_HS_EINVAL] at hreg
        exact absurd hz (by omega)
      · exact ih st2 ⟨d, hd, hbad⟩
    · simp only [ne_eq, hz, not_false_eq_true, if_true]

theorem register_chr_unsound (chr : ble_gatt_chr_def) (cb : Bool) (st : ble_gatts_state)
    (h : chr_unsound chr) : (ble_gatts_register_chr chr cb st).1 ≠ 0 := by
  by_cases hs : ble_gatts_chr_is_sane chr = true
  swap
  · simp only [Bool.not_eq_true] at hs
    simp [ble_gatts_register_chr, hs, BLE_HS_EINVAL]
  rcases h with h | ⟨d, hd, hbad⟩
  · rw [h] at hs
    cases hs
  rcases hr : ble_att_svr_register st.svr (ble_att_svr_access.chr_def chr) with ⟨rc, dh, svr1⟩
  simp only [ble_gatts_register_chr, hs, Bool.not_true, Bool.false_eq_true, if_false, hr]
  by_cases h0 : rc = 0
  swap
  · simp only [ne_eq, h0, not_false_eq_true, if_true]
  simp only [ne_eq, h0, not_true_eq_false, if_false]
  rcases hr2 : ble_att_svr_register svr1 (ble_att_svr_access.chr_val chr) with ⟨rc2, vh, svr2⟩
  simp only
  by_cases h02 : rc2 = 0
  swap
  · simp only [h02, not_false_eq_true, if_true]
  simp only [h02, not_true_eq_false, if_false]
  generalize hst2 : (if cb = true then _ else _ : ble_gatts_state) = st2
  have h3 : (ble_gatts_register_dscs chr dh cb st2).1 ≠ 0 := by
    unfold ble_gatts_register_dscs
    cases hdd : chr.descriptors with
    | none => simp [chr_dscs, hdd] at hd
    | some dscs =>
      simp only [chr_dscs, hdd, Option.getD_some] at hd
      exact register_dscs_loop_unsound chr dh cb dscs st2 ⟨d, hd, hbad⟩
  rcases hreg3 : ble_gatts_register_dscs chr dh cb st2 with ⟨rc3, st3⟩
  rw [hreg3] at h3
  simp only at h3
  simp only [h3, not_false_eq_true, if_true]

theorem register_chrs_loop_unsound (cb : Bool) (chrs : List ble_gatt_chr_def) :
    ∀ st : ble_gatts_state,
      (∃ c ∈ chrs.takeWhile (fun c => c.uuid128.isSome), chr_unsound c) →
      (ble_gatts_register_chrs_loop cb chrs st).1 ≠ 0 := by
  induction chrs with
  | nil => intro st ⟨c, hc, _⟩; simp at hc
  | cons chr rest ih =>
    intro st ⟨c, hc, hbad⟩
    by_cases hu : chr.uuid128 = none
    · simp [List.takeWhile, hu] at hc
    have hs : chr.uuid128.isSome = true := by
      cases h : chr.uuid128 with
      | none => exact absurd h hu
      | some u => rfl
    simp only [List.takeWhile, hs, List.mem_cons] at hc
    have h1 := register_chr_unsound chr cb st
    rcases hreg : ble_gatts_register_chr chr cb st with ⟨rc, st2⟩
    rw [hreg] at h1
    simp only [ble_gatts_register_chrs_loop, hu, if_false, hreg]
    by_cases hz : rc = 0
    · simp only [hz, ne_eq, not_true_eq_false, if_false]
      rcases hc with rfl | hc
      · exact absurd hz (h1 hbad)
      · exact ih st2 ⟨c, hc, hbad⟩
    · simp only [ne_eq, hz, not_false_eq_true, if_true]

theorem register_svc_unsound (svc : Nat) (sdef : ble_gatt_svc_def) (cb : Bool)
    (st : ble_gatts_state) (h : ∃ c ∈ svc_chrs sdef, chr_unsound c) :
    (ble_gatts_register_svc svc sdef cb st).1 ≠ 0 := by
  by_cases hinc : ble_gatts_svc_incs_satisfied st.ble_gatts_svc_entries sdef = true
  swap
  · simp only [Bool.not_eq_true] at hinc
    simp [ble_gatts_register_svc, hinc, BLE_HS_EAGAIN]
  by_cases hsane : ble_gatts_svc_is_sane sdef = true
  swap
  · simp only [Bool.not_eq_true] at hsane
    simp [ble_gatts_register_svc, hinc, hsane, BLE_HS_EINVAL]
  rcases hr : ble_att_svr_register st.svr (ble_att_svr_access.svc svc) with ⟨rc, oh, svr1⟩
  simp only [ble_gatts_register_svc, hinc, hsane, Bool.not_true, Bool.false_eq_true, if_false,
    hr]
  by_cases h0 : rc = 0
  swap
  · simp only [ne_eq, h0, not_false_eq_true, if_true]
  simp only [ne_eq, h0, not_true_eq_false, if_false]
  generalize hst1 : (if cb = true then _ else _ : ble_gatts_state) = st1
  rcases hreg2 : ble_gatts_register_incs sdef st1 with ⟨rc2, st2⟩
  simp only
  by_cases h02 : rc2 = 0
  swap
  · simp only [h02, not_false_eq_true, if_true]
  simp only [h02, not_true_eq_false, if_false]
  have h3 : (ble_gatts_register_chrs sdef cb st2).1 ≠ 0 := by
    obtain ⟨c, hc, hbad⟩ := h
    unfold ble_gatts_register_chrs
    cases hcc : sdef.characteristics with
    | none => simp [svc_chrs, hcc] at hc
    | some chrs =>
      simp only [svc_chrs, hcc, Option.getD_some] at hc
      exact register_chrs_loop_unsound cb chrs st2 ⟨c, hc, hbad⟩
  rcases hreg3 : ble_gatts_register_chrs sdef cb st2 with ⟨rc3, st3⟩
  rw [hreg3] at h3
  simp only at h3
  simp only [h3, not_false_eq_true, if_true]

/-- A declared service whose registration never returns 0 keeps the handle 0, and
`ble_gatts_register_services` fails. -/
theorem register_services_unregistered (svcs : List ble_gatt_svc_def) (cb : Bool)
    (svr : ble_att_svr) (i : Nat) (sdef : ble_gatt_svc_def)
    (hi : i < ble_gatts_count_svcs svcs) (hd : svcs[i]? = some sdef)
    (hbad : ∀ st : ble_gatts_state, (ble_gatts_register_svc i sdef cb st).1 ≠ 0) :
    ∃ (rc : Int) (st : ble_gatts_state),
      ble_gatts_register_services svcs cb svr = some (rc, st) ∧
      (rc = BLE_HS_EINVAL ∨ (rc = BLE_HS_ENOMEM ∧ st.svr.num_free = 0)) ∧
      ∃ e : ble_gatts_svc_entry, st.ble_gatts_svc_entries[i]? = some e ∧ e.svc = i ∧
        e.handle = 0 := by
  obtain ⟨rc, st, hr, hrc⟩ := register_services_total svcs cb svr
  have hun : ∃ e : ble_gatts_svc_entry, st.ble_gatts_svc_entries[i]? = some e ∧ e.svc = i ∧
      e.handle = 0 := by
    refine register_services_loop_all svcs cb
      (fun s => ∃ e : ble_gatts_svc_entry, s.ble_gatts_svc_entries[i]? = some e ∧ e.svc = i ∧
        e.handle = 0) ?_ ?_ _ 0 _ (rc, st)
      (gatts_inv_init svcs svr (ble_gatts_count_svcs svcs)).1 ?_ hr
    · intro s j entry sd handle s1 hinv hP hj _ hdef hreg
      have hsvc : entry.svc = j := hinv.1 j entry hj
      have hframe := (register_svc_spec entry.svc sd cb s).1
      rw [hreg] at hframe
      obtain ⟨e, he, hes, he0⟩ := hP
      by_cases hji : j = i
      · rw [hsvc, hji, hd] at hdef
        simp only [Option.some.injEq] at hdef
        subst hdef
        have := hbad s
        rw [← hji, ← hsvc, hreg] at this
        exact absurd rfl this
      · refine ⟨e, ?_, hes, he0⟩
        show (s1.ble_gatts_svc_entries.set j _)[i]? = some e
        rw [List.getElem?_set_ne hji, hframe.1]
        exact he
    · intro s j entry sd rc1 handle s1 _ hP _ _ _ hreg _
      have hframe := (register_svc_spec entry.svc sd cb s).1
      rw [hreg] at hframe
      obtain ⟨e, he, hes, he0⟩ := hP
      exact ⟨e, by rw [hframe.1]; exact he, hes, he0⟩
    · refine ⟨⟨i, 0, 0xffff⟩, ?_, rfl, rfl⟩
      simp [ble_gatts_init_entries, hi]
  refine ⟨rc, st, hr, ?_, hun⟩
  rcases hrc with h | h | h
  · subst h
    obtain ⟨_, _, hall⟩ := register_services_ok_spec svcs cb svr st hr
    obtain ⟨e, he, _, he0⟩ := hun
    exact absurd he0 (hall e (List.mem_iff_getElem?.mpr ⟨i, he⟩))
  · exact Or.inl h
  · exact Or.inr h

/-- C15 as stated fails: a characteristic, or a descriptor, with a null UUID ends
its array: the service registers with status 0, and what stands behind that
element gets no attribute; a characteristic without an access callback gives
BLE_HS_ENOMEM when the attribute table is full, and BLE_HS_EAGAIN when an
include of the service is not registered yet. -/
theorem C15_counterexample_null_uuid :
    (∃ c ∈ sample_svc_null_chr.characteristics.getD [], c.uuid128 = none) ∧
    ble_gatts_register_svc 0 sample_svc_null_chr true
        ⟨sample_svr 8, ble_gatts_init_entries 1, []⟩ =
      (0, 1, ⟨⟨1, 7, [⟨1, ble_att_svr_access.svc 0⟩]⟩, ble_gatts_init_entries 1,
        [ble_gatt_register_event.svc 1 0]⟩) ∧
    (∃ c ∈ sample_svc_null_dsc.characteristics.getD [],
      ∃ d ∈ c.descriptors.getD [], d.uuid128 = none ∧ d.access_cb = none) ∧
    (ble_gatts_register_svc 0 sample_svc_null_dsc true
      ⟨sample_svr 8, ble_gatts_init_entries 1, []⟩).1 = 0 ∧
    (ble_gatts_register_svc 0 sample_svc_null_dsc true
      ⟨sample_svr 8, ble_gatts_init_entries 1, []⟩).2.2.svr.attrs.length = 3 ∧
    (∃ c ∈ (sample_svc_unbound_chr none).characteristics.getD [], c.access_cb = none) ∧
    (ble_gatts_register_svc 0 (sample_svc_unbound_chr none) true
      ⟨sample_svr 0, ble_gatts_init_entries 1, []⟩).1 = BLE_HS_ENOMEM ∧
    (ble_gatts_register_svc 0 (sample_svc_unbound_chr (some [1])) true
      ⟨sample_svr 8, ble_gatts_init_entries 2, []⟩).1 = BLE_HS_EAGAIN ∧
    BLE_HS_ENOMEM ≠ BLE_HS_EINVAL ∧ BLE_HS_EAGAIN ≠ BLE_HS_EINVAL := by
  refine ⟨⟨⟨none, some 1, 2, none⟩, by decide, rfl⟩, by decide,
    ⟨sample_chr (uuid_of_byte 6) 2 (some [⟨none, 1, none⟩, sample_dsc (uuid_of_byte 7)]),
      by decide, ⟨none, 1, none⟩, by decide, rfl, rfl⟩, by decide, by decide,
    ⟨⟨some (uuid_of_byte 6), none, 2, none⟩, by decide, rfl⟩, by decide, by decide,
    by decide, by decide⟩

/-- C15 (amended): if a characteristic of a declared service, before the first
characteristic with a null UUID, has no access callback, or a descriptor of
such a characteristic, before its first descriptor with a null UUID, has no
access callback, then ble_gatts_register_svc on that service never returns 0:
with an include not registered yet it returns BLE_HS_EAGAIN and changes
nothing, otherwise it returns BLE_HS_EINVAL, or BLE_HS_ENOMEM when the
attribute table ran out; ble_gatts_register_services returns and fails with
BLE_HS_EINVAL, or BLE_HS_ENOMEM when the table ran out, and the service keeps
the handle 0.  A characteristic or descriptor with a null UUID ends its loop
with status 0. -/
theorem C15_unbound_access_fails (svcs : List ble_gatt_svc_def) (cb : Bool)
    (svr : ble_att_svr) (i : Nat) (sdef : ble_gatt_svc_def) (chr : ble_gatt_chr_def)
    (hi : i < ble_gatts_count_svcs svcs) (hd : svcs[i]? = some sdef)
    (hc : chr ∈ svc_chrs sdef)
    (hbad : chr.access_cb = none ∨ ∃ d ∈ chr_dscs chr, d.access_cb = none) :
    (∀ st : ble_gatts_state,
      (ble_gatts_register_svc i sdef cb st).1 ≠ 0 ∧
      (ble_gatts_svc_incs_satisfied st.ble_gatts_svc_entries sdef = false →
        ble_gatts_register_svc i sdef cb st = (BLE_HS_EAGAIN, 0, st)) ∧
      (ble_gatts_svc_incs_satisfied st.ble_gatts_svc_entries sdef = true →
        (ble_gatts_register_svc i sdef cb st).1 = BLE_HS_EINVAL ∨
        ((ble_gatts_register_svc i sdef cb st).1 = BLE_HS_ENOMEM ∧
          (ble_gatts_register_svc i sdef cb st).2.2.svr.num_free = 0))) ∧
    (∃ (rc : Int) (st : ble_gatts_state),
      ble_gatts_register_services svcs cb svr = some (rc, st) ∧
      (rc = BLE_HS_EINVAL ∨ (rc = BLE_HS_ENOMEM ∧ st.svr.num_free = 0)) ∧
      ∃ e : ble_gatts_svc_entry, st.ble_gatts_svc_entries[i]? = some e ∧ e.svc = i ∧
        e.handle = 0) ∧
    (∀ (c : ble_gatt_chr_def) (rest : List ble_gatt_chr_def) (st : ble_gatts_state),
      c.uuid128 = none → ble_gatts_register_chrs_loop cb (c :: rest) st = (0, st)) ∧
    (∀ (d : ble_gatt_dsc_def) (rest : List ble_gatt_dsc_def) (dh : Nat)
        (st : ble_gatts_state),
      d.uuid128 = none → ble_gatts_register_dscs_loop chr dh cb (d :: rest) st = (0, st)) := by
  have hun : ∃ c ∈ svc_chrs sdef, chr_unsound c := by
    refine ⟨chr, hc, ?_⟩
    rcases hbad with h | ⟨d, hdm, h⟩
    · left
      simp [ble_gatts_chr_is_sane, h]
    · right
      exact ⟨d, hdm, by simp [ble_gatts_dsc_is_sane, h]⟩
  have hne := fun st => register_svc_unsound i sdef cb st hun
  refine ⟨?_, register_services_unregistered svcs cb svr i sdef hi hd hne, ?_, ?_⟩
  · intro st
    refine ⟨hne st, fun h => register_svc_unsatisfied i sdef cb st h, ?_⟩
    intro hsat
    have h0 := hne st
    rcases register_svc_rc_round i sdef cb st with h | h | h | h
    · rcases register_svc_rc i sdef cb st with ⟨h1, _⟩ | ⟨_, _, hr⟩ | ⟨_, _, hr⟩
      · rw [hsat] at h1
        cases h1
      · left
        rw [hr]
      · rw [h] at hr
        simp [gatts_rc_plain, BLE_HS_EAGAIN, BLE_HS_EINVAL, BLE_HS_ENOMEM] at hr
    · exact absurd h h0
    · exact Or.inl h
    · exact Or.inr h
  · intro c rest st h
    simp [ble_gatts_register_chrs_loop, h]
  · intro d rest dh st h
    simp [ble_gatts_register_dscs_loop, h]

/-- The service with one characteristic without an access callback, alone in the
array: ble_gatts_register_services fails and the service keeps the handle 0. -/
theorem C15_unbound_access_fails_witness :
    ∃ (rc : Int) (st : ble_gatts_state),
      ble_gatts_register_services [sample_svc_unbound_chr none] true (sample_svr 8)
        = some (rc, st) ∧
      (rc = BLE_HS_EINVAL ∨ (rc = BLE_HS_ENOMEM ∧ st.svr.num_free = 0)) ∧
      ∃ e : ble_gatts_svc_entry, st.ble_gatts_svc_entries[0]? = some e ∧ e.svc = 0 ∧
        e.handle = 0 :=
  (C15_unbound_access_fails [sample_svc_unbound_chr none] true (sample_svr 8) 0
    (sample_svc_unbound_chr none) ⟨some (uuid_of_byte 6), none, 2, none⟩
    (by decide) (by decide) (by decide) (Or.inl rfl)).2.1

/-! ## GATT server registration: the registration callback -/

theorem dsc_items_events (chr : ble_gatt_chr_def) (dh : Nat) (dscs : List ble_gatt_dsc_def) :
    ∀ k : Nat, (number_items (dh + 2 + k) (dsc_items chr k dscs)).filterMap item_event =
      dscs_events chr dh (dh + 2 + k) (dscs.takeWhile (fun d => d.uuid128.isSome)) := by
  induction dscs with
  | nil => intro k; rfl
  | cons d rest ih =>
    intro k
    by_cases hu : d.uuid128 = none
    · simp [dsc_items, hu, List.takeWhile, number_items, dscs_events]
    · have hs : d.uuid128.isSome = true := by
        cases h : d.uuid128 with
        | none => exact absurd h hu
        | some u => rfl
      have ih1 := ih (k + 1)
      have e : dh + 2 + (k + 1) = dh + 2 + k + 1 := by omega
      rw [e] at ih1
      have e2 : dh + 2 + k - 2 - k = dh := by omega
      simp only [dsc_items, hu, if_false, number_items, List.takeWhile, hs, dscs_events,
        List.filterMap_cons, item_event, ih1, e2]

theorem chr_items_events (chr : ble_gatt_chr_def) (h : Nat) :
    (number_items h (chr_items chr)).filterMap item_event = chr_events h chr := by
  have hd := dsc_items_events chr h (chr.descriptors.getD []) 0
  simp only [Nat.add_zero] at hd
  simp only [chr_items, number_items, List.filterMap_cons, item_event, chr_events, chr_dscs, hd]

theorem chr_items_length (chr : ble_gatt_chr_def) :
    (chr_items chr).length = 2 + (chr_dscs chr).length := by
  simp only [chr_items, List.length_cons, dsc_items_length, chr_dscs]
  omega

theorem chrs_items_events (chrs : List ble_gatt_chr_def) :
    ∀ h : Nat, (number_items h (chrs_items chrs)).filterMap item_event =
      chrs_events h (chrs.takeWhile (fun c => c.uuid128.isSome)) := by
  induction chrs with
  | nil => intro h; rfl
  | cons c rest ih =>
    intro h
    by_cases hu : c.uuid128 = none
    · simp [chrs_items, hu, List.takeWhile, number_items, chrs_events]
    · have hs : c.uuid128.isSome = true := by
        cases hc : c.uuid128 with
        | none => exact absurd hc hu
        | some u => rfl
      simp only [chrs_items, hu, if_false, number_items_append, List.filterMap_append,
        chr_items_events, chr_items_length, ih, List.takeWhile, hs, chrs_events, Nat.add_assoc]

theorem number_items_map_none (f : Nat → ble_gatts_reg_item) (l : List Nat)
    (hf : ∀ (h x : Nat), item_event (h, f x) = none) :
    ∀ h : Nat, (number_items h (l.map f)).filterMap item_event = [] := by
  induction l with
  | nil => intro h; rfl
  | cons x rest ih =>
    intro h
    simp only [List.map_cons, number_items, List.filterMap_cons, hf, ih]

theorem svc_items_events (svc : Nat) (sdef : ble_gatt_svc_def) (h : Nat) :
    (number_items h (svc_items svc sdef)).filterMap item_event = svc_events h svc sdef := by
  have hinc := number_items_map_none ble_gatts_reg_item.inc (sdef.includes.getD [])
    (fun _ _ => rfl) (h + 1)
  simp only [svc_items, number_items, List.filterMap_cons, item_event, number_items_append,
    List.filterMap_append, hinc, List.nil_append, chrs_items_events, List.length_map,
    svc_events, svc_chrs]

theorem item_event_attr (p : Nat × ble_gatts_reg_item) :
    (item_event p).map event_attr =
      if attr_called (item_attr p) then some (item_attr p) else none := by
  obtain ⟨h, it⟩ := p
  cases it <;> rfl

theorem items_events_attrs (l : List (Nat × ble_gatts_reg_item)) :
    (l.filterMap item_event).map event_attr = (l.map item_attr).filter attr_called := by
  induction l with
  | nil => rfl
  | cons p rest ih =>
    have hp := item_event_attr p
    cases he : item_event p with
    | none =>
      rw [he] at hp
      by_cases hc : attr_called (item_attr p) = true
      · simp [hc] at hp
      · simp only [List.filterMap_cons, he, List.map_cons, List.filter_cons, hc, ih]
        rfl
    | some ev =>
      rw [he] at hp
      by_cases hc : attr_called (item_attr p) = true
      · simp only [hc, if_true, Option.map_some', Option.some.injEq] at hp
        simp only [List.filterMap_cons, he, List.map_cons, List.filter_cons, hc, ih, hp,
          if_true]
      · simp [hc] at hp

theorem gatts_log_inv_step (svcs : List ble_gatt_svc_def) (svr0 : ble_att_svr)
    (st : ble_gatts_state) (j : Nat) (entry : ble_gatts_svc_entry)
    (sdef : ble_gatt_svc_def) (handle : Nat) (st1 : ble_gatts_state)
    (hinv : gatts_inv svcs st) (hP : ∃ hist, gatts_log_inv svcs svr0 hist st)
    (hj : st.ble_gatts_svc_entries[j]? = some entry) (h0 : entry.handle = 0)
    (hdef : svcs[entry.svc]? = some sdef)
    (hreg : ble_gatts_register_svc entry.svc sdef true st = (0, handle, st1)) :
    ∃ hist, gatts_log_inv svcs svr0 hist ⟨st1.svr,
      st1.ble_gatts_svc_entries.set j ⟨entry.svc, handle, ble_att_svr_prev_handle st1.svr⟩,
      st1.cb_log⟩ := by
  obtain ⟨hist, hnd, hiff, hattrs, hlog⟩ := hP
  obtain ⟨hh, hent, _, hat1, hlog1⟩ :=
    register_svc_alloc true entry.svc sdef st st1 handle hinv.1 hreg
  have hsvc : entry.svc = j := hinv.1 j entry hj
  have hjlt : j < st.ble_gatts_svc_entries.length := by
    obtain ⟨h, _⟩ := List.getElem?_eq_some.mp hj
    exact h
  have hblock : svc_block svcs (j, handle) = number_items handle (svc_items j sdef) := by
    rw [hsvc] at hdef
    simp only [svc_block, hdef]
  refine ⟨hist ++ [(j, handle)], ?_, ?_, ?_, ?_⟩
  · rw [List.map_append, List.nodup_append]
    refine ⟨hnd, by simp, ?_⟩
    intro x hx hx1
    simp only [List.map_cons, List.map_nil, List.mem_singleton] at hx1
    subst hx1
    obtain ⟨⟨i, h⟩, hm, rfl⟩ := List.mem_map.mp hx
    obtain ⟨e, he, heh, hne⟩ := (hiff i h).mp hm
    rw [hj] at he
    simp only [Option.some.injEq] at he
    subst he
    exact hne (heh.symm.trans h0)
  · intro i h
    show (i, h) ∈ hist ++ [(j, handle)] ↔
      ∃ e : ble_gatts_svc_entry, (st1.ble_gatts_svc_entries.set j
        ⟨entry.svc, handle, ble_att_svr_prev_handle st1.svr⟩)[i]? = some e ∧
        e.handle = h ∧ h ≠ 0
    rw [hent, List.mem_append, List.mem_singleton]
    by_cases hij : j = i
    · subst hij
      rw [List.getElem?_set_self hjlt]
      constructor
      · rintro (hm | hm)
        · obtain ⟨e, he, heh, hne⟩ := (hiff j h).mp hm
          rw [hj] at he
          simp only [Option.some.injEq] at he
          subst he
          exact absurd (heh.symm.trans h0) hne
        · simp only [Prod.mk.injEq, true_and] at hm
          subst hm
          exact ⟨_, rfl, rfl, by omega⟩
      · rintro ⟨e, he, heh, _⟩
        simp only [Option.some.injEq] at he
        subst he
        right
        rw [← heh]
    · rw [List.getElem?_set_ne hij]
      constructor
      · rintro (hm | hm)
        · exact (hiff i h).mp hm
        · simp only [Prod.mk.injEq] at hm
          exact absurd hm.1.symm hij
      · intro hm
        exact Or.inl ((hiff i h).mpr hm)
  · show st1.svr.attrs = _
    rw [hat1, hattrs, List.flatMap_append, List.map_append, List.append_assoc]
    simp only [List.flatMap_cons, List.flatMap_nil, List.append_nil, hblock]
    rw [hh, hsvc]
  · show st1.cb_log = _
    rw [hlog1, hlog, List.flatMap_append, List.filterMap_append]
    simp only [if_true, List.flatMap_cons, List.flatMap_nil, List.append_nil, hblock]
    rw [hh, hsvc]

theorem register_services_log_inv (svcs : List ble_gatt_svc_def) (svr : ble_att_svr)
    (st : ble_gatts_state)
    (hok : ble_gatts_register_services svcs true svr = some (0, st)) :
    ∃ hist, gatts_log_inv svcs svr hist st :=
  register_services_loop_ok svcs true (fun s => ∃ hist, gatts_log_inv svcs svr hist s)
    (fun s j entry sdef handle s1 hinv hP hj h0 hdef hreg =>
      gatts_log_inv_step svcs svr s j entry sdef handle s1 hinv hP hj h0 hdef hreg)
    _ 0 _ st (gatts_inv_init svcs svr (ble_gatts_count_svcs svcs)).1
    ⟨[], List.nodup_nil, by
      intro i h
      constructor
      · intro hm
        cases hm
      · rintro ⟨e, he, heh, hne⟩
        exact absurd ((init_entries_handle _ e (List.mem_iff_getElem?.mpr ⟨i, he⟩)).symm.trans
          heh).symm hne,
      by simp, rfl⟩ hok

theorem register_inc_same (idx : Nat) (st st1 : ble_gatts_state)
    (h : gatts_same_handles st st1) :
    (ble_gatts_register_inc idx st).1 = (ble_gatts_register_inc idx st1).1 ∧
    gatts_same_handles (ble_gatts_register_inc idx st).2 (ble_gatts_register_inc idx st1).2 := by
  obtain ⟨svr, ents, log⟩ := st
  obtain ⟨svr1, ents1, log1⟩ := st1
  obtain ⟨h1, h2⟩ := h
  simp only at h1 h2
  subst h1 h2
  rcases att_svr_register_cases svr (ble_att_svr_access.inc idx) with ⟨_, hr⟩ | ⟨_, hr⟩ <;>
    simp [ble_gatts_register_inc, hr, gatts_same_handles, BLE_HS_ENOMEM]

theorem register_incs_loop_same (incs : List Nat) :
    ∀ st st1 : ble_gatts_state, gatts_same_handles st st1 →
      (ble_gatts_register_incs_loop incs st).1 = (ble_gatts_register_incs_loop incs st1).1 ∧
      gatts_same_handles (ble_gatts_register_incs_loop incs st).2
        (ble_gatts_register_incs_loop incs st1).2 := by
  induction incs with
  | nil => intro st st1 h; exact ⟨rfl, h⟩
  | cons inc rest ih =>
    intro st st1 h
    have he := h.2
    cases hf : ble_gatts_find_svc st.ble_gatts_svc_entries inc with
    | none =>
      have hf1 := hf
      rw [he] at hf1
      simp [ble_gatts_register_incs_loop, hf, hf1, h]
    | some idx =>
      have hf1 := hf
      rw [he] at hf1
      obtain ⟨h1, h2⟩ := register_inc_same idx st st1 h
      rcases hreg : ble_gatts_register_inc idx st with ⟨rc, st2⟩
      rcases hreg1 : ble_gatts_register_inc idx st1 with ⟨rc1, st3⟩
      rw [hreg, hreg1] at h1 h2
      simp only at h1 h2
      subst h1
      simp only [ble_gatts_register_incs_loop, hf, hf1, hreg, hreg1]
      split_ifs
      · exact ⟨rfl, h2⟩
      · exact ih st2 st3 h2

theorem register_incs_same (sdef : ble_gatt_svc_def) (st st1 : ble_gatts_state)
    (h : gatts_same_handles st st1) :
    (ble_gatts_register_incs sdef st).1 = (ble_gatts_register_incs sdef st1).1 ∧
    gatts_same_handles (ble_gatts_register_incs sdef st).2
      (ble_gatts_register_incs sdef st1).2 := by
  unfold ble_gatts_register_incs
  cases sdef.includes with
  | none => exact ⟨rfl, h⟩
  | some incs => exact register_incs_loop_same incs st st1 h

theorem register_dsc_same (dsc : ble_gatt_dsc_def) (chr : ble_gatt_chr_def) (dh : Nat)
    (cb cb1 : Bool) (st st1 : ble_gatts_state) (h : gatts_same_handles st st1) :
    (ble_gatts_register_dsc dsc chr dh cb st).1 =
      (ble_gatts_register_dsc dsc chr dh cb1 st1).1 ∧
    gatts_same_handles (ble_gatts_register_dsc dsc chr dh cb st).2
      (ble_gatts_register_dsc dsc chr dh cb1 st1).2 := by
  obtain ⟨svr, ents, log⟩ := st
  obtain ⟨svr1, ents1, log1⟩ := st1
  obtain ⟨h1, h2⟩ := h
  simp only at h1 h2
  subst h1 h2
  by_cases hs : ble_gatts_dsc_is_sane dsc = true
  swap
  · simp only [Bool.not_eq_true] at hs
    simp [ble_gatts_register_dsc, hs, gatts_same_handles]
  rcases att_svr_register_cases svr (ble_att_svr_access.dsc dsc) with ⟨_, hr⟩ | ⟨_, hr⟩
  · simp [ble_gatts_register_dsc, hs, hr, gatts_same_handles, BLE_HS_ENOMEM]
  · cases cb <;> cases cb1 <;> simp [ble_gatts_register_dsc, hs, hr, gatts_same_handles]

theorem register_dscs_loop_same (chr : ble_gatt_chr_def) (dh : Nat) (cb cb1 : Bool)
    (dscs : List ble_gatt_dsc_def) :
    ∀ st st1 : ble_gatts_state, gatts_same_handles st st1 →
      (ble_gatts_register_dscs_loop chr dh cb dscs st).1 =
        (ble_gatts_register_dscs_loop chr dh cb1 dscs st1).1 ∧
      gatts_same_handles (ble_gatts_register_dscs_loop chr dh cb dscs st).2
        (ble_gatts_register_dscs_loop chr dh cb1 dscs st1).2 := by
  induction dscs with
  | nil => intro st st1 h; exact ⟨rfl, h⟩
  | cons dsc rest ih =>
    intro st st1 h
    obtain ⟨h1, h2⟩ := register_dsc_same dsc chr dh cb cb1 st st1 h
    rcases hreg : ble_gatts_register_dsc dsc chr dh cb st with ⟨rc, st2⟩
    rcases hreg1 : ble_gatts_register_dsc dsc chr dh cb1 st1 with ⟨rc1, st3⟩
    rw [hreg, hreg1] at h1 h2
    simp only at h1 h2
    subst h1
    simp only [ble_gatts_register_dscs_loop, hreg, hreg1]
    split_ifs
    · exact ⟨rfl, h⟩
    · exact ⟨rfl, h2⟩
    · exact ih st2 st3 h2

theorem register_dscs_same (chr : ble_gatt_chr_def) (dh : Nat) (cb cb1 : Bool)
    (st st1 : ble_gatts_state) (h : gatts_same_handles st st1) :
    (ble_gatts_register_dscs chr dh cb st).1 = (ble_gatts_register_dscs chr dh cb1 st1).1 ∧
    gatts_same_handles (ble_gatts_register_dscs chr dh cb st).2
      (ble_gatts_register_dscs chr dh cb1 st1).2 := by
  unfold ble_gatts_register_dscs
  cases chr.descriptors with
  | none => exact ⟨rfl, h⟩
  | some dscs => exact register_dscs_loop_same chr dh cb cb1 dscs st st1 h

theorem register_chr_same (chr : ble_gatt_chr_def) (cb cb1 : Bool)
    (st st1 : ble_gatts_state) (h : gatts_same_handles st st1) :
    (ble_gatts_register_chr chr cb st).1 = (ble_gatts_register_chr chr cb1 st1).1 ∧
    gatts_same_handles (ble_gatts_register_chr chr cb st).2
      (ble_gatts_register_chr chr cb1 st1).2 := by
  by_cases hs : ble_gatts_chr_is_sane chr = true
  swap
  · simp only [Bool.not_eq_true] at hs
    simp [ble_gatts_register_chr, hs, h]
  obtain ⟨hsvr, hents⟩ := h
  rcases hr : ble_att_svr_register st.svr (ble_att_svr_access.chr_def chr) with ⟨rc, dh, svr1⟩
  have hr1 := hr
  rw [hsvr] at hr1
  simp only [ble_gatts_register_chr, hs, Bool.not_true, Bool.false_eq_true, if_false, hr, hr1]
  by_cases h0 : rc = 0
  swap
  · simp only [ne_eq, h0, not_false_eq_true, if_true]
    exact ⟨trivial, rfl, hents⟩
  simp only [ne_eq, h0, not_true_eq_false, if_false]
  rcases hr2 : ble_att_svr_register svr1 (ble_att_svr_access.chr_val chr) with ⟨rc2, vh, svr2⟩
  simp only
  by_cases h02 : rc2 = 0
  swap
  · simp only [h02, not_false_eq_true, if_true]
    exact ⟨trivial, rfl, hents⟩
  simp only [h02, not_true_eq_false, if_false]
  generalize hst2 : (if cb = true then _ else _ : ble_gatts_state) = st2
  generalize hst3 : (if cb1 = true then _ else _ : ble_gatts_state) = st3
  have hsame : gatts_same_handles st2 st3 := by
    subst hst2 hst3
    cases cb <;> cases cb1 <;> exact ⟨rfl, hents⟩
  obtain ⟨h1, h2⟩ := register_dscs_same chr dh cb cb1 st2 st3 hsame
  rcases hreg : ble_gatts_register_dscs chr dh cb st2 with ⟨rc3, st4⟩
  rcases hreg1 : ble_gatts_register_dscs chr dh cb1 st3 with ⟨rc4, st5⟩
  rw [hreg, hreg1] at h1 h2
  simp only at h1 h2
  subst h1
  simp only
  split_ifs
  · exact ⟨rfl, h2⟩
  · exact ⟨rfl, h2⟩

theorem register_chrs_loop_same (cb cb1 : Bool) (chrs : List ble_gatt_chr_def) :
    ∀ st st1 : ble_gatts_state, gatts_same_handles st st1 →
      (ble_gatts_register_chrs_loop cb chrs st).1 =
        (ble_gatts_register_chrs_loop cb1 chrs st1).1 ∧
      gatts_same_handles (ble_gatts_register_chrs_loop cb chrs st).2
        (ble_gatts_register_chrs_loop cb1 chrs st1).2 := by
  induction chrs with
  | nil => intro st st1 h; exact ⟨rfl, h⟩
  | cons chr rest ih =>
    intro st st1 h
    obtain ⟨h1, h2⟩ := register_chr_same chr cb cb1 st st1 h
    rcases hreg : ble_gatts_register_chr chr cb st with ⟨rc, st2⟩
    rcases hreg1 : ble_gatts_register_chr chr cb1 st1 with ⟨rc1, st3⟩
    rw [hreg, hreg1] at h1 h2
    simp only at h1 h2
    subst h1
    simp only [ble_gatts_register_chrs_loop, hreg, hreg1]
    split_ifs
    · exact ⟨rfl, h⟩
    · exact ⟨rfl, h2⟩
    · exact ih st2 st3 h2

theorem register_chrs_same (sdef : ble_gatt_svc_def) (cb cb1 : Bool)
    (st st1 : ble_gatts_state) (h : gatts_same_handles st st1) :
    (ble_gatts_register_chrs sdef cb st).1 = (ble_gatts_register_chrs sdef cb1 st1).1 ∧
    gatts_same_handles (ble_gatts_register_chrs sdef cb st).2
      (ble_gatts_register_chrs sdef cb1 st1).2 := by
  unfold ble_gatts_register_chrs
  cases sdef.characteristics with
  | none => exact ⟨rfl, h⟩
  | some chrs => exact register_chrs_loop_same cb cb1 chrs st st1 h

theorem register_svc_same (svc : Nat) (sdef : ble_gatt_svc_def) (cb cb1 : Bool)
    (st st1 : ble_gatts_state) (h : gatts_same_handles st st1) :
    (ble_gatts_register_svc svc sdef cb st).1 = (ble_gatts_register_svc svc sdef cb1 st1).1 ∧
    (ble_gatts_register_svc svc sdef cb st).2.1 =
      (ble_gatts_register_svc svc sdef cb1 st1).2.1 ∧
    gatts_same_handles (ble_gatts_register_svc svc sdef cb st).2.2
      (ble_gatts_register_svc svc sdef cb1 st1).2.2 := by
  obtain ⟨hsvr, hents⟩ := h
  by_cases hinc : ble_gatts_svc_incs_satisfied st.ble_gatts_svc_entries sdef = true
  swap
  · simp only [Bool.not_eq_true] at hinc
    have hinc1 := hinc
    rw [hents] at hinc1
    simp [ble_gatts_register_svc, hinc, hinc1, gatts_same_handles, hsvr, hents]
  have hinc1 := hinc
  rw [hents] at hinc1
  by_cases hsane : ble_gatts_svc_is_sane sdef = true
  swap
  · simp only [Bool.not_eq_true] at hsane
    simp [ble_gatts_register_svc, hinc, hinc1, hsane, gatts_same_handles, hsvr, hents]
  rcases hr : ble_att_svr_register st.svr (ble_att_svr_access.svc svc) with ⟨rc, oh, svr1⟩
  have hr1 := hr
  rw [hsvr] at hr1
  simp only [ble_gatts_register_svc, hinc, hinc1, hsane, Bool.not_true, Bool.false_eq_true,
    if_false, hr, hr1]
  by_cases h0 : rc = 0
  swap
  · simp only [ne_eq, h0, not_false_eq_true, if_true]
    exact ⟨trivial, trivial, rfl, hents⟩
  simp only [ne_eq, h0, not_true_eq_false, if_false]
  generalize hst2 : (if cb = true then _ else _ : ble_gatts_state) = st2
  generalize hst3 : (if cb1 = true then _ else _ : ble_gatts_state) = st3
  have hsame : gatts_same_handles st2 st3 := by
    subst hst2 hst3
    cases cb <;> cases cb1 <;> exact ⟨rfl, hents⟩
  obtain ⟨h1, h2⟩ := register_incs_same sdef st2 st3 hsame
  rcases hreg : ble_gatts_register_incs sdef st2 with ⟨rc2, st4⟩
  rcases hreg1 : ble_gatts_register_incs sdef st3 with ⟨rc3, st5⟩
  rw [hreg, hreg1] at h1 h2
  simp only at h1 h2
  subst h1
  obtain ⟨h3, h4⟩ := register_chrs_same sdef cb cb1 st4 st5 h2
  rcases hregc : ble_gatts_register_chrs sdef cb st4 with ⟨rc4, st6⟩
  rcases hregc1 : ble_gatts_register_chrs sdef cb1 st5 with ⟨rc5, st7⟩
  rw [hregc, hregc1] at h3 h4
  simp only at h3 h4
  subst h3
  simp only
  split_ifs <;> first | exact ⟨rfl, rfl, h2⟩ | exact ⟨rfl, rfl, h4⟩

theorem register_round_loop_same (svcs : List ble_gatt_svc_def) (cb cb1 : Bool) :
    ∀ (n i num : Nat) (st st1 : ble_gatts_state), gatts_same_handles st st1 →
      (ble_gatts_register_round_loop svcs cb n i num st).1 =
        (ble_gatts_register_round_loop svcs cb1 n i num st1).1 ∧
      (ble_gatts_register_round_loop svcs cb n i num st).2.1 =
        (ble_gatts_register_round_loop svcs cb1 n i num st1).2.1 ∧
      gatts_same_handles (ble_gatts_register_round_loop svcs cb n i num st).2.2
        (ble_gatts_register_round_loop svcs cb1 n i num st1).2.2 := by
  intro n
  induction n with
  | zero =>
    intro i num st st1 h
    unfold ble_gatts_register_round_loop
    split_ifs <;> exact ⟨rfl, rfl, h⟩
  | succ n ih =>
    intro i num st st1 h
    have hents := h.2
    cases hi : st.ble_gatts_svc_entries[i]? with
    | none =>
      have hi1 := hi
      rw [hents] at hi1
      simp only [ble_gatts_register_round_loop, hi, hi1]
      exact ih (i + 1) num st st1 h
    | some entry =>
      have hi1 := hi
      rw [hents] at hi1
      by_cases h0 : entry.handle = 0
      swap
      · simp only [ble_gatts_register_round_loop, hi, hi1, h0, if_false]
        exact ih (i + 1) num st st1 h
      cases hdef : svcs[entry.svc]? with
      | none =>
        simp only [ble_gatts_register_round_loop, hi, hi1, h0, if_true, hdef]
        exact ih (i + 1) num st st1 h
      | some sdef =>
        obtain ⟨h1, h2, h3⟩ := register_svc_same entry.svc sdef cb cb1 st st1 h
        rcases hreg : ble_gatts_register_svc entry.svc sdef cb st with ⟨rc, handle, st2⟩
        rcases hreg1 : ble_gatts_register_svc entry.svc sdef cb1 st1 with ⟨rc1, handle1, st3⟩
        rw [hreg, hreg1] at h1 h2 h3
        simp only at h1 h2 h3
        subst h1 h2
        simp only [ble_gatts_register_round_loop, hi, hi1, h0, if_true, hdef, hreg, hreg1]
        by_cases hz : rc = 0
        · simp only [hz, if_true]
          refine ih (i + 1) (num + 1) _ _ ⟨h3.1, ?_⟩
          show st2.ble_gatts_svc_entries.set i _ = st3.ble_gatts_svc_entries.set i _
          rw [h3.2, ble_att_svr_prev_handle, ble_att_svr_prev_handle, h3.1]
        · simp only [hz, if_false]
          by_cases hag : rc = BLE_HS_EAGAIN
          · simp only [hag, if_true]
            exact ih (i + 1) num st2 st3 h3
          · simp only [hag, if_false]
            exact ⟨trivial, trivial, h3⟩

theorem register_services_loop_same (svcs : List ble_gatt_svc_def) (cb cb1 : Bool) :
    ∀ (fuel total : Nat) (st st1 : ble_gatts_state), gatts_same_handles st st1 →
      (ble_gatts_register_services_loop svcs cb fuel total st).map gatts_result_handles =
        (ble_gatts_register_services_loop svcs cb1 fuel total st1).map
          gatts_result_handles := by
  intro fuel
  induction fuel with
  | zero => intro total st st1 _; rfl
  | succ fuel ih =>
    intro total st st1 h
    have hents := h.2
    obtain ⟨h1, h2, h3⟩ := register_round_loop_same svcs cb cb1
      st.ble_gatts_svc_entries.length 0 0 st st1 h
    rcases hround : ble_gatts_register_round svcs cb st with ⟨rc, cur, st2⟩
    rcases hround1 : ble_gatts_register_round svcs cb1 st1 with ⟨rc1, cur1, st3⟩
    have hr : ble_gatts_register_round_loop svcs cb st.ble_gatts_svc_entries.length
        0 0 st = (rc, cur, st2) := hround
    have hr1 : ble_gatts_register_round_loop svcs cb1 st.ble_gatts_svc_entries.length
        0 0 st1 = (rc1, cur1, st3) := by
      rw [hents]
      exact hround1
    rw [hr, hr1] at h1 h2 h3
    simp only at h1 h2 h3
    subst h1 h2
    by_cases hlt : total < st.ble_gatts_svc_entries.length
    · have hlt1 : total < st1.ble_gatts_svc_entries.length := by
        rw [← hents]
        exact hlt
      simp only [ble_gatts_register_services_loop, hlt, hlt1, if_true, hround, hround1]
      by_cases hz : rc = 0
      · simp only [hz, ne_eq, not_true_eq_false, if_false]
        exact ih (total + cur) st2 st3 h3
      · simp only [ne_eq, hz, not_false_eq_true, if_true, Option.map_some', gatts_result_handles,
          h3.1, h3.2]
    · have hlt1 : ¬ total < st1.ble_gatts_svc_entries.length := by
        rw [← hents]
        exact hlt
      simp only [ble_gatts_register_services_loop, hlt, hlt1, if_false, Option.map_some',
        gatts_result_handles, h.1, h.2]

/-- The status, the attribute table and the registry entries that
`ble_gatts_register_services` leaves do not depend on whether a registration
callback was given. -/
theorem register_services_same (svcs : List ble_gatt_svc_def) (cb cb1 : Bool)
    (svr : ble_att_svr) :
    (ble_gatts_register_services svcs cb svr).map gatts_result_handles =
      (ble_gatts_register_services svcs cb1 svr).map gatts_result_handles :=
  register_services_loop_same svcs cb cb1 _ 0 _ _ ⟨rfl, rfl⟩

theorem dscs_events_attr2 (chr : ble_gatt_chr_def) (dh : Nat) (ds : List ble_gatt_dsc_def) :
    ∀ (h : Nat), ∀ ev ∈ dscs_events chr dh h ds,
      event_attr2 ev = some ⟨dh, ble_att_svr_access.chr_def chr⟩ := by
  induction ds with
  | nil => intro h ev hev; cases hev
  | cons d rest ih =>
    intro h ev hev
    simp only [dscs_events, List.mem_cons] at hev
    rcases hev with rfl | hev
    · rfl
    · exact ih (h + 1) ev hev

theorem chr_items_attr2 (chr : ble_gatt_chr_def) (h : Nat) :
    ∀ ev ∈ (number_items h (chr_items chr)).filterMap item_event,
      ∀ a, event_attr2 ev = some a → a ∈ (number_items h (chr_items chr)).map item_attr := by
  intro ev hev a ha
  rw [chr_items_events] at hev
  simp only [chr_events, List.mem_cons] at hev
  simp only [chr_items, number_items, List.map_cons, List.mem_cons]
  rcases hev with rfl | hev
  · simp only [event_attr2, Option.some.injEq] at ha
    right
    left
    exact ha.symm
  · rw [dscs_events_attr2 chr h _ _ ev hev, Option.some.injEq] at ha
    left
    exact ha.symm

theorem chrs_items_attr2 (chrs : List ble_gatt_chr_def) :
    ∀ (h : Nat), ∀ ev ∈ (number_items h (chrs_items chrs)).filterMap item_event,
      ∀ a, event_attr2 ev = some a →
        a ∈ (number_items h (chrs_items chrs)).map item_attr := by
  induction chrs with
  | nil => intro h ev hev; simp [chrs_items, number_items] at hev
  | cons c rest ih =>
    intro h ev hev a ha
    by_cases hu : c.uuid128 = none
    · simp [chrs_items, hu, number_items] at hev
    · simp only [chrs_items, hu, if_false, number_items_append, List.filterMap_append,
        List.mem_append, List.map_append] at hev ⊢
      rcases hev with hev | hev
      · exact Or.inl (chr_items_attr2 c h ev hev a ha)
      · exact Or.inr (ih _ ev hev a ha)

theorem svc_items_attr2 (svc : Nat) (sdef : ble_gatt_svc_def) (h : Nat) :
    ∀ ev ∈ (number_items h (svc_items svc sdef)).filterMap item_event,
      ∀ a, event_attr2 ev = some a →
        a ∈ (number_items h (svc_items svc sdef)).map item_attr := by
  intro ev hev a ha
  have hinc := number_items_map_none ble_gatts_reg_item.inc (sdef.includes.getD [])
    (fun _ _ => rfl) (h + 1)
  simp only [svc_items, number_items, List.filterMap_cons, item_event, number_items_append,
    List.filterMap_append, hinc, List.nil_append, List.mem_cons, List.map_cons,
    List.map_append, List.mem_append] at hev ⊢
  rcases hev with rfl | hev
  · cases ha
  · exact Or.inr (Or.inr (chrs_items_attr2 _ _ ev hev a ha))

theorem svc_blocks_attr2 (svcs : List ble_gatt_svc_def) (hist : List (Nat × Nat)) :
    ∀ ev ∈ (hist.flatMap (svc_block svcs)).filterMap item_event,
      ∀ a, event_attr2 ev = some a → a ∈ (hist.flatMap (svc_block svcs)).map item_attr := by
  intro ev hev a ha
  rw [List.filterMap_flatMap, List.mem_flatMap] at hev
  obtain ⟨p, hp, hev⟩ := hev
  rw [List.map_flatMap, List.mem_flatMap]
  refine ⟨p, hp, ?_⟩
  unfold svc_block at hev ⊢
  cases hd : svcs[p.1]? with
  | none => simp [hd] at hev
  | some sdef =>
    simp only [hd] at hev ⊢
    exact svc_items_attr2 p.1 sdef p.2 ev hev a ha

theorem svc_block_filter_events (svcs : List ble_gatt_svc_def) (p : Nat × Nat) :
    (svc_block svcs p).filterMap item_event = svc_block_events svcs p := by
  unfold svc_block svc_block_events
  cases svcs[p.1]? with
  | none => rfl
  | some sdef => exact svc_items_events p.1 sdef p.2

/-- C16: on a successful ble_gatts_register_services with a registration
callback, the calls of the callback are, service by service in the order of
registration, one call for the service with its declaration handle, none for
its includes, and for each characteristic one call with its declaration and
value handle followed by one call per descriptor with its handle and the
declaration handle of the characteristic; every declared service occurs exactly
once; the calls are, in order, exactly the service declarations, characteristic
declarations and descriptors among the attributes allocated, with the handles
allocated, and the value handle of a call for a characteristic, and the
declaration handle of a call for a descriptor, are the handles of the value
and of the declaration of that characteristic among the attributes allocated;
the status, the attribute table and the registry entries are the same as
without a callback. -/
theorem C16_register_callback (svcs : List ble_gatt_svc_def) (svr : ble_att_svr)
    (st : ble_gatts_state)
    (hok : ble_gatts_register_services svcs true svr = some (0, st)) :
    (∃ hist : List (Nat × Nat),
      (hist.map Prod.fst).Perm (List.range (ble_gatts_count_svcs svcs)) ∧
      (∀ p ∈ hist, ∃ (e : ble_gatts_svc_entry) (sdef : ble_gatt_svc_def),
        st.ble_gatts_svc_entries[p.1]? = some e ∧ e.svc = p.1 ∧ e.handle = p.2 ∧
        svcs[p.1]? = some sdef) ∧
      st.cb_log = hist.flatMap (svc_block_events svcs)) ∧
    st.cb_log.map event_attr = (st.svr.attrs.drop svr.attrs.length).filter attr_called ∧
    (∀ ev ∈ st.cb_log, ∀ a, event_attr2 ev = some a →
      a ∈ st.svr.attrs.drop svr.attrs.length) ∧
    (ble_gatts_register_services svcs false svr).map gatts_result_handles =
      some (0, st.svr, st.ble_gatts_svc_entries) := by
  obtain ⟨hist, hnd, hiff, hattrs, hlog⟩ := register_services_log_inv svcs svr st hok
  obtain ⟨hinv, hlen, hall⟩ := register_services_ok_spec svcs true svr st hok
  obtain ⟨hg1, _⟩ := register_services_group_inv svcs true svr st hok
  refine ⟨⟨hist, ?_, ?_, ?_⟩, ?_, ?_, ?_⟩
  · refine (List.perm_ext_iff_of_nodup hnd (List.nodup_range _)).mpr ?_
    intro i
    rw [List.mem_range, ← hlen]
    constructor
    · intro hm
      obtain ⟨⟨j, h⟩, hm1, rfl⟩ := List.mem_map.mp hm
      obtain ⟨e, he, _, _⟩ := (hiff j h).mp hm1
      obtain ⟨hlt, _⟩ := List.getElem?_eq_some.mp he
      exact hlt
    · intro hlt
      have he : st.ble_gatts_svc_entries[i]? = some (st.ble_gatts_svc_entries.get ⟨i, hlt⟩) :=
        List.getElem?_eq_getElem hlt
      have hne := hall _ (List.mem_iff_getElem?.mpr ⟨i, he⟩)
      exact List.mem_map.mpr ⟨(i, _), (hiff i _).mpr ⟨_, he, rfl, hne⟩, rfl⟩
  · intro p hp
    obtain ⟨e, he, heh, hne⟩ := (hiff p.1 p.2).mp hp
    obtain ⟨sdef, hd, _, _⟩ := hg1 p.1 e he (by rw [heh]; exact hne)
    exact ⟨e, sdef, he, hinv.1 p.1 e he, heh, hd⟩
  · rw [hlog, List.filterMap_flatMap]
    congr 1
    funext p
    exact svc_block_filter_events svcs p
  · rw [hlog, hattrs, List.drop_left]
    exact items_events_attrs _
  · rw [hlog, hattrs, List.drop_left]
    exact svc_blocks_attr2 svcs hist
  · have hsame := register_services_same svcs true false svr
    rw [hok] at hsame
    exact hsame.symm

/-- The array [a service alone, a service with an include, a characteristic and
a descriptor] registered with a callback: the four calls are about the
attributes 1, 2, 4 and 6, and the result without a callback has the same table
and entries. -/
theorem C16_register_callback_witness :
    sample_state_two_registered.cb_log.map event_attr =
      (sample_state_two_registered.svr.attrs.drop (sample_svr 10).attrs.length).filter
        attr_called ∧
    (ble_gatts_register_services [sample_svc 1 none, sample_svc_full] false
        (sample_svr 10)).map gatts_result_handles =
      some (0, sample_state_two_registered.svr,
        sample_state_two_registered.ble_gatts_svc_entries) :=
  let t := C16_register_callback [sample_svc 1 none, sample_svc_full] (sample_svr 10)
    sample_state_two_registered (by decide)
  ⟨t.2.1, t.2.2.2⟩

/-! ## Advertising data -/

theorem adv_rd_drop (behind : Nat) (buf : List Nat) (pos i : Nat) :
    adv_rd behind buf (pos + i) = (buf.drop pos).getD i behind := by
  simp only [adv_rd, List.getD_eq_getElem?_getD, List.getElem?_drop]

/-- One call of `ble_hs_adv_parse_one_field` at a record of at most 253 payload
bytes that lies in the buffer does what the specification says of the
record. -/
theorem parse_one_field_record (k : ble_hs_adv_consts) (behind : Nat)
    (adv_fields : ble_hs_adv_fields) (fl : Nat) (buf : List Nat) (pos : Nat)
    (r : Nat × List Nat) (tail : List Nat)
    (hk : adv_consts_ok k)
    (hbuf : buf.drop pos = adv_record r ++ tail) (hp : r.2.length ≤ 253) :
    ble_hs_adv_parse_one_field k behind adv_fields fl buf pos (2 + r.2.length + tail.length) =
      match adv_apply_record k pos adv_fields r with
      | none => (BLE_HS_EBADDATA, 2 + r.2.length, adv_fields)
      | some adv_fields1 => (0, 2 + r.2.length, adv_fields1) := by
  obtain ⟨t, p⟩ := r
  simp only at hp ⊢
  have h0 : adv_rd behind buf pos = 1 + p.length := by
    have := adv_rd_drop behind buf pos 0
    rw [Nat.add_zero, hbuf] at this
    rw [this]
    rfl
  have h1 : adv_rd behind buf (pos + 1) = t := by
    rw [adv_rd_drop, hbuf]
    rfl
  have h2 : adv_rd behind buf (pos + 2) = (p ++ tail).getD 0 behind := by
    rw [adv_rd_drop, hbuf]
    rfl
  have e1 : (1 + p.length + 1) % 256 = 2 + p.length := by omega
  have e2 : (2 + p.length + 256 - 2) % 256 = p.length := by omega
  have e3 : ¬ 2 + p.length + tail.length < 1 := by omega
  have e4 : ¬ 2 + p.length + tail.length < 2 + p.length := by omega
  simp only [ble_hs_adv_parse_one_field, e3, if_false, h0, e1, e4, h1, e2, hk.2.2.2, h2,
    adv_apply_record]
  by_cases hf : t = k.BLE_HS_ADV_TYPE_FLAGS
  · simp only [hf, if_true]
    by_cases hl : p.length = 1
    · simp only [hl, ne_eq, not_true_eq_false, if_false, if_true]
      match p, hl with
      | [b], _ => rfl
    · simp only [ne_eq, hl, not_false_eq_true, if_true, if_false]
  · simp only [hf, if_false]
    by_cases hi : t = k.BLE_HS_ADV_TYPE_INCOMP_NAME
    · simp only [hi, if_true]
    · simp only [hi, if_false]
      by_cases hc : t = k.BLE_HS_ADV_TYPE_COMP_NAME
      · simp only [hc, if_true]
      · simp only [hc, if_false]

theorem adv_record_length (r : Nat × List Nat) : (adv_record r).length = 2 + r.2.length := by
  simp only [adv_record, List.length_append, List.length_cons, List.length_nil]

theorem adv_encode_cons (r : Nat × List Nat) (rs : List (Nat × List Nat)) :
    adv_encode (r :: rs) = adv_record r ++ adv_encode rs := by
  simp only [adv_encode, List.flatMap_cons]

/-- The loop of `ble_hs_adv_parse_fields` on a buffer that holds, from the offset
`pos` on, the records `rs` and nothing else, returns what the specification says
of the records, when the bound on the iterations is above their number. -/
theorem parse_fields_loop_records (k : ble_hs_adv_consts) (behind : Nat) (buf : List Nat)
    (hk : adv_consts_ok k) :
    ∀ (rs : List (Nat × List Nat)) (fuel : Nat) (adv_fields : ble_hs_adv_fields)
      (fl pos : Nat),
      buf.drop pos = adv_encode rs → (adv_encode rs).length ≤ 255 → rs.length < fuel →
      ble_hs_adv_parse_fields_loop k behind fuel adv_fields fl buf pos (adv_encode rs).length =
        some (adv_parse_records k pos adv_fields rs) := by
  intro rs
  induction rs with
  | nil =>
    intro fuel adv_fields fl pos _ _ hfuel
    obtain ⟨f, rfl⟩ : ∃ f, fuel = f + 1 := ⟨fuel - 1, by simp at hfuel; omega⟩
    simp [ble_hs_adv_parse_fields_loop, adv_encode, adv_parse_records]
  | cons r rest ih =>
    intro fuel adv_fields fl pos hbuf hlen hfuel
    obtain ⟨f, rfl⟩ : ∃ f, fuel = f + 1 := ⟨fuel - 1, by simp at hfuel; omega⟩
    rw [adv_encode_cons] at hbuf hlen ⊢
    rw [List.length_append, adv_record_length] at hlen ⊢
    have hp : r.2.length ≤ 253 := by omega
    have hone := parse_one_field_record k behind adv_fields fl buf pos r (adv_encode rest) hk
      hbuf hp
    have hpos : 2 + r.2.length + (adv_encode rest).length > 0 := by omega
    simp only [ble_hs_adv_parse_fields_loop, hpos, if_true, hone, adv_parse_records]
    cases happ : adv_apply_record k pos adv_fields r with
    | none => simp [BLE_HS_EBADDATA]
    | some adv1 =>
      have e : (2 + r.2.length + (adv_encode rest).length + 256 - (2 + r.2.length)) % 256 =
          (adv_encode rest).length := by omega
      have hdrop : buf.drop (pos + (2 + r.2.length)) = adv_encode rest := by
        rw [← List.drop_drop, hbuf, ← adv_record_length r, List.drop_left]
      simp only [ne_eq, not_true_eq_false, if_false, e]
      have := ih f adv1 (2 + r.2.length) (pos + (2 + r.2.length)) hdrop (by omega)
        (by simp only [List.length_cons] at hfuel; omega)
      rw [this, Nat.add_assoc]

/-- C21: appending a field that does not fit (the current length plus 2 plus the
payload length is above the capacity) returns BLE_HS_EMSGSIZE and leaves the
destination bytes and the destination length as they are; and
ble_hs_adv_set_fields, which sets the length to 0 and then appends the name,
returns BLE_HS_EMSGSIZE with the destination bytes as they are and the length
0 when the name does not fit. -/
theorem C21_set_one_field_too_large (t data_len dst_len max_len : Nat) (data dst : List Nat)
    (h : dst_len + 2 + data_len > max_len) :
    ble_hs_adv_set_one_field t data_len data dst dst_len max_len =
      (BLE_HS_EMSGSIZE, dst, dst_len) ∧
    (∀ (k : ble_hs_adv_consts) (adv_fields : ble_hs_adv_fields) (mem : List Nat)
        (off old_len : Nat),
      adv_fields.name = some off → adv_fields.name_len > 0 →
      0 + 2 + adv_fields.name_len > max_len →
      ble_hs_adv_set_fields k adv_fields mem dst old_len max_len = (BLE_HS_EMSGSIZE, dst, 0)) := by
  refine ⟨by simp only [ble_hs_adv_set_one_field, h, if_true], ?_⟩
  intro k adv_fields mem off old_len hn hl hbig
  simp only [ble_hs_adv_set_fields, hn, hl, if_true, ble_hs_adv_set_one_field, hbig]
  simp [BLE_HS_EMSGSIZE]

/-- A field of 3 payload bytes does not fit behind 3 bytes in a destination of
capacity 7. -/
theorem C21_set_one_field_too_large_witness :
    ble_hs_adv_set_one_field 9 3 [7, 8, 9] [1, 1, 1, 0, 0, 0, 0] 3 7 =
      (BLE_HS_EMSGSIZE, [1, 1, 1, 0, 0, 0, 0], 3) :=
  (C21_set_one_field_too_large 9 3 3 7 [7, 8, 9] [1, 1, 1, 0, 0, 0, 0] (by decide)).1

/-- The loop of `ble_hs_adv_parse_fields` on a buffer that holds, from the offset
`pos` on, records that parse and then a length byte below 255 that is above the
number of bytes behind it: the status is `BLE_HS_EMSGSIZE`. -/
theorem parse_fields_loop_bad_length (k : ble_hs_adv_consts) (behind : Nat) (buf : List Nat)
    (L : Nat) (rest : List Nat) (hk : adv_consts_ok k) (hL : L < 255)
    (hbad : (L :: rest).length < L + 1) :
    ∀ (rs : List (Nat × List Nat)) (fuel : Nat) (adv_fields : ble_hs_adv_fields)
      (fl pos : Nat),
      buf.drop pos = adv_encode rs ++ L :: rest →
      (adv_encode rs ++ L :: rest).length ≤ 255 → rs.length < fuel →
      (adv_parse_records k pos adv_fields rs).1 = 0 →
      ble_hs_adv_parse_fields_loop k behind fuel adv_fields fl buf pos
          (adv_encode rs ++ L :: rest).length =
        some (BLE_HS_EMSGSIZE, (adv_parse_records k pos adv_fields rs).2) := by
  intro rs
  induction rs with
  | nil =>
    intro fuel adv_fields fl pos hbuf _ hfuel _
    obtain ⟨f, rfl⟩ : ∃ f, fuel = f + 1 := ⟨fuel - 1, by simp at hfuel; omega⟩
    simp only [adv_encode, List.flatMap_nil, List.nil_append] at hbuf ⊢
    have h0 : adv_rd behind buf pos = L := by
      have := adv_rd_drop behind buf pos 0
      rw [Nat.add_zero, hbuf] at this
      rw [this]
      rfl
    have e1 : (L + 1) % 256 = L + 1 := by omega
    have e2 : (L :: rest).length > 0 := by simp
    have e3 : ¬ (L :: rest).length < 1 := by simp
    simp only [ble_hs_adv_parse_fields_loop, e2, if_true, ble_hs_adv_parse_one_field, e3,
      if_false, h0, e1, hbad, adv_parse_records]
    simp [BLE_HS_EMSGSIZE]
  | cons r rs ih =>
    intro fuel adv_fields fl pos hbuf hlen hfuel hok
    obtain ⟨f, rfl⟩ : ∃ f, fuel = f + 1 := ⟨fuel - 1, by simp at hfuel; omega⟩
    rw [adv_encode_cons, List.append_assoc] at hbuf hlen ⊢
    rw [List.length_append, adv_record_length] at hlen ⊢
    have hp : r.2.length ≤ 253 := by omega
    have hone := parse_one_field_record k behind adv_fields fl buf pos r
      (adv_encode rs ++ L :: rest) hk hbuf hp
    have hpos : 2 + r.2.length + (adv_encode rs ++ L :: rest).length > 0 := by omega
    simp only [ble_hs_adv_parse_fields_loop, hpos, if_true, hone]
    simp only [adv_parse_records] at hok ⊢
    cases happ : adv_apply_record k pos adv_fields r with
    | none => simp [happ, BLE_HS_EBADDATA] at hok
    | some adv1 =>
      simp only [happ] at hok
      have e : (2 + r.2.length + (adv_encode rs ++ L :: rest).length + 256 -
          (2 + r.2.length)) % 256 = (adv_encode rs ++ L :: rest).length := by omega
      have hdrop : buf.drop (pos + (2 + r.2.length)) = adv_encode rs ++ L :: rest := by
        rw [← List.drop_drop, hbuf, ← adv_record_length r, List.drop_left]
      simp only [ne_eq, not_true_eq_false, if_false, e]
      have := ih f adv1 (2 + r.2.length) (pos + (2 + r.2.length)) hdrop (by omega)
        (by simp only [List.length_cons] at hfuel; omega) (by rw [Nat.add_assoc] at hok; exact hok)
      rw [this, Nat.add_assoc]

theorem adv_apply_record_none (k : ble_hs_adv_consts) (pos : Nat)
    (adv_fields : ble_hs_adv_fields) (r : Nat × List Nat) :
    adv_apply_record k pos adv_fields r = none ↔
      r.1 = k.BLE_HS_ADV_TYPE_FLAGS ∧ r.2.length ≠ 1 := by
  unfold adv_apply_record
  by_cases hf : r.1 = k.BLE_HS_ADV_TYPE_FLAGS
  · by_cases hl : r.2.length = 1 <;> simp [hf, hl]
  · simp only [hf, if_false, false_and, iff_false]
    split_ifs <;> simp

theorem adv_parse_records_rc (k : ble_hs_adv_consts) :
    ∀ (rs : List (Nat × List Nat)) (pos : Nat) (adv_fields : ble_hs_adv_fields),
      ((adv_parse_records k pos adv_fields rs).1 = BLE_HS_EBADDATA ↔
        ∃ r ∈ rs, r.1 = k.BLE_HS_ADV_TYPE_FLAGS ∧ r.2.length ≠ 1) ∧
      ((adv_parse_records k pos adv_fields rs).1 = 0 ↔
        ¬ ∃ r ∈ rs, r.1 = k.BLE_HS_ADV_TYPE_FLAGS ∧ r.2.length ≠ 1) := by
  intro rs
  induction rs with
  | nil => intro pos adv_fields; simp [adv_parse_records, BLE_HS_EBADDATA]
  | cons r rest ih =>
    intro pos adv_fields
    have hnone := adv_apply_record_none k pos adv_fields r
    cases happ : adv_apply_record k pos adv_fields r with
    | none =>
      have hr := hnone.mp happ
      simp only [adv_parse_records, happ, List.mem_cons, exists_eq_or_imp]
      simp [hr, BLE_HS_EBADDATA]
    | some adv1 =>
      have hr : ¬ (r.1 = k.BLE_HS_ADV_TYPE_FLAGS ∧ r.2.length ≠ 1) := by
        intro h
        rw [hnone.mpr h] at happ
        cases happ
      simp only [adv_parse_records, happ, List.mem_cons, exists_eq_or_imp, hr, false_or]
      exact ih _ adv1

/-- C23 as stated fails: in the buffer 03 01 07 07 09 00 the record at the
offset 4 declares 9 bytes where one byte is left, but the flags record before
it carries two bytes, and ble_hs_adv_parse_fields returns BLE_HS_EBADDATA, not
BLE_HS_EMSGSIZE.  In the buffer 00 01 the record at the offset 1 declares one
byte where none is left, behind a record of declared length 0: the code takes
the byte 01 for the type of that first record, flags, with a payload of 1 - 2
bytes in a `uint8_t`, 255, and returns BLE_HS_EBADDATA as well.  In the buffer
FF 07 the record declares 255 bytes where one is left, and the loop has given
no status after 64 iterations. -/
theorem C23_counterexample_bad_data_first :
    ([3, 1, 7, 7, 9, 0] : List Nat).drop 4 = [9, 0] ∧ ([0] : List Nat).length < 9 ∧
    ble_hs_adv_parse_fields sample_adv_consts 0 7 0 [3, 1, 7, 7, 9, 0] 6 =
      some (BLE_HS_EBADDATA, adv_fields_zero) ∧
    BLE_HS_EBADDATA ≠ BLE_HS_EMSGSIZE ∧
    ([0, 1] : List Nat).drop 1 = [1] ∧ ([] : List Nat).length < 1 ∧
    ble_hs_adv_parse_fields sample_adv_consts 0 3 0 [0, 1] 2 =
      some (BLE_HS_EBADDATA, adv_fields_zero) ∧
    ([255, 7] : List Nat).length < 255 + 1 ∧
    ble_hs_adv_parse_fields sample_adv_consts 0 64 0 [255, 7] 2 = none := by
  decide

/-- C23 (amended): for every advertising buffer that consists of records with
their type byte (a declared length of at least 1, the type and the payload, all
in the buffer), in which every flags record carries exactly one payload byte,
followed by a record whose declared length, below 255, exceeds the bytes
remaining in the buffer at that record, ble_hs_adv_parse_fields fails with
BLE_HS_EMSGSIZE, the status that the code has for a bad length. -/
theorem C23_bad_length (k : ble_hs_adv_consts) (behind fuel fl : Nat)
    (rs : List (Nat × List Nat)) (L : Nat) (rest : List Nat)
    (hk : adv_consts_ok k) (hL : L < 255) (hbad : (L :: rest).length < L + 1)
    (hlen : (adv_encode rs ++ L :: rest).length ≤ 255) (hfuel : rs.length < fuel)
    (hflags : ∀ r ∈ rs, r.1 = k.BLE_HS_ADV_TYPE_FLAGS → r.2.length = 1) :
    ∃ adv_fields,
      ble_hs_adv_parse_fields k behind fuel fl (adv_encode rs ++ L :: rest)
          (adv_encode rs ++ L :: rest).length =
        some (BLE_HS_EMSGSIZE, adv_fields) ∧
      adv_fields = (adv_parse_records k 0 adv_fields_zero rs).2 := by
  have hok : (adv_parse_records k 0 adv_fields_zero rs).1 = 0 := by
    refine (adv_parse_records_rc k rs 0 adv_fields_zero).2.mpr ?_
    rintro ⟨r, hr, hf, hne⟩
    exact hne (hflags r hr hf)
  exact ⟨_, parse_fields_loop_bad_length k behind _ L rest hk hL hbad rs fuel adv_fields_zero
    fl 0 rfl hlen hfuel hok, rfl⟩

/-- A flags record followed by a record that declares 9 bytes where one is
left: the status is BLE_HS_EMSGSIZE, with the flags 06 of the first record. -/
theorem C23_bad_length_witness :
    ble_hs_adv_parse_fields sample_adv_consts 0 2 0 [2, 1, 6, 9, 0] 5 =
      some (BLE_HS_EMSGSIZE, ⟨6, none, 0, 0⟩) := by
  obtain ⟨adv_fields, h1, h2⟩ := C23_bad_length sample_adv_consts 0 2 0 [(1, [6])] 9 [0]
    (by decide) (by decide) (by decide) (by decide) (by decide) (by decide)
  have h3 : adv_fields = ⟨6, none, 0, 0⟩ := by rw [h2]; decide
  rw [h3] at h1
  exact h1

theorem adv_encode_append (a b : List (Nat × List Nat)) :
    adv_encode (a ++ b) = adv_encode a ++ adv_encode b := by
  simp only [adv_encode, List.flatMap_append]

theorem adv_parse_records_append (k : ble_hs_adv_consts) (b : List (Nat × List Nat)) :
    ∀ (a : List (Nat × List Nat)) (pos : Nat) (adv_fields : ble_hs_adv_fields),
      (adv_parse_records k pos adv_fields (a ++ b)).1 = 0 →
      (adv_parse_records k pos adv_fields a).1 = 0 ∧
      adv_parse_records k pos adv_fields (a ++ b) =
        adv_parse_records k (pos + (adv_encode a).length)
          (adv_parse_records k pos adv_fields a).2 b := by
  intro a
  induction a with
  | nil => intro pos adv_fields _; simp [adv_parse_records, adv_encode]
  | cons r rest ih =>
    intro pos adv_fields h
    simp only [List.cons_append, adv_parse_records] at h ⊢
    cases happ : adv_apply_record k pos adv_fields r with
    | none => simp [happ, BLE_HS_EBADDATA] at h
    | some adv1 =>
      simp only [happ] at h ⊢
      obtain ⟨h1, h2⟩ := ih _ adv1 h
      refine ⟨h1, h2.trans ?_⟩
      rw [adv_encode_cons, List.length_append, adv_record_length]
      congr 1
      omega

theorem adv_parse_records_no_flags (k : ble_hs_adv_consts) :
    ∀ (rs : List (Nat × List Nat)) (pos : Nat) (adv_fields : ble_hs_adv_fields),
      (∀ r ∈ rs, r.1 ≠ k.BLE_HS_ADV_TYPE_FLAGS) →
      (adv_parse_records k pos adv_fields rs).2.flags = adv_fields.flags := by
  intro rs
  induction rs with
  | nil => intro pos adv_fields _; rfl
  | cons r rest ih =>
    intro pos adv_fields h
    have hr := h r (List.mem_cons_self _ _)
    have hrest : ∀ x ∈ rest, x.1 ≠ k.BLE_HS_ADV_TYPE_FLAGS :=
      fun x hx => h x (List.mem_cons_of_mem _ hx)
    simp only [adv_parse_records, adv_apply_record, hr, if_false]
    split_ifs <;> simp only [] <;> rw [ih _ _ hrest]

theorem adv_parse_records_last_flags (k : ble_hs_adv_consts) (pre post : List (Nat × List Nat))
    (f pos : Nat) (adv_fields : ble_hs_adv_fields)
    (hpost : ∀ r ∈ post, r.1 ≠ k.BLE_HS_ADV_TYPE_FLAGS)
    (hok : (adv_parse_records k pos adv_fields
      (pre ++ (k.BLE_HS_ADV_TYPE_FLAGS, [f]) :: post)).1 = 0) :
    (adv_parse_records k pos adv_fields
      (pre ++ (k.BLE_HS_ADV_TYPE_FLAGS, [f]) :: post)).2.flags = f := by
  obtain ⟨_, h2⟩ := adv_parse_records_append k _ pre pos adv_fields hok
  rw [h2]
  simp only [adv_parse_records, adv_apply_record, if_true, List.length_singleton]
  rw [adv_parse_records_no_flags k post _ _ hpost]
  rfl

/-- For every advertising buffer that is a concatenation of records with their
type byte (a declared length of at least 1), `ble_hs_adv_parse_fields` returns
what the specification says of the records: `BLE_HS_EBADDATA` if and only if
some flags record carries a payload that is not exactly one byte long, and 0
otherwise; on success the flags are the byte of the last flags record, and a
record of a type that is not flags or a name leaves the parsed fields as they
are. -/
theorem parse_fields_records_spec (k : ble_hs_adv_consts) (behind fuel fl : Nat)
    (rs : List (Nat × List Nat))
    (hk : adv_consts_ok k) (hlen : (adv_encode rs).length ≤ 255) (hfuel : rs.length < fuel) :
    ble_hs_adv_parse_fields k behind fuel fl (adv_encode rs) (adv_encode rs).length =
      some (adv_parse_records k 0 adv_fields_zero rs) ∧
    ((adv_parse_records k 0 adv_fields_zero rs).1 = BLE_HS_EBADDATA ↔
      ∃ r ∈ rs, r.1 = k.BLE_HS_ADV_TYPE_FLAGS ∧ r.2.length ≠ 1) ∧
    ((adv_parse_records k 0 adv_fields_zero rs).1 = 0 ↔
      ¬ ∃ r ∈ rs, r.1 = k.BLE_HS_ADV_TYPE_FLAGS ∧ r.2.length ≠ 1) ∧
    (∀ (pre post : List (Nat × List Nat)) (f : Nat),
      rs = pre ++ (k.BLE_HS_ADV_TYPE_FLAGS, [f]) :: post →
      (∀ r ∈ post, r.1 ≠ k.BLE_HS_ADV_TYPE_FLAGS) →
      (adv_parse_records k 0 adv_fields_zero rs).1 = 0 →
      (adv_parse_records k 0 adv_fields_zero rs).2.flags = f) ∧
    (∀ (pos : Nat) (adv_fields : ble_hs_adv_fields) (r : Nat × List Nat)
        (rest : List (Nat × List Nat)),
      r.1 ≠ k.BLE_HS_ADV_TYPE_FLAGS → r.1 ≠ k.BLE_HS_ADV_TYPE_INCOMP_NAME →
      r.1 ≠ k.BLE_HS_ADV_TYPE_COMP_NAME →
      adv_parse_records k pos adv_fields (r :: rest) =
        adv_parse_records k (pos + 2 + r.2.length) adv_fields rest) := by
  refine ⟨?_, (adv_parse_records_rc k rs 0 adv_fields_zero).1,
    (adv_parse_records_rc k rs 0 adv_fields_zero).2, ?_, ?_⟩
  · exact parse_fields_loop_records k behind _ hk rs fuel adv_fields_zero fl 0 rfl hlen hfuel
  · intro pre post f hrs hpost hok
    subst hrs
    exact adv_parse_records_last_flags k pre post f 0 adv_fields_zero hpost hok
  · intro pos adv_fields r rest h1 h2 h3
    simp only [adv_parse_records, adv_apply_record, h1, h2, h3, if_false]

/-- C24 (the code at the failing input): the three bytes 00 01 05 are a record of
declared length 0 followed by an empty record of the unknown type 05; both
lie in the buffer and neither is a flags record.  The code takes the byte
behind the first length byte, 01, for the type of the first record, flags,
computes the payload length 1 - 2 in a `uint8_t`, 255, and returns
BLE_HS_EBADDATA, whatever the bound of the loop and the memory behind the
buffer; the record 01 05 alone parses with status 0 and leaves the fields as
they are. -/
theorem C24_zero_length_record_bad_data (behind fuel fl : Nat) :
    ([0, 1, 5] : List Nat) = [0] ++ adv_record (5, []) ∧
    ble_hs_adv_parse_fields sample_adv_consts behind (fuel + 1) fl [0, 1, 5] 3 =
      some (BLE_HS_EBADDATA, adv_fields_zero) ∧
    ble_hs_adv_parse_fields sample_adv_consts behind (fuel + 2) fl [1, 5] 2 =
      some (0, adv_fields_zero) := by
  refine ⟨by decide, ?_, ?_⟩
  · simp [ble_hs_adv_parse_fields, ble_hs_adv_parse_fields_loop, ble_hs_adv_parse_one_field,
      adv_rd, sample_adv_consts, BLE_HS_EBADDATA]
  · simp [ble_hs_adv_parse_fields, ble_hs_adv_parse_fields_loop, ble_hs_adv_parse_one_field,
      adv_rd, sample_adv_consts]

/-- C25 (the code at the failing input): the 11 bytes 00 09 FF 00 .. 00 start
with a record of declared length 0; the code takes the next byte, 09, as its
type, a complete name, and computes the name length 1 - 2 in a `uint8_t`,
255; the remaining bytes are one record of declared length 9 and of an unknown
type, so ble_hs_adv_parse_fields returns 0, with a name that starts at the
offset 2 and has 255 bytes, in a buffer of 11 bytes. -/
theorem C25_zero_length_record_name_view :
    ble_hs_adv_parse_fields sample_adv_consts 0 12 0 [0, 9, 255, 0, 0, 0, 0, 0, 0, 0, 0] 11 =
      some (0, ⟨0, some 2, 255, 1⟩) ∧
    ¬ (2 + 255 ≤ ([0, 9, 255, 0, 0, 0, 0, 0, 0, 0, 0] : List Nat).length) := by
  decide

/-- A record whose length byte is 255 and whose type is not flags consumes no
byte: `*total_len` is 255 + 1 in a `uint8_t`, 0, and the loop of
`ble_hs_adv_parse_fields` does not end. -/
theorem parse_fields_loop_255 (k : ble_hs_adv_consts) (behind : Nat) (buf : List Nat)
    (pos src_len : Nat) (h0 : 0 < src_len) (h1 : src_len < 256)
    (hlen : adv_rd behind buf pos = 255)
    (htype : adv_rd behind buf (pos + 1) ≠ k.BLE_HS_ADV_TYPE_FLAGS) :
    ∀ (fuel : Nat) (adv_fields : ble_hs_adv_fields) (fl : Nat),
      ble_hs_adv_parse_fields_loop k behind fuel adv_fields fl buf pos src_len = none := by
  intro fuel
  induction fuel with
  | zero => intro adv_fields fl; rfl
  | succ n ih =>
    intro adv_fields fl
    have e1 : ¬ src_len < 1 := by omega
    have e2 : (src_len + 256 - 0) % 256 = src_len := by omega
    have e3 : src_len > 0 := h0
    have e4 : (255 + 1) % 256 = 0 := rfl
    have hone : ∃ adv1, ble_hs_adv_parse_one_field k behind adv_fields fl buf pos src_len =
        (0, 0, adv1) := by
      simp only [ble_hs_adv_parse_one_field, e1, if_false, hlen, htype, e4, Nat.not_lt_zero]
      split_ifs <;> exact ⟨_, rfl⟩
    obtain ⟨adv1, hone⟩ := hone
    simp only [ble_hs_adv_parse_fields_loop, e3, if_true, hone, ne_eq, not_true_eq_false,
      if_false, Nat.add_zero, e2]
    exact ih adv1 0

/-- C29 (the code at the failing input): on the two bytes FF 07 (length byte 255,
a type that is not flags) ble_hs_adv_parse_fields does not return, whatever
number of iterations its loop is given: the record length 255 + 1 is 0 in the
`uint8_t` `field_len`, and an iteration consumes no byte. -/
theorem C29_length_255_never_returns (fuel : Nat) :
    ble_hs_adv_parse_fields sample_adv_consts 0 fuel 0 [255, 7] 2 = none :=
  parse_fields_loop_255 sample_adv_consts 0 [255, 7] 0 2 (by decide) (by decide) rfl
    (by decide) fuel adv_fields_zero 0

/-- A field that fits is written as one record at the old end of the
destination. -/
theorem set_one_field_ok (t dst_len max_len : Nat) (p dst : List Nat)
    (hfit : dst_len + 2 + p.length ≤ max_len) (hmax : max_len ≤ 255)
    (hcap : max_len ≤ dst.length) :
    ble_hs_adv_set_one_field t p.length p dst dst_len max_len =
      (0, dst.take dst_len ++ adv_record (t, p) ++ dst.drop (dst_len + 2 + p.length),
       dst_len + 2 + p.length) := by
  have h1 : ¬ dst_len + 2 + p.length > max_len := by omega
  have e := memcpy_at_eq ([(p.length + 1) % 256, t] ++ p) dst dst_len
    (by simp only [List.length_append, List.length_cons, List.length_nil]; omega)
  have hm1 : (p.length + 1) % 256 = 1 + p.length := by omega
  have hm2 : (dst_len + 2 + p.length) % 256 = dst_len + 2 + p.length := by omega
  simp only [ble_hs_adv_set_one_field, h1, if_false, List.take_length, hm2, adv_record]
  have e2 : memcpy_at ((dst.set dst_len ((p.length + 1) % 256)).set (dst_len + 1) t)
      (dst_len + 2) p = memcpy_at dst dst_len ([(p.length + 1) % 256, t] ++ p) := by
    simp [memcpy_at]
  rw [e2, e, hm1]
  simp only [List.length_append, List.length_cons, List.length_nil]
  have : dst_len + (0 + 1 + 1 + p.length) = dst_len + 2 + p.length := by omega
  rw [this]

theorem adv_append_all_ok (max_len : Nat) (hmax : max_len ≤ 255) :
    ∀ (rs : List (Nat × List Nat)) (dst : List Nat) (dst_len : Nat) (dst1 : List Nat)
      (len1 : Nat),
      max_len ≤ dst.length → dst_len ≤ max_len →
      adv_append_all max_len rs dst dst_len = (0, dst1, len1) →
      dst1.take len1 = dst.take dst_len ++ adv_encode rs ∧
      len1 = dst_len + (adv_encode rs).length ∧ len1 ≤ max_len := by
  intro rs
  induction rs with
  | nil =>
    intro dst dst_len dst1 len1 _ hle h
    simp only [adv_append_all, Prod.mk.injEq, true_and] at h
    obtain ⟨rfl, rfl⟩ := h
    simp [adv_encode, hle]
  | cons r rest ih =>
    intro dst dst_len dst1 len1 hcap hle h
    obtain ⟨t, p⟩ := r
    by_cases hfit : dst_len + 2 + p.length ≤ max_len
    swap
    · have hbig : dst_len + 2 + p.length > max_len := by omega
      simp [adv_append_all, ble_hs_adv_set_one_field, hbig, BLE_HS_EMSGSIZE] at h
    have hset := set_one_field_ok t dst_len max_len p dst hfit hmax hcap
    simp only [adv_append_all, hset, ne_eq, not_true_eq_false, if_false] at h
    have hlen : (dst.take dst_len ++ adv_record (t, p) ++
        dst.drop (dst_len + 2 + p.length)).length = dst.length := by
      simp only [List.length_append, List.length_take, List.length_drop, adv_record_length]
      omega
    obtain ⟨h1, h2, h3⟩ := ih _ _ dst1 len1 (by rw [hlen]; exact hcap) hfit h
    refine ⟨?_, ?_, h3⟩
    · rw [h1, adv_encode_cons]
      have hpre : (dst.take dst_len ++ adv_record (t, p)).length = dst_len + 2 + p.length := by
        simp only [List.length_append, List.length_take, adv_record_length]
        omega
      rw [← hpre, List.take_left, List.append_assoc]
    · rw [h2, adv_encode_cons, List.length_append, adv_record_length]
      show _ = dst_len + (2 + p.length + (adv_encode rest).length)
      omega

theorem adv_parse_records_no_name (k : ble_hs_adv_consts) :
    ∀ (rs : List (Nat × List Nat)) (pos : Nat) (adv_fields : ble_hs_adv_fields),
      (∀ r ∈ rs, adv_is_name k r = false) →
      (adv_parse_records k pos adv_fields rs).2.name = adv_fields.name ∧
      (adv_parse_records k pos adv_fields rs).2.name_len = adv_fields.name_len ∧
      (adv_parse_records k pos adv_fields rs).2.name_is_complete =
        adv_fields.name_is_complete := by
  intro rs
  induction rs with
  | nil => intro pos adv_fields _; exact ⟨rfl, rfl, rfl⟩
  | cons r rest ih =>
    intro pos adv_fields h
    have hr := h r (List.mem_cons_self _ _)
    have hrest : ∀ x ∈ rest, adv_is_name k x = false :=
      fun x hx => h x (List.mem_cons_of_mem _ hx)
    simp only [adv_is_name, decide_eq_false_iff_not, not_or] at hr
    simp only [adv_parse_records, adv_apply_record, hr.1, hr.2, if_false]
    split_ifs
    · exact ih _ _ hrest
    · exact ⟨rfl, rfl, rfl⟩
    · exact ih _ _ hrest

theorem adv_parse_records_one_flags (k : ble_hs_adv_consts) :
    ∀ (rs : List (Nat × List Nat)) (pos : Nat) (adv_fields : ble_hs_adv_fields),
      (rs.filter (adv_is_flags k)).length ≤ 1 →
      (adv_parse_records k pos adv_fields rs).1 = 0 →
      ∀ f : Nat, (k.BLE_HS_ADV_TYPE_FLAGS, [f]) ∈ rs →
        (adv_parse_records k pos adv_fields rs).2.flags = f := by
  intro rs
  induction rs with
  | nil => intro pos adv_fields _ _ f hf; cases hf
  | cons r rest ih =>
    intro pos adv_fields hcount hok f hf
    by_cases hr : r.1 = k.BLE_HS_ADV_TYPE_FLAGS
    · have hfl : adv_is_flags k r = true := by simp [adv_is_flags, hr]
      simp only [List.filter_cons, hfl, if_true, List.length_cons] at hcount
      have hnil : rest.filter (adv_is_flags k) = [] := List.length_eq_zero.mp (by omega)
      have hnone : ∀ x ∈ rest, x.1 ≠ k.BLE_HS_ADV_TYPE_FLAGS := by
        intro x hx
        have := (List.filter_eq_nil_iff.mp hnil) x hx
        simpa [adv_is_flags] using this
      simp only [List.mem_cons] at hf
      rcases hf with hf | hf
      · subst hf
        simp only [adv_parse_records, adv_apply_record, if_true, List.length_singleton]
        rw [adv_parse_records_no_flags k rest _ _ hnone]
        rfl
      · exact absurd rfl (hnone _ hf)
    · have hfl : adv_is_flags k r = false := by simp [adv_is_flags, hr]
      simp only [List.filter_cons, hfl] at hcount
      simp only [List.mem_cons] at hf
      rcases hf with hf | hf
      · exact absurd (by rw [← hf]) hr
      · simp only [adv_parse_records, adv_apply_record, hr, if_false] at hok ⊢
        split_ifs at hok ⊢ <;> exact ih _ _ hcount hok f hf

theorem adv_record_payload (r : Nat × List Nat) (tail : List Nat) :
    ((adv_record r ++ tail).drop 2).take r.2.length = r.2 := by
  simp [adv_record]

theorem adv_parse_records_one_name (k : ble_hs_adv_consts) (hk : adv_consts_ok k) :
    ∀ (rs : List (Nat × List Nat)) (pos : Nat) (adv_fields : ble_hs_adv_fields),
      (rs.filter (adv_is_name k)).length ≤ 1 →
      (adv_parse_records k pos adv_fields rs).1 = 0 →
      ∀ r ∈ rs, adv_is_name k r = true →
        ∃ off : Nat, (adv_parse_records k pos adv_fields rs).2.name = some (pos + off) ∧
          ((adv_encode rs).drop off).take r.2.length = r.2 ∧
          (adv_parse_records k pos adv_fields rs).2.name_len = r.2.length ∧
          (adv_parse_records k pos adv_fields rs).2.name_is_complete =
            (if r.1 = k.BLE_HS_ADV_TYPE_COMP_NAME then 1 else 0) := by
  intro rs
  induction rs with
  | nil => intro pos adv_fields _ _ r hr; cases hr
  | cons x rest ih =>
    intro pos adv_fields hcount hok r hr hname
    by_cases hx : adv_is_name k x = true
    · simp only [List.filter_cons, hx, if_true, List.length_cons] at hcount
      have hnil : rest.filter (adv_is_name k) = [] := List.length_eq_zero.mp (by omega)
      have hnone : ∀ y ∈ rest, adv_is_name k y = false := by
        intro y hy
        have := (List.filter_eq_nil_iff.mp hnil) y hy
        simpa using this
      simp only [List.mem_cons] at hr
      rcases hr with hr | hr
      swap
      · rw [hnone r hr] at hname
        cases hname
      subst hr
      have hx1 := hx
      simp only [adv_is_name, decide_eq_true_eq] at hx1
      have hnf : r.1 ≠ k.BLE_HS_ADV_TYPE_FLAGS := by
        rcases hx1 with h | h
        · rw [h]; exact fun e => hk.1 e.symm
        · rw [h]; exact fun e => hk.2.1 e.symm
      refine ⟨2, ?_, ?_, ?_, ?_⟩
      · simp only [adv_parse_records, adv_apply_record, hnf, if_false]
        split_ifs
        · rw [(adv_parse_records_no_name k rest _ _ hnone).1]
        · rw [(adv_parse_records_no_name k rest _ _ hnone).1]
        · rcases hx1 with h | h <;> contradiction
      · rw [adv_encode_cons]
        exact adv_record_payload r _
      · simp only [adv_parse_records, adv_apply_record, hnf, if_false]
        split_ifs
        · rw [(adv_parse_records_no_name k rest _ _ hnone).2.1]
        · rw [(adv_parse_records_no_name k rest _ _ hnone).2.1]
        · rcases hx1 with h | h <;> contradiction
      · simp only [adv_parse_records, adv_apply_record, hnf, if_false]
        by_cases hc : r.1 = k.BLE_HS_ADV_TYPE_COMP_NAME
        · have hne : ¬ k.BLE_HS_ADV_TYPE_COMP_NAME = k.BLE_HS_ADV_TYPE_INCOMP_NAME :=
            fun e => hk.2.2.1 e.symm
          simp only [hc, hne, if_false, if_true]
          rw [(adv_parse_records_no_name k rest _ _ hnone).2.2]
        · have hi : r.1 = k.BLE_HS_ADV_TYPE_INCOMP_NAME := by
            rcases hx1 with h | h
            · exact h
            · exact absurd h hc
          simp only [hi, if_true, hk.2.2.1, if_false]
          rw [(adv_parse_records_no_name k rest _ _ hnone).2.2]
    · simp only [Bool.not_eq_true] at hx
      simp only [List.filter_cons, hx] at hcount
      simp only [List.mem_cons] at hr
      rcases hr with hr | hr
      · subst hr
        rw [hx] at hname
        cases hname
      simp only [adv_parse_records] at hok ⊢
      cases happ : adv_apply_record k pos adv_fields x with
      | none => simp [happ, BLE_HS_EBADDATA] at hok
      | some adv1 =>
        simp only [happ] at hok ⊢
        obtain ⟨off, h1, h2, h3, h4⟩ := ih (pos + 2 + x.2.length) adv1 hcount hok r hr hname
        refine ⟨2 + x.2.length + off, ?_, ?_, h3, h4⟩
        · rw [h1]
          congr 1
          omega
        · rw [adv_encode_cons, ← adv_record_length x, ← List.drop_drop, List.drop_left]
          exact h2

theorem adv_encode_length_ge (rs : List (Nat × List Nat)) :
    rs.length ≤ (adv_encode rs).length := by
  induction rs with
  | nil => simp
  | cons r rest ih =>
    rw [adv_encode_cons, List.length_append, adv_record_length, List.length_cons]
    omega

/-- C22: round trip.  For every sequence of fields that ble_hs_adv_set_one_field
appended with status 0 to an empty destination, with at most one flags field
(of one byte) and at most one name field, ble_hs_adv_parse_fields on the
resulting buffer returns 0, the parsed flags are the byte of the flags field,
and the parsed name is a view on the payload of the name field: its bytes in
the buffer are the name bytes, its length is the payload length, and it is
complete exactly for the complete name type; without a flags field the flags
are 0, without a name field the name is NULL. -/
theorem C22_append_parse_round_trip (k : ble_hs_adv_consts) (behind fl max_len : Nat)
    (rs : List (Nat × List Nat)) (dst dst1 : List Nat) (len1 : Nat)
    (hk : adv_consts_ok k) (hmax : max_len ≤ 255) (hcap : max_len ≤ dst.length)
    (happ : adv_append_all max_len rs dst 0 = (0, dst1, len1))
    (hflags : ∀ r ∈ rs, r.1 = k.BLE_HS_ADV_TYPE_FLAGS → r.2.length = 1)
    (hf1 : (rs.filter (adv_is_flags k)).length ≤ 1)
    (hn1 : (rs.filter (adv_is_name k)).length ≤ 1) :
    dst1.take len1 = adv_encode rs ∧
    ∃ adv : ble_hs_adv_fields,
      ble_hs_adv_parse_fields k behind (len1 + 1) fl (dst1.take len1) len1 = some (0, adv) ∧
      (∀ f : Nat, (k.BLE_HS_ADV_TYPE_FLAGS, [f]) ∈ rs → adv.flags = f) ∧
      (∀ r ∈ rs, adv_is_name k r = true →
        ∃ off : Nat, adv.name = some off ∧
          ((dst1.take len1).drop off).take r.2.length = r.2 ∧
          adv.name_len = r.2.length ∧
          adv.name_is_complete = (if r.1 = k.BLE_HS_ADV_TYPE_COMP_NAME then 1 else 0)) ∧
      ((∀ r ∈ rs, r.1 ≠ k.BLE_HS_ADV_TYPE_FLAGS) → adv.flags = 0) ∧
      ((∀ r ∈ rs, adv_is_name k r = false) → adv.name = none ∧ adv.name_len = 0) := by
  obtain ⟨h1, h2, h3⟩ := adv_append_all_ok max_len hmax rs dst 0 dst1 len1 hcap
    (Nat.zero_le _) happ
  simp only [List.take_zero, List.nil_append, Nat.zero_add] at h1 h2
  have hge := adv_encode_length_ge rs
  have hparse := parse_fields_loop_records k behind (adv_encode rs) hk rs (len1 + 1)
    adv_fields_zero fl 0 rfl (by omega) (by omega)
  have hok : (adv_parse_records k 0 adv_fields_zero rs).1 = 0 := by
    rw [(adv_parse_records_rc k rs 0 adv_fields_zero).2]
    rintro ⟨r, hr, hf, hl⟩
    exact hl (hflags r hr hf)
  refine ⟨h1, (adv_parse_records k 0 adv_fields_zero rs).2, ?_, ?_, ?_, ?_, ?_⟩
  · rw [h1]
    unfold ble_hs_adv_parse_fields
    rw [h2] at hparse ⊢
    rw [hparse, ← hok]
  · exact adv_parse_records_one_flags k rs 0 adv_fields_zero hf1 hok
  · intro r hr hname
    obtain ⟨off, q1, q2, q3, q4⟩ :=
      adv_parse_records_one_name k hk rs 0 adv_fields_zero hn1 hok r hr hname
    refine ⟨off, ?_, ?_, q3, q4⟩
    · rw [q1, Nat.zero_add]
    · rw [h1]
      exact q2
  · intro h
    exact adv_parse_records_no_flags k rs 0 adv_fields_zero h
  · intro h
    obtain ⟨q1, q2, _⟩ := adv_parse_records_no_name k rs 0 adv_fields_zero h
    exact ⟨q1, q2⟩

/-- The flags 06 and the complete name ABC appended to an empty destination of
capacity 10 give the buffer 02 01 06 04 09 41 42 43, which parses to the flags
06 and the name of 3 bytes at the offset 5. -/
theorem C22_append_parse_round_trip_witness :
    ([2, 1, 6, 4, 9, 65, 66, 67, 0, 0] : List Nat).take 8 =
      adv_encode [(1, [6]), (9, [65, 66, 67])] ∧
    ∃ adv : ble_hs_adv_fields,
      ble_hs_adv_parse_fields sample_adv_consts 0 (8 + 1) 0
        (([2, 1, 6, 4, 9, 65, 66, 67, 0, 0] : List Nat).take 8) 8 = some (0, adv) ∧
      (∀ f : Nat, (sample_adv_consts.BLE_HS_ADV_TYPE_FLAGS, [f]) ∈
        [(1, [6]), (9, [65, 66, 67])] → adv.flags = f) ∧
      (∀ r ∈ [(1, [6]), (9, [65, 66, 67])], adv_is_name sample_adv_consts r = true →
        ∃ off : Nat, adv.name = some off ∧
          ((([2, 1, 6, 4, 9, 65, 66, 67, 0, 0] : List Nat).take 8).drop off).take r.2.length
            = r.2 ∧
          adv.name_len = r.2.length ∧
          adv.name_is_complete =
            (if r.1 = sample_adv_consts.BLE_HS_ADV_TYPE_COMP_NAME then 1 else 0)) ∧
      ((∀ r ∈ [(1, [6]), (9, [65, 66, 67])], r.1 ≠ sample_adv_consts.BLE_HS_ADV_TYPE_FLAGS) →
        adv.flags = 0) ∧
      ((∀ r ∈ [(1, [6]), (9, [65, 66, 67])], adv_is_name sample_adv_consts r = false) →
        adv.name = none ∧ adv.name_len = 0) :=
  C22_append_parse_round_trip sample_adv_consts 0 0 10 [(1, [6]), (9, [65, 66, 67])]
    [0, 0, 0, 0, 0, 0, 0, 0, 0, 0] [2, 1, 6, 4, 9, 65, 66, 67, 0, 0] 8
    (by decide) (by decide) (by decide) (by decide) (by decide) (by decide) (by decide)

/-! ## ATT client: reads past the data, and the entry pool -/

/-- C26 (the code at the failing input): the response 11 06 01 00 05 00 00 28
declares records of 6 bytes.  The handler returns 0 after two iterations; in the
second one the packet has 2 bytes left, fewer than the record length 6 and than
the 4 bytes of the two handles, and `ble_att_clt_parse_attribute_data` reads
the offsets 2 and 3 behind the remaining data. -/
theorem C26_attribute_data_read_past_end :
    sample_read_group_type_rsp_parse [0x11, 6, 1, 0, 5, 0, 0, 0x28] = (0, 6) ∧
    ble_att_clt_rx_read_group_type_rsp sample_read_group_type_rsp_parse 3
      [0x11, 6, 1, 0, 5, 0, 0, 0x28] = some 0 ∧
    ble_att_clt_rx_read_group_type_rsp_packets 6 3 [0x11, 6, 1, 0, 5, 0, 0, 0x28] =
      [[0x11, 6, 1, 0, 5, 0, 0, 0x28], [0, 0x28]] ∧
    ([0, 0x28] : List Nat).length < 6 ∧ ([0, 0x28] : List Nat).length < 4 ∧
    ¬ (∀ off ∈ ble_att_clt_parse_attribute_data_reads, off < ([0, 0x28] : List Nat).length) := by
  decide

/-- C30 (the code at the failing input): with 3 free blocks and the entry with
the handle 5 in the list, inserting the handle 5 again returns EEXIST with the
list as it was and 2 free blocks: the block that was allocated before the scan
is neither linked nor given back.  After `ble_att_clt_entry_list_free` the list
is empty and the pool has 3 free blocks, one fewer than the 4 blocks that are
in no list. -/
theorem C30_eexist_leaks_block :
    ble_att_clt_entry_insert ⟨3⟩ [⟨5, uuid_of_byte 1⟩] 5 (uuid_of_byte 2) =
      (EEXIST, ⟨2⟩, [⟨5, uuid_of_byte 1⟩]) ∧
    ble_att_clt_entry_list_free ⟨2⟩ [⟨5, uuid_of_byte 1⟩] = (⟨3⟩, []) ∧
    ble_att_clt_entry_list_free ⟨3⟩ [⟨5, uuid_of_byte 1⟩] = (⟨4⟩, []) := by
  decide

/-! ## GATT server registration: termination -/

theorem alloc_exact_zero (st : ble_gatts_state) : gatts_alloc_exact 0 0 st st :=
  ⟨rfl, Or.inl ⟨rfl, rfl⟩⟩

theorem alloc_exact_trans (k1 k2 : Nat) (rc : Int) (st st1 st2 : ble_gatts_state)
    (h1 : gatts_alloc_exact k1 0 st st1) (h2 : gatts_alloc_exact k2 rc st1 st2) :
    gatts_alloc_exact (k1 + k2) rc st st2 := by
  obtain ⟨a1, a2⟩ := h1
  obtain ⟨b1, b2⟩ := h2
  have hk : st1.svr.prev_handle = st.svr.prev_handle + k1 := by
    rcases a2 with ⟨_, h⟩ | ⟨h, _⟩
    · exact h
    · simp [BLE_HS_ENOMEM] at h
  refine ⟨by omega, ?_⟩
  rcases b2 with ⟨h, h'⟩ | ⟨h, h', h''⟩
  · exact Or.inl ⟨h, by omega⟩
  · exact Or.inr ⟨h, h', by omega⟩

theorem alloc_exact_fail (k1 k2 : Nat) (rc : Int) (st st1 : ble_gatts_state)
    (h1 : gatts_alloc_exact k1 rc st st1) (hrc : rc ≠ 0) :
    gatts_alloc_exact (k1 + k2) rc st st1 := by
  obtain ⟨a1, a2⟩ := h1
  refine ⟨a1, ?_⟩
  rcases a2 with ⟨h, _⟩ | ⟨h, h', h''⟩
  · exact absurd h hrc
  · exact Or.inr ⟨h, h', by omega⟩

theorem alloc_exact_rc (k : Nat) (rc : Int) (st st1 : ble_gatts_state)
    (h : gatts_alloc_exact k rc st st1) (hrc : rc = 0) : gatts_alloc_exact k 0 st st1 := by
  subst hrc
  exact h

theorem att_svr_register_exact (st : ble_gatts_state) (k : ble_att_svr_access)
    (log : List ble_gatt_register_event) :
    gatts_alloc_exact 1 (ble_att_svr_register st.svr k).1 st
      ⟨(ble_att_svr_register st.svr k).2.2, st.ble_gatts_svc_entries, log⟩ := by
  rcases att_svr_register_cases st.svr k with ⟨h0, hr⟩ | ⟨h0, hr⟩
  · rw [hr]
    exact ⟨rfl, Or.inr ⟨rfl, h0, by simp⟩⟩
  · rw [hr]
    refine ⟨?_, Or.inl ⟨rfl, rfl⟩⟩
    show st.svr.prev_handle + 1 + (st.svr.num_free - 1) = _
    omega

theorem register_inc_exact (idx : Nat) (st : ble_gatts_state) :
    gatts_alloc_exact 1 (ble_gatts_register_inc idx st).1 st
      (ble_gatts_register_inc idx st).2 := by
  have h := att_svr_register_exact st (ble_att_svr_access.inc idx) st.cb_log
  rcases hr : ble_att_svr_register st.svr (ble_att_svr_access.inc idx) with ⟨rc, hd, svr1⟩
  rw [hr] at h
  simp only [ble_gatts_register_inc, hr]
  by_cases h0 : rc = 0
  · subst h0
    exact h
  · simp only [ne_eq, h0, not_false_eq_true, if_true]
    exact h

theorem register_incs_loop_exact (incs : List Nat) :
    ∀ st : ble_gatts_state,
      ble_gatts_svc_incs_satisfied_loop st.ble_gatts_svc_entries incs = true →
      gatts_alloc_exact incs.length (ble_gatts_register_incs_loop incs st).1 st
        (ble_gatts_register_incs_loop incs st).2 := by
  induction incs with
  | nil => intro st _; exact alloc_exact_zero st
  | cons inc rest ih =>
    intro st hsat
    cases hf : ble_gatts_find_svc st.ble_gatts_svc_entries inc with
    | none => simp [ble_gatts_svc_incs_satisfied_loop, hf] at hsat
    | some idx =>
      have hrest : ble_gatts_svc_incs_satisfied_loop st.ble_gatts_svc_entries rest = true := by
        simp only [ble_gatts_svc_incs_satisfied_loop, hf] at hsat
        cases he : st.ble_gatts_svc_entries[idx]? with
        | none => simp [he] at hsat
        | some e =>
          simp only [he] at hsat
          by_cases h0 : e.handle = 0
          · simp [h0] at hsat
          · simpa [h0] using hsat
      have h1 := register_inc_exact idx st
      have hfr := (register_inc_frame idx st).1
      rcases hreg : ble_gatts_register_inc idx st with ⟨rc, st2⟩
      rw [hreg] at h1 hfr
      simp only at h1 hfr
      simp only [ble_gatts_register_incs_loop, hf, hreg, List.length_cons]
      rw [Nat.add_comm]
      by_cases h0 : rc = 0
      · subst h0
        simp only [ne_eq, not_true_eq_false, if_false]
        exact alloc_exact_trans 1 rest.length _ st st2 _ h1 (ih st2 (by rw [hfr]; exact hrest))
      · simp only [ne_eq, h0, not_false_eq_true, if_true]
        exact alloc_exact_fail 1 rest.length rc st st2 h1 h0

theorem register_incs_exact (sdef : ble_gatt_svc_def) (st : ble_gatts_state)
    (hsat : ble_gatts_svc_incs_satisfied st.ble_gatts_svc_entries sdef = true) :
    gatts_alloc_exact (sdef.includes.getD []).length (ble_gatts_register_incs sdef st).1 st
      (ble_gatts_register_incs sdef st).2 := by
  unfold ble_gatts_register_incs
  unfold ble_gatts_svc_incs_satisfied at hsat
  cases hi : sdef.includes with
  | none => exact alloc_exact_zero st
  | some incs =>
    rw [hi] at hsat
    exact register_incs_loop_exact incs st hsat

theorem register_dsc_exact (dsc : ble_gatt_dsc_def) (chr : ble_gatt_chr_def) (dh : Nat)
    (cb : Bool) (st : ble_gatts_state) (hs : ble_gatts_dsc_is_sane dsc = true) :
    gatts_alloc_exact 1 (ble_gatts_register_dsc dsc chr dh cb st).1 st
      (ble_gatts_register_dsc dsc chr dh cb st).2 := by
  have h := fun log => att_svr_register_exact st (ble_att_svr_access.dsc dsc) log
  rcases hr : ble_att_svr_register st.svr (ble_att_svr_access.dsc dsc) with ⟨rc, hd, svr1⟩
  rw [hr] at h
  simp only [ble_gatts_register_dsc, hs, Bool.not_true, Bool.false_eq_true, if_false, hr]
  by_cases h0 : rc = 0
  · subst h0
    cases cb
    · exact h _
    · exact h _
  · simp only [ne_eq, h0, not_false_eq_true, if_true]
    exact h _

theorem register_dscs_loop_exact (chr : ble_gatt_chr_def) (dh : Nat) (cb : Bool)
    (dscs : List ble_gatt_dsc_def) :
    ∀ st : ble_gatts_state,
      (∀ d ∈ dscs.takeWhile (fun d => d.uuid128.isSome), ble_gatts_dsc_is_sane d = true) →
      gatts_alloc_exact (dscs.takeWhile (fun d => d.uuid128.isSome)).length
        (ble_gatts_register_dscs_loop chr dh cb dscs st).1 st
        (ble_gatts_register_dscs_loop chr dh cb dscs st).2 := by
  induction dscs with
  | nil => intro st _; exact alloc_exact_zero st
  | cons dsc rest ih =>
    intro st hall
    by_cases hu : dsc.uuid128 = none
    · simp only [ble_gatts_register_dscs_loop, hu, if_true, List.takeWhile, Option.isSome_none]
      exact alloc_exact_zero st
    have hs : dsc.uuid128.isSome = true := by
      cases h : dsc.uuid128 with
      | none => exact absurd h hu
      | some u => rfl
    simp only [List.takeWhile, hs, List.mem_cons, forall_eq_or_imp] at hall
    have h1 := register_dsc_exact dsc chr dh cb st hall.1
    rcases hreg : ble_gatts_register_dsc dsc chr dh cb st with ⟨rc, st2⟩
    rw [hreg] at h1
    simp only at h1
    simp only [ble_gatts_register_dscs_loop, hu, if_false, hreg, List.takeWhile, hs,
      List.length_cons]
    rw [Nat.add_comm]
    by_cases h0 : rc = 0
    · subst h0
      simp only [ne_eq, not_true_eq_false, if_false]
      exact alloc_exact_trans 1 _ _ st st2 _ h1 (ih st2 hall.2)
    · simp only [ne_eq, h0, not_false_eq_true, if_true]
      exact alloc_exact_fail 1 _ rc st st2 h1 h0

theorem register_dscs_exact (chr : ble_gatt_chr_def) (dh : Nat) (cb : Bool)
    (st : ble_gatts_state)
    (hall : ∀ d ∈ chr_dscs chr, ble_gatts_dsc_is_sane d = true) :
    gatts_alloc_exact (chr_dscs chr).length (ble_gatts_register_dscs chr dh cb st).1 st
      (ble_gatts_register_dscs chr dh cb st).2 := by
  unfold ble_gatts_register_dscs
  unfold chr_dscs at hall ⊢
  cases hd : chr.descriptors with
  | none => exact alloc_exact_zero st
  | some dscs =>
    rw [hd] at hall
    exact register_dscs_loop_exact chr dh cb dscs st hall

theorem register_chr_exact (chr : ble_gatt_chr_def) (cb : Bool) (st : ble_gatts_state)
    (hsound : ble_gatts_chr_sound chr = true) :
    gatts_alloc_exact (2 + (chr_dscs chr).length) (ble_gatts_register_chr chr cb st).1 st
      (ble_gatts_register_chr chr cb st).2 := by
  simp only [ble_gatts_chr_sound, Bool.and_eq_true, List.all_eq_true] at hsound
  obtain ⟨hs, hall⟩ := hsound
  have h := att_svr_register_exact st (ble_att_svr_access.chr_def chr) st.cb_log
  rcases hr : ble_att_svr_register st.svr (ble_att_svr_access.chr_def chr) with ⟨rc, dh, svr1⟩
  rw [hr] at h
  simp only [ble_gatts_register_chr, hs, Bool.not_true, Bool.false_eq_true, if_false, hr]
  have e2 : 2 + (chr_dscs chr).length = 1 + (1 + (chr_dscs chr).length) := by omega
  rw [e2]
  by_cases h0 : rc = 0
  swap
  · simp only [ne_eq, h0, not_false_eq_true, if_true]
    exact alloc_exact_fail 1 _ rc st _ h h0
  subst h0
  simp only [ne_eq, not_true_eq_false, if_false]
  have h2 := fun log => att_svr_register_exact
    ⟨svr1, st.ble_gatts_svc_entries, st.cb_log⟩ (ble_att_svr_access.chr_val chr) log
  rcases hr2 : ble_att_svr_register svr1 (ble_att_svr_access.chr_val chr) with ⟨rc2, vh, svr2⟩
  simp only [hr2] at h2
  by_cases h02 : rc2 = 0
  swap
  · simp only [h02, not_false_eq_true, if_true]
    exact alloc_exact_trans 1 _ rc2 st _ _ h (alloc_exact_fail 1 _ rc2 _ _ (h2 _) h02)
  subst h02
  simp only [not_true_eq_false, if_false]
  generalize hst2 : (if cb = true then _ else _ : ble_gatts_state) = st2
  have hf2 : gatts_alloc_exact 1 0 ⟨svr1, st.ble_gatts_svc_entries, st.cb_log⟩ st2 := by
    subst hst2
    cases cb
    · exact h2 _
    · exact h2 _
  have h3 := register_dscs_exact chr dh cb st2 hall
  rcases hreg3 : ble_gatts_register_dscs chr dh cb st2 with ⟨rc3, st3⟩
  rw [hreg3] at h3
  simp only at h3 ⊢
  have h23 := alloc_exact_trans 1 _ rc3 _ st2 st3 hf2 h3
  have h123 := alloc_exact_trans 1 _ rc3 st _ st3 h h23
  by_cases h03 : rc3 = 0
  · subst h03
    simp only [not_true_eq_false, if_false]
    exact h123
  · simp only [h03, not_false_eq_true, if_true]
    exact h123

theorem register_chrs_loop_exact (cb : Bool) (chrs : List ble_gatt_chr_def) :
    ∀ st : ble_gatts_state,
      (∀ c ∈ chrs.takeWhile (fun c => c.uuid128.isSome), ble_gatts_chr_sound c = true) →
      gatts_alloc_exact
        (((chrs.takeWhile (fun c => c.uuid128.isSome)).map
          (fun c => 2 + (chr_dscs c).length)).sum)
        (ble_gatts_register_chrs_loop cb chrs st).1 st
        (ble_gatts_register_chrs_loop cb chrs st).2 := by
  induction chrs with
  | nil => intro st _; exact alloc_exact_zero st
  | cons chr rest ih =>
    intro st hall
    by_cases hu : chr.uuid128 = none
    · simp only [ble_gatts_register_chrs_loop, hu, if_true, List.takeWhile, Option.isSome_none,
        List.map_nil, List.sum_nil]
      exact alloc_exact_zero st
    have hs : chr.uuid128.isSome = true := by
      cases h : chr.uuid128 with
      | none => exact absurd h hu
      | some u => rfl
    simp only [List.takeWhile, hs, List.mem_cons, forall_eq_or_imp] at hall
    have h1 := register_chr_exact chr cb st hall.1
    rcases hreg : ble_gatts_register_chr chr cb st with ⟨rc, st2⟩
    rw [hreg] at h1
    simp only at h1
    simp only [ble_gatts_register_chrs_loop, hu, if_false, hreg, List.takeWhile, hs,
      List.map_cons, List.sum_cons]
    by_cases h0 : rc = 0
    · subst h0
      simp only [ne_eq, not_true_eq_false, if_false]
      exact alloc_exact_trans _ _ _ st st2 _ h1 (ih st2 hall.2)
    · simp only [ne_eq, h0, not_false_eq_true, if_true]
      exact alloc_exact_fail _ _ rc st st2 h1 h0

theorem register_chrs_exact (sdef : ble_gatt_svc_def) (cb : Bool) (st : ble_gatts_state)
    (hall : ∀ c ∈ svc_chrs sdef, ble_gatts_chr_sound c = true) :
    gatts_alloc_exact (((svc_chrs sdef).map (fun c => 2 + (chr_dscs c).length)).sum)
      (ble_gatts_register_chrs sdef cb st).1 st (ble_gatts_register_chrs sdef cb st).2 := by
  unfold ble_gatts_register_chrs
  unfold svc_chrs at hall ⊢
  cases hd : sdef.characteristics with
  | none => exact alloc_exact_zero st
  | some chrs =>
    rw [hd] at hall
    exact register_chrs_loop_exact cb chrs st hall

/-- A sound service whose includes are satisfied is registered, with its
1 + `svc_subtree_size` attributes, unless the attribute table runs out. -/
theorem register_svc_exact (svc : Nat) (sdef : ble_gatt_svc_def) (cb : Bool)
    (st : ble_gatts_state)
    (hsat : ble_gatts_svc_incs_satisfied st.ble_gatts_svc_entries sdef = true)
    (hsound : ble_gatts_svc_sound sdef = true) :
    gatts_alloc_exact (1 + svc_subtree_size sdef) (ble_gatts_register_svc svc sdef cb st).1 st
      (ble_gatts_register_svc svc sdef cb st).2.2 := by
  simp only [ble_gatts_svc_sound, Bool.and_eq_true, List.all_eq_true] at hsound
  obtain ⟨hsane, hall⟩ := hsound
  have h := fun log => att_svr_register_exact st (ble_att_svr_access.svc svc) log
  rcases hr : ble_att_svr_register st.svr (ble_att_svr_access.svc svc) with ⟨rc, oh, svr1⟩
  simp only [hr] at h
  simp only [ble_gatts_register_svc, hsat, hsane, Bool.not_true, Bool.false_eq_true, if_false,
    hr, svc_subtree_size]
  by_cases h0 : rc = 0
  swap
  · simp only [ne_eq, h0, not_false_eq_true, if_true]
    exact alloc_exact_fail 1 _ rc st _ (h _) h0
  subst h0
  simp only [ne_eq, not_true_eq_false, if_false]
  generalize hst1 : (if cb = true then _ else _ : ble_gatts_state) = st1
  have hf1 : gatts_alloc_exact 1 0 st st1 := by
    subst hst1
    cases cb
    · exact h _
    · exact h _
  have hent : st1.ble_gatts_svc_entries = st.ble_gatts_svc_entries := by
    subst hst1
    cases cb <;> rfl
  have h2 := register_incs_exact sdef st1 (by rw [hent]; exact hsat)
  rcases hreg2 : ble_gatts_register_incs sdef st1 with ⟨rc2, st2⟩
  rw [hreg2] at h2
  simp only at h2 ⊢
  by_cases h02 : rc2 = 0
  swap
  · simp only [h02, not_false_eq_true, if_true]
    exact alloc_exact_trans 1 _ rc2 st st1 st2 hf1 (alloc_exact_fail _ _ rc2 st1 st2 h2 h02)
  subst h02
  simp only [not_true_eq_false, if_false]
  have h3 := register_chrs_exact sdef cb st2 hall
  rcases hreg3 : ble_gatts_register_chrs sdef cb st2 with ⟨rc3, st3⟩
  rw [hreg3] at h3
  simp only at h3 ⊢
  have h23 := alloc_exact_trans _ _ rc3 st1 st2 st3 h2 h3
  have h123 := alloc_exact_trans 1 _ rc3 st st1 st3 hf1 h23
  by_cases h03 : rc3 = 0
  · subst h03
    simp only [not_true_eq_false, if_false]
    exact h123
  · simp only [h03, not_false_eq_true, if_true]
    exact h123

theorem gatts_need_set (svcs : List ble_gatt_svc_def) (entries : List ble_gatts_svc_entry) :
    ∀ (j : Nat) (e e1 : ble_gatts_svc_entry), entries[j]? = some e → e.handle = 0 →
      e1.handle ≠ 0 →
      gatts_need svcs (entries.set j e1) + svc_need svcs e.svc = gatts_need svcs entries := by
  induction entries with
  | nil => intro j e e1 hj; simp at hj
  | cons x rest ih =>
    intro j e e1 hj h0 h1
    cases j with
    | zero =>
      simp only [List.getElem?_cons_zero, Option.some.injEq] at hj
      subst hj
      simp only [gatts_need, List.set_cons_zero, List.map_cons, List.sum_cons, h0, h1, if_true,
        if_false]
      omega
    | succ j =>
      simp only [List.getElem?_cons_succ] at hj
      have := ih j e e1 hj h0 h1
      simp only [gatts_need, List.set_cons_succ, List.map_cons, List.sum_cons] at this ⊢
      omega

/-- One call of `ble_gatts_register_svc` by a round, for a sound service that is
not registered, when the table has room: the service is registered, and the
table has room for the rest, or an include is not registered and nothing
changes. -/
theorem register_svc_room (svcs : List ble_gatt_svc_def) (cb : Bool) (st : ble_gatts_state)
    (j : Nat) (entry : ble_gatts_svc_entry) (sdef : ble_gatt_svc_def)
    (hroom : gatts_room svcs st)
    (hj : st.ble_gatts_svc_entries[j]? = some entry) (h0 : entry.handle = 0)
    (hdef : svcs[entry.svc]? = some sdef) (hsound : ble_gatts_svc_sound sdef = true) :
    (ble_gatts_svc_incs_satisfied st.ble_gatts_svc_entries sdef = false ∧
      ble_gatts_register_svc entry.svc sdef cb st = (BLE_HS_EAGAIN, 0, st)) ∨
    (ble_gatts_svc_incs_satisfied st.ble_gatts_svc_entries sdef = true ∧
      (ble_gatts_register_svc entry.svc sdef cb st).1 = 0 ∧
      gatts_room svcs ⟨(ble_gatts_register_svc entry.svc sdef cb st).2.2.svr,
        (ble_gatts_register_svc entry.svc sdef cb st).2.2.ble_gatts_svc_entries.set j
          ⟨entry.svc, (ble_gatts_register_svc entry.svc sdef cb st).2.1,
            ble_att_svr_prev_handle (ble_gatts_register_svc entry.svc sdef cb st).2.2.svr⟩,
        (ble_gatts_register_svc entry.svc sdef cb st).2.2.cb_log⟩) := by
  by_cases hsat : ble_gatts_svc_incs_satisfied st.ble_gatts_svc_entries sdef = true
  swap
  · simp only [Bool.not_eq_true] at hsat
    exact Or.inl ⟨hsat, register_svc_unsatisfied entry.svc sdef cb st hsat⟩
  right
  have hex := register_svc_exact entry.svc sdef cb st hsat hsound
  have hspec := register_svc_spec entry.svc sdef cb st
  rcases hreg : ble_gatts_register_svc entry.svc sdef cb st with ⟨rc, handle, st1⟩
  rw [hreg] at hex hspec
  simp only at hex hspec ⊢
  obtain ⟨hframe, hok⟩ := hspec
  obtain ⟨hlen, hneed⟩ := hroom
  have hk : svc_need svcs entry.svc = 1 + svc_subtree_size sdef := by
    simp only [svc_need, hdef]
  obtain ⟨hsum, hcase⟩ := hex
  rcases hcase with ⟨hz, hprev⟩ | ⟨_, hfull, hlt⟩
  · subst hz
    obtain ⟨_, hh, _⟩ := hok rfl
    have hne : handle ≠ 0 := by omega
    have hset := gatts_need_set svcs st.ble_gatts_svc_entries j entry
      ⟨entry.svc, handle, ble_att_svr_prev_handle st1.svr⟩ hj h0 hne
    refine ⟨hsat, rfl, ?_, ?_⟩
    · show (st1.ble_gatts_svc_entries.set j _).length = _
      rw [List.length_set, hframe.1]
      exact hlen
    · show gatts_need svcs (st1.ble_gatts_svc_entries.set j _) < st1.svr.num_free
      rw [hframe.1]
      omega
  · have hset := gatts_need_set svcs st.ble_gatts_svc_entries j entry
      ⟨entry.svc, 1, 0⟩ hj h0 (by simp)
    omega

theorem register_round_loop_stuck (svcs : List ble_gatt_svc_def) (cb : Bool)
    (hsound : ∀ (j : Nat) (sdef : ble_gatt_svc_def), j < ble_gatts_count_svcs svcs →
      svcs[j]? = some sdef → ble_gatts_svc_sound sdef = true) :
    ∀ (n i num : Nat) (st : ble_gatts_state), gatts_inv svcs st → gatts_room svcs st →
      gatts_room svcs (ble_gatts_register_round_loop svcs cb n i num st).2.2 ∧
      (((ble_gatts_register_round_loop svcs cb n i num st).1 = 0 ∧
          0 < (ble_gatts_register_round_loop svcs cb n i num st).2.1) ∨
        (ble_gatts_register_round_loop svcs cb n i num st = (BLE_HS_EINVAL, 0, st) ∧ num = 0 ∧
          ∀ (j : Nat) (e : ble_gatts_svc_entry) (sdef : ble_gatt_svc_def),
            i ≤ j → j < i + n → st.ble_gatts_svc_entries[j]? = some e → e.handle = 0 →
            svcs[j]? = some sdef →
            ble_gatts_svc_incs_satisfied st.ble_gatts_svc_entries sdef = false)) := by
  intro n
  induction n with
  | zero =>
    intro i num st _ hroom
    by_cases hn : num = 0
    · subst hn
      have e : ble_gatts_register_round_loop svcs cb 0 i 0 st = (BLE_HS_EINVAL, 0, st) := by
        simp [ble_gatts_register_round_loop]
      rw [e]
      exact ⟨hroom, Or.inr ⟨rfl, rfl, fun j _ _ h1 h2 => by omega⟩⟩
    · have e : ble_gatts_register_round_loop svcs cb 0 i num st = (0, num, st) := by
        simp [ble_gatts_register_round_loop, hn]
      rw [e]
      exact ⟨hroom, Or.inl ⟨rfl, Nat.pos_of_ne_zero hn⟩⟩
  | succ n ih =>
    intro i num st hinv hroom
    -- the entries that the rest of the loop looks at, and the one at `i`
    have hrange : ∀ (r : Int × Nat × ble_gatts_state),
        ble_gatts_register_round_loop svcs cb n (i + 1) num st = r →
        (∀ (e : ble_gatts_svc_entry) (sdef : ble_gatt_svc_def),
          st.ble_gatts_svc_entries[i]? = some e → e.handle = 0 → svcs[i]? = some sdef →
          ble_gatts_svc_incs_satisfied st.ble_gatts_svc_entries sdef = false) →
        gatts_room svcs r.2.2 ∧
        ((r.1 = 0 ∧ 0 < r.2.1) ∨
          (r = (BLE_HS_EINVAL, 0, st) ∧ num = 0 ∧
            ∀ (j : Nat) (e : ble_gatts_svc_entry) (sdef : ble_gatt_svc_def),
              i ≤ j → j < i + (n + 1) → st.ble_gatts_svc_entries[j]? = some e →
              e.handle = 0 → svcs[j]? = some sdef →
              ble_gatts_svc_incs_satisfied st.ble_gatts_svc_entries sdef = false)) := by
      intro r hr hi
      obtain ⟨q1, q2⟩ := ih (i + 1) num st hinv hroom
      rw [hr] at q1 q2
      refine ⟨q1, ?_⟩
      rcases q2 with h | ⟨h, hnum, hall⟩
      · exact Or.inl h
      · refine Or.inr ⟨h, hnum, ?_⟩
        intro j e sdef h1 h2 he he0 hd
        by_cases hji : j = i
        · subst hji
          exact hi e sdef he he0 hd
        · exact hall j e sdef (by omega) (by omega) he he0 hd
    cases hi : st.ble_gatts_svc_entries[i]? with
    | none =>
      simp only [ble_gatts_register_round_loop, hi]
      exact hrange _ rfl (fun e sdef he => by rw [hi] at he; cases he)
    | some entry =>
      by_cases h0 : entry.handle = 0
      swap
      · simp only [ble_gatts_register_round_loop, hi, h0, if_false]
        refine hrange _ rfl (fun e sdef he he0 => ?_)
        rw [hi] at he
        simp only [Option.some.injEq] at he
        subst he
        exact absurd he0 h0
      have hsvc : entry.svc = i := hinv.1 i entry hi
      cases hdef : svcs[entry.svc]? with
      | none =>
        simp only [ble_gatts_register_round_loop, hi, h0, if_true, hdef]
        refine hrange _ rfl (fun e sdef _ _ hd => ?_)
        rw [hsvc] at hdef
        rw [hdef] at hd
        cases hd
      | some sdef =>
        have hilt : i < ble_gatts_count_svcs svcs := by
          rw [← hroom.1]
          exact (List.getElem?_eq_some.mp hi).1
        have hs := hsound i sdef hilt (by rw [← hsvc]; exact hdef)
        have hspec := register_svc_spec entry.svc sdef cb st
        rcases register_svc_room svcs cb st i entry sdef hroom hi h0 hdef hs with
          ⟨hunsat, hr⟩ | ⟨hsat, hrc, hroom1⟩
        · simp only [ble_gatts_register_round_loop, hi, h0, if_true, hdef, hr]
          have e1 : ¬ BLE_HS_EAGAIN = 0 := by simp [BLE_HS_EAGAIN]
          simp only [e1, if_false, if_true]
          refine hrange _ rfl (fun e sd he _ hd => ?_)
          rw [hsvc] at hdef
          rw [hdef] at hd
          simp only [Option.some.injEq] at hd
          subst hd
          exact hunsat
        · rcases hreg : ble_gatts_register_svc entry.svc sdef cb st with ⟨rc, handle, st1⟩
          rw [hreg] at hspec hrc hroom1
          simp only at hspec hrc hroom1
          subst hrc
          obtain ⟨hframe, hok⟩ := hspec
          obtain ⟨_, hh, hle⟩ := hok rfl
          have hinv2 := gatts_inv_register svcs st st1 i handle
            (ble_att_svr_prev_handle st1.svr) entry sdef hinv hframe hi h0 hdef hsat hh hle
          simp only [ble_gatts_register_round_loop, hi, h0, if_true, hdef, hreg]
          obtain ⟨q1, q2⟩ := ih (i + 1) (num + 1) _ hinv2 hroom1
          refine ⟨q1, ?_⟩
          rcases q2 with h | ⟨_, hnum, _⟩
          · exact Or.inl h
          · omega

theorem register_services_loop_stuck (svcs : List ble_gatt_svc_def) (cb : Bool)
    (hsound : ∀ (j : Nat) (sdef : ble_gatt_svc_def), j < ble_gatts_count_svcs svcs →
      svcs[j]? = some sdef → ble_gatts_svc_sound sdef = true) :
    ∀ (fuel total : Nat) (st : ble_gatts_state) (r : Int × ble_gatts_state),
      gatts_inv svcs st → gatts_room svcs st →
      total = gatts_num_registered st.ble_gatts_svc_entries →
      ble_gatts_register_services_loop svcs cb fuel total st = some r →
      gatts_inv svcs r.2 ∧ gatts_room svcs r.2 ∧
      ((r.1 = 0 ∧ ∀ e ∈ r.2.ble_gatts_svc_entries, e.handle ≠ 0) ∨
        (r.1 = BLE_HS_EINVAL ∧ gatts_stuck svcs r.2 ∧
          ble_gatts_register_round svcs cb r.2 = (BLE_HS_EINVAL, 0, r.2) ∧
          ∃ e ∈ r.2.ble_gatts_svc_entries, e.handle = 0)) := by
  intro fuel
  induction fuel with
  | zero => intro total st r _ _ _ h; simp [ble_gatts_register_services_loop] at h
  | succ fuel ih =>
    intro total st r hinv hroom htotal h
    unfold ble_gatts_register_services_loop at h
    have hle : gatts_num_registered st.ble_gatts_svc_entries ≤
        st.ble_gatts_svc_entries.length := List.countP_le_length _
    by_cases hlt : total < st.ble_gatts_svc_entries.length
    · have hspec := register_round_loop_spec svcs cb st.ble_gatts_svc_entries.length 0 0 st hinv
      have hstuck := register_round_loop_stuck svcs cb hsound st.ble_gatts_svc_entries.length
        0 0 st hinv hroom
      rcases hround : ble_gatts_register_round svcs cb st with ⟨rc, cur, st2⟩
      have hround1 : ble_gatts_register_round_loop svcs cb st.ble_gatts_svc_entries.length
          0 0 st = (rc, cur, st2) := hround
      rw [hround1] at hspec hstuck
      simp only at hspec hstuck
      obtain ⟨r1, r2, r3⟩ := hspec
      obtain ⟨hroom2, hcase⟩ := hstuck
      simp only [hlt, if_true, hround] at h
      rcases hcase with ⟨hz, _⟩ | ⟨heq, _, hall⟩
      · subst hz
        simp only [ne_eq, not_true_eq_false, if_false] at h
        exact ih (total + cur) st2 r r1 hroom2 (by omega) h
      · simp only [Prod.mk.injEq] at heq
        obtain ⟨hrc, hcur, hst⟩ := heq
        subst hrc hcur hst
        have hne : ¬ BLE_HS_EINVAL = 0 := by simp [BLE_HS_EINVAL]
        simp only [ne_eq, hne, not_false_eq_true, if_true, Option.some.injEq] at h
        subst h
        refine ⟨hinv, hroom, Or.inr ⟨rfl, ?_, hround, ?_⟩⟩
        · intro j e sdef he he0 hd
          exact hall j e sdef (Nat.zero_le _)
            (by rw [Nat.zero_add]; exact (List.getElem?_eq_some.mp he).1) he he0 hd
        · by_contra hall0
          simp only [not_exists, not_and] at hall0
          have : gatts_num_registered st2.ble_gatts_svc_entries =
              st2.ble_gatts_svc_entries.length := by
            apply List.countP_eq_length.mpr
            intro e he
            simpa using hall0 e he
          omega
    · simp only [hlt, if_false, Option.some.injEq] at h
      subst h
      refine ⟨hinv, hroom, Or.inl ⟨rfl, ?_⟩⟩
      have heq : gatts_num_registered st.ble_gatts_svc_entries =
          st.ble_gatts_svc_entries.length := by omega
      intro e he
      have := (List.countP_eq_length.mp heq) e he
      simpa using this

theorem count_svcs_get (svcs : List ble_gatt_svc_def) :
    ∀ i : Nat, i < ble_gatts_count_svcs svcs → ∃ sdef, svcs[i]? = some sdef := by
  induction svcs with
  | nil => intro i h; simp [ble_gatts_count_svcs] at h
  | cons s rest ih =>
    intro i h
    cases i with
    | zero => exact ⟨s, by simp⟩
    | succ i =>
      simp only [ble_gatts_count_svcs] at h
      split_ifs at h
      · omega
      · simp only [List.getElem?_cons_succ]
        exact ih i (by omega)

theorem find_svc_from_of_ptr (l : List ble_gatts_svc_entry) :
    ∀ (i : Nat), (∀ (k : Nat) (e : ble_gatts_svc_entry), l[k]? = some e → e.svc = i + k) →
      ∀ (p : Nat) (e : ble_gatts_svc_entry), l[p]? = some e →
        ble_gatts_find_svc_from (i + p) l i = some (i + p) := by
  induction l with
  | nil => intro i _ p e he; simp at he
  | cons x rest ih =>
    intro i hptr p e he
    cases p with
    | zero =>
      have := hptr 0 x (by simp)
      simp [ble_gatts_find_svc_from, this]
    | succ p =>
      have hx := hptr 0 x (by simp)
      have hne : ¬ x.svc = i + (p + 1) := by omega
      simp only [ble_gatts_find_svc_from, hne, if_false]
      have e1 : i + (p + 1) = (i + 1) + p := by omega
      rw [e1]
      refine ih (i + 1) ?_ p e (by simpa using he)
      intro k e2 hk
      have := hptr (k + 1) e2 (by simpa using hk)
      omega

theorem incs_satisfied_of_registered (entries : List ble_gatts_svc_entry)
    (hptr : ∀ (i : Nat) (e : ble_gatts_svc_entry), entries[i]? = some e → e.svc = i)
    (incs : List Nat)
    (h : ∀ p ∈ incs, ∃ e, entries[p]? = some e ∧ e.handle ≠ 0) :
    ble_gatts_svc_incs_satisfied_loop entries incs = true := by
  induction incs with
  | nil => rfl
  | cons p rest ih =>
    obtain ⟨e, he, hne⟩ := h p (List.mem_cons_self _ _)
    have hf : ble_gatts_find_svc entries p = some p := by
      have := find_svc_from_of_ptr entries 0
        (fun k e hk => by rw [Nat.zero_add]; exact hptr k e hk) p e he
      simpa [ble_gatts_find_svc] using this
    simp only [ble_gatts_svc_incs_satisfied_loop, hf, he, hne, if_false]
    exact ih (fun q hq => h q (List.mem_cons_of_mem _ hq))

/-! ## The include graph -/

theorem trans_gen_first_step {α : Type} (r : α → α → Prop) (a c : α)
    (h : Relation.TransGen r a c) : ∃ b, r a b ∧ Relation.ReflTransGen r b c := by
  induction h with
  | single h1 => exact ⟨_, h1, Relation.ReflTransGen.refl⟩
  | tail _ h2 ih =>
    obtain ⟨b, hb, hreach⟩ := ih
    exact ⟨b, hb, Relation.ReflTransGen.tail hreach h2⟩

theorem registrable_lt (svcs : List ble_gatt_svc_def) (i : Nat)
    (h : gatts_registrable svcs i) : i < ble_gatts_count_svcs svcs := by
  cases h with
  | intro _ hi _ => exact hi

theorem dep_bad_of_edge (svcs : List ble_gatt_svc_def) (i p : Nat) (he : inc_edge svcs i p)
    (hp : gatts_dep_bad svcs p) : gatts_dep_bad svcs i := by
  obtain ⟨q, hreach, hbad⟩ := hp
  exact ⟨q, Relation.ReflTransGen.head he hreach, hbad⟩

theorem registrable_not_bad (svcs : List ble_gatt_svc_def) (i : Nat)
    (h : gatts_registrable svcs i) : ¬ gatts_dep_bad svcs i := by
  induction h with
  | intro i _ hinc ih =>
    rintro ⟨q, hreach, hbad⟩
    rcases Relation.ReflTransGen.cases_head hreach with heq | ⟨p, hp, hpq⟩
    · subst heq
      rcases hbad with ⟨p, hp, hge⟩ | hcyc
      · have := registrable_lt svcs p (hinc p hp)
        omega
      · obtain ⟨b, hb, hbq⟩ := trans_gen_first_step _ _ _ hcyc
        exact ih b hb ⟨i, hbq, Or.inr hcyc⟩
    · exact ih p hp ⟨q, hpq, hbad⟩

theorem good_edges_acyclic (svcs : List ble_gatt_svc_def)
    (a b : Fin (ble_gatts_count_svcs svcs))
    (h : Relation.TransGen (gatts_good_edge svcs) a b) :
    Relation.TransGen (inc_edge svcs) b.val a.val ∧ ¬ gatts_dep_bad svcs b.val := by
  induction h with
  | single h1 => exact ⟨Relation.TransGen.single h1.1, h1.2⟩
  | tail _ h2 ih => exact ⟨Relation.TransGen.trans (Relation.TransGen.single h2.1) ih.1, h2.2⟩

theorem good_edges_wf (svcs : List ble_gatt_svc_def) :
    WellFounded (gatts_good_edge svcs) := by
  have htrans : IsTrans (Fin (ble_gatts_count_svcs svcs))
      (Relation.TransGen (gatts_good_edge svcs)) :=
    ⟨fun _ _ _ => Relation.TransGen.trans⟩
  have hirr : IsIrrefl (Fin (ble_gatts_count_svcs svcs))
      (Relation.TransGen (gatts_good_edge svcs)) :=
    ⟨fun a h => by
      obtain ⟨hcyc, hgood⟩ := good_edges_acyclic svcs a a h
      exact hgood ⟨a.val, Relation.ReflTransGen.refl, Or.inr hcyc⟩⟩
  have hwf := Finite.wellFounded_of_trans_of_irrefl
    (Relation.TransGen (gatts_good_edge svcs))
  have hsub : Subrelation (gatts_good_edge svcs) (Relation.TransGen (gatts_good_edge svcs)) :=
    fun h => Relation.TransGen.single h
  exact Subrelation.wf hsub hwf

theorem not_bad_registrable (svcs : List ble_gatt_svc_def) (i : Nat)
    (hi : i < ble_gatts_count_svcs svcs) (h : ¬ gatts_dep_bad svcs i) :
    gatts_registrable svcs i := by
  have key : ∀ a : Fin (ble_gatts_count_svcs svcs), ¬ gatts_dep_bad svcs a.val →
      gatts_registrable svcs a.val := by
    intro a
    refine @WellFounded.induction _ _ (good_edges_wf svcs)
      (fun a : Fin (ble_gatts_count_svcs svcs) =>
        ¬ gatts_dep_bad svcs a.val → gatts_registrable svcs a.val) a ?_
    intro b ih hb
    refine gatts_registrable.intro b.val b.isLt ?_
    intro p hp
    have hlt : p < ble_gatts_count_svcs svcs := by
      by_contra hge
      exact hb ⟨b.val, Relation.ReflTransGen.refl, Or.inl ⟨p, hp, by omega⟩⟩
    exact ih ⟨p, hlt⟩ ⟨hp, hb⟩ (fun hbad => hb (dep_bad_of_edge svcs b.val p hp hbad))
  exact key ⟨i, hi⟩ h

/-- All the declared services can be registered exactly when every include of a
declared service is a declared service and no service includes itself,
directly or through other services. -/
theorem all_registrable_iff (svcs : List ble_gatt_svc_def) :
    (∀ i : Nat, i < ble_gatts_count_svcs svcs → gatts_registrable svcs i) ↔
      (∀ i p : Nat, inc_edge svcs i p → p < ble_gatts_count_svcs svcs) ∧
      (∀ i : Nat, ¬ Relation.TransGen (inc_edge svcs) i i) := by
  constructor
  · intro h
    refine ⟨?_, ?_⟩
    · intro i p he
      by_contra hge
      exact registrable_not_bad svcs i (h i he.1)
        ⟨i, Relation.ReflTransGen.refl, Or.inl ⟨p, he, by omega⟩⟩
    · intro i hcyc
      obtain ⟨b, hb, _⟩ := trans_gen_first_step _ _ _ hcyc
      exact registrable_not_bad svcs i (h i hb.1)
        ⟨i, Relation.ReflTransGen.refl, Or.inr hcyc⟩
  · rintro ⟨hdecl, hacyc⟩ i hi
    refine not_bad_registrable svcs i hi ?_
    rintro ⟨q, _, hbad⟩
    rcases hbad with ⟨p, hp, hge⟩ | hcyc
    · have := hdecl q p hp
      omega
    · exact hacyc q hcyc

theorem registered_registrable (svcs : List ble_gatt_svc_def) (st : ble_gatts_state)
    (hinv : gatts_inv svcs st)
    (hlen : st.ble_gatts_svc_entries.length = ble_gatts_count_svcs svcs) :
    ∀ (h i : Nat) (e : ble_gatts_svc_entry), st.ble_gatts_svc_entries[i]? = some e →
      e.handle = h → h ≠ 0 → gatts_registrable svcs i := by
  intro h
  induction h using Nat.strong_induction_on with
  | _ h ih =>
    intro i e he heh hne
    have hi : i < ble_gatts_count_svcs svcs := by
      rw [← hlen]
      exact (List.getElem?_eq_some.mp he).1
    refine gatts_registrable.intro i hi ?_
    rintro p ⟨_, sdef, hd, hp⟩
    cases hinc : sdef.includes with
    | none => simp [hinc] at hp
    | some incs =>
      simp only [hinc, Option.getD_some] at hp
      obtain ⟨e1, he1, hpos, hlt⟩ := hinv.2.2 i e sdef incs p he (by rw [heh]; exact hne) hd
        hinc hp
      exact ih e1.handle (by omega) p e1 he1 rfl (by omega)

theorem registrable_registered (svcs : List ble_gatt_svc_def) (st : ble_gatts_state)
    (hinv : gatts_inv svcs st)
    (hlen : st.ble_gatts_svc_entries.length = ble_gatts_count_svcs svcs)
    (hstuck : gatts_stuck svcs st) (i : Nat) (h : gatts_registrable svcs i) :
    ∃ e, st.ble_gatts_svc_entries[i]? = some e ∧ e.handle ≠ 0 := by
  induction h with
  | intro i hi _ ih =>
    have hlt : i < st.ble_gatts_svc_entries.length := by rw [hlen]; exact hi
    have he : st.ble_gatts_svc_entries[i]? = some (st.ble_gatts_svc_entries.get ⟨i, hlt⟩) :=
      List.getElem?_eq_getElem hlt
    refine ⟨_, he, ?_⟩
    intro h0
    obtain ⟨sdef, hd⟩ := count_svcs_get svcs i hi
    have hunsat := hstuck i _ sdef he h0 hd
    have hsat : ble_gatts_svc_incs_satisfied st.ble_gatts_svc_entries sdef = true := by
      unfold ble_gatts_svc_incs_satisfied
      cases hinc : sdef.includes with
      | none => rfl
      | some incs =>
        exact incs_satisfied_of_registered _ hinv.1 incs
          (fun p hp => ih p ⟨hi, sdef, hd, by simp [hinc, hp]⟩)
    rw [hsat] at hunsat
    cases hunsat

/-- C27: for every list of sound services (sane, with sane characteristics and
descriptors) and an attribute table with room for all their attributes,
ble_gatts_register_services returns 0 if and only if every include of a
declared service is a declared service and no service includes itself,
directly or through other services; otherwise it returns BLE_HS_EINVAL after
a round that registered no service, and in both cases the services that are
registered are exactly the declared services that do not depend on an
undeclared service or on a cycle. -/
theorem C27_register_services_acyclic (svcs : List ble_gatt_svc_def) (cb : Bool)
    (svr : ble_att_svr)
    (hsound : ∀ (j : Nat) (sdef : ble_gatt_svc_def), j < ble_gatts_count_svcs svcs →
      svcs[j]? = some sdef → ble_gatts_svc_sound sdef = true)
    (hroom : gatts_total_need svcs < svr.num_free) :
    ∃ (rc : Int) (st : ble_gatts_state),
      ble_gatts_register_services svcs cb svr = some (rc, st) ∧
      (rc = 0 ↔
        (∀ i p : Nat, inc_edge svcs i p → p < ble_gatts_count_svcs svcs) ∧
        (∀ i : Nat, ¬ Relation.TransGen (inc_edge svcs) i i)) ∧
      (rc ≠ 0 → rc = BLE_HS_EINVAL ∧
        ble_gatts_register_round svcs cb st = (BLE_HS_EINVAL, 0, st)) ∧
      (∀ i : Nat, i < ble_gatts_count_svcs svcs →
        ((∃ e, st.ble_gatts_svc_entries[i]? = some e ∧ e.handle ≠ 0) ↔
          ¬ gatts_dep_bad svcs i)) := by
  obtain ⟨rc, st, hr, _⟩ := register_services_total svcs cb svr
  obtain ⟨hinv0, hnum0, hlen0⟩ := gatts_inv_init svcs svr (ble_gatts_count_svcs svcs)
  obtain ⟨hinv, ⟨hlen, _⟩, hcase⟩ := register_services_loop_stuck svcs cb hsound _ 0 _ (rc, st)
    hinv0 ⟨hlen0, hroom⟩ hnum0.symm hr
  have hreg := registered_registrable svcs st hinv hlen
  refine ⟨rc, st, hr, ?_⟩
  have hentry : ∀ i : Nat, i < ble_gatts_count_svcs svcs →
      ∃ e, st.ble_gatts_svc_entries[i]? = some e := by
    intro i hi
    have hlt : i < st.ble_gatts_svc_entries.length := by rw [hlen]; exact hi
    exact ⟨_, List.getElem?_eq_getElem hlt⟩
  rcases hcase with ⟨hz, hall⟩ | ⟨hz, hstuck, hround, e0, he0, h0⟩
  · simp only at hz hall
    subst hz
    have hallreg : ∀ i : Nat, i < ble_gatts_count_svcs svcs → gatts_registrable svcs i := by
      intro i hi
      obtain ⟨e, he⟩ := hentry i hi
      exact hreg e.handle i e he rfl (hall e (List.mem_iff_getElem?.mpr ⟨i, he⟩))
    refine ⟨⟨fun _ => (all_registrable_iff svcs).mp hallreg, fun _ => rfl⟩,
      fun h => absurd rfl h, ?_⟩
    intro i hi
    obtain ⟨e, he⟩ := hentry i hi
    exact ⟨fun _ => registrable_not_bad svcs i (hallreg i hi),
      fun _ => ⟨e, he, hall e (List.mem_iff_getElem?.mpr ⟨i, he⟩)⟩⟩
  · simp only at hz hstuck hround he0
    subst hz
    have hcomp := registrable_registered svcs st hinv hlen hstuck
    refine ⟨⟨fun h => by simp [BLE_HS_EINVAL] at h, ?_⟩, fun _ => ⟨rfl, hround⟩, ?_⟩
    · intro hgraph
      exfalso
      obtain ⟨i, hi⟩ := List.mem_iff_getElem?.mp he0
      have hilt : i < ble_gatts_count_svcs svcs := by
        rw [← hlen]
        exact (List.getElem?_eq_some.mp hi).1
      obtain ⟨e, he, hne⟩ := hcomp i ((all_registrable_iff svcs).mpr hgraph i hilt)
      rw [hi] at he
      simp only [Option.some.injEq] at he
      subst he
      exact hne h0
    · intro i hi
      constructor
      · rintro ⟨e, he, hne⟩
        exact registrable_not_bad svcs i (hreg e.handle i e he rfl hne)
      · intro hgood
        exact hcomp i (not_bad_registrable svcs i hi hgood)

/-- Two services that include each other and a third one without includes, with
a table of 8 free entries: the statement of C27 for this list. -/
theorem C27_register_services_acyclic_witness :
    ∃ (rc : Int) (st : ble_gatts_state),
      ble_gatts_register_services sample_svcs_cycle true (sample_svr 8) = some (rc, st) ∧
      (rc = 0 ↔
        (∀ i p : Nat, inc_edge sample_svcs_cycle i p →
          p < ble_gatts_count_svcs sample_svcs_cycle) ∧
        (∀ i : Nat, ¬ Relation.TransGen (inc_edge sample_svcs_cycle) i i)) ∧
      (rc ≠ 0 → rc = BLE_HS_EINVAL ∧
        ble_gatts_register_round sample_svcs_cycle true st = (BLE_HS_EINVAL, 0, st)) ∧
      (∀ i : Nat, i < ble_gatts_count_svcs sample_svcs_cycle →
        ((∃ e, st.ble_gatts_svc_entries[i]? = some e ∧ e.handle ≠ 0) ↔
          ¬ gatts_dep_bad sample_svcs_cycle i)) :=
  C27_register_services_acyclic sample_svcs_cycle true (sample_svr 8)
    (by
      intro j sdef hj hd
      have hc : ble_gatts_count_svcs sample_svcs_cycle = 3 := by decide
      rw [hc] at hj
      interval_cases j <;> simp [sample_svcs_cycle] at hd <;> subst hd <;> decide)
    (by decide)

/-! ## The registry capacity, and the completion callback of Find-Information -/

/-- The number of registry entries after `ble_gatts_register_services` is the
number of declared services, whatever the status. -/
theorem register_services_length (svcs : List ble_gatt_svc_def) (cb : Bool)
    (svr : ble_att_svr) (r : Int × ble_gatts_state)
    (h : ble_gatts_register_services svcs cb svr = some r) :
    r.2.ble_gatts_svc_entries.length = ble_gatts_count_svcs svcs := by
  refine register_services_loop_all svcs cb
    (fun s => s.ble_gatts_svc_entries.length = ble_gatts_count_svcs svcs) ?_ ?_ _ 0 _ r
    (gatts_inv_init svcs svr (ble_gatts_count_svcs svcs)).1
    (gatts_inv_init svcs svr (ble_gatts_count_svcs svcs)).2.2 h
  · intro s j entry sd handle s1 _ hP _ _ _ hreg
    have hframe := (register_svc_spec entry.svc sd cb s).1
    rw [hreg] at hframe
    show (s1.ble_gatts_svc_entries.set j _).length = _
    rw [List.length_set, hframe.1]
    exact hP
  · intro s j entry sd rc handle s1 _ hP _ _ _ hreg _
    have hframe := (register_svc_spec entry.svc sd cb s).1
    rw [hreg] at hframe
    rw [hframe.1]
    exact hP

/-- C31 (the code at the failing input): for an array of 33 services before the
element of type END, the first loop of ble_gatts_register_services writes the
entries 0 to 32, the last one at the index 32, which is not below the capacity
32 of `ble_gatts_svc_entries`, and the recorded number of entries is 33 when the
function returns, whatever the callback and the attribute table. -/
theorem C31_entries_beyond_capacity (cb : Bool) (svr : ble_att_svr) :
    ble_gatts_count_svcs sample_svcs_33 = 33 ∧
    ¬ (32 < BLE_GATTS_MAX_SERVICES) ∧
    (ble_gatts_init_entries (ble_gatts_count_svcs sample_svcs_33))[32]? =
      some ⟨32, 0, 0xffff⟩ ∧
    ∃ (rc : Int) (st : ble_gatts_state),
      ble_gatts_register_services sample_svcs_33 cb svr = some (rc, st) ∧
      st.ble_gatts_svc_entries.length = 33 ∧
      ¬ (st.ble_gatts_svc_entries.length ≤ BLE_GATTS_MAX_SERVICES) := by
  have hc : ble_gatts_count_svcs sample_svcs_33 = 33 := by decide
  refine ⟨hc, by decide, by decide, ?_⟩
  obtain ⟨rc, st, hr, _⟩ := register_services_total sample_svcs_33 cb svr
  have hlen := register_services_length sample_svcs_33 cb svr (rc, st) hr
  rw [hc] at hlen
  exact ⟨rc, st, hr, hlen, by rw [hlen]; decide⟩

/-- C32 (the code at the failing input): the response 05 01 03 00 00 18 03 00 01
18 carries the handle 3 twice.  The second insertion fails with EEXIST and the
handler returns that status at once, without the call of
`ble_gatt_rx_find_info` that every other way out of the loop makes; the same
happens with OutOfMemory when the pool is empty, while a truncated element
does end in the call. -/
theorem C32_insert_failure_skips_callback :
    (ble_att_clt_rx_find_info sample_rx_env ⟨4⟩ []
        [0x05, 1, 3, 0, 0x00, 0x18, 3, 0, 0x01, 0x18]).map
      (fun r => (r.rc, r.gatt_calls)) = some (EEXIST, []) ∧
    (ble_att_clt_rx_find_info sample_rx_env ⟨0⟩ [] [0x05, 1, 3, 0, 0x00, 0x18]).map
      (fun r => (r.rc, r.gatt_calls)) = some (ENOMEM, []) ∧
    (ble_att_clt_rx_find_info sample_rx_env ⟨4⟩ [] [0x05, 1, 3, 0, 0x00]).map
      (fun r => (r.rc, r.gatt_calls)) = some (EINVAL, [(-EINVAL, 3)]) ∧
    (ble_att_clt_rx_find_info sample_rx_env ⟨4⟩ [] [0x05, 1, 3, 0, 0x00, 0x18]).map
      (fun r => (r.rc, r.gatt_calls)) = some (0, [(0, 3)]) := by
  decide
